import Mathlib

/-!
# xal audio manager: registry and player bookkeeping

A shallow embedding of `src/src/AudioManager.cpp` (version 4.0).

* Pointers are natural numbers; `new` hands out `nextPtr` and advances it, so a pointer that
  is live is never handed out again.
* `harray<T>` is a `List`; `+=` appends, `-= x` removes the first occurrence of `x` when there
  is one, `a - b` is `List.diff`.
* `hmap<hstr, V>` is the list of its entries (`HMap`), looked up by key.
* `float` values are rationals.
* An exception is a `Result` whose `value` is `Except.error msg`; the state of a `Result` is the
  manager as the throwing call left it.
* `Player.cpp`, `Buffer.cpp`, `BufferAsync.cpp` and `Category.cpp` are not among the sources.
  Every method of theirs that the manager calls is a field of `Backend`; the theorems hold for
  every backend.
-/

namespace xal

/-- Audio formats, `HL_ENUM_CLASS_DEFINE(Format, ...)`. -/
inductive Format where
  | FLAC | M4A | OGG | WAV | Memory | Unknown
deriving DecidableEq, Repr, Inhabited

/-- Buffer handling modes, `HL_ENUM_CLASS_DEFINE(BufferMode, ...)`. -/
inductive BufferMode where
  | Full | Async | Lazy | Managed | OnDemand | Streamed
deriving DecidableEq, Repr, Inhabited

/-- Source handling modes, `HL_ENUM_CLASS_DEFINE(SourceMode, ...)`. -/
inductive SourceMode where
  | Disk | Ram
deriving DecidableEq, Repr, Inhabited

/-- Byte-wise lexicographic order of `std::string`, the key order of `hmap<hstr, V>`. -/
def strLt : List Char → List Char → Bool
  | [], [] => false
  | [], _ :: _ => true
  | _ :: _, [] => false
  | a :: as, b :: bs =>
    if a.toNat < b.toNat then true
    else if b.toNat < a.toNat then false
    else strLt as bs

/-- Entries of an `hmap<hstr, V>` (a `std::map`). -/
structure HMap (V : Type) where
  entries : List (String × V)

namespace HMap

variable {V : Type}

/-- The empty map. -/
def empty : HMap V := ⟨[]⟩

/-- The call `hasKey(key)`. -/
def hasKey (m : HMap V) (k : String) : Bool :=
  m.entries.any (fun e => e.1 == k)

/-- Read access `m[key]` for a key that may be absent. -/
def get? (m : HMap V) (k : String) : Option V :=
  (m.entries.find? (fun e => e.1 == k)).map Prod.snd

/-- Insertion of a new entry at its place in key order. -/
def insertSorted (k : String) (v : V) : List (String × V) → List (String × V)
  | [] => [(k, v)]
  | e :: t => if strLt k.toList e.1.toList then (k, v) :: e :: t else e :: insertSorted k v t

/-- Assignment `m[key] = value`: overwrites the entry of `key`, or adds one. -/
def set (m : HMap V) (k : String) (v : V) : HMap V :=
  if m.hasKey k then ⟨m.entries.map (fun e => if e.1 == k then (k, v) else e)⟩
  else ⟨insertSorted k v m.entries⟩

/-- The call `removeKey(key)`. -/
def removeKey (m : HMap V) (k : String) : HMap V :=
  ⟨m.entries.filter (fun e => !(e.1 == k))⟩

/-- The call `removeValue(value)`: erases the key of the first entry holding the value, where
`same` is pointer equality with the value. -/
def removeValue (m : HMap V) (same : V → Bool) : HMap V :=
  match m.entries.find? (fun e => same e.2) with
  | some e => m.removeKey e.1
  | none => m

/-- The call `keys()`, in map order. -/
def keys (m : HMap V) : List String := m.entries.map Prod.fst

/-- The values, in map order. -/
def values (m : HMap V) : List V := m.entries.map Prod.snd

end HMap

/-- Modelled from the spec: the gain and gain-fade fields of a Category (`Category.h` is not
among the sources): `gain`, `fade_target`, `fade_speed`, `fade_t`. -/
structure CategoryGain where
  gain : ℚ
  fadeTarget : ℚ
  fadeSpeed : ℚ
  fadeTime : ℚ
deriving DecidableEq, Inhabited

/-- A `Category*` together with the object it points to. -/
structure Category where
  ptr : Nat
  name : String
  bufferMode : BufferMode
  sourceMode : SourceMode
  gainState : CategoryGain
deriving DecidableEq, Inhabited

/-- A `Sound*` together with the object it points to; every field is set once, in the
constructors of `Sound.cpp`. `format` is what `Sound::getFormat` reads from the buffer. -/
structure Sound where
  ptr : Nat
  name : String
  filename : String
  category : Nat
  buffer : Nat
  format : Format
deriving DecidableEq, Inhabited

/-- The raw PCM arguments of the memory-backed `createSound`. -/
structure PcmData where
  data : List Nat
  size : Int
  channels : Int
  samplingRate : Int
  bitsPerSample : Int
deriving DecidableEq, Inhabited

/-- The methods of `Player`, `Buffer`, `BufferAsync`, `Category` and of the host file system
that `AudioManager.cpp` calls and whose code is not among the sources. `PS` is the state of one
player object (with its backend voice), `W` the state shared by them (buffers, async loader,
audio device). -/
structure Backend (PS W : Type) where
  /-- `Category::Category`: the initial gain fields. -/
  categoryGainInit : CategoryGain
  /-- `Category::_isGainFading`. -/
  categoryIsGainFading : CategoryGain → Bool
  /-- `Category::_update(timeDelta)`. -/
  categoryUpdate : ℚ → CategoryGain → CategoryGain
  /-- `hresource::withoutExtension(hrdir::baseName(filename))`. -/
  baseNameWithoutExtension : String → String
  /-- `Buffer::getFormat` of a file-backed buffer. -/
  fileFormat : String → Format
  /-- `Buffer::getFormat` of a memory-backed buffer. -/
  memoryFormat : Format
  /-- `Buffer::Buffer(sound)`, for the buffer at the given address. -/
  bufferNew : Nat → String → Category → W → W
  /-- `Buffer::Buffer(category, data, size, channels, samplingRate, bitsPerSample)`. -/
  bufferNewMemory : Nat → Category → PcmData → W → W
  /-- `Buffer::~Buffer`. -/
  bufferDelete : Nat → W → W
  /-- `Buffer::_update(timeDelta)`. -/
  bufferUpdate : ℚ → Nat → W → W
  /-- `Buffer::_tryClearMemory`. -/
  bufferTryClearMemory : Nat → W → Bool × W
  /-- `BufferAsync::update`. -/
  bufferAsyncUpdate : W → W
  /-- `_createSystemPlayer(sound)`: the constructor of the backend player. -/
  playerNew : Nat → Sound → W → PS × W
  /-- The destructor of the backend player. -/
  playerDelete : PS → W → W
  /-- `Player::_isPlaying`. -/
  isPlaying : PS → Bool
  /-- `Player::_isFading`. -/
  isFading : PS → Bool
  /-- `Player::_isFadingIn`. -/
  isFadingIn : PS → Bool
  /-- `Player::_isFadingOut`. -/
  isFadingOut : PS → Bool
  /-- `Player::_isAsyncPlayQueued`. -/
  isAsyncPlayQueued : PS → Bool
  /-- The field `Player::paused`. -/
  paused : PS → Bool
  /-- The field `Player::looping`. -/
  looping : PS → Bool
  /-- The field `Player::fadeTime`. -/
  fadeTime : PS → ℚ
  /-- `Player::_setGain(gain)`. -/
  setGain : ℚ → PS → W → PS × W
  /-- `Player::_play(fadeTime, looping)`. -/
  play : ℚ → Bool → PS → W → PS × W
  /-- `Player::_playAsync(fadeTime, looping)`. -/
  playAsync : ℚ → Bool → PS → W → PS × W
  /-- `Player::_stop(fadeTime)`. -/
  stop : ℚ → PS → W → PS × W
  /-- `Player::_pause(fadeTime)`. -/
  pause : ℚ → PS → W → PS × W
  /-- `Player::_update(timeDelta)`. -/
  update : ℚ → PS → W → PS × W
  /-- `Player::_systemUpdateGain`. -/
  systemUpdateGain : PS → W → PS × W
  /-- The hook `_suspendSystem`: empty in `AudioManager.cpp`, virtual for the backends. -/
  suspendSystem : W → W
  /-- The hook `_resumeSystem`: empty in `AudioManager.cpp`, virtual for the backends. -/
  resumeSystem : W → W

/-- The fields of `AudioManager`, with the heap of the player objects it points to. -/
structure AudioManager (PS W : Type) where
  backendId : Nat
  deviceName : String
  enabled : Bool
  suspended : Bool
  idlePlayerUnloadTime : ℚ
  globalGain : ℚ
  globalGainFadeTarget : ℚ
  globalGainFadeSpeed : ℚ
  globalGainFadeTime : ℚ
  suspendResumeFadeTime : ℚ
  updateTime : ℚ
  samplingRate : Int
  channels : Int
  bitsPerSample : Int
  /-- Whether `thread != NULL`. -/
  thread : Bool
  threadRunning : Bool
  extensions : List String
  categories : HMap Category
  sounds : HMap Sound
  buffers : List Nat
  players : List Nat
  managedPlayers : List Nat
  suspendedPlayers : List Nat
  /-- The sound of the player at an address, `Player::getSound`. -/
  playerSound : Nat → Sound
  /-- The mutable state of the player at an address. -/
  playerObj : Nat → PS
  /-- What players, buffers and the audio device share. -/
  world : W
  /-- The next address `new` hands out. -/
  nextPtr : Nat

/-- The manager after an operation, with the value it returned or the exception it threw. -/
structure Result (σ α : Type) where
  state : σ
  value : Except String α

/-- Whether the operation threw. -/
def Result.raised {σ α : Type} (r : Result σ α) : Bool :=
  match r.value with
  | .error _ => true
  | .ok _ => false

/-- The text of `"Audio Manager: Sound '" + name + "' does not exist!"`. -/
def soundDoesNotExist (name : String) : String :=
  "Audio Manager: Sound \x27" ++ name ++ "\x27 does not exist!"

/-- The text of `"Audio Manager: Category '" + name + "' does not exist!"`. -/
def categoryDoesNotExist (name : String) : String :=
  "Audio Manager: Category \x27" ++ name ++ "\x27 does not exist!"

/-- The fixed part of the message `_destroySound` throws. -/
def manualPlayersMessage : String :=
  "Audio Manager: Sounds cannot be destroyed (there are one or more manually created players that haven\x27t been destroyed): "

/-- The fixed part of the message `_destroySoundsWithPrefix` throws. -/
def manualPlayersMessageMany : String :=
  "Audio Manager: Following sounds cannot be destroyed (there are one or more manually created players that haven\x27t been destroyed): "

/-- The call `hstr::startsWith`. -/
def startsWith (s pfx : String) : Bool := pfx.toList.isPrefixOf s.toList

namespace AudioManager

variable {PS W : Type}

/-- The constructor `AudioManager::AudioManager`; `extensions` are the extensions of the formats
compiled in, `objs` and `w` what memory and the audio device hold at that time. -/
def create (backendId : Nat) (threaded : Bool) (updateTime : ℚ) (deviceName : String)
    (extensions : List String) (objs : Nat → PS) (w : W) : AudioManager PS W :=
  { backendId := backendId
    deviceName := deviceName
    enabled := false
    suspended := false
    idlePlayerUnloadTime := 60
    globalGain := 1
    globalGainFadeTarget := -1
    globalGainFadeSpeed := -1
    globalGainFadeTime := 0
    suspendResumeFadeTime := 1 / 2
    updateTime := updateTime
    samplingRate := 44100
    channels := 2
    bitsPerSample := 16
    thread := threaded
    threadRunning := false
    extensions := extensions
    categories := HMap.empty
    sounds := HMap.empty
    buffers := []
    players := []
    managedPlayers := []
    suspendedPlayers := []
    playerSound := fun _ => default
    playerObj := objs
    world := w
    nextPtr := 1 }

/-- A method of the player at address `p` runs on its object and on the shared state. -/
def onPlayer (f : PS → W → PS × W) (p : Nat) (st : AudioManager PS W) : AudioManager PS W :=
  { st with
    playerObj := Function.update st.playerObj p (f (st.playerObj p) st.world).1
    world := (f (st.playerObj p) st.world).2 }

/-- The call `player->_stop(fadeTime)`, which "removes players from suspendedPlayers as well"
(the note in `_destroyPlayer`). -/
def playerStop (B : Backend PS W) (fadeTime : ℚ) (p : Nat) (st : AudioManager PS W) :
    AudioManager PS W :=
  { onPlayer (B.stop fadeTime) p st with suspendedPlayers := st.suspendedPlayers.erase p }

/-- The method `init`. -/
def init (st : AudioManager PS W) : AudioManager PS W :=
  if st.thread then { st with threadRunning := true } else st

/-- The method `_isGlobalGainFading`. -/
def _isGlobalGainFading (st : AudioManager PS W) : Bool :=
  decide (st.globalGainFadeTarget ≥ 0) && decide (st.globalGainFadeSpeed > 0)

/-- The method `_getGlobalGain`. -/
def _getGlobalGain (st : AudioManager PS W) : ℚ :=
  if _isGlobalGainFading st then
    st.globalGain + (st.globalGainFadeTarget - st.globalGain) * st.globalGainFadeTime
  else st.globalGain

/-- The method `_setGlobalGain`. -/
def _setGlobalGain (B : Backend PS W) (value : ℚ) (st : AudioManager PS W) : AudioManager PS W :=
  let st1 := { st with
    globalGain := value
    globalGainFadeTarget := -1
    globalGainFadeSpeed := -1
    globalGainFadeTime := 0 }
  st1.players.foldl (fun s p => onPlayer B.systemUpdateGain p s) st1

/-- The method `_fadeGlobalGain`. -/
def _fadeGlobalGain (globalGainTarget fadeTime : ℚ) (st : AudioManager PS W) :
    AudioManager PS W :=
  if fadeTime > 0 then
    { st with
      globalGainFadeTarget := max 0 (min globalGainTarget 1)
      globalGainFadeTime := 0
      globalGainFadeSpeed := 1 / fadeTime }
  else st

/-- The method `_getPlayers`: the manual players, `players - managedPlayers`. -/
def _getPlayers (st : AudioManager PS W) : List Nat :=
  st.players.diff st.managedPlayers

/-- The method `_createCategory`. -/
def _createCategory (B : Backend PS W) (name : String) (bufferMode : BufferMode)
    (sourceMode : SourceMode) (st : AudioManager PS W) : Result (AudioManager PS W) Category :=
  match st.categories.get? name with
  | some c => ⟨st, .ok c⟩
  | none =>
    let c : Category := ⟨st.nextPtr, name, bufferMode, sourceMode, B.categoryGainInit⟩
    ⟨{ st with categories := st.categories.set name c, nextPtr := st.nextPtr + 1 }, .ok c⟩

/-- The method `_getCategory`. -/
def _getCategory (name : String) (st : AudioManager PS W) : Except String Category :=
  match st.categories.get? name with
  | some c => .ok c
  | none => .error (categoryDoesNotExist name)

/-- The method `_hasCategory`. -/
def _hasCategory (name : String) (st : AudioManager PS W) : Bool := st.categories.hasKey name

/-- The method `_createBuffer(sound)`: the new buffer is at `nextPtr`. -/
def _createBuffer (B : Backend PS W) (filename : String) (category : Category)
    (st : AudioManager PS W) : AudioManager PS W :=
  { st with
    buffers := st.buffers ++ [st.nextPtr]
    world := B.bufferNew st.nextPtr filename category st.world
    nextPtr := st.nextPtr + 1 }

/-- The method `_createBuffer(category, data, ...)`: the new buffer is at `nextPtr`. -/
def _createBufferMemory (B : Backend PS W) (category : Category) (pcm : PcmData)
    (st : AudioManager PS W) : AudioManager PS W :=
  { st with
    buffers := st.buffers ++ [st.nextPtr]
    world := B.bufferNewMemory st.nextPtr category pcm st.world
    nextPtr := st.nextPtr + 1 }

/-- The method `_destroyBuffer`. -/
def _destroyBuffer (B : Backend PS W) (buffer : Nat) (st : AudioManager PS W) :
    AudioManager PS W :=
  { st with buffers := st.buffers.erase buffer, world := B.bufferDelete buffer st.world }

/-- The destructor `Sound::~Sound`, run by `delete sound`. -/
def deleteSound (B : Backend PS W) (sound : Sound) (st : AudioManager PS W) :
    AudioManager PS W :=
  _destroyBuffer B sound.buffer st

/-- The file-backed `_createSound(filename, categoryName, prefix)`; the `Sound` is allocated
first, its constructor then creates the buffer. -/
def _createSound (B : Backend PS W) (filename categoryName pfx : String)
    (st : AudioManager PS W) : Result (AudioManager PS W) (Option Sound) :=
  match _getCategory categoryName st with
  | .error e => ⟨st, .error e⟩
  | .ok category =>
    let st1 := { st with nextPtr := st.nextPtr + 1 }
    let sound : Sound :=
      { ptr := st.nextPtr
        name := pfx ++ B.baseNameWithoutExtension filename
        filename := filename
        category := category.ptr
        buffer := st1.nextPtr
        format := B.fileFormat filename }
    let st2 := _createBuffer B filename category st1
    if sound.format = Format.Unknown ∨ st2.sounds.hasKey sound.name then
      ⟨deleteSound B sound st2, .ok none⟩
    else
      ⟨{ st2 with sounds := st2.sounds.set sound.name sound }, .ok (some sound)⟩

/-- The memory-backed `_createSound(name, categoryName, data, size, channels, samplingRate,
bitsPerSample)`; `_convertStream` is empty in `AudioManager.cpp`. -/
def _createSoundMemory (B : Backend PS W) (name categoryName : String) (pcm : PcmData)
    (st : AudioManager PS W) : Result (AudioManager PS W) (Option Sound) :=
  match _getCategory categoryName st with
  | .error e => ⟨st, .error e⟩
  | .ok category =>
    let st1 := { st with nextPtr := st.nextPtr + 1 }
    let sound : Sound :=
      { ptr := st.nextPtr
        name := name
        filename := ""
        category := category.ptr
        buffer := st1.nextPtr
        format := B.memoryFormat }
    let st2 := _createBufferMemory B category pcm st1
    if sound.format = Format.Unknown ∨ st2.sounds.hasKey sound.name then
      ⟨deleteSound B sound st2, .ok none⟩
    else
      ⟨{ st2 with sounds := st2.sounds.set sound.name sound }, .ok (some sound)⟩

/-- The method `_getSound`. -/
def _getSound (name : String) (st : AudioManager PS W) : Except String Sound :=
  match st.sounds.get? name with
  | some s => .ok s
  | none => .error (soundDoesNotExist name)

/-- The method `_hasSound`. -/
def _hasSound (name : String) (st : AudioManager PS W) : Bool := st.sounds.hasKey name

/-- The method `_createPlayer`: the new player is at `nextPtr`. -/
def _createPlayer (B : Backend PS W) (name : String) (st : AudioManager PS W) :
    Result (AudioManager PS W) Nat :=
  match st.sounds.get? name with
  | none => ⟨st, .error (soundDoesNotExist name)⟩
  | some sound =>
    ⟨{ st with
        playerSound := Function.update st.playerSound st.nextPtr sound
        playerObj := Function.update st.playerObj st.nextPtr
          (B.playerNew st.nextPtr sound st.world).1
        world := (B.playerNew st.nextPtr sound st.world).2
        players := st.players ++ [st.nextPtr]
        nextPtr := st.nextPtr + 1 }, .ok st.nextPtr⟩

/-- The method `_destroyPlayer`. -/
def _destroyPlayer (B : Backend PS W) (player : Nat) (st : AudioManager PS W) :
    AudioManager PS W :=
  let st1 := playerStop B 0 player st
  { st1 with
    players := st1.players.erase player
    world := B.playerDelete (st1.playerObj player) st1.world }

/-- The method `_createManagedPlayer`. -/
def _createManagedPlayer (B : Backend PS W) (name : String) (st : AudioManager PS W) :
    Result (AudioManager PS W) Nat :=
  match (_createPlayer B name st).value with
  | .error e => ⟨(_createPlayer B name st).state, .error e⟩
  | .ok player =>
    ⟨{ (_createPlayer B name st).state with
        managedPlayers := (_createPlayer B name st).state.managedPlayers ++ [player] },
      .ok player⟩

/-- The method `_destroyManagedPlayer`. -/
def _destroyManagedPlayer (B : Backend PS W) (player : Nat) (st : AudioManager PS W) :
    AudioManager PS W :=
  _destroyPlayer B player { st with managedPlayers := st.managedPlayers.erase player }

/-- The loop `foreach (Player*, it, copy) if (cond(*it)) _destroyManagedPlayer(*it)` over a copy
of `managedPlayers`; `cond` reads the manager as it is when the player's turn comes. -/
def destroyManagedWhere (B : Backend PS W) (cond : AudioManager PS W → Nat → Bool) :
    List Nat → AudioManager PS W → AudioManager PS W
  | [], st => st
  | p :: rest, st =>
    destroyManagedWhere B cond rest (if cond st p then _destroyManagedPlayer B p st else st)

/-- The test `(*it)->getSound() == sound`. -/
def playsSound (sound : Sound) (st : AudioManager PS W) (p : Nat) : Bool :=
  (st.playerSound p).ptr == sound.ptr

/-- The test `(*it)->getSound()->getName() == soundName`. -/
def playsName (soundName : String) (st : AudioManager PS W) (p : Nat) : Bool :=
  (st.playerSound p).name == soundName

/-- The test `(*it)->getCategory() == category`. -/
def playsCategory (category : Category) (st : AudioManager PS W) (p : Nat) : Bool :=
  (st.playerSound p).category == category.ptr

/-- The method `_destroySound`. -/
def _destroySound (B : Backend PS W) (sound : Sound) (st : AudioManager PS W) :
    Result (AudioManager PS W) Unit :=
  let st1 := destroyManagedWhere B (playsSound sound) st.managedPlayers st
  if st1.players.any (playsSound sound st1) then
    ⟨st1, .error (manualPlayersMessage ++ sound.name)⟩
  else
    ⟨deleteSound B sound { st1 with sounds := st1.sounds.removeKey sound.name }, .ok ()⟩

/-- One round of the outer loop of `_destroySoundsWithPrefix`; `acc.2` is `manualSoundNames`. -/
def destroyWithPrefixStep (B : Backend PS W) (acc : AudioManager PS W × List String)
    (sound : Sound) : AudioManager PS W × List String :=
  let st1 := destroyManagedWhere B (playsSound sound) acc.1.managedPlayers acc.1
  if st1.players.any (playsSound sound st1) then
    (st1, acc.2 ++ [sound.name])
  else
    (deleteSound B sound
      { st1 with sounds := st1.sounds.removeValue (fun s => s.ptr == sound.ptr) }, acc.2)

/-- The method `_destroySoundsWithPrefix`. -/
def _destroySoundsWithPrefix (B : Backend PS W) (pfx : String) (st : AudioManager PS W) :
    Result (AudioManager PS W) Unit :=
  let destroySounds := (st.sounds.entries.filter (fun e => startsWith e.1 pfx)).map Prod.snd
  let r := destroySounds.foldl (destroyWithPrefixStep B) (st, [])
  if r.2.length > 0 then
    ⟨r.1, .error (manualPlayersMessageMany ++ ", ".intercalate r.2)⟩
  else ⟨r.1, .ok ()⟩

/-- The method `_play`. -/
def _play (B : Backend PS W) (soundName : String) (fadeTime : ℚ) (looping : Bool) (gain : ℚ)
    (st : AudioManager PS W) : Result (AudioManager PS W) Unit :=
  if st.suspended then ⟨st, .ok ()⟩
  else
    match (_createManagedPlayer B soundName st).value with
    | .error e => ⟨(_createManagedPlayer B soundName st).state, .error e⟩
    | .ok player =>
      ⟨onPlayer (B.play fadeTime looping) player
        (onPlayer (B.setGain gain) player (_createManagedPlayer B soundName st).state), .ok ()⟩

/-- The method `_playAsync`. -/
def _playAsync (B : Backend PS W) (soundName : String) (fadeTime : ℚ) (looping : Bool)
    (gain : ℚ) (st : AudioManager PS W) : Result (AudioManager PS W) Unit :=
  if st.suspended then ⟨st, .ok ()⟩
  else
    match (_createManagedPlayer B soundName st).value with
    | .error e => ⟨(_createManagedPlayer B soundName st).state, .error e⟩
    | .ok player =>
      ⟨onPlayer (B.playAsync fadeTime looping) player
        (onPlayer (B.setGain gain) player (_createManagedPlayer B soundName st).state), .ok ()⟩

/-- The loop `foreach (Player*, it, list) if (cond(*it)) (*it)->_stop(fadeTime)`. -/
def stopWhere (B : Backend PS W) (cond : AudioManager PS W → Nat → Bool) (fadeTime : ℚ) :
    List Nat → AudioManager PS W → AudioManager PS W
  | [], st => st
  | p :: rest, st =>
    stopWhere B cond fadeTime rest (if cond st p then playerStop B fadeTime p st else st)

/-- The method `_stop`. -/
def _stop (B : Backend PS W) (soundName : String) (fadeTime : ℚ) (st : AudioManager PS W) :
    AudioManager PS W :=
  if fadeTime = 0 then
    destroyManagedWhere B (playsName soundName) st.managedPlayers st
  else
    stopWhere B (playsName soundName) fadeTime st.managedPlayers st

/-- The method `_stopFirst`. -/
def _stopFirst (B : Backend PS W) (soundName : String) (fadeTime : ℚ)
    (st : AudioManager PS W) : AudioManager PS W :=
  match st.managedPlayers.find? (playsName soundName st) with
  | none => st
  | some p =>
    if fadeTime ≤ 0 then _destroyManagedPlayer B p st else playerStop B fadeTime p st

/-- The method `_stopAll`. -/
def _stopAll (B : Backend PS W) (fadeTime : ℚ) (st : AudioManager PS W) : AudioManager PS W :=
  let st1 :=
    if fadeTime ≤ 0 then destroyManagedWhere B (fun _ _ => true) st.managedPlayers st else st
  stopWhere B (fun _ _ => true) fadeTime st1.players st1

/-- The method `_stopCategory`. -/
def _stopCategory (B : Backend PS W) (categoryName : String) (fadeTime : ℚ)
    (st : AudioManager PS W) : Result (AudioManager PS W) Unit :=
  let fadeTime := max fadeTime 0
  match _getCategory categoryName st with
  | .error e => ⟨st, .error e⟩
  | .ok category =>
    let st1 :=
      if fadeTime = 0 then destroyManagedWhere B (playsCategory category) st.managedPlayers st
      else st
    ⟨stopWhere B (playsCategory category) fadeTime st1.players st1, .ok ()⟩

/-- The counting loop shared by `_getPlayingCount`, `_getFadingCount`, `_getFadingInCount` and
`_getFadingOutCount`: managed players on `soundName` whose flag is set. -/
def countManaged (flag : PS → Bool) (soundName : String) (st : AudioManager PS W) : Nat :=
  st.managedPlayers.foldl
    (fun result p => if playsName soundName st p && flag (st.playerObj p) then result + 1
      else result) 0

/-- The method `_getPlayingCount`. -/
def _getPlayingCount (B : Backend PS W) (soundName : String) (st : AudioManager PS W) : Nat :=
  countManaged B.isPlaying soundName st

/-- The method `_getFadingCount`. -/
def _getFadingCount (B : Backend PS W) (soundName : String) (st : AudioManager PS W) : Nat :=
  countManaged B.isFading soundName st

/-- The method `_getFadingInCount`. -/
def _getFadingInCount (B : Backend PS W) (soundName : String) (st : AudioManager PS W) : Nat :=
  countManaged B.isFadingIn soundName st

/-- The method `_getFadingOutCount`. -/
def _getFadingOutCount (B : Backend PS W) (soundName : String) (st : AudioManager PS W) : Nat :=
  countManaged B.isFadingOut soundName st

/-- The method `_clearMemory`. -/
def _clearMemory (B : Backend PS W) (st : AudioManager PS W) : AudioManager PS W :=
  { st with world := st.buffers.foldl (fun w b => (B.bufferTryClearMemory b w).2) st.world }

/-- One round of the loop of `_suspendAudio`. -/
def suspendPlayer (B : Backend PS W) (fadeTime : ℚ) (st : AudioManager PS W) (p : Nat) :
    AudioManager PS W :=
  if B.isFadingOut (st.playerObj p) then
    if B.paused (st.playerObj p) then onPlayer (B.pause fadeTime) p st
    else playerStop B fadeTime p st
  else if B.isPlaying (st.playerObj p) then
    { onPlayer (B.pause fadeTime) p st with suspendedPlayers := st.suspendedPlayers ++ [p] }
  else st

/-- The method `_suspendAudio`. -/
def _suspendAudio (B : Backend PS W) (st : AudioManager PS W) : AudioManager PS W :=
  if !st.suspended then
    let fadeTime : ℚ := if st.thread then st.suspendResumeFadeTime else 0
    let st1 := st.players.foldl (suspendPlayer B fadeTime) st
    { st1 with world := B.suspendSystem st1.world, suspended := true }
  else st

/-- The method `_resumeAudio`. -/
def _resumeAudio (B : Backend PS W) (st : AudioManager PS W) : AudioManager PS W :=
  if st.suspended then
    let st1 := { st with suspended := false, world := B.resumeSystem st.world }
    let fadeTime : ℚ := if st1.thread then st1.suspendResumeFadeTime else 0
    let st2 := st1.suspendedPlayers.foldl (fun s p => onPlayer (B.play fadeTime false) p s) st1
    { st2 with suspendedPlayers := [] }
  else st

/-- The global gain fade step of `_update`, with the `float` fields read as exact rational
numbers: no operation rounds. `Float32.AudioManager._update` is the same step in binary32
arithmetic, where each operation rounds. -/
def updateGlobalGainFade (timeDelta : ℚ) (st : AudioManager PS W) : AudioManager PS W :=
  if _isGlobalGainFading st then
    if st.globalGainFadeTime + st.globalGainFadeSpeed * timeDelta ≥ 1 then
      { st with
        globalGain := st.globalGainFadeTarget
        globalGainFadeTarget := -1
        globalGainFadeSpeed := -1
        globalGainFadeTime := 0 }
    else
      { st with globalGainFadeTime := st.globalGainFadeTime + st.globalGainFadeSpeed * timeDelta }
  else st

/-- The category loop of `_update`. -/
def updateCategories (B : Backend PS W) (timeDelta : ℚ) (m : HMap Category) : HMap Category :=
  ⟨m.entries.map (fun e =>
    if B.categoryIsGainFading e.2.gainState then
      (e.1, { e.2 with gainState := B.categoryUpdate timeDelta e.2.gainState })
    else e)⟩

/-- The value of `gainFading` when the player loop of `_update` starts. -/
def gainFadingFlag (B : Backend PS W) (timeDelta : ℚ) (st : AudioManager PS W) : Bool :=
  decide (timeDelta > 0) &&
    (_isGlobalGainFading st || st.categories.entries.any
      (fun e => B.categoryIsGainFading e.2.gainState))

/-- One round of the player loop of `_update`. -/
def updatePlayer (B : Backend PS W) (gainFading : Bool) (timeDelta : ℚ)
    (st : AudioManager PS W) (p : Nat) : AudioManager PS W :=
  let st1 :=
    if gainFading && !B.isFading (st.playerObj p) then onPlayer B.systemUpdateGain p st else st
  let st2 := onPlayer (B.update timeDelta) p st1
  if B.isAsyncPlayQueued (st2.playerObj p) then
    onPlayer (B.play (B.fadeTime (st2.playerObj p)) (B.looping (st2.playerObj p))) p st2
  else st2

/-- The manager of `_update` when the managed players are about to be reclaimed: the async
loader was drained, the gain fades and every player were advanced. -/
def updateBeforeReclaim (B : Backend PS W) (timeDelta : ℚ) (st : AudioManager PS W) :
    AudioManager PS W :=
  let st1 := { st with world := B.bufferAsyncUpdate st.world }
  let st2 :=
    if timeDelta > 0 then
      { updateGlobalGainFade timeDelta st1 with
        categories := updateCategories B timeDelta st1.categories }
    else st1
  st2.players.foldl (updatePlayer B (gainFadingFlag B timeDelta st1) timeDelta) st2

/-- The test of the reclaim loop of `_update`. -/
def reclaimable (B : Backend PS W) (st : AudioManager PS W) (p : Nat) : Bool :=
  !B.isAsyncPlayQueued (st.playerObj p) && !B.isPlaying (st.playerObj p) &&
    !B.isFadingOut (st.playerObj p)

/-- The method `_update(timeDelta)`. -/
def _update (B : Backend PS W) (timeDelta : ℚ) (st : AudioManager PS W) : AudioManager PS W :=
  if !st.suspended then
    let st1 := updateBeforeReclaim B timeDelta st
    let st2 := destroyManagedWhere B (reclaimable B) st1.managedPlayers st1
    { st2 with world := st2.buffers.foldl (fun w b => B.bufferUpdate timeDelta b w) st2.world }
  else if st.suspendResumeFadeTime > 0 ∧ st.thread then
    st.players.foldl
      (fun s p => onPlayer (B.update timeDelta) p (onPlayer B.systemUpdateGain p s)) st
  else st

/-- The method `update(timeDelta)`; `isThreaded()` is `thread != NULL`. -/
def update (B : Backend PS W) (timeDelta : ℚ) (st : AudioManager PS W) : AudioManager PS W :=
  if !st.thread then _update B timeDelta st else st

/-- The player loop of `clear`, followed by `players.clear()` and `managedPlayers.clear()`. -/
def clearPlayers (B : Backend PS W) (st : AudioManager PS W) : AudioManager PS W :=
  { st.players.foldl
      (fun s p =>
        { playerStop B 0 p s with
          world := B.playerDelete ((playerStop B 0 p s).playerObj p) (playerStop B 0 p s).world })
      st with
    players := []
    managedPlayers := [] }

/-- The sound loop of `clear`: `delete` on every registered sound. -/
def clearSounds (B : Backend PS W) (st : AudioManager PS W) : AudioManager PS W :=
  st.sounds.values.foldl (fun s sound => deleteSound B sound s) st

/-- The method `clear`; the ticks the update thread runs before it is joined are separate
`_update` steps. -/
def clear (B : Backend PS W) (st : AudioManager PS W) : AudioManager PS W :=
  let st1 := _update B 0 { st with threadRunning := false, thread := false }
  { clearSounds B (clearPlayers B st1) with sounds := HMap.empty, categories := HMap.empty }

/-- The method `addAudioExtension`. -/
def addAudioExtension (extension : String) (st : AudioManager PS W) : AudioManager PS W :=
  { st with extensions := st.extensions ++ [extension] }

/-- The calls into hltypes that `findAudioFile` makes: `hresource::exists`,
`hdbase::systemize` and `hfile::withoutExtension`. -/
structure Files where
  fileExists : String → Bool
  systemize : String → String
  withoutExtension : String → String

/-- The loop `foreachc (hstr, it, this->extensions)` of `findAudioFile` on one stem: the first
`systemize(stem + extension)` that exists. -/
def findWithExtension (F : Files) (stem : String) : List String → Option String
  | [] => none
  | e :: rest =>
    if F.fileExists (F.systemize (stem ++ e)) then some (F.systemize (stem ++ e))
    else findWithExtension F stem rest

/-- The method `findAudioFile`. -/
def findAudioFile (F : Files) (filename : String) (st : AudioManager PS W) : String :=
  if F.fileExists filename then F.systemize filename
  else
    match findWithExtension F filename st.extensions with
    | some name => name
    | none =>
      if F.withoutExtension filename ≠ filename then
        match findWithExtension F (F.withoutExtension filename) st.extensions with
        | some name => name
        | none => ""
      else ""

/-- The candidates of the file resolution as the specification lists them: `f`, then `f + e`
for each extension, then, when `f` has an extension, `stripped(f) + e` for each extension. -/
def audioFileCandidates (F : Files) (f : String) (E : List String) : List String :=
  f :: E.map (fun e => f ++ e) ++
    (if F.withoutExtension f ≠ f then E.map (fun e => F.withoutExtension f ++ e) else [])

/-- The file resolution as the specification words it: the separator-normalised form of the
first candidate that exists, the empty string when there is none. -/
def findAudioFileSpec (F : Files) (f : String) (E : List String) : String :=
  match (audioFileCandidates F f E).find? F.fileExists with
  | some c => F.systemize c
  | none => ""

/-- The candidates of the file resolution, each with the name whose existence the code
tests for it: `f` itself for the first, the separator-normalised form of the candidate for
the others. -/
def audioFileTests (F : Files) (f : String) (E : List String) : List (String × String) :=
  (f, f) :: E.map (fun e => (f ++ e, F.systemize (f ++ e))) ++
    (if F.withoutExtension f ≠ f then
      E.map (fun e => (F.withoutExtension f ++ e, F.systemize (F.withoutExtension f ++ e)))
    else [])

/-- The separator-normalised form of the first candidate whose test succeeds, the empty
string when none does. -/
def findAudioFileTested (F : Files) (f : String) (E : List String) : String :=
  match (audioFileTests F f E).find? (fun c => F.fileExists c.2) with
  | some c => F.systemize c.1
  | none => ""

/-- The calls into hltypes that `_createSoundsFromPath` makes: `hrdir::files(path, true)`,
`hrdir::directories(path, true)` and `hrdir::baseName`. -/
structure Dirs where
  files : String → List String
  directories : String → List String
  baseName : String → String

/-- The loop `foreach (hstr, it, files)` of `_createSoundsFromPath(path, categoryName,
prefix)`; `result` is the array of names so far. An exception of `_createSound` ends it. -/
def createSoundsLoop (B : Backend PS W) (categoryName pfx : String) :
    List String → AudioManager PS W → List String → Result (AudioManager PS W) (List String)
  | [], st, result => ⟨st, .ok result⟩
  | f :: rest, st, result =>
    match (_createSound B f categoryName pfx st).value with
    | .error e => ⟨(_createSound B f categoryName pfx st).state, .error e⟩
    | .ok none =>
      createSoundsLoop B categoryName pfx rest (_createSound B f categoryName pfx st).state result
    | .ok (some sound) =>
      createSoundsLoop B categoryName pfx rest (_createSound B f categoryName pfx st).state
        (result ++ [sound.name])

/-- The method `_createSoundsFromPath(path, categoryName, prefix)`. -/
def _createSoundsFromPathIn (B : Backend PS W) (D : Dirs) (path categoryName pfx : String)
    (st : AudioManager PS W) : Result (AudioManager PS W) (List String) :=
  let st1 := (_createCategory B categoryName BufferMode.Full SourceMode.Disk st).state
  createSoundsLoop B categoryName pfx (D.files path) st1 []

/-- The loop `foreach (hstr, it, dirs)` of `_createSoundsFromPath(path, prefix)`. -/
def createSoundsDirLoop (B : Backend PS W) (D : Dirs) (pfx : String) :
    List String → AudioManager PS W → List String → Result (AudioManager PS W) (List String)
  | [], st, result => ⟨st, .ok result⟩
  | d :: rest, st, result =>
    match (_createSoundsFromPathIn B D d (D.baseName d) pfx st).value with
    | .error e => ⟨(_createSoundsFromPathIn B D d (D.baseName d) pfx st).state, .error e⟩
    | .ok names =>
      createSoundsDirLoop B D pfx rest (_createSoundsFromPathIn B D d (D.baseName d) pfx st).state
        (result ++ names)

/-- The method `_createSoundsFromPath(path, prefix)`. -/
def _createSoundsFromPath (B : Backend PS W) (D : Dirs) (path pfx : String)
    (st : AudioManager PS W) : Result (AudioManager PS W) (List String) :=
  createSoundsDirLoop B D pfx (D.directories path) st []

/-- The names `_createSoundsFromPath(path, prefix)` returns as the specification words them:
the concatenation, over the subdirectories in order, of what `_createSoundsFromPath(dir,
baseName(dir), prefix)` returns in the state the previous ones leave. -/
def createSoundsFromPathSpec (B : Backend PS W) (D : Dirs) (pfx : String) :
    List String → AudioManager PS W → List String
  | [], _ => []
  | d :: rest, st =>
    (match (_createSoundsFromPathIn B D d (D.baseName d) pfx st).value with
      | .error _ => []
      | .ok names => names) ++
    createSoundsFromPathSpec B D pfx rest
      (_createSoundsFromPathIn B D d (D.baseName d) pfx st).state

/-- A run of ticks: `_update(dt)` for each `dt` of the list, in order. -/
def ticks (B : Backend PS W) (deltas : List ℚ) (st : AudioManager PS W) : AudioManager PS W :=
  deltas.foldl (fun s dt => _update B dt s) st

end AudioManager

namespace NoAudio_AudioManager

variable {PS W : Type}

/-- The override `NoAudio_AudioManager::_createSound(filename, categoryName, prefix)`. -/
def _createSound (B : Backend PS W) (filename categoryName pfx : String)
    (st : AudioManager PS W) : Result (AudioManager PS W) (Option Sound) :=
  match AudioManager._getCategory categoryName st with
  | .error e => ⟨st, .error e⟩
  | .ok category =>
    let st1 := { st with nextPtr := st.nextPtr + 1 }
    let sound : Sound :=
      { ptr := st.nextPtr
        name := pfx ++ B.baseNameWithoutExtension filename
        filename := filename
        category := category.ptr
        buffer := st1.nextPtr
        format := B.fileFormat filename }
    let st2 := AudioManager._createBuffer B filename category st1
    if st2.sounds.hasKey sound.name then
      ⟨AudioManager.deleteSound B sound st2, .ok none⟩
    else
      ⟨{ st2 with sounds := st2.sounds.set sound.name sound }, .ok (some sound)⟩

/-- The override `NoAudio_AudioManager::_createSound(name, categoryName, data, size, channels,
samplingRate, bitsPerSample)`. -/
def _createSoundMemory (B : Backend PS W) (name categoryName : String) (pcm : PcmData)
    (st : AudioManager PS W) : Result (AudioManager PS W) (Option Sound) :=
  match AudioManager._getCategory categoryName st with
  | .error e => ⟨st, .error e⟩
  | .ok category =>
    let st1 := { st with nextPtr := st.nextPtr + 1 }
    let sound : Sound :=
      { ptr := st.nextPtr
        name := name
        filename := ""
        category := category.ptr
        buffer := st1.nextPtr
        format := B.memoryFormat }
    let st2 := AudioManager._createBufferMemory B category pcm st1
    if st2.sounds.hasKey sound.name then
      ⟨AudioManager.deleteSound B sound st2, .ok none⟩
    else
      ⟨{ st2 with sounds := st2.sounds.set sound.name sound }, .ok (some sound)⟩

/-- The override `NoAudio_AudioManager::findAudioFile`. -/
def findAudioFile (_filename : String) : String := ""

end NoAudio_AudioManager

namespace AudioManager

variable {PS W : Type}

/-- What the lists and the registry of a manager satisfy in every state the manager reaches:
no address occurs twice in a list, every managed player is a player, `new` has not yet handed
out `nextPtr`, the registry holds each sound once and under its name, and the sound of each
player is registered. -/
structure Consistent (st : AudioManager PS W) : Prop where
  players_nodup : st.players.Nodup
  managed_nodup : st.managedPlayers.Nodup
  managed_sub : ∀ p ∈ st.managedPlayers, p ∈ st.players
  players_lt : ∀ p ∈ st.players, p < st.nextPtr
  buffers_lt : ∀ b ∈ st.buffers, b < st.nextPtr
  keys_nodup : st.sounds.keys.Nodup
  key_name : ∀ e ∈ st.sounds.entries, e.2.name = e.1
  sound_lt : ∀ e ∈ st.sounds.entries, e.2.ptr < st.nextPtr
  ptr_inj : ∀ e ∈ st.sounds.entries, ∀ e' ∈ st.sounds.entries, e.2.ptr = e'.2.ptr → e = e'
  player_sound : ∀ p ∈ st.players,
    ((st.playerSound p).name, st.playerSound p) ∈ st.sounds.entries

/-- Two managers with the same lists of players, registry of sounds, buffers, player sounds
and allocation mark. -/
structure SameCore (st st' : AudioManager PS W) : Prop where
  players : st'.players = st.players
  managedPlayers : st'.managedPlayers = st.managedPlayers
  sounds : st'.sounds = st.sounds
  buffers : st'.buffers = st.buffers
  playerSound : st'.playerSound = st.playerSound
  nextPtr : st'.nextPtr = st.nextPtr

/-- A loop test that reads nothing of the manager but the sound and the object of the player
it is asked about. -/
def LocalTest (cond : AudioManager PS W → Nat → Bool) : Prop :=
  ∀ (st st' : AudioManager PS W) (p : Nat),
    st'.playerSound = st.playerSound → st'.playerObj p = st.playerObj p → cond st' p = cond st p

/-- The manager `r` is `st` with the players `X` gone from `players` and `managedPlayers`;
the registry, the buffers and the players outside `X` are as in `st`. -/
structure Removed (X : List Nat) (st r : AudioManager PS W) : Prop where
  players : r.players = st.players.diff X
  managedPlayers : r.managedPlayers = st.managedPlayers.diff X
  sounds : r.sounds = st.sounds
  categories : r.categories = st.categories
  buffers : r.buffers = st.buffers
  playerSound : r.playerSound = st.playerSound
  nextPtr : r.nextPtr = st.nextPtr
  suspended : r.suspended = st.suspended
  playerObj : ∀ q, q ∉ X → r.playerObj q = st.playerObj q

/-- The manager `st'` has the settings of `st`: suspension, thread, gains, gain fade,
categories and extensions are the same, and no player was added to `suspendedPlayers`. -/
structure Frame (st st' : AudioManager PS W) : Prop where
  suspended : st'.suspended = st.suspended
  thread : st'.thread = st.thread
  suspendResumeFadeTime : st'.suspendResumeFadeTime = st.suspendResumeFadeTime
  globalGain : st'.globalGain = st.globalGain
  globalGainFadeTarget : st'.globalGainFadeTarget = st.globalGainFadeTarget
  globalGainFadeSpeed : st'.globalGainFadeSpeed = st.globalGainFadeSpeed
  globalGainFadeTime : st'.globalGainFadeTime = st.globalGainFadeTime
  categories : st'.categories = st.categories
  extensions : st'.extensions = st.extensions
  suspendedPlayers : st'.suspendedPlayers.Sublist st.suspendedPlayers

/-- A global gain fade from the stored gain `g` to `c` over `T` seconds that has run for the
fraction `τ` of its time, on a manager that is not suspended. -/
structure Fading (g c T τ : ℚ) (st : AudioManager PS W) : Prop where
  suspended : st.suspended = false
  globalGain : st.globalGain = g
  globalGainFadeTarget : st.globalGainFadeTarget = c
  globalGainFadeSpeed : st.globalGainFadeSpeed = 1 / T
  globalGainFadeTime : st.globalGainFadeTime = τ

/-- No global gain fade is in progress and the stored gain is `c`, on a manager that is not
suspended: the state `_update` leaves when it commits a fade to `c`. -/
structure Committed (c : ℚ) (st : AudioManager PS W) : Prop where
  suspended : st.suspended = false
  globalGain : st.globalGain = c
  globalGainFadeTarget : st.globalGainFadeTarget = -1
  globalGainFadeSpeed : st.globalGainFadeSpeed = -1
  globalGainFadeTime : st.globalGainFadeTime = 0

/-- Whether a manual player of `st` is on `sound`: the test `getSound() == sound` over the
players of `players - managedPlayers`. -/
def hasManualPlayer (st : AudioManager PS W) (sound : Sound) : Bool :=
  (_getPlayers st).any (playsSound sound st)

/-- The outer loop of `_destroySoundsWithPrefix`, started on `st0`, after the rounds of the
sounds `done`: `acc` is the manager and `manualSoundNames` then. -/
structure PrefixLoop (st0 : AudioManager PS W) (done : List Sound)
    (acc : AudioManager PS W × List String) : Prop where
  managedPlayers : acc.1.managedPlayers
    = st0.managedPlayers.filter (fun q => !done.any (fun t => playsSound t st0 q))
  players : acc.1.players
    = st0.players.filter
        (fun q => !(decide (q ∈ st0.managedPlayers) && done.any (fun t => playsSound t st0 q)))
  entries : acc.1.sounds.entries
    = st0.sounds.entries.filter
        (fun e => !(done.any (fun t => e.2.ptr == t.ptr) && !hasManualPlayer st0 e.2))
  names : acc.2 = (done.filter (hasManualPlayer st0)).map Sound.name
  buffers : acc.1.buffers
    = (done.filter (fun t => !hasManualPlayer st0 t)).foldl
        (fun l t => l.erase t.buffer) st0.buffers
  playerSound : acc.1.playerSound = st0.playerSound
  categories : acc.1.categories = st0.categories
  playerObj : ∀ q, ¬ (q ∈ st0.managedPlayers ∧ done.any (fun t => playsSound t st0 q) = true) →
    acc.1.playerObj q = st0.playerObj q

/-- The local `fadeTime` of `_suspendAudio` and `_resumeAudio`: `suspendResumeFadeTime` when the
manager has its update thread, 0 otherwise. -/
def suspendFadeTime (st : AudioManager PS W) : ℚ :=
  if st.thread then st.suspendResumeFadeTime else 0

/-- What one round of the loop of `_suspendAudio` makes of the object of its player, on the
shared state `w`. -/
def suspendAsked (B : Backend PS W) (fadeTime : ℚ) (obj : PS) (w : W) : PS :=
  if B.isFadingOut obj then
    if B.paused obj then (B.pause fadeTime obj w).1 else (B.stop fadeTime obj w).1
  else if B.isPlaying obj then (B.pause fadeTime obj w).1
  else obj

/-- The list of buffers holds exactly the buffers of the registered sounds, each once, and no
two registered sounds share a buffer. -/
structure BufferMatch (st : AudioManager PS W) : Prop where
  buffers_nodup : st.buffers.Nodup
  mem_iff : ∀ b, b ∈ st.buffers ↔ ∃ e ∈ st.sounds.entries, e.2.buffer = b
  buffer_inj : ∀ e ∈ st.sounds.entries, ∀ e' ∈ st.sounds.entries,
    e.2.buffer = e'.2.buffer → e = e'

/-- The list `suspendedPlayers` is empty while the manager is not suspended. -/
def NoneSuspended (st : AudioManager PS W) : Prop :=
  st.suspended = false → st.suspendedPlayers = []

/-- The states a manager reaches from its construction through its public methods and the
ticks of its update thread. A `Sound*` passed to `destroySound` is a registered sound, a
`Player*` passed to `destroyPlayer` is one of the manual players (`getPlayers`). A call that
throws leaves the manager in the state of its `Result`. `playerCall` is any change of one
player object: a public method of `Player` the host calls on it, or its voice running out;
`playerStop` is the public `Player::stop`. On the disabled backend `createSound` is the
override of `NoAudio_AudioManager`. -/
inductive Reachable (B : Backend PS W) : AudioManager PS W → Prop
  | create (backendId : Nat) (threaded : Bool) (updateTime : ℚ) (deviceName : String)
      (extensions : List String) (objs : Nat → PS) (w : W) :
      Reachable B (create backendId threaded updateTime deviceName extensions objs w)
  | init {st : AudioManager PS W} : Reachable B st → Reachable B (init st)
  | clear {st : AudioManager PS W} : Reachable B st → Reachable B (clear B st)
  | setGlobalGain {st : AudioManager PS W} (value : ℚ) :
      Reachable B st → Reachable B (_setGlobalGain B value st)
  | fadeGlobalGain {st : AudioManager PS W} (target fadeTime : ℚ) :
      Reachable B st → Reachable B (_fadeGlobalGain target fadeTime st)
  | tick {st : AudioManager PS W} (timeDelta : ℚ) :
      Reachable B st → Reachable B (_update B timeDelta st)
  | update {st : AudioManager PS W} (timeDelta : ℚ) :
      Reachable B st → Reachable B (update B timeDelta st)
  | createCategory {st : AudioManager PS W} (name : String) (bufferMode : BufferMode)
      (sourceMode : SourceMode) :
      Reachable B st → Reachable B (_createCategory B name bufferMode sourceMode st).state
  | createSound {st : AudioManager PS W} (filename categoryName pfx : String) :
      Reachable B st → Reachable B (_createSound B filename categoryName pfx st).state
  | createSoundMemory {st : AudioManager PS W} (name categoryName : String) (pcm : PcmData) :
      Reachable B st → Reachable B (_createSoundMemory B name categoryName pcm st).state
  | destroySound {st : AudioManager PS W} (sound : Sound)
      (registered : st.sounds.get? sound.name = some sound) :
      Reachable B st → Reachable B (_destroySound B sound st).state
  | destroySoundsWithPrefix {st : AudioManager PS W} (pfx : String) :
      Reachable B st → Reachable B (_destroySoundsWithPrefix B pfx st).state
  | createPlayer {st : AudioManager PS W} (name : String) :
      Reachable B st → Reachable B (_createPlayer B name st).state
  | destroyPlayer {st : AudioManager PS W} (player : Nat) (manual : player ∈ _getPlayers st) :
      Reachable B st → Reachable B (_destroyPlayer B player st)
  | play {st : AudioManager PS W} (soundName : String) (fadeTime : ℚ) (looping : Bool)
      (gain : ℚ) : Reachable B st → Reachable B (_play B soundName fadeTime looping gain st).state
  | playAsync {st : AudioManager PS W} (soundName : String) (fadeTime : ℚ) (looping : Bool)
      (gain : ℚ) :
      Reachable B st → Reachable B (_playAsync B soundName fadeTime looping gain st).state
  | stop {st : AudioManager PS W} (soundName : String) (fadeTime : ℚ) :
      Reachable B st → Reachable B (_stop B soundName fadeTime st)
  | stopFirst {st : AudioManager PS W} (soundName : String) (fadeTime : ℚ) :
      Reachable B st → Reachable B (_stopFirst B soundName fadeTime st)
  | stopAll {st : AudioManager PS W} (fadeTime : ℚ) :
      Reachable B st → Reachable B (_stopAll B fadeTime st)
  | stopCategory {st : AudioManager PS W} (categoryName : String) (fadeTime : ℚ) :
      Reachable B st → Reachable B (_stopCategory B categoryName fadeTime st).state
  | clearMemory {st : AudioManager PS W} : Reachable B st → Reachable B (_clearMemory B st)
  | suspendAudio {st : AudioManager PS W} : Reachable B st → Reachable B (_suspendAudio B st)
  | resumeAudio {st : AudioManager PS W} : Reachable B st → Reachable B (_resumeAudio B st)
  | addAudioExtension {st : AudioManager PS W} (extension : String) :
      Reachable B st → Reachable B (addAudioExtension extension st)
  | createSoundNoAudio {st : AudioManager PS W} (filename categoryName pfx : String) :
      Reachable B st →
      Reachable B (NoAudio_AudioManager._createSound B filename categoryName pfx st).state
  | createSoundMemoryNoAudio {st : AudioManager PS W} (name categoryName : String)
      (pcm : PcmData) :
      Reachable B st →
      Reachable B (NoAudio_AudioManager._createSoundMemory B name categoryName pcm st).state
  | playerCall {st : AudioManager PS W} (player : Nat) (f : PS → W → PS × W) :
      Reachable B st → Reachable B (onPlayer f player st)
  | playerStop {st : AudioManager PS W} (player : Nat) (fadeTime : ℚ) :
      Reachable B st → Reachable B (playerStop B fadeTime player st)

/-- The states a manager reaches from its construction through `createCategory`, both
overloads of `createSound`, `destroySound` of a registered sound, `destroySoundsWithPrefix`
and `clear`. -/
inductive SoundReachable (B : Backend PS W) : AudioManager PS W → Prop
  | create (backendId : Nat) (threaded : Bool) (updateTime : ℚ) (deviceName : String)
      (extensions : List String) (objs : Nat → PS) (w : W) :
      SoundReachable B (create backendId threaded updateTime deviceName extensions objs w)
  | createCategory {st : AudioManager PS W} (name : String) (bufferMode : BufferMode)
      (sourceMode : SourceMode) :
      SoundReachable B st →
      SoundReachable B (_createCategory B name bufferMode sourceMode st).state
  | createSound {st : AudioManager PS W} (filename categoryName pfx : String) :
      SoundReachable B st → SoundReachable B (_createSound B filename categoryName pfx st).state
  | createSoundMemory {st : AudioManager PS W} (name categoryName : String) (pcm : PcmData) :
      SoundReachable B st →
      SoundReachable B (_createSoundMemory B name categoryName pcm st).state
  | destroySound {st : AudioManager PS W} (sound : Sound)
      (registered : st.sounds.get? sound.name = some sound) :
      SoundReachable B st → SoundReachable B (_destroySound B sound st).state
  | destroySoundsWithPrefix {st : AudioManager PS W} (pfx : String) :
      SoundReachable B st → SoundReachable B (_destroySoundsWithPrefix B pfx st).state
  | clear {st : AudioManager PS W} : SoundReachable B st → SoundReachable B (clear B st)

end AudioManager

/-! ## A small backend to run the manager on -/

/-- A backend whose player is one flag, set by `_play` and `_playAsync` and cleared by `_stop`
and `_pause`; a file has format `Unknown` when its name is empty and `WAV` otherwise, and the
name of a sound is its file name. -/
def flagBackend : Backend Bool Unit where
  categoryGainInit := ⟨1, -1, -1, 0⟩
  categoryIsGainFading := fun _ => false
  categoryUpdate := fun _ g => g
  baseNameWithoutExtension := fun f => f
  fileFormat := fun f => if f = "" then Format.Unknown else Format.WAV
  memoryFormat := Format.Memory
  bufferNew := fun _ _ _ w => w
  bufferNewMemory := fun _ _ _ w => w
  bufferDelete := fun _ w => w
  bufferUpdate := fun _ _ w => w
  bufferTryClearMemory := fun _ w => (false, w)
  bufferAsyncUpdate := fun w => w
  playerNew := fun _ _ w => (false, w)
  playerDelete := fun _ w => w
  isPlaying := fun b => b
  isFading := fun _ => false
  isFadingIn := fun _ => false
  isFadingOut := fun _ => false
  isAsyncPlayQueued := fun _ => false
  paused := fun _ => false
  looping := fun _ => false
  fadeTime := fun _ => 0
  setGain := fun _ b w => (b, w)
  play := fun _ _ _ w => (true, w)
  playAsync := fun _ _ _ w => (true, w)
  stop := fun _ _ w => (false, w)
  pause := fun _ _ w => (false, w)
  update := fun _ b w => (b, w)
  systemUpdateGain := fun b w => (b, w)
  suspendSystem := fun w => w
  resumeSystem := fun w => w

/-- A fresh manager on `flagBackend`. -/
def demo0 : AudioManager Bool Unit :=
  AudioManager.create 0 false 0 "" [".wav"] (fun _ => false) ()

/-- The manager `demo0` with category `sfx`. -/
def demo1 : AudioManager Bool Unit :=
  (AudioManager._createCategory flagBackend "sfx" BufferMode.Full SourceMode.Ram demo0).state

/-- The category `sfx` of `demo1`. -/
def categorySfx : Category := ⟨1, "sfx", BufferMode.Full, SourceMode.Ram, ⟨1, -1, -1, 0⟩⟩

/-- The manager `demo1` with the sounds `m` and `n`. -/
def demo2 : AudioManager Bool Unit :=
  (AudioManager._createSound flagBackend "n" "sfx" ""
    (AudioManager._createSound flagBackend "m" "sfx" "" demo1).state).state

/-- The sound `m` of `demo2`. -/
def soundM : Sound := ⟨2, "m", "m", 1, 3, Format.WAV⟩

/-- The sound `n` of `demo2`. -/
def soundN : Sound := ⟨4, "n", "n", 1, 5, Format.WAV⟩

/-- The manager `demo2` with a manual player on `m` (at address 6). -/
def demo3 : AudioManager Bool Unit :=
  (AudioManager._createPlayer flagBackend "m" demo2).state

/-- The manager `demo3` after `play("m")` and `play("n")` (managed players at 7 and 8). -/
def demo4 : AudioManager Bool Unit :=
  (AudioManager._play flagBackend "n" 0 false 1
    (AudioManager._play flagBackend "m" 0 false 1 demo3).state).state

/-- The manager `demo4` after the voice of the managed player 7 has run out. -/
def demo5 : AudioManager Bool Unit :=
  AudioManager.onPlayer (flagBackend.stop 0) 7 demo4

/-! ## The OpenAL source of version 2 (`Source.cpp`) -/

/-- The fields of `Source` that `Source.cpp` sets in its constructor, with `sampleOffset`. -/
structure Source where
  sourceId : Nat
  gain : ℚ
  looping : Bool
  paused : Bool
  fadeTime : ℚ
  fadeSpeed : ℚ
  bound : Bool
  sampleOffset : ℚ
deriving DecidableEq, Inhabited

namespace Source

/-- The method `Source::isFading`. -/
def isFading (s : Source) : Bool := decide (s.fadeSpeed ≠ 0)

/-- The method `Source::isFadingIn`, which tests `fadeSpeed < 0`. -/
def isFadingIn (s : Source) : Bool := decide (s.fadeSpeed < 0)

/-- The method `Source::isFadingOut`. -/
def isFadingOut (s : Source) : Bool := decide (s.fadeSpeed < 0)

/-- The method `Source::isPaused`. -/
def isPaused (s : Source) : Bool := s.paused && !s.isFading

/-- The source `Source::Source` constructs. -/
def create : Source :=
  { sourceId := 0, gain := 1, looping := false, paused := false, fadeTime := 0, fadeSpeed := 0,
    bound := true, sampleOffset := 0 }

end Source

/-- The state of an OpenAL source, `AL_SOURCE_STATE`. -/
inductive ALState where
  | initial | playing | paused | stopped
deriving DecidableEq, Repr, Inhabited

/-- The OpenAL source behind a `sourceId`: what `alSourcePlay`, `alSourceStop`,
`alSourcePause`, `alSourcef` and `alSourcei` set and `alGetSourcef` reads. -/
structure Voice where
  state : ALState
  gain : ℚ
  offset : ℚ
  looping : Bool
  buffer : Nat
deriving DecidableEq, Inhabited

/-- What `Source.cpp` reads from classes that are not among the sources (`Sound.h`,
`Category.h`, `StreamSound.h` and `AudioManager.h` of version 2): whether the category is
streamed, `isLocked()`, the gains of the category and the manager, the id that
`allocateSourceId()` returns (0 when none is free), `getBuffer()`, and the effect on the
OpenAL source of `sound->update(k)`, `queueBuffers()`, `unqueueBuffers()` and
`rewindStream()`. -/
structure SourceEnv where
  streamed : Bool
  locked : Bool
  categoryGain : ℚ
  globalGain : ℚ
  allocated : Nat
  buffer : Nat
  soundUpdate : ℚ → Voice → Voice
  queueBuffers : Voice → Voice
  unqueueBuffers : Voice → Voice
  rewindStream : Voice → Voice

namespace Source

/-- The method `Source::isPlaying`. -/
def isPlaying (env : SourceEnv) (s : Source) (v : Voice) : Bool :=
  if s.sourceId = 0 then false
  else if env.streamed then !s.isPaused
  else decide (v.state = ALState.playing)

/-- The method `Source::unbind`. -/
def unbind (env : SourceEnv) (s : Source) : Source :=
  if !env.locked then { s with sourceId := 0, bound := false } else s

/-- The method `Source::_stop(fadeTime, pause)`. -/
def _stop (env : SourceEnv) (fadeTime : ℚ) (pause : Bool) (s : Source) (v : Voice) :
    Source × Voice :=
  if s.sourceId = 0 then (s, v)
  else if fadeTime > 0 then ({ s with fadeSpeed := -1 / fadeTime, paused := pause }, v)
  else
    let s1 := { s with fadeTime := 0, fadeSpeed := 0 }
    if pause then
      let s2 := { s1 with sampleOffset := v.offset }
      let v2 :=
        if env.streamed then env.unqueueBuffers { v with state := ALState.paused }
        else { v with state := ALState.stopped }
      let s3 := if !env.locked then { s2 with sourceId := 0 } else s2
      ({ s3 with paused := pause }, v2)
    else
      let v2 := { v with state := ALState.stopped }
      let v3 := if env.streamed then env.rewindStream v2 else v2
      ({ unbind env s1 with paused := pause }, v3)

/-- The method `Source::stop(fadeTime)`. -/
def stop (env : SourceEnv) (fadeTime : ℚ) (s : Source) (v : Voice) : Source × Voice :=
  _stop env fadeTime false s v

/-- The method `Source::pause(fadeTime)`. -/
def pause (env : SourceEnv) (fadeTime : ℚ) (s : Source) (v : Voice) : Source × Voice :=
  _stop env fadeTime true s v

/-- The method `Source::play(fadeTime, looping)`; the `Bool` says whether it returned the
source (`true`) or `NULL`. -/
def play (env : SourceEnv) (fadeTime : ℚ) (looping : Bool) (s : Source) (v : Voice) :
    (Source × Voice) × Bool :=
  let s1 := if s.sourceId = 0 then { s with sourceId := env.allocated } else s
  if s1.sourceId = 0 then ((s1, v), false)
  else
    let s2 := if !s1.paused then { s1 with looping := looping } else s1
    let v1 :=
      if env.streamed then { env.queueBuffers v with looping := false }
      else if !s2.isPaused then { v with buffer := env.buffer, looping := s2.looping }
      else v
    let v2 := if s2.isPaused then { v1 with offset := s2.sampleOffset } else v1
    let alreadyFading := s2.isFading
    let s3 :=
      if fadeTime > 0 then { s2 with fadeSpeed := 1 / fadeTime }
      else { s2 with fadeTime := 1, fadeSpeed := 0 }
    let v3 := { v2 with gain := s3.fadeTime * s3.gain * env.categoryGain * env.globalGain }
    let v4 := if !alreadyFading then { v3 with state := ALState.playing } else v3
    (({ s3 with paused := false }, v4), true)

/-- The fade step of `Source::update`, run when the source is playing and fading; `pause()`
and `stop()` are the calls with their default fade time 0. The `float` fields are read as exact
rational numbers here: no operation rounds, overflows or gives a value that is not a number.
`Float32.Source.updateFade` is the same step in binary32 arithmetic. -/
def updateFade (env : SourceEnv) (k : ℚ) (s : Source) (v : Voice) : Source × Voice :=
  let s1 := { s with fadeTime := s.fadeTime + s.fadeSpeed * k }
  if s1.fadeTime ≥ 1 ∧ s1.fadeSpeed > 0 then
    ({ s1 with fadeTime := 1, fadeSpeed := 0 },
      { v with gain := s1.gain * env.categoryGain * env.globalGain })
  else if s1.fadeTime ≤ 0 ∧ s1.fadeSpeed < 0 then
    ({ (_stop env 0 s1.paused s1 v).1 with fadeTime := 0, fadeSpeed := 0 },
      (_stop env 0 s1.paused s1 v).2)
  else
    (s1, { v with gain := s1.fadeTime * s1.gain * env.categoryGain * env.globalGain })

/-- The method `Source::update(k)`. -/
def update (env : SourceEnv) (k : ℚ) (s : Source) (v : Voice) : Source × Voice :=
  if s.sourceId = 0 then (s, v)
  else
    let v1 := env.soundUpdate k v
    let r :=
      if isPlaying env s v1 && s.isFading then updateFade env k s v1 else (s, v1)
    if !isPlaying env r.1 r.2 && !r.1.isPaused then (unbind env r.1, r.2) else r

end Source

/-- A call of one of the methods `play`, `stop`, `pause` and `update` of a `Source`. -/
inductive SourceCall where
  | play (fadeTime : ℚ) (looping : Bool)
  | stop (fadeTime : ℚ)
  | pause (fadeTime : ℚ)
  | update (k : ℚ)

namespace Source

/-- The source and its OpenAL source after one call. -/
def call (env : SourceEnv) (sv : Source × Voice) : SourceCall → Source × Voice
  | SourceCall.play fadeTime looping => (play env fadeTime looping sv.1 sv.2).1
  | SourceCall.stop fadeTime => stop env fadeTime sv.1 sv.2
  | SourceCall.pause fadeTime => pause env fadeTime sv.1 sv.2
  | SourceCall.update k => update env k sv.1 sv.2

/-- The source and its OpenAL source after a sequence of calls. -/
def calls (env : SourceEnv) (cs : List SourceCall) (sv : Source × Voice) : Source × Voice :=
  cs.foldl (call env) sv

end Source

/-- An environment for running a `Source`: a sound that is not streamed and not locked, with
gains 1, source id 1 free, buffer 7, and a `sound->update` that leaves the OpenAL source
alone. -/
def demoSourceEnv : SourceEnv where
  streamed := false
  locked := false
  categoryGain := 1
  globalGain := 1
  allocated := 1
  buffer := 7
  soundUpdate := fun _ v => v
  queueBuffers := fun v => v
  unqueueBuffers := fun v => v
  rewindStream := fun v => v

/-- An OpenAL source that has not been started. -/
def demoVoice : Voice := ⟨ALState.initial, 1, 0, false, 0⟩

/-! ## The name of a sound in version 2 (`Sound2.cpp`, `SoundBuffer.cpp`) -/

namespace hstr

/-- Modelled from the spec: `hstr::replace` belongs to hltypes, which is not among the
sources; for one-character arguments it is taken as the string in which every `what` has
become `with`, as the derived name of the specification needs it. -/
def replace (what withWhat : Char) (s : List Char) : List Char :=
  s.map (fun c => if c = what then withWhat else c)

/-- Modelled from the spec: splitting at a delimiter from the left, at most `n` times; the
helper of `rsplit`. -/
def splitLeft (d : Char) : Nat → List Char → List (List Char)
  | _, [] => [[]]
  | 0, c :: cs => [c :: cs]
  | n + 1, c :: cs =>
    if c = d then [] :: splitLeft d n cs
    else
      match splitLeft d (n + 1) cs with
      | [] => [[c]]
      | h :: t => (c :: h) :: t

/-- Modelled from the spec: `hstr::rsplit` belongs to hltypes, which is not among the
sources; `rsplit(delimiter, n)` is taken as splitting from the right, at most `n` times, or
without limit when `n` is left out. -/
def rsplit (d : Char) (n : Option Nat) (s : List Char) : List (List Char) :=
  ((splitLeft d (n.getD s.length) s.reverse).map List.reverse).reverse

end hstr

namespace harray

/-- Modelled from the spec: `harray::pop_back` belongs to hltypes, which is not among the
sources; it is taken as giving the last element. -/
def pop_back (a : List (List Char)) : List Char := a.getLastD []

/-- Modelled from the spec: `harray::pop_front` belongs to hltypes, which is not among the
sources; it is taken as giving the first element. -/
def pop_front (a : List (List Char)) : List Char := a.headD []

end harray

namespace Sound2

/-- The name `Sound2::Sound2` and `SoundBuffer::SoundBuffer` compute:
`prefix + hstr(filename).replace("\\", "/").rsplit("/").pop_back().rsplit(".", 1).pop_front()`. -/
def name (pfx filename : String) : String :=
  pfx ++ String.mk
    (harray.pop_front (hstr.rsplit '.' (some 1)
      (harray.pop_back (hstr.rsplit '/' none (hstr.replace '\\' '/' filename.toList)))))

end Sound2

namespace hrdir

/-- Modelled from the spec: `hrdir::baseName` belongs to hltypes, which is not among the
sources; it is taken as the basename of the specification: the last component of a path, `\`
counting as `/`. -/
def baseName (path : List Char) : List Char :=
  harray.pop_back (hstr.rsplit '/' none (hstr.replace '\\' '/' path))

end hrdir

namespace hresource

/-- Modelled from the spec: `hresource::withoutExtension` belongs to hltypes, which is not
among the sources; it is taken as the name without extension of the specification: what
precedes the last `.` of the name, the whole name when it has none. -/
def withoutExtension (name : List Char) : List Char :=
  harray.pop_front (hstr.rsplit '.' (some 1) name)

end hresource

/-- The name `Sound::Sound(filename, category, prefix)` computes (`Sound.cpp`, line 29):
`prefix + hresource::withoutExtension(hrdir::baseName(filename))`. -/
def Sound.nameOfFile (pfx filename : String) : String :=
  pfx ++ String.mk (hresource.withoutExtension (hrdir.baseName filename.toList))

/-! ## A backend that records what its players are asked -/

/-- A call of a method of `Player`. -/
inductive PlayerCall where
  | setGain (gain : ℚ)
  | play (fadeTime : ℚ) (looping : Bool)
  | playAsync (fadeTime : ℚ) (looping : Bool)
  | stop (fadeTime : ℚ)
  | pause (fadeTime : ℚ)
  | update (timeDelta : ℚ)
  | systemUpdateGain
deriving DecidableEq

/-- Whether the latest of the `play`, `stop` and `pause` calls of a record (newest first) is a
`play`. -/
def voiceOn : List PlayerCall → Bool
  | [] => false
  | PlayerCall.play _ _ :: _ => true
  | PlayerCall.playAsync _ _ :: _ => true
  | PlayerCall.stop _ :: _ => false
  | PlayerCall.pause _ :: _ => false
  | _ :: rest => voiceOn rest

/-- A backend whose player is the record of the calls made on it, newest first, and plays from
a `play` to the next `stop` or `pause`; the shared state counts the calls into buffers and the
async loader. Files and names are as in `flagBackend`. -/
def logBackend : Backend (List PlayerCall) Nat where
  categoryGainInit := ⟨1, -1, -1, 0⟩
  categoryIsGainFading := fun g => decide (g.fadeTarget ≥ 0) && decide (g.fadeSpeed > 0)
  categoryUpdate := fun dt g => { g with fadeTime := g.fadeTime + g.fadeSpeed * dt }
  baseNameWithoutExtension := fun f => f
  fileFormat := fun f => if f = "" then Format.Unknown else Format.WAV
  memoryFormat := Format.Memory
  bufferNew := fun _ _ _ w => w
  bufferNewMemory := fun _ _ _ w => w
  bufferDelete := fun _ w => w
  bufferUpdate := fun _ _ w => w + 1
  bufferTryClearMemory := fun _ w => (false, w)
  bufferAsyncUpdate := fun w => w + 1
  playerNew := fun _ _ w => ([], w)
  playerDelete := fun _ w => w
  isPlaying := voiceOn
  isFading := fun _ => false
  isFadingIn := fun _ => false
  isFadingOut := fun _ => false
  isAsyncPlayQueued := fun _ => false
  paused := fun _ => false
  looping := fun _ => false
  fadeTime := fun _ => 0
  setGain := fun g log w => (PlayerCall.setGain g :: log, w)
  play := fun f l log w => (PlayerCall.play f l :: log, w)
  playAsync := fun f l log w => (PlayerCall.playAsync f l :: log, w)
  stop := fun f log w => (PlayerCall.stop f :: log, w)
  pause := fun f log w => (PlayerCall.pause f :: log, w)
  update := fun dt log w => (PlayerCall.update dt :: log, w)
  systemUpdateGain := fun log w => (PlayerCall.systemUpdateGain :: log, w)
  suspendSystem := fun w => w
  resumeSystem := fun w => w

/-- A manager on `logBackend` with category `sfx`, sound `m` and one managed player on it (at
address 4), started by `play("m")`; `threaded` says whether it has an update thread. -/
def logDemo (threaded : Bool) : AudioManager (List PlayerCall) Nat :=
  (AudioManager._play logBackend "m" 0 false 1
    (AudioManager._createSound logBackend "m" "sfx" ""
      (AudioManager._createCategory logBackend "sfx" BufferMode.Full SourceMode.Ram
        (AudioManager.create 0 threaded 0 "" [".wav"] (fun _ => []) 0)).state).state).state

/-- A separator normalisation: every `\` becomes `/`. -/
def slashed (x : String) : String :=
  String.mk (x.toList.map (fun c => if c = '\\' then '/' else c))

/-- A file system that knows the one name `a\b.ogg`, in this form only, and normalises
separators with `slashed`; no name has an extension to strip. -/
def backslashFiles : AudioManager.Files where
  fileExists := fun x => x == "a\\b.ogg"
  systemize := slashed
  withoutExtension := fun x => x

/-- A file system with the one file `a/b.ogg`, known under either separator, which
normalises separators with `slashed`; the name `a\b.wav` has the extension `.wav`. -/
def slashFiles : AudioManager.Files where
  fileExists := fun x => slashed x == "a/b.ogg"
  systemize := slashed
  withoutExtension := fun x => if x = "a\\b.wav" then "a\\b" else x

/-! ## The mutex in `AudioManager.cpp` -/

/-- The fields of the manager that the bodies transcribed below read or write. -/
inductive Field where
  | thread | threadRunning | updateTime | players | managedPlayers | sounds | categories
  | extensions
deriving DecidableEq, Repr

/-- What a statement of a method body does with the manager mutex or the manager: takes the
mutex (`hmutex::ScopeLock lock(&this->mutex)` or `lock.acquire(&this->mutex)`), gives it up
(`lock.release()`), reads a field of the manager, writes one, calls an underscore-prefixed
method, or makes another call (`hlog::write`, `this->thread->join()`, `hthread::sleep`,
`delete`, `isThreaded()`, a call into hltypes). -/
inductive LockEvent where
  | acquire
  | release
  | read (field : Field)
  | write (field : Field)
  | internal (method : String)
  | other (call : String)
deriving DecidableEq, Repr

/-- The event sequences of the paths through a piece of code. -/
abbrev Paths := List (List LockEvent)

namespace Paths

/-- One statement with one event. -/
def ev (e : LockEvent) : Paths := [[e]]

/-- The statement `a` followed by the statement `b`. -/
def seq (a b : Paths) : Paths := a.flatMap (fun x => b.map (fun y => x ++ y))

/-- The statements of a block, in order. -/
def block (l : List Paths) : Paths := l.foldr seq [[]]

/-- The statement `if (test) { body }`. -/
def cond (test body : Paths) : Paths := seq test ([[]] ++ body)

/-- The paths through at most `n` rounds of a loop body, one after the other. -/
def rounds (body : Paths) : Nat → Paths
  | 0 => [[]]
  | n + 1 => [[]] ++ seq body (rounds body n)

/-- A `foreach` loop over a container, which makes at most `n` rounds of its body. -/
def loop (n : Nat) (body : Paths) : Paths := rounds body n

/-- The statement `while (test) { body }`, which makes at most `n` rounds of its body: the
test, and after each round the test again. -/
def whileLoop (n : Nat) (test body : Paths) : Paths := seq test (rounds (seq body test) n)

/-- A public method of the form `hmutex::ScopeLock lock(&this->mutex); [return]
this->_m(...);`, the arguments being parameters of the method. -/
def wrapper (internalName : String) : Paths :=
  block [ev LockEvent.acquire, ev (LockEvent.internal internalName)]

/-- No path gives the mutex up. -/
def Quiet (P : Paths) : Prop := ∀ p ∈ P, LockEvent.release ∉ p

end Paths

namespace LockEvent

/-- The field accesses and the calls of underscore-prefixed methods that a path makes while
the mutex is not held, `held` saying whether it is held when the path starts. -/
def unguarded : Bool → List LockEvent → List LockEvent
  | _, [] => []
  | _, acquire :: rest => unguarded true rest
  | _, release :: rest => unguarded false rest
  | held, other _ :: rest => unguarded held rest
  | held, e :: rest => (if held then [] else [e]) ++ unguarded held rest

/-- Whether the mutex is held after a path, `held` saying whether it is held when the path
starts. -/
def heldAfter : Bool → List LockEvent → Bool
  | held, [] => held
  | _, acquire :: rest => heldAfter true rest
  | _, release :: rest => heldAfter false rest
  | held, _ :: rest => heldAfter held rest

/-- The mutex is held at every event of the path that follows its first one. -/
def keepsLock (p : List LockEvent) : Bool := !p.tail.contains release

/-- Each `lock.release()` of the path is followed at once by `this->thread->join()`, which
reads the field `thread`, and by `lock.acquire`. -/
def releasedForJoin : List LockEvent → Bool
  | [] => true
  | release :: read Field.thread :: other "hthread::join" :: acquire :: rest =>
    releasedForJoin rest
  | release :: _ => false
  | _ :: rest => releasedForJoin rest

/-- Each `lock.release()` of the path is either its last event or followed at once by
`hthread::sleep(xal::manager->updateTime * 1000.0f)`, which reads the field `updateTime`, and
by `lock.acquire`. -/
def releasedForSleep : List LockEvent → Bool
  | [] => true
  | [release] => true
  | release :: read Field.updateTime :: other "hthread::sleep" :: acquire :: rest =>
    releasedForSleep rest
  | release :: _ => false
  | _ :: rest => releasedForSleep rest

end LockEvent

namespace Locking

open Paths LockEvent

/-- The method `init` (lines 118 to 125). -/
def init : Paths :=
  block [ev acquire, cond (ev (read Field.thread)) (ev (internal "_startThreading"))]

/-- The method `clear` (lines 134 to 168), each of its three loops making at most `n`
rounds. -/
def clear (n : Nat) : Paths :=
  block [
    ev acquire,
    cond (ev (read Field.threadRunning))
      (block [ev (other "hlog::write"), ev (write Field.threadRunning), ev release,
        ev (read Field.thread), ev (other "hthread::join"), ev acquire]),
    cond (ev (read Field.thread))
      (block [ev (read Field.thread), ev (other "delete"), ev (write Field.thread)]),
    ev (internal "_update"),
    ev (read Field.players),
    loop n (block [ev (internal "Player::_stop"), ev (other "delete")]),
    ev (write Field.players),
    ev (write Field.managedPlayers),
    ev (read Field.sounds),
    loop n (ev (other "delete")),
    ev (write Field.sounds),
    ev (read Field.categories),
    loop n (ev (other "delete")),
    ev (write Field.categories)]

/-- The static method `_update(hthread* thread)`, which the update thread runs (lines 254 to
265), its loop making at most `n` rounds; `xal::manager->` is what `this->` is elsewhere. -/
def _update_thread (n : Nat) : Paths :=
  block [
    ev acquire,
    whileLoop n (cond (ev (read Field.thread)) (ev (read Field.threadRunning)))
      (block [ev (read Field.updateTime), ev (internal "_update"), ev release,
        ev (read Field.updateTime), ev (other "hthread::sleep"), ev acquire]),
    ev release]

/-- The method `update` (lines 267 to 274). -/
def update : Paths :=
  block [ev acquire, cond (ev (other "isThreaded")) (ev (internal "_update"))]

/-- The method `addAudioExtension` (lines 1000 to 1003): `this->extensions += extension;`. -/
def addAudioExtension : Paths := ev (write Field.extensions)

/-- The loop `foreachc (hstr, it, this->extensions)` of `findAudioFile`, run to its end in at
most `n` rounds. -/
def extensionLoop (n : Nat) : Paths :=
  block [ev (read Field.extensions),
    loop n (block [ev (other "hdbase::systemize"), ev (other "hresource::exists")])]

/-- The same loop left by the `return name;` of its body, after at most `n` rounds that did
not return. -/
def extensionReturn (n : Nat) : Paths :=
  block [extensionLoop n, ev (other "hdbase::systemize"), ev (other "hresource::exists")]

/-- The method `findAudioFile` (lines 1005 to 1033): the path that returns for an existing
file, the paths that return from the first loop, and the paths that go through the first
loop and then, for a name with an extension, return from the second loop or go through
it. -/
def findAudioFile (n : Nat) : Paths :=
  seq (ev (other "hresource::exists"))
    (ev (other "hdbase::systemize") ++ extensionReturn n ++
      block [extensionLoop n, ev (other "hfile::withoutExtension"),
        [[]] ++ extensionReturn n ++ extensionLoop n])

/-- The public methods between `clear` and `addAudioExtension`, in the order of the file,
each with the paths through its body. -/
def lockedMethods : List (String × Paths) :=
  [("getGlobalGain", wrapper "_getGlobalGain"),
    ("getGlobalGainFadeTarget", wrapper "_getGlobalGainFadeTarget"),
    ("setGlobalGain", wrapper "_setGlobalGain"),
    ("getPlayers", wrapper "_getPlayers"),
    ("getSounds", wrapper "_getSounds"),
    ("isGlobalGainFading", wrapper "_isGlobalGainFading"),
    ("update", update),
    ("createCategory", wrapper "_createCategory"),
    ("getCategory", wrapper "_getCategory"),
    ("hasCategory", wrapper "_hasCategory"),
    ("createSound", wrapper "_createSound"),
    ("createSound", wrapper "_createSound"),
    ("getSound", wrapper "_getSound"),
    ("hasSound", wrapper "_hasSound"),
    ("destroySound", wrapper "_destroySound"),
    ("destroySoundsWithPrefix", wrapper "_destroySoundsWithPrefix"),
    ("createSoundsFromPath", wrapper "_createSoundsFromPath"),
    ("createSoundsFromPath", wrapper "_createSoundsFromPath"),
    ("createPlayer", wrapper "_createPlayer"),
    ("destroyPlayer", wrapper "_destroyPlayer"),
    ("play", wrapper "_play"),
    ("playAsync", wrapper "_playAsync"),
    ("stop", wrapper "_stop"),
    ("stopFirst", wrapper "_stopFirst"),
    ("stopAll", wrapper "_stopAll"),
    ("stopCategory", wrapper "_stopCategory"),
    ("getPlayingCount", wrapper "_getPlayingCount"),
    ("getFadingCount", wrapper "_getFadingCount"),
    ("getFadingInCount", wrapper "_getFadingInCount"),
    ("getFadingOutCount", wrapper "_getFadingOutCount"),
    ("fadeGlobalGain", wrapper "_fadeGlobalGain"),
    ("clearMemory", wrapper "_clearMemory"),
    ("suspendAudio", wrapper "_suspendAudio"),
    ("resumeAudio", wrapper "_resumeAudio")]

/-- The public methods that `AudioManager.cpp` defines, in the order of the file, each with
the paths through its body on which no loop makes more than `n` rounds. -/
def publicMethods (n : Nat) : List (String × Paths) :=
  ("init", init) :: ("clear", clear n) :: lockedMethods ++
    [("addAudioExtension", addAudioExtension), ("findAudioFile", findAudioFile n)]

/-- The path of `clear` on a manager whose update thread runs and which has no player, sound
or category. -/
def clearStoppingThread : List LockEvent :=
  [acquire, read Field.threadRunning, other "hlog::write", write Field.threadRunning, release,
    read Field.thread, other "hthread::join", acquire, read Field.thread, read Field.thread,
    other "delete", write Field.thread, internal "_update", read Field.players,
    write Field.players, write Field.managedPlayers, read Field.sounds, write Field.sounds,
    read Field.categories, write Field.categories]

/-- The path of the thread function that makes one round of its loop and then finds
`threadRunning` cleared. -/
def threadOneRound : List LockEvent :=
  [acquire, read Field.thread, read Field.threadRunning, read Field.updateTime,
    internal "_update", release, read Field.updateTime, other "hthread::sleep", acquire,
    read Field.thread, read Field.threadRunning, release]

end Locking

/-! ## The OpenSLES player (`OpenSLES_Player.cpp`) -/

namespace OpenSLES

/-- The constant `NORMAL_BUFFER_COUNT` of `OpenSLES_Player.cpp`. -/
def NORMAL_BUFFER_COUNT : Nat := 2

/-- The constant `STREAM_BUFFER_COUNT` of `AudioManager.h`. -/
def STREAM_BUFFER_COUNT : Nat := 4

/-- The constant `STREAM_BUFFER_SIZE` of `AudioManager.h`. -/
def STREAM_BUFFER_SIZE : Nat := 32768

/-- The arguments of a call of `Enqueue`: the whole stream of the buffer with its size, or
`streamBuffers[index]` with a size. -/
inductive SLBuffer where
  | pcm (size : Int)
  | slot (index : Int) (size : Int)
deriving DecidableEq, Repr

/-- The play states `SL_PLAYSTATE_STOPPED`, `SL_PLAYSTATE_PAUSED`, `SL_PLAYSTATE_PLAYING`. -/
inductive SLPlayState where
  | stopped | paused | playing
deriving DecidableEq, Repr

/-- The fields of `OpenSLES_Player` and those of `Player` that `OpenSLES_Player.cpp` uses
(`paused`, `looping`, `bufferIndex`, `buffer`); `streamed` is `sound->isStreamed()`, `queue`
the OpenSL ES player object behind the four interface pointers, each of which is `true` when
it is not `NULL`, and `streamBuffers k j` is byte `j` of `streamBuffers[k]`. -/
structure Player (Q BS : Type) where
  playing : Bool
  active : Bool
  stillPlaying : Bool
  playerObject : Bool
  player : Bool
  playerVolume : Bool
  playerBufferQueue : Bool
  paused : Bool
  looping : Bool
  streamed : Bool
  bufferIndex : Nat
  buffersEnqueued : Int
  streamBuffers : Nat → Nat → Nat
  queue : Q
  buffer : BS

/-- What `OpenSLES_Player.cpp` calls outside itself: OpenSL ES (`GetState` gives the count of
the queue, `Enqueue`, `Clear`, `SetPlayState` and `Destroy`; a call that fails gives `none`),
the class `Buffer` (`load(looping, size)` with the size it returns, the size and the bytes of
`getStream()`, `rewind()`) and `Player::_stop()`. -/
structure Env (Q BS : Type) where
  getState : Q → Option Int
  enqueue : Q → SLBuffer → Option Q
  clear : Q → Q
  setPlayState : SLPlayState → Q → Option Q
  destroy : Q → Q
  load : Bool → Int → BS → Int × BS
  streamSize : BS → Int
  streamByte : BS → Nat → Nat
  rewind : BS → BS
  stop : Player Q BS → Player Q BS

variable {Q BS : Type}

/-- The method `_getProcessedBuffersCount`. -/
def _getProcessedBuffersCount (E : Env Q BS) (p : Player Q BS) : Int :=
  match E.getState p.queue with
  | none => 0
  | some count => p.buffersEnqueued - count

/-- The method `_enqueueBuffer(this->buffer->getStream())`. -/
def _enqueueBuffer (E : Env Q BS) (p : Player Q BS) : Player Q BS :=
  match E.enqueue p.queue (SLBuffer.pcm (E.streamSize p.buffer)) with
  | some q => { p with queue := q, buffersEnqueued := p.buffersEnqueued + 1 }
  | none => p

/-- The loop `for_iter (i, 0, count) { this->_enqueueBuffer(this->buffer->getStream()); }`. -/
def enqueueTimes (E : Env Q BS) : Nat → Player Q BS → Player Q BS
  | 0, p => p
  | n + 1, p => enqueueTimes E n (_enqueueBuffer E p)

/-- One round of the loop of `_fillStreamBuffers`, without the step `size -= STREAM_BUFFER_SIZE`:
`i` is the loop counter, `size` the local `size`, `stream` the bytes of `getStream()`; the
`memcpy` writes `currentSize = hmin(size, STREAM_BUFFER_SIZE)` bytes and the `memset` the rest
of the slot when `currentSize < STREAM_BUFFER_SIZE`. -/
def fillSlot (stream : Nat → Nat) (i : Nat) (size : Int) (p : Player Q BS) : Player Q BS :=
  { p with
    streamBuffers := Function.update p.streamBuffers p.bufferIndex
      (fun j =>
        if (j : Int) < min size STREAM_BUFFER_SIZE then stream (i * STREAM_BUFFER_SIZE + j)
        else if min size STREAM_BUFFER_SIZE < STREAM_BUFFER_SIZE
            ∧ (j : Int) < STREAM_BUFFER_SIZE then 0
        else p.streamBuffers p.bufferIndex j)
    bufferIndex := (p.bufferIndex + 1) % STREAM_BUFFER_COUNT }

/-- The loop of `_fillStreamBuffers`: `n` rounds are left, `i` is the loop counter, `size`
the local `size`, `stream` the bytes of `getStream()`. -/
def fillLoop (stream : Nat → Nat) : Nat → Nat → Int → Player Q BS → Player Q BS
  | 0, _, _, p => p
  | n + 1, i, size, p =>
    fillLoop stream n (i + 1) (size - STREAM_BUFFER_SIZE) (fillSlot stream i size p)

/-- The method `_fillStreamBuffers(count)`, with the number it returns. -/
def _fillStreamBuffers (E : Env Q BS) (count : Int) (p : Player Q BS) : Int × Player Q BS :=
  let r := E.load p.looping (count * STREAM_BUFFER_SIZE) p.buffer
  let filled := (r.1 + STREAM_BUFFER_SIZE - 1).tdiv STREAM_BUFFER_SIZE
  (filled, fillLoop (E.streamByte r.2) filled.toNat 0 r.1 { p with buffer := r.2 })

/-- The loop of `_enqueueStreamBuffers`: `n` rounds are left; it ends at the first `Enqueue`
that fails. The result is `queued` and the queue. -/
def enqueueStreamLoop (E : Env Q BS) : Nat → Int → Int → Q → Int × Q
  | 0, _, queued, q => (queued, q)
  | n + 1, index, queued, q =>
    match E.enqueue q (SLBuffer.slot index STREAM_BUFFER_SIZE) with
    | none => (queued, q)
    | some q1 =>
      enqueueStreamLoop E n ((index + 1).tmod STREAM_BUFFER_COUNT) (queued + 1) q1

/-- The method `_enqueueStreamBuffers(count)`. -/
def _enqueueStreamBuffers (E : Env Q BS) (count : Int) (p : Player Q BS) : Player Q BS :=
  let index := ((p.bufferIndex : Int) + STREAM_BUFFER_COUNT - count).tmod STREAM_BUFFER_COUNT
  let r := enqueueStreamLoop E count.toNat index 0 p.queue
  { p with queue := r.2, buffersEnqueued := p.buffersEnqueued + r.1 }

/-- The method `_systemPrepareBuffer`. -/
def _systemPrepareBuffer (E : Env Q BS) (p : Player Q BS) : Player Q BS :=
  if !p.streamed then
    if !p.looping then
      if !p.paused then _enqueueBuffer E p else p
    else
      let count : Int :=
        if p.paused then NORMAL_BUFFER_COUNT - p.buffersEnqueued else NORMAL_BUFFER_COUNT
      let p1 := if p.paused then p else { p with buffersEnqueued := 0 }
      enqueueTimes E count.toNat p1
  else
    let count : Int :=
      if p.paused then STREAM_BUFFER_COUNT - p.buffersEnqueued else STREAM_BUFFER_COUNT
    let p1 := if p.paused then p else { p with buffersEnqueued := 0 }
    if count > 0 then
      if (_fillStreamBuffers E count p1).1 > 0 then
        _enqueueStreamBuffers E (_fillStreamBuffers E count p1).1
          (_fillStreamBuffers E count p1).2
      else (_fillStreamBuffers E count p1).2
    else p1

/-- The state of `_systemUpdateNormal` of a looping player when it comes to the test
`buffersEnqueued == 0`. -/
def updateNormalRequeue (E : Env Q BS) (p : Player Q BS) : Player Q BS :=
  let processed := _getProcessedBuffersCount E p
  let p1 :=
    if processed > 0 then
      enqueueTimes E processed.toNat
        { p with buffersEnqueued := p.buffersEnqueued - processed }
    else p
  { p1 with stillPlaying := true }

/-- The method `_systemUpdateNormal`. -/
def _systemUpdateNormal (E : Env Q BS) (p : Player Q BS) : Player Q BS :=
  if p.looping then
    if (updateNormalRequeue E p).buffersEnqueued = 0 then E.stop (updateNormalRequeue E p)
    else updateNormalRequeue E p
  else p

/-- The method `_systemUpdateStream`; it returns 0. -/
def _systemUpdateStream (E : Env Q BS) (p : Player Q BS) : Player Q BS :=
  if p.buffersEnqueued = 0 then E.stop p
  else
    let processed := _getProcessedBuffersCount E p
    if processed = 0 then { p with stillPlaying := true }
    else
      let p1 := { p with buffersEnqueued := p.buffersEnqueued - processed }
      let p2 :=
        if (_fillStreamBuffers E processed p1).1 > 0 then
          { _enqueueStreamBuffers E (_fillStreamBuffers E processed p1).1
              (_fillStreamBuffers E processed p1).2 with stillPlaying := true }
        else (_fillStreamBuffers E processed p1).2
      if p2.buffersEnqueued = 0 then E.stop p2 else p2

/-- The method `_systemStop`; it returns 0. -/
def _systemStop (E : Env Q BS) (p : Player Q BS) : Player Q BS :=
  if p.playing && p.player then
    if p.paused then
      match E.setPlayState SLPlayState.paused p.queue with
      | some q =>
        { p with
          queue := q
          buffersEnqueued :=
            p.buffersEnqueued - _getProcessedBuffersCount E { p with queue := q }
          playing := false
          stillPlaying := false
          active := false }
      | none => { p with paused := false }
    else
      match E.setPlayState SLPlayState.stopped p.queue with
      | some q =>
        { p with
          bufferIndex := 0
          buffer := E.rewind p.buffer
          queue := E.destroy (E.clear q)
          buffersEnqueued := 0
          playing := false
          stillPlaying := false
          active := false
          player := false
          playerVolume := false
          playerBufferQueue := false
          playerObject := false }
      | none => p
  else p

/-- The queue after the buffers of a list have been enqueued in order, when `Enqueue` has
accepted each of them. -/
def enqueueList (E : Env Q BS) : List SLBuffer → Q → Option Q
  | [], q => some q
  | b :: bs, q =>
    match E.enqueue q b with
    | some q1 => enqueueList E bs q1
    | none => none

/-- The slots of the ring from slot `b` on, `n` of them, each with the full slot length. -/
def ringSlots (b n : Nat) : List SLBuffer :=
  (List.range n).map
    (fun i => SLBuffer.slot (((b + i) % STREAM_BUFFER_COUNT : Nat) : Int) STREAM_BUFFER_SIZE)

/-- An OpenSL ES queue that holds at most `capacity` buffers and is known by the number it
holds, a buffer whose `load` delivers as many bytes as asked for but at most 40000, whose
stream has size 100 for `_enqueueBuffer` and byte `j % 256` at place `j`, and a `_stop()` that
clears `playing`. -/
def demoEnv (capacity : Nat) : Env Nat Unit where
  getState := fun q => some q
  enqueue := fun q _ => if q < capacity then some (q + 1) else none
  clear := fun _ => 0
  setPlayState := fun _ q => some q
  destroy := fun _ => 0
  load := fun _ size b => (min size 40000, b)
  streamSize := fun _ => 100
  streamByte := fun _ j => j % 256
  rewind := fun b => b
  stop := fun p => { p with playing := false }

/-- A player whose OpenSL ES objects `_systemPreparePlay` has created, for a sound that is
streamed or not and a given `looping`; its queue is empty. -/
def demoPlayer (streamed looping : Bool) : Player Nat Unit where
  playing := false
  active := false
  stillPlaying := false
  playerObject := true
  player := true
  playerVolume := true
  playerBufferQueue := true
  paused := false
  looping := looping
  streamed := streamed
  bufferIndex := 0
  buffersEnqueued := 0
  streamBuffers := fun _ _ => 0
  queue := 0
  buffer := ()

/-- A player of a streamed sound whose next ring slot is the last one. -/
def demoStream : Player Nat Unit :=
  { demoPlayer true false with bufferIndex := 3 }

/-- The player after the backend has played every buffer of its queue. -/
def demoPlayed (p : Player Nat Unit) : Player Nat Unit :=
  { p with queue := 0 }

/-- A player that is not streamed and not paused after `n` rounds, in each of which the backend
plays what is in its queue of `NORMAL_BUFFER_COUNT` buffers and `_systemPrepareBuffer` is
called. -/
def demoRounds (looping : Bool) : Nat → Player Nat Unit
  | 0 => demoPlayer false looping
  | n + 1 =>
    _systemPrepareBuffer (demoEnv NORMAL_BUFFER_COUNT) (demoPlayed (demoRounds looping n))

end OpenSLES

/-! ## The type `float` -/

/-- A value of the C++ type `float`, read as IEEE 754 binary32: not-a-number, an infinity
with its sign, or a finite number. A zero stands for both zeros of binary32. Every binary32
number is a `fin q`; the operations below round each result to binary32, to nearest with ties
to even, as the code does when each `float` operation is evaluated in `float` precision
(no wider intermediate format, no fused multiplication and addition). -/
inductive F32 where
  | nan
  | inf (negative : Bool)
  | fin (q : ℚ)
deriving DecidableEq

namespace F32

/-- The power `2 ^ e` of two. -/
def pow2 (e : Int) : ℚ :=
  if 0 ≤ e then ((2 ^ e.toNat : Nat) : ℚ) else mkRat 1 (2 ^ (-e).toNat)

/-- The loop of `natLog2`: `fuel` bounds the number of halvings. -/
def natLog2Loop : Nat → Nat → Nat
  | 0, _ => 0
  | fuel + 1, n => if n < 2 then 0 else natLog2Loop fuel (n / 2) + 1

/-- The position of the highest bit of `n`: the largest `k` with `2 ^ k ≤ n`, 0 for 0. -/
def natLog2 (n : Nat) : Nat := natLog2Loop n n

/-- The largest `k` with `2 ^ k ≤ |q|`, for `q` other than 0. -/
def ilog2 (q : ℚ) : Int :=
  if |q| < pow2 ((natLog2 q.num.natAbs : Int) - (natLog2 q.den : Int))
  then (natLog2 q.num.natAbs : Int) - (natLog2 q.den : Int) - 1
  else (natLog2 q.num.natAbs : Int) - (natLog2 q.den : Int)

/-- The integer nearest to `q`, the even one of the two when `q` is halfway between them. -/
def rne (q : ℚ) : Int :=
  if q - ⌊q⌋ < 1 / 2 then ⌊q⌋
  else if 1 / 2 < q - ⌊q⌋ then ⌊q⌋ + 1
  else if ⌊q⌋ % 2 = 0 then ⌊q⌋ else ⌊q⌋ + 1

/-- The exponent of the last place of the binary32 numbers around `q`: 24 significant bits,
and the spacing `2 ^ (-149)` of the subnormal numbers below `2 ^ (-126)`. -/
def ulpExp (q : ℚ) : Int := max (ilog2 q) (-126) - 23

/-- The number `q` rounded to the nearest multiple of its last place, ties to even. -/
def roundQ (q : ℚ) : ℚ := (rne (q / pow2 (ulpExp q)) : ℚ) * pow2 (ulpExp q)

/-- The `float` that a real result `q` of an operation is rounded to: the nearest binary32
number, ties to even, and an infinity when that exceeds the largest one. -/
def ofRat (q : ℚ) : F32 :=
  if pow2 128 ≤ |roundQ q| then inf (decide (q < 0)) else fin (roundQ q)

/-- The sum `x + y` of two `float`s. -/
def add : F32 → F32 → F32
  | fin x, fin y => ofRat (x + y)
  | fin _, inf b => inf b
  | inf a, fin _ => inf a
  | inf a, inf b => if a = b then inf a else nan
  | _, _ => nan

/-- The negation `-x`. -/
def neg : F32 → F32
  | fin x => fin (-x)
  | inf a => inf (!a)
  | nan => nan

/-- The difference `x - y`. -/
def sub (x y : F32) : F32 := add x (neg y)

/-- The product `x * y`. -/
def mul : F32 → F32 → F32
  | fin x, fin y => ofRat (x * y)
  | fin x, inf b => if x = 0 then nan else inf (b != decide (x < 0))
  | inf a, fin y => if y = 0 then nan else inf (a != decide (y < 0))
  | inf a, inf b => inf (a != b)
  | _, _ => nan

/-- The quotient `x / y`; a zero divisor is taken as `+0.0f`. -/
def div : F32 → F32 → F32
  | fin x, fin y =>
    if y = 0 then (if x = 0 then nan else inf (decide (x < 0))) else ofRat (x / y)
  | fin _, inf _ => fin 0
  | inf a, fin y => inf (a != decide (y < 0))
  | _, _ => nan

/-- The comparison `x < y`. -/
def lt : F32 → F32 → Bool
  | fin x, fin y => decide (x < y)
  | fin _, inf b => !b
  | inf a, fin _ => a
  | inf a, inf b => a && !b
  | _, _ => false

/-- The comparison `x <= y`. -/
def le : F32 → F32 → Bool
  | fin x, fin y => decide (x ≤ y)
  | fin _, inf b => !b
  | inf a, fin _ => a
  | inf a, inf b => a || !b
  | _, _ => false

/-- The comparison `x > y`. -/
def gt (x y : F32) : Bool := lt y x

/-- The comparison `x >= y`. -/
def ge (x y : F32) : Bool := le y x

/-- The comparison `x != y`, which holds when one of the two is not a number. -/
def ne : F32 → F32 → Bool
  | fin x, fin y => decide (x ≠ y)
  | inf a, inf b => a != b
  | _, _ => true



/-- Whether the value is not a number. -/
def isNaN : F32 → Bool
  | nan => true
  | _ => false

/-- Whether `0 <= x` and `x <= 1`. -/
def inUnit (x : F32) : Bool := le (fin 0) x && le x (fin 1)

end F32

/-! ## The OpenAL source of version 2 in `float` arithmetic -/

namespace Float32

/-- The fields of `Source` that `Source.cpp` sets in its constructor, with `sampleOffset`;
the `float` fields hold binary32 values. -/
structure Source where
  sourceId : Nat
  gain : F32
  looping : Bool
  paused : Bool
  fadeTime : F32
  fadeSpeed : F32
  bound : Bool
  sampleOffset : F32
deriving DecidableEq

/-- The OpenAL source behind a `sourceId`: what `alSourcePlay`, `alSourceStop`,
`alSourcePause`, `alSourcef` and `alSourcei` set and `alGetSourcef` reads. -/
structure Voice where
  state : ALState
  gain : F32
  offset : F32
  looping : Bool
  buffer : Nat
deriving DecidableEq

/-- What `Source.cpp` reads from classes that are not among the sources (`Sound.h`,
`Category.h`, `StreamSound.h` and `AudioManager.h` of version 2): whether the category is
streamed, `isLocked()`, the gains of the category and the manager, the id that
`allocateSourceId()` returns (0 when none is free), `getBuffer()`, and the effect on the
OpenAL source of `sound->update(k)`, `queueBuffers()`, `unqueueBuffers()` and
`rewindStream()`. -/
structure SourceEnv where
  streamed : Bool
  locked : Bool
  categoryGain : F32
  globalGain : F32
  allocated : Nat
  buffer : Nat
  soundUpdate : F32 → Voice → Voice
  queueBuffers : Voice → Voice
  unqueueBuffers : Voice → Voice
  rewindStream : Voice → Voice

namespace Source

/-- The method `Source::isFading`: `fadeSpeed != 0`. -/
def isFading (s : Source) : Bool := F32.ne s.fadeSpeed (F32.fin 0)

/-- The method `Source::isPaused`. -/
def isPaused (s : Source) : Bool := s.paused && !s.isFading

/-- The source `Source::Source` constructs. -/
def create : Source :=
  { sourceId := 0, gain := F32.fin 1, looping := false, paused := false, fadeTime := F32.fin 0,
    fadeSpeed := F32.fin 0, bound := true, sampleOffset := F32.fin 0 }

/-- The method `Source::isPlaying`. -/
def isPlaying (env : SourceEnv) (s : Source) (v : Voice) : Bool :=
  if s.sourceId = 0 then false
  else if env.streamed then !s.isPaused
  else decide (v.state = ALState.playing)

/-- The method `Source::unbind`. -/
def unbind (env : SourceEnv) (s : Source) : Source :=
  if !env.locked then { s with sourceId := 0, bound := false } else s

/-- The method `Source::_stop(fadeTime, pause)`. -/
def _stop (env : SourceEnv) (fadeTime : F32) (pause : Bool) (s : Source) (v : Voice) :
    Source × Voice :=
  if s.sourceId = 0 then (s, v)
  else if F32.gt fadeTime (F32.fin 0) then
    ({ s with fadeSpeed := F32.div (F32.fin (-1)) fadeTime, paused := pause }, v)
  else
    let s1 := { s with fadeTime := F32.fin 0, fadeSpeed := F32.fin 0 }
    if pause then
      let s2 := { s1 with sampleOffset := v.offset }
      let v2 :=
        if env.streamed then env.unqueueBuffers { v with state := ALState.paused }
        else { v with state := ALState.stopped }
      let s3 := if !env.locked then { s2 with sourceId := 0 } else s2
      ({ s3 with paused := pause }, v2)
    else
      let v2 := { v with state := ALState.stopped }
      let v3 := if env.streamed then env.rewindStream v2 else v2
      ({ unbind env s1 with paused := pause }, v3)

/-- The method `Source::stop(fadeTime)`. -/
def stop (env : SourceEnv) (fadeTime : F32) (s : Source) (v : Voice) : Source × Voice :=
  _stop env fadeTime false s v

/-- The method `Source::pause(fadeTime)`. -/
def pause (env : SourceEnv) (fadeTime : F32) (s : Source) (v : Voice) : Source × Voice :=
  _stop env fadeTime true s v

/-- The method `Source::play(fadeTime, looping)`; the `Bool` says whether it returned the
source (`true`) or `NULL`. -/
def play (env : SourceEnv) (fadeTime : F32) (looping : Bool) (s : Source) (v : Voice) :
    (Source × Voice) × Bool :=
  let s1 := if s.sourceId = 0 then { s with sourceId := env.allocated } else s
  if s1.sourceId = 0 then ((s1, v), false)
  else
    let s2 := if !s1.paused then { s1 with looping := looping } else s1
    let v1 :=
      if env.streamed then { env.queueBuffers v with looping := false }
      else if !s2.isPaused then { v with buffer := env.buffer, looping := s2.looping }
      else v
    let v2 := if s2.isPaused then { v1 with offset := s2.sampleOffset } else v1
    let alreadyFading := s2.isFading
    let s3 :=
      if F32.gt fadeTime (F32.fin 0) then { s2 with fadeSpeed := F32.div (F32.fin 1) fadeTime }
      else { s2 with fadeTime := F32.fin 1, fadeSpeed := F32.fin 0 }
    let v3 := { v2 with
      gain := F32.mul (F32.mul (F32.mul s3.fadeTime s3.gain) env.categoryGain) env.globalGain }
    let v4 := if !alreadyFading then { v3 with state := ALState.playing } else v3
    (({ s3 with paused := false }, v4), true)

/-- The fade step of `Source::update`, run when the source is playing and fading; `pause()`
and `stop()` are the calls with their default fade time 0. -/
def updateFade (env : SourceEnv) (k : F32) (s : Source) (v : Voice) : Source × Voice :=
  let s1 := { s with fadeTime := F32.add s.fadeTime (F32.mul s.fadeSpeed k) }
  if F32.ge s1.fadeTime (F32.fin 1) && F32.gt s1.fadeSpeed (F32.fin 0) then
    ({ s1 with fadeTime := F32.fin 1, fadeSpeed := F32.fin 0 },
      { v with gain := F32.mul (F32.mul s1.gain env.categoryGain) env.globalGain })
  else if F32.le s1.fadeTime (F32.fin 0) && F32.lt s1.fadeSpeed (F32.fin 0) then
    ({ (_stop env (F32.fin 0) s1.paused s1 v).1 with
        fadeTime := F32.fin 0, fadeSpeed := F32.fin 0 },
      (_stop env (F32.fin 0) s1.paused s1 v).2)
  else
    (s1, { v with
      gain := F32.mul (F32.mul (F32.mul s1.fadeTime s1.gain) env.categoryGain) env.globalGain })

/-- The method `Source::update(k)`. -/
def update (env : SourceEnv) (k : F32) (s : Source) (v : Voice) : Source × Voice :=
  if s.sourceId = 0 then (s, v)
  else
    let v1 := env.soundUpdate k v
    let r :=
      if isPlaying env s v1 && s.isFading then updateFade env k s v1 else (s, v1)
    if !isPlaying env r.1 r.2 && !r.1.isPaused then (unbind env r.1, r.2) else r

end Source

/-- A call of one of the methods `play`, `stop`, `pause` and `update` of a `Source`. -/
inductive SourceCall where
  | play (fadeTime : F32) (looping : Bool)
  | stop (fadeTime : F32)
  | pause (fadeTime : F32)
  | update (k : F32)

namespace Source

/-- The source and its OpenAL source after one call. -/
def call (env : SourceEnv) (sv : Source × Voice) : SourceCall → Source × Voice
  | SourceCall.play fadeTime looping => (play env fadeTime looping sv.1 sv.2).1
  | SourceCall.stop fadeTime => stop env fadeTime sv.1 sv.2
  | SourceCall.pause fadeTime => pause env fadeTime sv.1 sv.2
  | SourceCall.update k => update env k sv.1 sv.2

/-- The source and its OpenAL source after a sequence of calls. -/
def calls (env : SourceEnv) (cs : List SourceCall) (sv : Source × Voice) : Source × Voice :=
  cs.foldl (call env) sv

/-- Whether a call is one the fade can take from the state `sv`: an `update(k)` has `k >= 0`,
and when the source is fading the product `fadeSpeed * k` is a number, which it is unless
`fadeSpeed` is infinite and `k` is 0. -/
def admissible (sv : Source × Voice) : SourceCall → Bool
  | SourceCall.update k =>
    F32.le (F32.fin 0) k && (!sv.1.isFading || !(F32.mul sv.1.fadeSpeed k).isNaN)
  | _ => true

/-- Whether every call of the sequence is admissible in the state it is made in. -/
def admissibleRun (env : SourceEnv) : List SourceCall → Source × Voice → Bool
  | [], _ => true
  | c :: cs, sv => admissible sv c && admissibleRun env cs (call env sv c)

/-- Whether an `update(k)` has `k > 0`; the other calls pass. -/
def positiveStep : SourceCall → Bool
  | SourceCall.update k => F32.lt (F32.fin 0) k
  | _ => true

end Source

/-- An environment for running a `Source`: a sound that is not streamed and not locked, with
gains 1, source id 1 free, buffer 7, and a `sound->update` that leaves the OpenAL source
alone. -/
def demoSourceEnv : SourceEnv where
  streamed := false
  locked := false
  categoryGain := F32.fin 1
  globalGain := F32.fin 1
  allocated := 1
  buffer := 7
  soundUpdate := fun _ v => v
  queueBuffers := fun v => v
  unqueueBuffers := fun v => v
  rewindStream := fun v => v

/-- An OpenAL source that has not been started. -/
def demoVoice : Voice := ⟨ALState.initial, F32.fin 1, F32.fin 0, false, 0⟩

/-- The constant `1.0f / 12`, rounded: `0x3DAAAAAB`. -/
def twelfth : F32 := F32.fin (11184811 / 134217728)

/-- The constant `1e-40f`, a subnormal number: `71362 * 2 ^ (-149)`. -/
def tiny : F32 := F32.fin (71362 * F32.pow2 (-149))

/-- A new source after `play(1.0f)` and two calls `update(1.0f / 12)`. -/
def fadingIn : Source × Voice :=
  Source.calls demoSourceEnv
    [SourceCall.play (F32.fin 1) false, SourceCall.update twelfth, SourceCall.update twelfth]
    (Source.create, demoVoice)

/-- A new source after `play(1e-40f)`. -/
def playedTiny : Source × Voice :=
  (Source.play demoSourceEnv tiny false Source.create demoVoice).1

end Float32

/-! ## The global gain fade in `float` arithmetic -/

namespace Float32

/-- Modelled from the spec: `hclamp` belongs to hltypes, which is not among the sources;
`hclamp(value, min, max)` is taken as the clamp of the specification: `min` when
`value < min`, `max` when `value > max`, and `value` otherwise. -/
def hclamp (value lo hi : F32) : F32 :=
  if F32.lt value lo then lo else if F32.gt value hi then hi else value

/-- Modelled from the spec: `Player::_calcGain` is in `Player.cpp`, which is not among the
sources; the effective gain sent to a voice is `global_gain_effective × category.gain_effective
× player.gain × fade_envelope(player)`. -/
def calcGain (globalGain categoryGain playerGain fadeEnvelope : F32) : F32 :=
  F32.mul (F32.mul (F32.mul globalGain categoryGain) playerGain) fadeEnvelope

/-- The fields of `AudioManager` that the global gain fade reads and writes; the `float`
fields hold binary32 values. -/
structure AudioManager where
  suspended : Bool
  globalGain : F32
  globalGainFadeTarget : F32
  globalGainFadeSpeed : F32
  globalGainFadeTime : F32
deriving DecidableEq

namespace AudioManager

/-- The method `_isGlobalGainFading`. -/
def _isGlobalGainFading (st : AudioManager) : Bool :=
  F32.ge st.globalGainFadeTarget (F32.fin 0) && F32.gt st.globalGainFadeSpeed (F32.fin 0)

/-- The method `_getGlobalGain`. -/
def _getGlobalGain (st : AudioManager) : F32 :=
  if _isGlobalGainFading st then
    F32.add st.globalGain
      (F32.mul (F32.sub st.globalGainFadeTarget st.globalGain) st.globalGainFadeTime)
  else st.globalGain

/-- The method `_fadeGlobalGain`. -/
def _fadeGlobalGain (globalGainTarget fadeTime : F32) (st : AudioManager) : AudioManager :=
  if F32.gt fadeTime (F32.fin 0) then
    { st with
      globalGainFadeTarget := hclamp globalGainTarget (F32.fin 0) (F32.fin 1)
      globalGainFadeTime := F32.fin 0
      globalGainFadeSpeed := F32.div (F32.fin 1) fadeTime }
  else st

/-- The manager when the global gain fade has committed its target. -/
def commit (st : AudioManager) : AudioManager :=
  { st with
    globalGain := st.globalGainFadeTarget
    globalGainFadeTarget := F32.fin (-1)
    globalGainFadeSpeed := F32.fin (-1)
    globalGainFadeTime := F32.fin 0 }

/-- What the method `_update(timeDelta)` does to the global gain fields: its global gain
fade step (lines 283 to 297), which it reaches when the manager is not suspended and
`timeDelta > 0.0f`. -/
def _update (timeDelta : F32) (st : AudioManager) : AudioManager :=
  if !st.suspended then
    if F32.gt timeDelta (F32.fin 0) then
      if _isGlobalGainFading st then
        if F32.ge (F32.add st.globalGainFadeTime (F32.mul st.globalGainFadeSpeed timeDelta))
            (F32.fin 1) then
          commit st
        else
          { st with
            globalGainFadeTime :=
              F32.add st.globalGainFadeTime (F32.mul st.globalGainFadeSpeed timeDelta) }
      else st
    else st
  else st

/-- The manager after the ticks `_update(d)` for the `d` of a list, in order. -/
def ticks (deltas : List F32) (st : AudioManager) : AudioManager :=
  deltas.foldl (fun s d => _update d s) st

/-- The fade fraction that the ticks of a list add up from `a`, each tick adding the rounded
product `speed * d` with a rounded addition. -/
def fadeFraction (speed : F32) (a : F32) (deltas : List F32) : F32 :=
  deltas.foldl (fun x d => F32.add x (F32.mul speed d)) a

/-- Whether no tick of the list takes the fade fraction, started at `a`, to a value
`>= 1.0f`. -/
def staysBelowOne (speed : F32) : F32 → List F32 → Bool
  | _, [] => true
  | a, d :: ds =>
    !F32.ge (F32.add a (F32.mul speed d)) (F32.fin 1) &&
      staysBelowOne speed (F32.add a (F32.mul speed d)) ds

/-- Whether no operation of the fade fraction rounds, for the speed `1 / T` and the fraction
`a` so far: each product `(1 / T) * d` and each sum is a binary32 number. -/
def exactRun (T : ℚ) : ℚ → List ℚ → Bool
  | _, [] => true
  | a, d :: ds =>
    decide (F32.ofRat (1 / T * d) = F32.fin (1 / T * d)) &&
      decide (F32.ofRat (a + 1 / T * d) = F32.fin (a + 1 / T * d)) &&
      exactRun T (a + 1 / T * d) ds

end AudioManager

/-- The global gain fields as the constructor of `AudioManager` sets them. -/
def demoGain : AudioManager :=
  { suspended := false, globalGain := F32.fin 1, globalGainFadeTarget := F32.fin (-1),
    globalGainFadeSpeed := F32.fin (-1), globalGainFadeTime := F32.fin 0 }

end Float32

/-! ## Lemmas on `HMap` -/

namespace HMap

variable {V : Type}

theorem find?_key_cons_pos (k : String) (e : String × V) (t : List (String × V))
    (h : e.1 = k) : (e :: t).find? (fun x => x.1 == k) = some e :=
  List.find?_cons_of_pos t (by simp [h])

theorem find?_key_cons_neg (k : String) (e : String × V) (t : List (String × V))
    (h : ¬ e.1 = k) : (e :: t).find? (fun x => x.1 == k) = t.find? (fun x => x.1 == k) :=
  List.find?_cons_of_neg t (by simp [h])

theorem hasKey_eq_isSome (m : HMap V) (k : String) : m.hasKey k = (m.get? k).isSome := by
  cases m with
  | mk l =>
    induction l with
    | nil => rfl
    | cons e t ih =>
      simp only [hasKey, get?, List.any_cons] at ih ⊢
      by_cases h : e.1 = k
      · rw [find?_key_cons_pos k e t h]
        simp [h]
      · rw [find?_key_cons_neg k e t h, ← ih]
        simp [h]

theorem find?_insertSorted_self (k : String) (v : V) (l : List (String × V))
    (h : l.find? (fun e => e.1 == k) = none) :
    (insertSorted k v l).find? (fun e => e.1 == k) = some (k, v) := by
  induction l with
  | nil => exact find?_key_cons_pos k (k, v) [] rfl
  | cons e t ih =>
    have he : ¬ e.1 = k := by
      intro hk
      rw [find?_key_cons_pos k e t hk] at h
      exact Option.noConfusion h
    have ht : t.find? (fun e => e.1 == k) = none := by
      rwa [find?_key_cons_neg k e t he] at h
    unfold insertSorted
    split
    · exact find?_key_cons_pos k (k, v) _ rfl
    · rw [find?_key_cons_neg k e _ he]
      exact ih ht

theorem find?_insertSorted_ne (k k' : String) (v : V) (l : List (String × V)) (h : k' ≠ k) :
    (insertSorted k v l).find? (fun e => e.1 == k') = l.find? (fun e => e.1 == k') := by
  induction l with
  | nil => exact find?_key_cons_neg k' (k, v) [] (Ne.symm h)
  | cons e t ih =>
    unfold insertSorted
    split
    · exact find?_key_cons_neg k' (k, v) _ (Ne.symm h)
    · by_cases he : e.1 = k'
      · rw [find?_key_cons_pos k' e _ he, find?_key_cons_pos k' e _ he]
      · rw [find?_key_cons_neg k' e _ he, find?_key_cons_neg k' e _ he]
        exact ih

theorem find?_replace_self (k : String) (v : V) (l : List (String × V))
    (h : l.any (fun e => e.1 == k) = true) :
    (l.map (fun e => if e.1 == k then (k, v) else e)).find? (fun e => e.1 == k)
      = some (k, v) := by
  induction l with
  | nil => simp at h
  | cons e t ih =>
    rw [List.map_cons]
    by_cases he : e.1 = k
    · have : (if e.1 == k then (k, v) else e) = (k, v) := by simp [he]
      rw [this]
      exact find?_key_cons_pos k (k, v) _ rfl
    · have ht : t.any (fun e => e.1 == k) = true := by simpa [he] using h
      have : (if e.1 == k then (k, v) else e) = e := by simp [he]
      rw [this, find?_key_cons_neg k e _ he]
      exact ih ht

theorem find?_replace_ne (k k' : String) (v : V) (l : List (String × V)) (h : k' ≠ k) :
    (l.map (fun e => if e.1 == k then (k, v) else e)).find? (fun e => e.1 == k')
      = l.find? (fun e => e.1 == k') := by
  induction l with
  | nil => rfl
  | cons e t ih =>
    rw [List.map_cons]
    by_cases he : e.1 = k
    · have hne : ¬ e.1 = k' := fun h2 => h (h2.symm.trans he)
      have : (if e.1 == k then (k, v) else e) = (k, v) := by simp [he]
      rw [this, find?_key_cons_neg k' (k, v) _ (Ne.symm h), find?_key_cons_neg k' e _ hne]
      exact ih
    · have : (if e.1 == k then (k, v) else e) = e := by simp [he]
      rw [this]
      by_cases he2 : e.1 = k'
      · rw [find?_key_cons_pos k' e _ he2, find?_key_cons_pos k' e _ he2]
      · rw [find?_key_cons_neg k' e _ he2, find?_key_cons_neg k' e _ he2]
        exact ih

theorem get?_set_self (m : HMap V) (k : String) (v : V) : (m.set k v).get? k = some v := by
  unfold set
  split
  · next h => simp only [get?, find?_replace_self k v m.entries h, Option.map_some']
  · next h =>
    have hn : m.entries.find? (fun e => e.1 == k) = none := by
      rw [hasKey_eq_isSome, get?] at h
      cases hf : m.entries.find? (fun e => e.1 == k) with
      | none => rfl
      | some x => simp [hf] at h
    simp only [get?, find?_insertSorted_self k v m.entries hn, Option.map_some']

theorem get?_set_ne (m : HMap V) (k k' : String) (v : V) (h : k' ≠ k) :
    (m.set k v).get? k' = m.get? k' := by
  unfold set
  split
  · simp only [get?, find?_replace_ne k k' v m.entries h]
  · simp only [get?, find?_insertSorted_ne k k' v m.entries h]

theorem get?_removeKey_self (m : HMap V) (k : String) : (m.removeKey k).get? k = none := by
  simp only [get?, removeKey, Option.map_eq_none', List.find?_eq_none, List.mem_filter]
  intro e he
  simpa using he.2

theorem get?_removeKey_ne (m : HMap V) (k k' : String) (h : k' ≠ k) :
    (m.removeKey k).get? k' = m.get? k' := by
  cases m with
  | mk l =>
    simp only [get?, removeKey]
    congr 1
    induction l with
    | nil => rfl
    | cons e t ih =>
      by_cases he : e.1 = k
      · have hne : ¬ e.1 = k' := fun h2 => h (h2.symm.trans he)
        rw [List.filter_cons_of_neg (by simp [he]), find?_key_cons_neg k' e _ hne]
        exact ih
      · rw [List.filter_cons_of_pos (by simp [he])]
        by_cases he2 : e.1 = k'
        · rw [find?_key_cons_pos k' e _ he2, find?_key_cons_pos k' e _ he2]
        · rw [find?_key_cons_neg k' e _ he2, find?_key_cons_neg k' e _ he2]
          exact ih

theorem hasKey_removeKey_self (m : HMap V) (k : String) : (m.removeKey k).hasKey k = false := by
  rw [hasKey_eq_isSome, get?_removeKey_self]
  rfl

theorem mem_insertSorted (k : String) (v : V) (l : List (String × V)) (e : String × V) :
    e ∈ insertSorted k v l ↔ e = (k, v) ∨ e ∈ l := by
  induction l with
  | nil => simp [insertSorted]
  | cons a t ih =>
    unfold insertSorted
    split
    · simp
    · simp only [List.mem_cons, ih]
      tauto

theorem insertSorted_perm (k : String) (v : V) (l : List (String × V)) :
    (insertSorted k v l).Perm ((k, v) :: l) := by
  induction l with
  | nil => simp [insertSorted]
  | cons a t ih =>
    unfold insertSorted
    split
    · exact List.Perm.refl _
    · exact (List.Perm.cons a ih).trans (List.Perm.swap _ _ _)

theorem length_insertSorted (k : String) (v : V) (l : List (String × V)) :
    (insertSorted k v l).length = l.length + 1 := by
  simpa using (insertSorted_perm k v l).length_eq

/-- With distinct keys, looking a key up finds exactly the entries of the map. -/
theorem get?_eq_some_iff (m : HMap V) (hn : m.keys.Nodup) (k : String) (v : V) :
    m.get? k = some v ↔ (k, v) ∈ m.entries := by
  cases m with
  | mk l =>
    simp only [get?, keys] at hn ⊢
    induction l with
    | nil => simp
    | cons e t ih =>
      have hn2 := List.nodup_cons.mp hn
      by_cases he : e.1 = k
      · have hk : ∀ v', (k, v') ∉ t := by
          intro v' hmem
          exact hn2.1 (List.mem_map.mpr ⟨(k, v'), hmem, he.symm⟩)
        rw [find?_key_cons_pos k e t he]
        simp only [Option.map_some', Option.some.injEq, List.mem_cons, hk, or_false]
        constructor
        · intro h
          exact Prod.ext he.symm h.symm
        · intro h
          rw [← h]
      · have hne : (k, v) ≠ e := fun h => he (by rw [← h])
        rw [find?_key_cons_neg k e t he]
        simp only [List.mem_cons, hne, false_or]
        exact ih hn2.2

theorem keys_nodup_removeKey (m : HMap V) (k : String) (hn : m.keys.Nodup) :
    (m.removeKey k).keys.Nodup := by
  simp only [keys, removeKey] at hn ⊢
  exact hn.sublist ((List.filter_sublist _).map _)

theorem keys_nodup_removeValue (m : HMap V) (same : V → Bool) (hn : m.keys.Nodup) :
    (m.removeValue same).keys.Nodup := by
  unfold removeValue
  split
  · exact keys_nodup_removeKey m _ hn
  · exact hn

theorem keys_nodup_set_new (m : HMap V) (k : String) (v : V) (hn : m.keys.Nodup)
    (hk : m.hasKey k = false) : (m.set k v).keys.Nodup := by
  have hperm : (m.set k v).keys.Perm (k :: m.keys) := by
    simp only [set, hk, keys]
    simpa using (insertSorted_perm k v m.entries).map Prod.fst
  refine hperm.nodup_iff.mpr (List.nodup_cons.mpr ⟨?_, hn⟩)
  intro hmem
  simp only [keys, List.mem_map] at hmem
  obtain ⟨e, he, hek⟩ := hmem
  have : m.hasKey k = true := by
    simp only [hasKey, List.any_eq_true]
    exact ⟨e, he, by simp [hek]⟩
  rw [hk] at this
  exact Bool.noConfusion this

theorem mem_entries_set_new (m : HMap V) (k : String) (v : V) (hk : m.hasKey k = false)
    (e : String × V) : e ∈ (m.set k v).entries ↔ e = (k, v) ∨ e ∈ m.entries := by
  simp only [set, hk]
  exact mem_insertSorted k v m.entries e

theorem removeValue_cases (m : HMap V) (same : V → Bool) :
    m.removeValue same = m ∨
      ∃ e ∈ m.entries, same e.2 = true ∧ m.removeValue same = m.removeKey e.1 := by
  unfold removeValue
  split
  · next e he =>
    exact Or.inr ⟨e, List.mem_of_find?_eq_some he,
      List.find?_some (p := fun (x : String × V) => same x.2) he, rfl⟩
  · exact Or.inl rfl

theorem mem_entries_removeKey (m : HMap V) (k : String) (e : String × V) :
    e ∈ (m.removeKey k).entries ↔ e ∈ m.entries ∧ e.1 ≠ k := by
  simp [removeKey]

end HMap

/-! ## Lemmas on the player lists -/

namespace AudioManager

variable {PS W : Type}

theorem SameCore.refl (st : AudioManager PS W) : SameCore st st :=
  ⟨rfl, rfl, rfl, rfl, rfl, rfl⟩

theorem SameCore.comp {a b c : AudioManager PS W} (h1 : SameCore a b) (h2 : SameCore b c) :
    SameCore a c :=
  ⟨h2.players.trans h1.players, h2.managedPlayers.trans h1.managedPlayers,
    h2.sounds.trans h1.sounds, h2.buffers.trans h1.buffers,
    h2.playerSound.trans h1.playerSound, h2.nextPtr.trans h1.nextPtr⟩

theorem sameCore_onPlayer (f : PS → W → PS × W) (p : Nat) (st : AudioManager PS W) :
    SameCore st (onPlayer f p st) :=
  ⟨rfl, rfl, rfl, rfl, rfl, rfl⟩

theorem sameCore_playerStop (B : Backend PS W) (t : ℚ) (p : Nat) (st : AudioManager PS W) :
    SameCore st (playerStop B t p st) :=
  ⟨rfl, rfl, rfl, rfl, rfl, rfl⟩

theorem sameCore_foldl (f : AudioManager PS W → Nat → AudioManager PS W)
    (hf : ∀ s p, SameCore s (f s p)) :
    ∀ (l : List Nat) (st : AudioManager PS W), SameCore st (l.foldl f st)
  | [], st => SameCore.refl st
  | p :: l, st => (hf st p).comp (sameCore_foldl f hf l (f st p))

theorem Consistent.of_le {st st' : AudioManager PS W} (h : Consistent st)
    (hp : st'.players = st.players) (hm : st'.managedPlayers = st.managedPlayers)
    (hs : st'.sounds = st.sounds) (hb : st'.buffers = st.buffers)
    (hps : st'.playerSound = st.playerSound) (hn : st.nextPtr ≤ st'.nextPtr) :
    Consistent st' where
  players_nodup := by rw [hp]; exact h.players_nodup
  managed_nodup := by rw [hm]; exact h.managed_nodup
  managed_sub := by rw [hp, hm]; exact h.managed_sub
  players_lt := by
    rw [hp]
    intro p hp'
    exact lt_of_lt_of_le (h.players_lt p hp') hn
  buffers_lt := by
    rw [hb]
    intro b hb'
    exact lt_of_lt_of_le (h.buffers_lt b hb') hn
  keys_nodup := by rw [hs]; exact h.keys_nodup
  key_name := by rw [hs]; exact h.key_name
  sound_lt := by
    rw [hs]
    intro e he
    exact lt_of_lt_of_le (h.sound_lt e he) hn
  ptr_inj := by rw [hs]; exact h.ptr_inj
  player_sound := by
    rw [hp, hs, hps]
    exact h.player_sound

theorem Consistent.of_sameCore {st st' : AudioManager PS W} (h : Consistent st)
    (hc : SameCore st st') : Consistent st' :=
  h.of_le hc.players hc.managedPlayers hc.sounds hc.buffers hc.playerSound (le_of_eq hc.nextPtr.symm)

theorem Consistent.shrink {st st' : AudioManager PS W} (h : Consistent st)
    (hp : st'.players.Sublist st.players)
    (hm : st'.managedPlayers.Sublist st.managedPlayers)
    (hsub : ∀ p ∈ st'.managedPlayers, p ∈ st'.players)
    (hs : st'.sounds = st.sounds) (hb : st'.buffers.Sublist st.buffers)
    (hps : st'.playerSound = st.playerSound) (hn : st'.nextPtr = st.nextPtr) :
    Consistent st' where
  players_nodup := h.players_nodup.sublist hp
  managed_nodup := h.managed_nodup.sublist hm
  managed_sub := hsub
  players_lt := by
    intro p hp'
    rw [hn]
    exact h.players_lt p (hp.subset hp')
  buffers_lt := by
    intro b hb'
    rw [hn]
    exact h.buffers_lt b (hb.subset hb')
  keys_nodup := by rw [hs]; exact h.keys_nodup
  key_name := by rw [hs]; exact h.key_name
  sound_lt := by rw [hs, hn]; exact h.sound_lt
  ptr_inj := by rw [hs]; exact h.ptr_inj
  player_sound := by
    intro p hp'
    rw [hs, hps]
    exact h.player_sound p (hp.subset hp')

theorem Removed.nil (st : AudioManager PS W) : Removed [] st st :=
  ⟨rfl, rfl, rfl, rfl, rfl, rfl, rfl, rfl, fun _ _ => rfl⟩

theorem Removed.of_sameFields {X : List Nat} {st r r' : AudioManager PS W}
    (h : Removed X st r) (hp : r'.players = r.players)
    (hm : r'.managedPlayers = r.managedPlayers) (hs : r'.sounds = r.sounds)
    (hc : r'.categories = r.categories) (hb : r'.buffers = r.buffers)
    (hps : r'.playerSound = r.playerSound) (hn : r'.nextPtr = r.nextPtr)
    (hsu : r'.suspended = r.suspended) (ho : r'.playerObj = r.playerObj) : Removed X st r' :=
  ⟨hp.trans h.players, hm.trans h.managedPlayers, hs.trans h.sounds, hc.trans h.categories,
    hb.trans h.buffers, hps.trans h.playerSound, hn.trans h.nextPtr, hsu.trans h.suspended,
    fun q hq => by rw [ho]; exact h.playerObj q hq⟩

theorem Removed.mem_players {X : List Nat} {st r : AudioManager PS W} (h : Removed X st r)
    (hc : Consistent st) (q : Nat) : q ∈ r.players ↔ q ∈ st.players ∧ q ∉ X := by
  rw [h.players]
  exact hc.players_nodup.mem_diff_iff

theorem Removed.mem_managed {X : List Nat} {st r : AudioManager PS W} (h : Removed X st r)
    (hc : Consistent st) (q : Nat) :
    q ∈ r.managedPlayers ↔ q ∈ st.managedPlayers ∧ q ∉ X := by
  rw [h.managedPlayers]
  exact hc.managed_nodup.mem_diff_iff

theorem Removed.keeps_consistent {X : List Nat} {st r : AudioManager PS W} (h : Removed X st r)
    (hc : Consistent st) : Consistent r := by
  refine hc.shrink ?_ ?_ ?_ h.sounds (by rw [h.buffers]) h.playerSound h.nextPtr
  · rw [h.players]
    exact List.diff_sublist _ _
  · rw [h.managedPlayers]
    exact List.diff_sublist _ _
  · intro p hp
    have := (h.mem_managed hc p).mp hp
    exact (h.mem_players hc p).mpr ⟨hc.managed_sub p this.1, this.2⟩

/-- Removing managed players leaves the list of manual players as it is. -/
theorem Removed.getPlayers {X : List Nat} {st r : AudioManager PS W} (h : Removed X st r)
    (hc : Consistent st) (hX : ∀ x ∈ X, x ∈ st.managedPlayers) :
    _getPlayers r = _getPlayers st := by
  unfold _getPlayers
  rw [(h.keeps_consistent hc).players_nodup.diff_eq_filter, hc.players_nodup.diff_eq_filter,
    h.players, hc.players_nodup.diff_eq_filter, List.filter_filter]
  apply List.filter_congr
  intro q _
  by_cases hqX : q ∈ X
  · have : q ∈ st.managedPlayers := hX q hqX
    simp [hqX, this]
  · have : q ∈ r.managedPlayers ↔ q ∈ st.managedPlayers := by
      rw [h.mem_managed hc q]
      exact ⟨fun h => h.1, fun h => ⟨h, hqX⟩⟩
    simp [hqX, this]

theorem removed_destroyManagedPlayer (B : Backend PS W) (p : Nat) (st : AudioManager PS W) :
    Removed [p] st (_destroyManagedPlayer B p st) where
  players := by
    rw [List.diff_cons, List.diff_nil]
    rfl
  managedPlayers := by
    rw [List.diff_cons, List.diff_nil]
    rfl
  sounds := rfl
  categories := rfl
  buffers := rfl
  playerSound := rfl
  nextPtr := rfl
  suspended := rfl
  playerObj := by
    intro q hq
    have hne : q ≠ p := by simpa using hq
    show Function.update st.playerObj p _ q = st.playerObj q
    exact Function.update_noteq hne _ _

theorem removed_destroyPlayer (B : Backend PS W) (p : Nat) (st : AudioManager PS W)
    (hp : p ∉ st.managedPlayers) : Removed [p] st (_destroyPlayer B p st) where
  players := by
    rw [List.diff_cons, List.diff_nil]
    rfl
  managedPlayers := by
    rw [List.diff_cons, List.diff_nil, List.erase_of_not_mem hp]
    rfl
  sounds := rfl
  categories := rfl
  buffers := rfl
  playerSound := rfl
  nextPtr := rfl
  suspended := rfl
  playerObj := by
    intro q hq
    have hne : q ≠ p := by simpa using hq
    show Function.update st.playerObj p _ q = st.playerObj q
    exact Function.update_noteq hne _ _

theorem Removed.append {X Y : List Nat} {a b c : AudioManager PS W} (h1 : Removed X a b)
    (h2 : Removed Y b c) : Removed (X ++ Y) a c where
  players := by rw [h2.players, h1.players, List.diff_append]
  managedPlayers := by rw [h2.managedPlayers, h1.managedPlayers, List.diff_append]
  sounds := h2.sounds.trans h1.sounds
  categories := h2.categories.trans h1.categories
  buffers := h2.buffers.trans h1.buffers
  playerSound := h2.playerSound.trans h1.playerSound
  nextPtr := h2.nextPtr.trans h1.nextPtr
  suspended := h2.suspended.trans h1.suspended
  playerObj := by
    intro q hq
    rw [List.mem_append, not_or] at hq
    rw [h2.playerObj q hq.2, h1.playerObj q hq.1]

/-- The loop over a copy of `managedPlayers` removes exactly the players of the copy that
pass the test in the state the loop starts from. -/
theorem removed_destroyManagedWhere (B : Backend PS W)
    (cond : AudioManager PS W → Nat → Bool) (hloc : LocalTest cond) :
    ∀ (L : List Nat) (st : AudioManager PS W), L.Nodup →
      Removed (L.filter (cond st)) st (destroyManagedWhere B cond L st)
  | [], st, _ => Removed.nil st
  | p :: rest, st, hn => by
    have hn2 := List.nodup_cons.mp hn
    unfold destroyManagedWhere
    by_cases hc : cond st p = true
    · have h1 := removed_destroyManagedPlayer B p st
      have ih := removed_destroyManagedWhere B cond hloc rest (_destroyManagedPlayer B p st) hn2.2
      have hf : rest.filter (cond (_destroyManagedPlayer B p st)) = rest.filter (cond st) := by
        apply List.filter_congr
        intro q hq
        apply hloc
        · exact h1.playerSound
        · apply h1.playerObj
          intro hmem
          rw [List.mem_singleton] at hmem
          exact hn2.1 (hmem ▸ hq)
      rw [hf] at ih
      rw [if_pos hc, List.filter_cons_of_pos hc]
      exact h1.append ih
    · rw [if_neg hc, List.filter_cons_of_neg hc]
      exact removed_destroyManagedWhere B cond hloc rest st hn2.2

theorem localTest_playsSound (sound : Sound) :
    LocalTest (playsSound sound : AudioManager PS W → Nat → Bool) := by
  intro st st' p hs _
  simp only [playsSound, hs]

theorem localTest_playsName (soundName : String) :
    LocalTest (playsName soundName : AudioManager PS W → Nat → Bool) := by
  intro st st' p hs _
  simp only [playsName, hs]

theorem localTest_playsCategory (category : Category) :
    LocalTest (playsCategory category : AudioManager PS W → Nat → Bool) := by
  intro st st' p hs _
  simp only [playsCategory, hs]

theorem localTest_true : LocalTest (fun (_ : AudioManager PS W) (_ : Nat) => true) :=
  fun _ _ _ _ _ => rfl

theorem localTest_reclaimable (B : Backend PS W) : LocalTest (reclaimable B) := by
  intro st st' p _ ho
  simp only [reclaimable, ho]

theorem sameCore_stopWhere (B : Backend PS W) (cond : AudioManager PS W → Nat → Bool)
    (t : ℚ) : ∀ (L : List Nat) (st : AudioManager PS W), SameCore st (stopWhere B cond t L st)
  | [], st => SameCore.refl st
  | p :: rest, st => by
    unfold stopWhere
    by_cases hc : cond st p = true
    · rw [if_pos hc]
      exact (sameCore_playerStop B t p st).comp (sameCore_stopWhere B cond t rest _)
    · rw [if_neg hc]
      exact sameCore_stopWhere B cond t rest st

end AudioManager

/-! ## The reachable states are consistent -/

namespace AudioManager

variable {PS W : Type}

theorem consistent_create (backendId : Nat) (threaded : Bool) (updateTime : ℚ)
    (deviceName : String) (extensions : List String) (objs : Nat → PS) (w : W) :
    Consistent (create backendId threaded updateTime deviceName extensions objs w) where
  players_nodup := List.nodup_nil
  managed_nodup := List.nodup_nil
  managed_sub := fun _ h => h
  players_lt := fun _ h => absurd h (List.not_mem_nil _)
  buffers_lt := fun _ h => absurd h (List.not_mem_nil _)
  keys_nodup := List.nodup_nil
  key_name := fun _ h => absurd h (List.not_mem_nil _)
  sound_lt := fun _ h => absurd h (List.not_mem_nil _)
  ptr_inj := fun _ h => absurd h (List.not_mem_nil _)
  player_sound := fun _ h => absurd h (List.not_mem_nil _)

theorem sameCore_init (st : AudioManager PS W) : SameCore st (init st) := by
  unfold init
  split
  · exact ⟨rfl, rfl, rfl, rfl, rfl, rfl⟩
  · exact SameCore.refl st

theorem sameCore_setGlobalGain (B : Backend PS W) (value : ℚ) (st : AudioManager PS W) :
    SameCore st (_setGlobalGain B value st) := by
  have h := sameCore_foldl (fun s p => onPlayer B.systemUpdateGain p s)
    (fun s p => sameCore_onPlayer _ p s) st.players
    { st with
      globalGain := value
      globalGainFadeTarget := -1
      globalGainFadeSpeed := -1
      globalGainFadeTime := 0 }
  exact ⟨h.players, h.managedPlayers, h.sounds, h.buffers, h.playerSound, h.nextPtr⟩

theorem sameCore_fadeGlobalGain (target fadeTime : ℚ) (st : AudioManager PS W) :
    SameCore st (_fadeGlobalGain target fadeTime st) := by
  unfold _fadeGlobalGain
  split
  · exact ⟨rfl, rfl, rfl, rfl, rfl, rfl⟩
  · exact SameCore.refl st

theorem sameCore_updateGlobalGainFade (timeDelta : ℚ) (st : AudioManager PS W) :
    SameCore st (updateGlobalGainFade timeDelta st) := by
  unfold updateGlobalGainFade
  split
  · split
    · exact ⟨rfl, rfl, rfl, rfl, rfl, rfl⟩
    · exact ⟨rfl, rfl, rfl, rfl, rfl, rfl⟩
  · exact SameCore.refl st

theorem sameCore_updatePlayer (B : Backend PS W) (gainFading : Bool) (timeDelta : ℚ)
    (st : AudioManager PS W) (p : Nat) : SameCore st (updatePlayer B gainFading timeDelta st p) := by
  unfold updatePlayer
  simp only
  split_ifs <;> exact ⟨rfl, rfl, rfl, rfl, rfl, rfl⟩

theorem sameCore_updateBeforeReclaim (B : Backend PS W) (timeDelta : ℚ)
    (st : AudioManager PS W) : SameCore st (updateBeforeReclaim B timeDelta st) := by
  unfold updateBeforeReclaim
  have h1 : SameCore st { st with world := B.bufferAsyncUpdate st.world } :=
    ⟨rfl, rfl, rfl, rfl, rfl, rfl⟩
  refine SameCore.comp ?_ (sameCore_foldl _ (sameCore_updatePlayer B _ timeDelta) _ _)
  split
  · have h2 := sameCore_updateGlobalGainFade timeDelta
      { st with world := B.bufferAsyncUpdate st.world }
    exact ⟨h2.players, h2.managedPlayers, h2.sounds, h2.buffers, h2.playerSound, h2.nextPtr⟩
  · exact h1

/-- The reclaim loop of a tick removes the managed players that pass its test when the loop
starts. -/
theorem removed_update (B : Backend PS W) (timeDelta : ℚ) (st : AudioManager PS W)
    (hs : st.suspended = false) (hn : st.managedPlayers.Nodup) :
    Removed
      ((updateBeforeReclaim B timeDelta st).managedPlayers.filter
        (reclaimable B (updateBeforeReclaim B timeDelta st)))
      (updateBeforeReclaim B timeDelta st) (_update B timeDelta st) := by
  have hsc := sameCore_updateBeforeReclaim B timeDelta st
  have hr := removed_destroyManagedWhere B (reclaimable B) (localTest_reclaimable B)
    (updateBeforeReclaim B timeDelta st).managedPlayers (updateBeforeReclaim B timeDelta st)
    (by rw [hsc.managedPlayers]; exact hn)
  unfold _update
  simp only [hs, Bool.not_false, if_true]
  exact hr.of_sameFields rfl rfl rfl rfl rfl rfl rfl rfl rfl

theorem consistent_update (B : Backend PS W) (timeDelta : ℚ) (st : AudioManager PS W)
    (hc : Consistent st) : Consistent (_update B timeDelta st) := by
  cases hs : st.suspended with
  | false =>
    exact (removed_update B timeDelta st hs hc.managed_nodup).keeps_consistent
      (hc.of_sameCore (sameCore_updateBeforeReclaim B timeDelta st))
  | true =>
    unfold _update
    simp only [hs, Bool.not_true, Bool.false_eq_true, if_false]
    split
    · exact hc.of_sameCore
        (sameCore_foldl _
          (fun s p => (sameCore_onPlayer _ p s).comp (sameCore_onPlayer _ p _)) _ _)
    · exact hc

theorem consistent_createCategory (B : Backend PS W) (name : String) (bufferMode : BufferMode)
    (sourceMode : SourceMode) (st : AudioManager PS W) (hc : Consistent st) :
    Consistent (_createCategory B name bufferMode sourceMode st).state := by
  unfold _createCategory
  split
  · exact hc
  · exact hc.of_le rfl rfl rfl rfl rfl (Nat.le_succ _)

theorem erase_append_fresh (l : List Nat) (a : Nat) (h : a ∉ l) : (l ++ [a]).erase a = l := by
  rw [List.erase_append_right _ h]
  simp

/-- Registering a new sound at the fresh address `nextPtr`, whose buffer is at the next
address, keeps the manager consistent. -/
theorem consistent_register {st st' : AudioManager PS W} (hc : Consistent st) (sound : Sound)
    (hp : st'.players = st.players) (hm : st'.managedPlayers = st.managedPlayers)
    (hps : st'.playerSound = st.playerSound)
    (hs : st'.sounds = st.sounds.set sound.name sound)
    (hk : st.sounds.hasKey sound.name = false) (hptr : sound.ptr = st.nextPtr)
    (hb : st'.buffers = st.buffers ++ [st.nextPtr + 1]) (hn : st'.nextPtr = st.nextPtr + 2) :
    Consistent st' where
  players_nodup := by rw [hp]; exact hc.players_nodup
  managed_nodup := by rw [hm]; exact hc.managed_nodup
  managed_sub := by rw [hp, hm]; exact hc.managed_sub
  players_lt := by
    rw [hp, hn]
    intro p hp'
    exact Nat.lt_add_right 2 (hc.players_lt p hp')
  buffers_lt := by
    rw [hb, hn]
    intro b hb'
    rcases List.mem_append.mp hb' with h | h
    · exact Nat.lt_add_right 2 (hc.buffers_lt b h)
    · rw [List.mem_singleton] at h
      omega
  keys_nodup := by rw [hs]; exact HMap.keys_nodup_set_new _ _ _ hc.keys_nodup hk
  key_name := by
    rw [hs]
    intro e he
    rcases (HMap.mem_entries_set_new _ _ _ hk e).mp he with h | h
    · rw [h]
    · exact hc.key_name e h
  sound_lt := by
    rw [hs, hn]
    intro e he
    rcases (HMap.mem_entries_set_new _ _ _ hk e).mp he with h | h
    · rw [h]
      show sound.ptr < _
      omega
    · exact Nat.lt_add_right 2 (hc.sound_lt e h)
  ptr_inj := by
    rw [hs]
    intro e he e' he' hee
    rcases (HMap.mem_entries_set_new _ _ _ hk e).mp he with h | h
    · rcases (HMap.mem_entries_set_new _ _ _ hk e').mp he' with h' | h'
      · rw [h, h']
      · have := hc.sound_lt e' h'
        rw [h] at hee
        simp only at hee
        omega
    · rcases (HMap.mem_entries_set_new _ _ _ hk e').mp he' with h' | h'
      · have := hc.sound_lt e h
        rw [h'] at hee
        simp only at hee
        omega
      · exact hc.ptr_inj e h e' h' hee
  player_sound := by
    rw [hp, hs, hps]
    intro p hp'
    exact (HMap.mem_entries_set_new _ _ _ hk _).mpr (Or.inr (hc.player_sound p hp'))

theorem consistent_createSound (B : Backend PS W) (filename categoryName pfx : String)
    (st : AudioManager PS W) (hc : Consistent st) :
    Consistent (_createSound B filename categoryName pfx st).state := by
  unfold _createSound
  cases hcat : _getCategory categoryName st with
  | error e => exact hc
  | ok category =>
    simp only
    split
    · refine hc.of_le rfl rfl rfl ?_ rfl (Nat.le_add_right _ 2)
      show (st.buffers ++ [st.nextPtr + 1]).erase (st.nextPtr + 1) = st.buffers
      apply erase_append_fresh
      intro hmem
      have := hc.buffers_lt _ hmem
      omega
    · next hcond =>
      rw [not_or] at hcond
      exact consistent_register hc
        ⟨st.nextPtr, pfx ++ B.baseNameWithoutExtension filename, filename, category.ptr,
          st.nextPtr + 1, B.fileFormat filename⟩
        rfl rfl rfl rfl (by simpa using hcond.2) rfl rfl rfl

theorem consistent_createSoundMemory (B : Backend PS W) (name categoryName : String)
    (pcm : PcmData) (st : AudioManager PS W) (hc : Consistent st) :
    Consistent (_createSoundMemory B name categoryName pcm st).state := by
  unfold _createSoundMemory
  cases hcat : _getCategory categoryName st with
  | error e => exact hc
  | ok category =>
    simp only
    split
    · refine hc.of_le rfl rfl rfl ?_ rfl (Nat.le_add_right _ 2)
      show (st.buffers ++ [st.nextPtr + 1]).erase (st.nextPtr + 1) = st.buffers
      apply erase_append_fresh
      intro hmem
      have := hc.buffers_lt _ hmem
      omega
    · next hcond =>
      rw [not_or] at hcond
      exact consistent_register hc
        ⟨st.nextPtr, name, "", category.ptr, st.nextPtr + 1, B.memoryFormat⟩
        rfl rfl rfl rfl (by simpa using hcond.2) rfl rfl rfl

theorem consistent_createSoundNoAudio (B : Backend PS W) (filename categoryName pfx : String)
    (st : AudioManager PS W) (hc : Consistent st) :
    Consistent (NoAudio_AudioManager._createSound B filename categoryName pfx st).state := by
  unfold NoAudio_AudioManager._createSound
  cases hcat : _getCategory categoryName st with
  | error e => exact hc
  | ok category =>
    simp only
    split
    · refine hc.of_le rfl rfl rfl ?_ rfl (Nat.le_add_right _ 2)
      show (st.buffers ++ [st.nextPtr + 1]).erase (st.nextPtr + 1) = st.buffers
      apply erase_append_fresh
      intro hmem
      have := hc.buffers_lt _ hmem
      omega
    · next hcond =>
      exact consistent_register hc
        ⟨st.nextPtr, pfx ++ B.baseNameWithoutExtension filename, filename, category.ptr,
          st.nextPtr + 1, B.fileFormat filename⟩
        rfl rfl rfl rfl (by simpa using hcond) rfl rfl rfl

theorem consistent_createSoundMemoryNoAudio (B : Backend PS W) (name categoryName : String)
    (pcm : PcmData) (st : AudioManager PS W) (hc : Consistent st) :
    Consistent (NoAudio_AudioManager._createSoundMemory B name categoryName pcm st).state := by
  unfold NoAudio_AudioManager._createSoundMemory
  cases hcat : _getCategory categoryName st with
  | error e => exact hc
  | ok category =>
    simp only
    split
    · refine hc.of_le rfl rfl rfl ?_ rfl (Nat.le_add_right _ 2)
      show (st.buffers ++ [st.nextPtr + 1]).erase (st.nextPtr + 1) = st.buffers
      apply erase_append_fresh
      intro hmem
      have := hc.buffers_lt _ hmem
      omega
    · next hcond =>
      exact consistent_register hc
        ⟨st.nextPtr, name, "", category.ptr, st.nextPtr + 1, B.memoryFormat⟩
        rfl rfl rfl rfl (by simpa using hcond) rfl rfl rfl

/-- Unregistering the key of a sound no player is on, and erasing buffers, keeps the manager
consistent. -/
theorem consistent_unregister {st st' : AudioManager PS W} (hc : Consistent st) (ptr : Nat)
    (k : String) (hno : ∀ p ∈ st.players, (st.playerSound p).ptr ≠ ptr)
    (hkey : ∀ e ∈ st.sounds.entries, e.1 = k → e.2.ptr = ptr)
    (hp : st'.players = st.players) (hm : st'.managedPlayers = st.managedPlayers)
    (hps : st'.playerSound = st.playerSound) (hs : st'.sounds = st.sounds.removeKey k)
    (hb : st'.buffers.Sublist st.buffers) (hn : st'.nextPtr = st.nextPtr) :
    Consistent st' where
  players_nodup := by rw [hp]; exact hc.players_nodup
  managed_nodup := by rw [hm]; exact hc.managed_nodup
  managed_sub := by rw [hp, hm]; exact hc.managed_sub
  players_lt := by rw [hp, hn]; exact hc.players_lt
  buffers_lt := by
    rw [hn]
    intro b hb'
    exact hc.buffers_lt b (hb.subset hb')
  keys_nodup := by rw [hs]; exact HMap.keys_nodup_removeKey _ _ hc.keys_nodup
  key_name := by
    rw [hs]
    intro e he
    exact hc.key_name e ((HMap.mem_entries_removeKey _ _ e).mp he).1
  sound_lt := by
    rw [hs, hn]
    intro e he
    exact hc.sound_lt e ((HMap.mem_entries_removeKey _ _ e).mp he).1
  ptr_inj := by
    rw [hs]
    intro e he e' he' hee
    exact hc.ptr_inj e ((HMap.mem_entries_removeKey _ _ e).mp he).1 e'
      ((HMap.mem_entries_removeKey _ _ e').mp he').1 hee
  player_sound := by
    rw [hp, hs, hps]
    intro p hp'
    refine (HMap.mem_entries_removeKey _ _ _).mpr ⟨hc.player_sound p hp', ?_⟩
    intro hk
    exact hno p hp' (hkey _ (hc.player_sound p hp') hk)

theorem any_playsSound_eq_false {sound : Sound} {st : AudioManager PS W}
    (h : ¬ st.players.any (playsSound sound st) = true) :
    ∀ p ∈ st.players, (st.playerSound p).ptr ≠ sound.ptr := by
  intro p hp hptr
  apply h
  rw [List.any_eq_true]
  exact ⟨p, hp, by simp [playsSound, hptr]⟩

theorem removed_destroySound_loop (B : Backend PS W) (sound : Sound) (st : AudioManager PS W)
    (hc : Consistent st) :
    Removed (st.managedPlayers.filter (playsSound sound st)) st
      (destroyManagedWhere B (playsSound sound) st.managedPlayers st) :=
  removed_destroyManagedWhere B _ (localTest_playsSound sound) _ st hc.managed_nodup

theorem consistent_destroySound (B : Backend PS W) (sound : Sound) (st : AudioManager PS W)
    (hc : Consistent st) (hreg : st.sounds.get? sound.name = some sound) :
    Consistent (_destroySound B sound st).state := by
  have hr := removed_destroySound_loop B sound st hc
  have hc1 := hr.keeps_consistent hc
  unfold _destroySound
  simp only
  split
  · exact hc1
  · next hany =>
    refine consistent_unregister hc1 sound.ptr sound.name (any_playsSound_eq_false hany) ?_
      rfl rfl rfl rfl (List.erase_sublist _ _) rfl
    intro e he hk
    rw [hr.sounds] at he
    have h1 : st.sounds.get? e.1 = some e.2 :=
      (HMap.get?_eq_some_iff _ hc.keys_nodup e.1 e.2).mpr he
    rw [hk, hreg] at h1
    rw [← Option.some.inj h1]

theorem consistent_destroyWithPrefixStep (B : Backend PS W)
    (acc : AudioManager PS W × List String) (sound : Sound) (hc : Consistent acc.1) :
    Consistent (destroyWithPrefixStep B acc sound).1 := by
  have hr := removed_destroySound_loop B sound acc.1 hc
  have hc1 := hr.keeps_consistent hc
  unfold destroyWithPrefixStep
  simp only
  split
  · exact hc1
  · next hany =>
    generalize destroyManagedWhere B (playsSound sound) acc.1.managedPlayers acc.1 = st1
      at hc1 hany
    show Consistent (deleteSound B sound
      { st1 with sounds := st1.sounds.removeValue (fun s => s.ptr == sound.ptr) })
    rcases HMap.removeValue_cases st1.sounds (fun s => s.ptr == sound.ptr) with
      h | ⟨e0, hmem, hsame, h⟩
    · rw [h]
      exact hc1.shrink (List.Sublist.refl _) (List.Sublist.refl _) hc1.managed_sub rfl
        (List.erase_sublist _ _) rfl rfl
    · rw [h]
      have hptr : e0.2.ptr = sound.ptr := by simpa using hsame
      refine consistent_unregister hc1 sound.ptr e0.1 (any_playsSound_eq_false hany) ?_
        rfl rfl rfl rfl (List.erase_sublist _ _) rfl
      intro e he hk
      have h1 : st1.sounds.get? e.1 = some e.2 :=
        (HMap.get?_eq_some_iff _ hc1.keys_nodup e.1 e.2).mpr he
      have h2 : st1.sounds.get? e0.1 = some e0.2 :=
        (HMap.get?_eq_some_iff _ hc1.keys_nodup e0.1 e0.2).mpr hmem
      rw [hk, h2] at h1
      rw [← Option.some.inj h1]
      exact hptr

theorem consistent_destroySoundsWithPrefix (B : Backend PS W) (pfx : String)
    (st : AudioManager PS W) (hc : Consistent st) :
    Consistent (_destroySoundsWithPrefix B pfx st).state := by
  have hfold : ∀ (l : List Sound) (acc : AudioManager PS W × List String),
      Consistent acc.1 → Consistent (l.foldl (destroyWithPrefixStep B) acc).1 := by
    intro l
    induction l with
    | nil => exact fun _ h => h
    | cons x t ih =>
      intro acc h
      exact ih _ (consistent_destroyWithPrefixStep B acc x h)
  unfold _destroySoundsWithPrefix
  simp only
  split
  · exact hfold _ (st, []) hc
  · exact hfold _ (st, []) hc

theorem consistent_createPlayer (B : Backend PS W) (name : String) (st : AudioManager PS W)
    (hc : Consistent st) : Consistent (_createPlayer B name st).state := by
  unfold _createPlayer
  cases hs : st.sounds.get? name with
  | none => exact hc
  | some sound =>
    have hmem : (name, sound) ∈ st.sounds.entries :=
      (HMap.get?_eq_some_iff _ hc.keys_nodup name sound).mp hs
    have hname : sound.name = name := hc.key_name _ hmem
    have hfresh : st.nextPtr ∉ st.players := fun h => lt_irrefl _ (hc.players_lt _ h)
    exact
      { players_nodup := by
          show (st.players ++ [st.nextPtr]).Nodup
          exact List.Nodup.append hc.players_nodup (List.nodup_singleton _)
            (by
              intro a ha hb
              rw [List.mem_singleton] at hb
              exact hfresh (hb ▸ ha))
        managed_nodup := hc.managed_nodup
        managed_sub := fun p hp => List.mem_append_left _ (hc.managed_sub p hp)
        players_lt := by
          intro p hp
          show p < st.nextPtr + 1
          rcases List.mem_append.mp hp with h | h
          · exact Nat.lt_succ_of_lt (hc.players_lt p h)
          · rw [List.mem_singleton] at h
            omega
        buffers_lt := fun b hb => Nat.lt_succ_of_lt (hc.buffers_lt b hb)
        keys_nodup := hc.keys_nodup
        key_name := hc.key_name
        sound_lt := fun e he => Nat.lt_succ_of_lt (hc.sound_lt e he)
        ptr_inj := hc.ptr_inj
        player_sound := by
          intro p hp
          show ((Function.update st.playerSound st.nextPtr sound p).name,
            Function.update st.playerSound st.nextPtr sound p) ∈ st.sounds.entries
          rcases List.mem_append.mp hp with h | h
          · have hne : p ≠ st.nextPtr := fun e => hfresh (e ▸ h)
            rw [Function.update_noteq hne]
            exact hc.player_sound p h
          · rw [List.mem_singleton] at h
            rw [h, Function.update_same, hname]
            exact hmem }

theorem consistent_createManagedPlayer (B : Backend PS W) (name : String)
    (st : AudioManager PS W) (hc : Consistent st) :
    Consistent (_createManagedPlayer B name st).state := by
  have h1 := consistent_createPlayer B name st hc
  unfold _createManagedPlayer
  unfold _createPlayer at h1 ⊢
  cases hs : st.sounds.get? name with
  | none =>
    simp only [hs] at h1 ⊢
    exact h1
  | some sound =>
    simp only [hs] at h1 ⊢
    have hfresh : st.nextPtr ∉ st.managedPlayers :=
      fun h => lt_irrefl _ (hc.players_lt _ (hc.managed_sub _ h))
    exact
      { players_nodup := h1.players_nodup
        managed_nodup := by
          show (st.managedPlayers ++ [st.nextPtr]).Nodup
          exact List.Nodup.append hc.managed_nodup (List.nodup_singleton _)
            (by
              intro a ha hb
              rw [List.mem_singleton] at hb
              exact hfresh (hb ▸ ha))
        managed_sub := by
          intro p hp
          show p ∈ st.players ++ [st.nextPtr]
          rcases List.mem_append.mp hp with h | h
          · exact List.mem_append_left _ (hc.managed_sub p h)
          · exact List.mem_append_right _ h
        players_lt := h1.players_lt
        buffers_lt := h1.buffers_lt
        keys_nodup := h1.keys_nodup
        key_name := h1.key_name
        sound_lt := h1.sound_lt
        ptr_inj := h1.ptr_inj
        player_sound := h1.player_sound }

theorem consistent_play (B : Backend PS W) (soundName : String) (fadeTime : ℚ)
    (looping : Bool) (gain : ℚ) (st : AudioManager PS W) (hc : Consistent st) :
    Consistent (_play B soundName fadeTime looping gain st).state := by
  have h1 := consistent_createManagedPlayer B soundName st hc
  unfold _play
  split
  · exact hc
  · split
    · exact h1
    · exact h1.of_sameCore ((sameCore_onPlayer _ _ _).comp (sameCore_onPlayer _ _ _))

theorem consistent_playAsync (B : Backend PS W) (soundName : String) (fadeTime : ℚ)
    (looping : Bool) (gain : ℚ) (st : AudioManager PS W) (hc : Consistent st) :
    Consistent (_playAsync B soundName fadeTime looping gain st).state := by
  have h1 := consistent_createManagedPlayer B soundName st hc
  unfold _playAsync
  split
  · exact hc
  · split
    · exact h1
    · exact h1.of_sameCore ((sameCore_onPlayer _ _ _).comp (sameCore_onPlayer _ _ _))

theorem not_mem_managed_of_manual {st : AudioManager PS W} (hc : Consistent st) {p : Nat}
    (hp : p ∈ _getPlayers st) : p ∈ st.players ∧ p ∉ st.managedPlayers :=
  hc.players_nodup.mem_diff_iff.mp hp

theorem consistent_destroyPlayer (B : Backend PS W) (p : Nat) (st : AudioManager PS W)
    (hc : Consistent st) (hp : p ∈ _getPlayers st) : Consistent (_destroyPlayer B p st) :=
  (removed_destroyPlayer B p st (not_mem_managed_of_manual hc hp).2).keeps_consistent hc

theorem consistent_destroyManagedWhere (B : Backend PS W)
    (cond : AudioManager PS W → Nat → Bool) (hloc : LocalTest cond) (st : AudioManager PS W)
    (hc : Consistent st) : Consistent (destroyManagedWhere B cond st.managedPlayers st) :=
  (removed_destroyManagedWhere B cond hloc _ st hc.managed_nodup).keeps_consistent hc

theorem consistent_stop (B : Backend PS W) (soundName : String) (fadeTime : ℚ)
    (st : AudioManager PS W) (hc : Consistent st) : Consistent (_stop B soundName fadeTime st) := by
  unfold _stop
  split
  · exact consistent_destroyManagedWhere B _ (localTest_playsName soundName) st hc
  · exact hc.of_sameCore (sameCore_stopWhere B _ _ _ _)

theorem consistent_stopFirst (B : Backend PS W) (soundName : String) (fadeTime : ℚ)
    (st : AudioManager PS W) (hc : Consistent st) :
    Consistent (_stopFirst B soundName fadeTime st) := by
  unfold _stopFirst
  split
  · exact hc
  · split
    · exact (removed_destroyManagedPlayer B _ st).keeps_consistent hc
    · exact hc.of_sameCore (sameCore_playerStop B _ _ _)

theorem consistent_stopAll (B : Backend PS W) (fadeTime : ℚ) (st : AudioManager PS W)
    (hc : Consistent st) : Consistent (_stopAll B fadeTime st) := by
  unfold _stopAll
  simp only
  refine Consistent.of_sameCore ?_ (sameCore_stopWhere B _ _ _ _)
  split
  · exact consistent_destroyManagedWhere B _ localTest_true st hc
  · exact hc

theorem consistent_stopCategory (B : Backend PS W) (categoryName : String) (fadeTime : ℚ)
    (st : AudioManager PS W) (hc : Consistent st) :
    Consistent (_stopCategory B categoryName fadeTime st).state := by
  unfold _stopCategory
  simp only
  cases hcat : _getCategory categoryName st with
  | error e => exact hc
  | ok category =>
    simp only
    refine Consistent.of_sameCore ?_ (sameCore_stopWhere B _ _ _ _)
    split
    · exact consistent_destroyManagedWhere B _ (localTest_playsCategory category) st hc
    · exact hc

theorem sameCore_suspendPlayer (B : Backend PS W) (fadeTime : ℚ) (st : AudioManager PS W)
    (p : Nat) : SameCore st (suspendPlayer B fadeTime st p) := by
  unfold suspendPlayer
  split_ifs <;> exact ⟨rfl, rfl, rfl, rfl, rfl, rfl⟩

theorem sameCore_suspendAudio (B : Backend PS W) (st : AudioManager PS W) :
    SameCore st (_suspendAudio B st) := by
  unfold _suspendAudio
  split
  · have h := sameCore_foldl (suspendPlayer B (if st.thread then st.suspendResumeFadeTime else 0))
      (sameCore_suspendPlayer B _) st.players st
    exact ⟨h.players, h.managedPlayers, h.sounds, h.buffers, h.playerSound, h.nextPtr⟩
  · exact SameCore.refl st

theorem sameCore_resumeAudio (B : Backend PS W) (st : AudioManager PS W) :
    SameCore st (_resumeAudio B st) := by
  unfold _resumeAudio
  split
  · have h := sameCore_foldl
      (fun s p => onPlayer (B.play (if st.thread then st.suspendResumeFadeTime else 0) false) p s)
      (fun s p => sameCore_onPlayer _ p s) st.suspendedPlayers
      { st with suspended := false, world := B.resumeSystem st.world }
    exact ⟨h.players, h.managedPlayers, h.sounds, h.buffers, h.playerSound, h.nextPtr⟩
  · exact SameCore.refl st

theorem deleteSounds_fields (B : Backend PS W) :
    ∀ (l : List Sound) (st : AudioManager PS W),
      (l.foldl (fun s sound => deleteSound B sound s) st).buffers.Sublist st.buffers ∧
      (l.foldl (fun s sound => deleteSound B sound s) st).nextPtr = st.nextPtr ∧
      (l.foldl (fun s sound => deleteSound B sound s) st).players = st.players ∧
      (l.foldl (fun s sound => deleteSound B sound s) st).managedPlayers = st.managedPlayers
  | [], st => ⟨List.Sublist.refl _, rfl, rfl, rfl⟩
  | x :: t, st => by
    have ih := deleteSounds_fields B t (deleteSound B x st)
    exact ⟨ih.1.trans (List.erase_sublist _ _), ih.2.1, ih.2.2.1, ih.2.2.2⟩

theorem clearPlayers_fields (B : Backend PS W) (st : AudioManager PS W) :
    (clearPlayers B st).players = [] ∧ (clearPlayers B st).managedPlayers = [] ∧
      (clearPlayers B st).buffers = st.buffers ∧ (clearPlayers B st).nextPtr = st.nextPtr ∧
      (clearPlayers B st).sounds = st.sounds := by
  have h2 := sameCore_foldl
    (fun s p =>
      { playerStop B 0 p s with
        world := B.playerDelete ((playerStop B 0 p s).playerObj p) (playerStop B 0 p s).world })
    (fun s p => ⟨rfl, rfl, rfl, rfl, rfl, rfl⟩) st.players st
  exact ⟨rfl, rfl, h2.buffers, h2.nextPtr, h2.sounds⟩

theorem clear_fields (B : Backend PS W) (st : AudioManager PS W) (hc : Consistent st) :
    (clear B st).players = [] ∧ (clear B st).managedPlayers = [] ∧
      (clear B st).sounds = HMap.empty ∧
      ∀ b ∈ (clear B st).buffers, b < (clear B st).nextPtr := by
  have h0 : Consistent { st with threadRunning := false, thread := false } :=
    hc.of_le rfl rfl rfl rfl rfl (le_refl _)
  have h1 := consistent_update B 0 _ h0
  have h2 := clearPlayers_fields B
    (_update B 0 { st with threadRunning := false, thread := false })
  have h3 := deleteSounds_fields B
    (clearPlayers B (_update B 0 { st with threadRunning := false, thread := false })).sounds.values
    (clearPlayers B (_update B 0 { st with threadRunning := false, thread := false }))
  refine ⟨h3.2.2.1.trans h2.1, h3.2.2.2.trans h2.2.1, rfl, ?_⟩
  intro b hb
  have hb2 := h3.1.subset hb
  rw [h2.2.2.1] at hb2
  have := h1.buffers_lt b hb2
  show b < (clearSounds B _).nextPtr
  unfold clearSounds
  rw [h3.2.1, h2.2.2.2.1]
  exact this

theorem consistent_clear (B : Backend PS W) (st : AudioManager PS W) (hc : Consistent st) :
    Consistent (clear B st) := by
  obtain ⟨hp, hm, hs, hb⟩ := clear_fields B st hc
  exact
    { players_nodup := by rw [hp]; exact List.nodup_nil
      managed_nodup := by rw [hm]; exact List.nodup_nil
      managed_sub := by
        rw [hm]
        exact fun _ h => absurd h (List.not_mem_nil _)
      players_lt := by
        rw [hp]
        exact fun _ h => absurd h (List.not_mem_nil _)
      buffers_lt := hb
      keys_nodup := by rw [hs]; exact List.nodup_nil
      key_name := by
        rw [hs]
        exact fun _ h => absurd h (List.not_mem_nil _)
      sound_lt := by
        rw [hs]
        exact fun _ h => absurd h (List.not_mem_nil _)
      ptr_inj := by
        rw [hs]
        exact fun _ h => absurd h (List.not_mem_nil _)
      player_sound := by
        rw [hp]
        exact fun _ h => absurd h (List.not_mem_nil _) }

/-- Every state the manager reaches is consistent. -/
theorem Reachable.consistent {B : Backend PS W} {st : AudioManager PS W}
    (h : Reachable B st) : Consistent st := by
  induction h with
  | create backendId threaded updateTime deviceName extensions objs w =>
    exact consistent_create _ _ _ _ _ _ _
  | init _ ih => exact ih.of_sameCore (sameCore_init _)
  | clear _ ih => exact consistent_clear B _ ih
  | setGlobalGain value _ ih => exact ih.of_sameCore (sameCore_setGlobalGain B value _)
  | fadeGlobalGain target fadeTime _ ih =>
    exact ih.of_sameCore (sameCore_fadeGlobalGain target fadeTime _)
  | tick timeDelta _ ih => exact consistent_update B timeDelta _ ih
  | update timeDelta _ ih =>
    unfold AudioManager.update
    split
    · exact consistent_update B timeDelta _ ih
    · exact ih
  | createCategory name bufferMode sourceMode _ ih =>
    exact consistent_createCategory B name bufferMode sourceMode _ ih
  | createSound filename categoryName pfx _ ih =>
    exact consistent_createSound B filename categoryName pfx _ ih
  | createSoundMemory name categoryName pcm _ ih =>
    exact consistent_createSoundMemory B name categoryName pcm _ ih
  | destroySound sound registered _ ih => exact consistent_destroySound B sound _ ih registered
  | destroySoundsWithPrefix pfx _ ih => exact consistent_destroySoundsWithPrefix B pfx _ ih
  | createPlayer name _ ih => exact consistent_createPlayer B name _ ih
  | destroyPlayer player manual _ ih => exact consistent_destroyPlayer B player _ ih manual
  | play soundName fadeTime looping gain _ ih =>
    exact consistent_play B soundName fadeTime looping gain _ ih
  | playAsync soundName fadeTime looping gain _ ih =>
    exact consistent_playAsync B soundName fadeTime looping gain _ ih
  | stop soundName fadeTime _ ih => exact consistent_stop B soundName fadeTime _ ih
  | stopFirst soundName fadeTime _ ih => exact consistent_stopFirst B soundName fadeTime _ ih
  | stopAll fadeTime _ ih => exact consistent_stopAll B fadeTime _ ih
  | stopCategory categoryName fadeTime _ ih =>
    exact consistent_stopCategory B categoryName fadeTime _ ih
  | clearMemory _ ih => exact ih.of_le rfl rfl rfl rfl rfl (le_refl _)
  | suspendAudio _ ih => exact ih.of_sameCore (sameCore_suspendAudio B _)
  | resumeAudio _ ih => exact ih.of_sameCore (sameCore_resumeAudio B _)
  | addAudioExtension extension _ ih => exact ih.of_le rfl rfl rfl rfl rfl (le_refl _)
  | createSoundNoAudio filename categoryName pfx _ ih =>
    exact consistent_createSoundNoAudio B filename categoryName pfx _ ih
  | createSoundMemoryNoAudio name categoryName pcm _ ih =>
    exact consistent_createSoundMemoryNoAudio B name categoryName pcm _ ih
  | playerCall player f _ ih => exact ih.of_sameCore (sameCore_onPlayer f player _)
  | playerStop player fadeTime _ ih =>
    exact ih.of_sameCore (sameCore_playerStop B fadeTime player _)

end AudioManager

/-! ## Destroying sounds -/

namespace AudioManager

variable {PS W : Type}

theorem reachable_demo1 : Reachable flagBackend demo1 :=
  Reachable.createCategory "sfx" BufferMode.Full SourceMode.Ram
    (Reachable.create 0 false 0 "" [".wav"] (fun _ => false) ())

theorem reachable_demo4 : Reachable flagBackend demo4 :=
  Reachable.play "n" 0 false 1
    (Reachable.play "m" 0 false 1
      (Reachable.createPlayer "m"
        (Reachable.createSound "n" "sfx" ""
          (Reachable.createSound "m" "sfx" ""
            (Reachable.createCategory "sfx" BufferMode.Full SourceMode.Ram
              (Reachable.create 0 false 0 "" [".wav"] (fun _ => false) ()))))))

theorem getSound_none {st : AudioManager PS W} {k : String} (h : st.sounds.get? k = none) :
    _getSound k st = Except.error (soundDoesNotExist k) := by
  unfold _getSound
  rw [h]

theorem getSound_some {st : AudioManager PS W} {k : String} {s : Sound}
    (h : st.sounds.get? k = some s) : _getSound k st = Except.ok s := by
  unfold _getSound
  rw [h]

theorem reachable_demo5 : Reachable flagBackend demo5 :=
  Reachable.playerCall 7 (flagBackend.stop 0) reachable_demo4

theorem destroySound_cases (B : Backend PS W) (s : Sound) (st : AudioManager PS W) :
    ((destroyManagedWhere B (playsSound s) st.managedPlayers st).players.any
        (playsSound s (destroyManagedWhere B (playsSound s) st.managedPlayers st)) = true ∧
      _destroySound B s st =
        ⟨destroyManagedWhere B (playsSound s) st.managedPlayers st,
          .error (manualPlayersMessage ++ s.name)⟩) ∨
    ((destroyManagedWhere B (playsSound s) st.managedPlayers st).players.any
        (playsSound s (destroyManagedWhere B (playsSound s) st.managedPlayers st)) = false ∧
      _destroySound B s st =
        ⟨deleteSound B s
          { destroyManagedWhere B (playsSound s) st.managedPlayers st with
            sounds := (destroyManagedWhere B (playsSound s) st.managedPlayers st).sounds.removeKey
              s.name }, .ok ()⟩) := by
  unfold _destroySound
  simp only
  split
  · next h => exact Or.inl ⟨h, rfl⟩
  · next h => exact Or.inr ⟨by simpa using h, rfl⟩

/-- In a consistent manager a player is on a registered sound exactly when it holds the
address of that sound. -/
theorem Consistent.ptr_eq_iff {st : AudioManager PS W} (hc : Consistent st) {p : Nat}
    (hp : p ∈ st.players) {s : Sound} (hs : st.sounds.get? s.name = some s) :
    (st.playerSound p).ptr = s.ptr ↔ st.playerSound p = s := by
  constructor
  · intro h
    have h1 := hc.player_sound p hp
    have h2 := (HMap.get?_eq_some_iff _ hc.keys_nodup s.name s).mp hs
    have := hc.ptr_inj _ h1 _ h2 h
    exact congrArg Prod.snd this
  · intro h
    rw [h]

/-- The test `_destroySound` throws on, read in the state before the call. -/
theorem destroySound_any_iff (B : Backend PS W) (s : Sound) (st : AudioManager PS W)
    (hc : Consistent st) (hs : st.sounds.get? s.name = some s) :
    (destroyManagedWhere B (playsSound s) st.managedPlayers st).players.any
        (playsSound s (destroyManagedWhere B (playsSound s) st.managedPlayers st)) = true ↔
      ∃ p ∈ _getPlayers st, st.playerSound p = s := by
  have hr := removed_destroySound_loop B s st hc
  rw [List.any_eq_true]
  constructor
  · rintro ⟨p, hp, hps⟩
    have hmem := (hr.mem_players hc p).mp hp
    have hptr : (st.playerSound p).ptr = s.ptr := by
      simpa [playsSound, hr.playerSound] using hps
    refine ⟨p, hc.players_nodup.mem_diff_iff.mpr ⟨hmem.1, ?_⟩, (hc.ptr_eq_iff hmem.1 hs).mp hptr⟩
    intro hman
    apply hmem.2
    rw [List.mem_filter]
    exact ⟨hman, by simp [playsSound, hptr]⟩
  · rintro ⟨p, hp, hps⟩
    have hmem := hc.players_nodup.mem_diff_iff.mp hp
    refine ⟨p, (hr.mem_players hc p).mpr ⟨hmem.1, ?_⟩, ?_⟩
    · intro hX
      exact hmem.2 (List.mem_filter.mp hX).1
    · simp [playsSound, hr.playerSound, hps]

theorem removed_destroyPlayers (B : Backend PS W) :
    ∀ (L : List Nat) (st : AudioManager PS W), (∀ p ∈ L, p ∉ st.managedPlayers) →
      Removed L st (L.foldl (fun a p => _destroyPlayer B p a) st)
  | [], st, _ => Removed.nil st
  | p :: t, st, h => by
    have h1 := removed_destroyPlayer B p st (h p (List.mem_cons_self _ _))
    have ih := removed_destroyPlayers B t (_destroyPlayer B p st)
      (fun q hq => h q (List.mem_cons_of_mem _ hq))
    exact h1.append ih

end AudioManager

/-- C1: in every state the manager reaches and for every registered sound `s`, `destroySound(s)`
throws exactly when a manual player (one of `getPlayers()`) is on `s`; the message is the
"manually created players" text followed by the name of `s`; when it throws, `getSound(s.name)`
still returns `s`, the list of manual players is the same and each manual player's object and
sound are untouched; and after `destroyPlayer` on every manual player of `s`, `destroySound(s)`
does not throw. -/
theorem C1_destroySound_manual_guard {PS W : Type} (B : Backend PS W) (st : AudioManager PS W)
    (s : Sound) (hr : AudioManager.Reachable B st) (hs : st.sounds.get? s.name = some s) :
    ((AudioManager._destroySound B s st).raised = true ↔
        ∃ p ∈ AudioManager._getPlayers st, st.playerSound p = s) ∧
    ((AudioManager._destroySound B s st).raised = true →
        (AudioManager._destroySound B s st).value =
          Except.error (manualPlayersMessage ++ s.name) ∧
        AudioManager._getSound s.name (AudioManager._destroySound B s st).state = Except.ok s ∧
        AudioManager._getPlayers (AudioManager._destroySound B s st).state =
          AudioManager._getPlayers st ∧
        ∀ p ∈ AudioManager._getPlayers st,
          (AudioManager._destroySound B s st).state.playerObj p = st.playerObj p ∧
          (AudioManager._destroySound B s st).state.playerSound p = st.playerSound p) ∧
    (AudioManager._destroySound B s
        (((AudioManager._getPlayers st).filter (fun p => decide (st.playerSound p = s))).foldl
          (fun a p => AudioManager._destroyPlayer B p a) st)).raised = false := by
  have hc := hr.consistent
  have hrem := AudioManager.removed_destroySound_loop B s st hc
  have hiff := AudioManager.destroySound_any_iff B s st hc hs
  refine ⟨?_, ?_, ?_⟩
  · rcases AudioManager.destroySound_cases B s st with ⟨hany, heq⟩ | ⟨hany, heq⟩
    · rw [heq]
      exact ⟨fun _ => hiff.mp hany, fun _ => rfl⟩
    · rw [heq]
      constructor
      · intro h
        exact Bool.noConfusion h
      · intro h
        rw [hiff.mpr h] at hany
        exact Bool.noConfusion hany
  · intro hraised
    rcases AudioManager.destroySound_cases B s st with ⟨hany, heq⟩ | ⟨hany, heq⟩
    · rw [heq]
      refine ⟨rfl, ?_, ?_, ?_⟩
      · exact AudioManager.getSound_some (by rw [hrem.sounds, hs])
      · exact hrem.getPlayers hc (fun x hx => (List.mem_filter.mp hx).1)
      · intro p hp
        have hmem := hc.players_nodup.mem_diff_iff.mp hp
        refine ⟨hrem.playerObj p ?_, by rw [hrem.playerSound]⟩
        intro hX
        exact hmem.2 (List.mem_filter.mp hX).1
    · rw [heq] at hraised
      exact Bool.noConfusion hraised
  · have hL : ∀ p ∈ (AudioManager._getPlayers st).filter (fun p => decide (st.playerSound p = s)),
        p ∉ st.managedPlayers := by
      intro p hp
      exact (hc.players_nodup.mem_diff_iff.mp (List.mem_filter.mp hp).1).2
    have hrem2 := AudioManager.removed_destroyPlayers B _ st hL
    have hc2 := hrem2.keeps_consistent hc
    have hs2 : (List.foldl (fun a p => AudioManager._destroyPlayer B p a) st
        ((AudioManager._getPlayers st).filter (fun p => decide (st.playerSound p = s)))).sounds.get?
        s.name = some s := by
      rw [hrem2.sounds]
      exact hs
    have hiff2 := AudioManager.destroySound_any_iff B s _ hc2 hs2
    rcases AudioManager.destroySound_cases B s
      (List.foldl (fun a p => AudioManager._destroyPlayer B p a) st
        ((AudioManager._getPlayers st).filter (fun p => decide (st.playerSound p = s))))
      with ⟨hany, heq⟩ | ⟨hany, heq⟩
    · exfalso
      obtain ⟨p, hp, hps⟩ := hiff2.mp hany
      have hmem := hc2.players_nodup.mem_diff_iff.mp hp
      have hpl := (hrem2.mem_players hc p).mp hmem.1
      have hnm : p ∉ st.managedPlayers := by
        intro hman
        exact hmem.2 ((hrem2.mem_managed hc p).mpr ⟨hman, hpl.2⟩)
      apply hpl.2
      rw [List.mem_filter]
      refine ⟨hc.players_nodup.mem_diff_iff.mpr ⟨hpl.1, hnm⟩, ?_⟩
      rw [hrem2.playerSound] at hps
      simp [hps]
    · rw [heq]
      rfl

/-- Witness of C1: in `demo4` the manual player 6 is on the registered sound `m`. -/
theorem C1_destroySound_manual_guard_witness :
    AudioManager.Reachable flagBackend demo4 ∧ demo4.sounds.get? soundM.name = some soundM ∧
      ((AudioManager._destroySound flagBackend soundM demo4).raised = true ↔
        ∃ p ∈ AudioManager._getPlayers demo4, demo4.playerSound p = soundM) :=
  ⟨AudioManager.reachable_demo4, by decide,
    (C1_destroySound_manual_guard flagBackend demo4 soundM AudioManager.reachable_demo4
      (by decide)).1⟩

/-- C2: in every state the manager reaches and for every registered sound `s`, when
`destroySound(s)` returns without throwing, `hasSound(s.name)` is false, `getSound(s.name)`
throws the does-not-exist error, no player of `players` or `managedPlayers` is on `s`, and
every other name is registered as before. -/
theorem C2_destroySound_success {PS W : Type} (B : Backend PS W) (st : AudioManager PS W)
    (s : Sound) (hr : AudioManager.Reachable B st) (hs : st.sounds.get? s.name = some s)
    (hok : (AudioManager._destroySound B s st).raised = false) :
    AudioManager._hasSound s.name (AudioManager._destroySound B s st).state = false ∧
    AudioManager._getSound s.name (AudioManager._destroySound B s st).state =
      Except.error (soundDoesNotExist s.name) ∧
    (∀ p ∈ (AudioManager._destroySound B s st).state.players,
      (AudioManager._destroySound B s st).state.playerSound p ≠ s) ∧
    (∀ p ∈ (AudioManager._destroySound B s st).state.managedPlayers,
      (AudioManager._destroySound B s st).state.playerSound p ≠ s) ∧
    (∀ k, k ≠ s.name →
      (AudioManager._destroySound B s st).state.sounds.get? k = st.sounds.get? k) := by
  have hc := hr.consistent
  have hc' := AudioManager.consistent_destroySound B s st hc hs
  have hrem := AudioManager.removed_destroySound_loop B s st hc
  rcases AudioManager.destroySound_cases B s st with ⟨hany, heq⟩ | ⟨hany, heq⟩
  · rw [heq] at hok
    exact Bool.noConfusion hok
  · have hplayers : ∀ p ∈ (AudioManager._destroySound B s st).state.players,
        (AudioManager._destroySound B s st).state.playerSound p ≠ s := by
      rw [heq]
      intro p hp hps
      have hany2 : ¬ (AudioManager.destroyManagedWhere B (AudioManager.playsSound s)
          st.managedPlayers st).players.any (AudioManager.playsSound s
            (AudioManager.destroyManagedWhere B (AudioManager.playsSound s)
              st.managedPlayers st)) = true := by
        rw [hany]
        exact Bool.false_ne_true
      exact AudioManager.any_playsSound_eq_false hany2 p hp (congrArg Sound.ptr hps)
    refine ⟨?_, ?_, hplayers, fun p hp => hplayers p (hc'.managed_sub p hp), ?_⟩
    · rw [heq]
      exact HMap.hasKey_removeKey_self _ _
    · rw [heq]
      exact AudioManager.getSound_none (HMap.get?_removeKey_self _ _)
    · intro k hk
      rw [heq]
      show (HMap.removeKey _ s.name).get? k = _
      rw [HMap.get?_removeKey_ne _ _ _ hk, hrem.sounds]

/-- Witness of C2: in `demo4` only the managed player 8 is on the registered sound `n`. -/
theorem C2_destroySound_success_witness :
    AudioManager.Reachable flagBackend demo4 ∧ demo4.sounds.get? soundN.name = some soundN ∧
      (AudioManager._destroySound flagBackend soundN demo4).raised = false ∧
      AudioManager._hasSound soundN.name
        (AudioManager._destroySound flagBackend soundN demo4).state = false :=
  ⟨AudioManager.reachable_demo4, by decide, by decide,
    (C2_destroySound_success flagBackend demo4 soundN AudioManager.reachable_demo4
      (by decide) (by decide)).1⟩

namespace AudioManager

variable {PS W : Type}

/-- Both overloads of `_createSound` run this after the constructor of `Sound`: `st2` is the
manager with the new buffer, `sound` the new object. -/
theorem register_spec (st st2 : AudioManager PS W) (hc : Consistent st) (sound : Sound)
    (hs2 : st2.sounds = st.sounds) (hptr : sound.ptr = st.nextPtr) :
    (st2.sounds.set sound.name sound).get? sound.name = some sound ∧
    (∀ k, k ≠ sound.name → (st2.sounds.set sound.name sound).get? k = st.sounds.get? k) ∧
    (∀ k, (st2.sounds.set sound.name sound).get? k = some sound → k = sound.name) := by
  refine ⟨HMap.get?_set_self _ _ _, ?_, ?_⟩
  · intro k hne
    rw [HMap.get?_set_ne _ _ _ _ hne, hs2]
  · intro k hget
    by_contra hne
    rw [HMap.get?_set_ne _ _ _ _ hne, hs2] at hget
    have hmem := (HMap.get?_eq_some_iff _ hc.keys_nodup k sound).mp hget
    have := hc.sound_lt _ hmem
    simp only [hptr] at this
    exact lt_irrefl _ this

end AudioManager

/-- C3: in every state the manager reaches in which category `categoryName` is registered, the
file-backed `createSound(filename, categoryName, prefix)` returns null exactly when the format
of the new sound is `Unknown` or its derived name (the prefix followed by the base name without
extension) is already registered, and then the registry of sounds and the list of buffers are
as before the call; otherwise it returns a sound that is registered under its derived name and
under no other name, the other names being registered as before. The memory-backed
`createSound(name, categoryName, data, ...)` does the same with `name` taken as it is. -/
theorem C3_createSound_null_iff {PS W : Type} (B : Backend PS W) (st : AudioManager PS W)
    (categoryName : String) (c : Category) (hr : AudioManager.Reachable B st)
    (hcat : st.categories.get? categoryName = some c) (filename pfx name : String)
    (pcm : PcmData) :
    (((AudioManager._createSound B filename categoryName pfx st).value = Except.ok none ↔
        (B.fileFormat filename = Format.Unknown ∨
          AudioManager._hasSound (pfx ++ B.baseNameWithoutExtension filename) st = true)) ∧
      ((AudioManager._createSound B filename categoryName pfx st).value = Except.ok none →
        (AudioManager._createSound B filename categoryName pfx st).state.sounds = st.sounds ∧
        (AudioManager._createSound B filename categoryName pfx st).state.buffers = st.buffers) ∧
      (¬ (B.fileFormat filename = Format.Unknown ∨
          AudioManager._hasSound (pfx ++ B.baseNameWithoutExtension filename) st = true) →
        ∃ s : Sound,
          (AudioManager._createSound B filename categoryName pfx st).value = Except.ok (some s) ∧
          s.name = pfx ++ B.baseNameWithoutExtension filename ∧
          (AudioManager._createSound B filename categoryName pfx st).state.sounds.get? s.name
            = some s ∧
          (∀ k, k ≠ s.name →
            (AudioManager._createSound B filename categoryName pfx st).state.sounds.get? k
              = st.sounds.get? k) ∧
          (∀ k,
            (AudioManager._createSound B filename categoryName pfx st).state.sounds.get? k
              = some s → k = s.name))) ∧
    (((AudioManager._createSoundMemory B name categoryName pcm st).value = Except.ok none ↔
        (B.memoryFormat = Format.Unknown ∨ AudioManager._hasSound name st = true)) ∧
      ((AudioManager._createSoundMemory B name categoryName pcm st).value = Except.ok none →
        (AudioManager._createSoundMemory B name categoryName pcm st).state.sounds = st.sounds ∧
        (AudioManager._createSoundMemory B name categoryName pcm st).state.buffers
          = st.buffers) ∧
      (¬ (B.memoryFormat = Format.Unknown ∨ AudioManager._hasSound name st = true) →
        ∃ s : Sound,
          (AudioManager._createSoundMemory B name categoryName pcm st).value
            = Except.ok (some s) ∧
          s.name = name ∧
          (AudioManager._createSoundMemory B name categoryName pcm st).state.sounds.get? s.name
            = some s ∧
          (∀ k, k ≠ s.name →
            (AudioManager._createSoundMemory B name categoryName pcm st).state.sounds.get? k
              = st.sounds.get? k) ∧
          (∀ k,
            (AudioManager._createSoundMemory B name categoryName pcm st).state.sounds.get? k
              = some s → k = s.name))) := by
  have hc := hr.consistent
  have hgc : AudioManager._getCategory categoryName st = Except.ok c := by
    unfold AudioManager._getCategory
    rw [hcat]
  have hfresh : (st.buffers ++ [st.nextPtr + 1]).erase (st.nextPtr + 1) = st.buffers := by
    apply AudioManager.erase_append_fresh
    intro hmem
    have := hc.buffers_lt _ hmem
    omega
  constructor
  · by_cases hcond : B.fileFormat filename = Format.Unknown ∨
        AudioManager._hasSound (pfx ++ B.baseNameWithoutExtension filename) st = true
    · have heq : AudioManager._createSound B filename categoryName pfx st =
          ⟨AudioManager.deleteSound B
            ⟨st.nextPtr, pfx ++ B.baseNameWithoutExtension filename, filename, c.ptr,
              st.nextPtr + 1, B.fileFormat filename⟩
            (AudioManager._createBuffer B filename c { st with nextPtr := st.nextPtr + 1 }),
            Except.ok none⟩ := by
        unfold AudioManager._createSound
        rw [hgc]
        exact if_pos hcond
      rw [heq]
      exact ⟨⟨fun _ => hcond, fun _ => rfl⟩, fun _ => ⟨rfl, hfresh⟩, fun h => absurd hcond h⟩
    · have heq : AudioManager._createSound B filename categoryName pfx st =
          ⟨{ AudioManager._createBuffer B filename c { st with nextPtr := st.nextPtr + 1 } with
              sounds := (AudioManager._createBuffer B filename c
                { st with nextPtr := st.nextPtr + 1 }).sounds.set
                (pfx ++ B.baseNameWithoutExtension filename)
                ⟨st.nextPtr, pfx ++ B.baseNameWithoutExtension filename, filename, c.ptr,
                  st.nextPtr + 1, B.fileFormat filename⟩ },
            Except.ok (some ⟨st.nextPtr, pfx ++ B.baseNameWithoutExtension filename, filename,
              c.ptr, st.nextPtr + 1, B.fileFormat filename⟩)⟩ := by
        unfold AudioManager._createSound
        rw [hgc]
        exact if_neg hcond
      have hspec := AudioManager.register_spec st
        (AudioManager._createBuffer B filename c { st with nextPtr := st.nextPtr + 1 })
        hc ⟨st.nextPtr, pfx ++ B.baseNameWithoutExtension filename, filename, c.ptr,
          st.nextPtr + 1, B.fileFormat filename⟩ rfl rfl
      rw [heq]
      refine ⟨⟨fun h => ?_, fun h => absurd h hcond⟩, fun h => ?_, fun _ => ?_⟩
      · simp at h
      · simp at h
      · exact ⟨_, rfl, rfl, hspec.1, hspec.2.1, hspec.2.2⟩
  · by_cases hcond : B.memoryFormat = Format.Unknown ∨ AudioManager._hasSound name st = true
    · have heq : AudioManager._createSoundMemory B name categoryName pcm st =
          ⟨AudioManager.deleteSound B
            ⟨st.nextPtr, name, "", c.ptr, st.nextPtr + 1, B.memoryFormat⟩
            (AudioManager._createBufferMemory B c pcm { st with nextPtr := st.nextPtr + 1 }),
            Except.ok none⟩ := by
        unfold AudioManager._createSoundMemory
        rw [hgc]
        exact if_pos hcond
      rw [heq]
      exact ⟨⟨fun _ => hcond, fun _ => rfl⟩, fun _ => ⟨rfl, hfresh⟩, fun h => absurd hcond h⟩
    · have heq : AudioManager._createSoundMemory B name categoryName pcm st =
          ⟨{ AudioManager._createBufferMemory B c pcm { st with nextPtr := st.nextPtr + 1 } with
              sounds := (AudioManager._createBufferMemory B c pcm
                { st with nextPtr := st.nextPtr + 1 }).sounds.set name
                ⟨st.nextPtr, name, "", c.ptr, st.nextPtr + 1, B.memoryFormat⟩ },
            Except.ok (some ⟨st.nextPtr, name, "", c.ptr, st.nextPtr + 1, B.memoryFormat⟩)⟩ := by
        unfold AudioManager._createSoundMemory
        rw [hgc]
        exact if_neg hcond
      have hspec := AudioManager.register_spec st
        (AudioManager._createBufferMemory B c pcm { st with nextPtr := st.nextPtr + 1 })
        hc ⟨st.nextPtr, name, "", c.ptr, st.nextPtr + 1, B.memoryFormat⟩ rfl rfl
      rw [heq]
      refine ⟨⟨fun h => ?_, fun h => absurd h hcond⟩, fun h => ?_, fun _ => ?_⟩
      · simp at h
      · simp at h
      · exact ⟨_, rfl, rfl, hspec.1, hspec.2.1, hspec.2.2⟩

/-- Witness of C3: `demo1` has the category `sfx` and no sound; `m` gets registered. -/
theorem C3_createSound_null_iff_witness :
    AudioManager.Reachable flagBackend demo1 ∧ demo1.categories.get? "sfx" = some categorySfx ∧
      ((AudioManager._createSound flagBackend "m" "sfx" "" demo1).value = Except.ok none ↔
        (flagBackend.fileFormat "m" = Format.Unknown ∨
          AudioManager._hasSound ("" ++ flagBackend.baseNameWithoutExtension "m") demo1 = true)) :=
  ⟨AudioManager.reachable_demo1, by decide,
    (C3_createSound_null_iff flagBackend demo1 "sfx" categorySfx AudioManager.reachable_demo1
      (by decide) "m" "" "x" default).1.1⟩

/-- C4: `createCategory(n, b, s)` returns the category registered under `n` and changes nothing
when there is one, whatever `b` and `s` are; when there is none it registers one new category
under `n`, with the modes `b` and `s`, returns it and leaves every other name as it was. A
second `createCategory` with the same name, with any modes, returns the same category and
leaves the state of the first call. -/
theorem C4_createCategory_idempotent {PS W : Type} (B : Backend PS W) (st : AudioManager PS W)
    (n : String) (b : BufferMode) (s : SourceMode) :
    (∀ c, st.categories.get? n = some c →
      AudioManager._createCategory B n b s st = ⟨st, Except.ok c⟩) ∧
    (st.categories.get? n = none →
      ∃ c : Category,
        (AudioManager._createCategory B n b s st).value = Except.ok c ∧
        c.name = n ∧ c.bufferMode = b ∧ c.sourceMode = s ∧
        (AudioManager._createCategory B n b s st).state.categories.get? n = some c ∧
        (∀ k, k ≠ n →
          (AudioManager._createCategory B n b s st).state.categories.get? k
            = st.categories.get? k) ∧
        (AudioManager._createCategory B n b s st).state.categories.entries.length
          = st.categories.entries.length + 1) ∧
    (∀ (b' : BufferMode) (s' : SourceMode),
      AudioManager._createCategory B n b' s' (AudioManager._createCategory B n b s st).state
        = ⟨(AudioManager._createCategory B n b s st).state,
            (AudioManager._createCategory B n b s st).value⟩) := by
  cases h : st.categories.get? n with
  | some c =>
    have heq : ∀ (b' : BufferMode) (s' : SourceMode),
        AudioManager._createCategory B n b' s' st = ⟨st, Except.ok c⟩ := by
      intro b' s'
      unfold AudioManager._createCategory
      rw [h]
    refine ⟨fun c' hc' => ?_, fun h' => Option.noConfusion h', fun b' s' => ?_⟩
    · rw [← Option.some.inj hc']
      exact heq b s
    · rw [heq b s]
      exact heq b' s'
  | none =>
    have hk : st.categories.hasKey n = false := by
      rw [HMap.hasKey_eq_isSome, h]
      rfl
    have heq : AudioManager._createCategory B n b s st =
        ⟨{ st with
            categories := st.categories.set n ⟨st.nextPtr, n, b, s, B.categoryGainInit⟩
            nextPtr := st.nextPtr + 1 },
          Except.ok ⟨st.nextPtr, n, b, s, B.categoryGainInit⟩⟩ := by
      unfold AudioManager._createCategory
      rw [h]
    refine ⟨fun c' hc' => Option.noConfusion hc', fun _ => ?_, fun b' s' => ?_⟩
    · rw [heq]
      refine ⟨_, rfl, rfl, rfl, rfl, HMap.get?_set_self _ _ _,
        fun k hk' => HMap.get?_set_ne _ _ _ _ hk', ?_⟩
      show (st.categories.set n _).entries.length = _
      unfold HMap.set
      rw [hk]
      exact HMap.length_insertSorted _ _ _
    · rw [heq]
      unfold AudioManager._createCategory
      show (match (st.categories.set n _).get? n with
        | some c => _
        | none => _) = _
      rw [HMap.get?_set_self]

namespace AudioManager

variable {PS W : Type}

theorem diff_append_fresh {P M : List Nat} {a : Nat} (hP : P.Nodup) (ha : a ∉ P) :
    (P ++ [a]).diff (M ++ [a]) = P.diff M := by
  have hPa : (P ++ [a]).Nodup :=
    List.Nodup.append hP (List.nodup_singleton _)
      (by
        intro x hx hb
        rw [List.mem_singleton] at hb
        exact ha (hb ▸ hx))
  rw [hPa.diff_eq_filter, hP.diff_eq_filter, List.filter_append]
  have h1 : [a].filter (fun x => decide (x ∉ M ++ [a])) = [] := by simp
  have h2 : P.filter (fun x => decide (x ∉ M ++ [a])) = P.filter (fun x => decide (x ∉ M)) := by
    apply List.filter_congr
    intro x hx
    have hne : x ≠ a := fun e => ha (e ▸ hx)
    simp [hne]
  rw [h1, h2, List.append_nil]

theorem createPlayer_none (B : Backend PS W) {n : String} {st : AudioManager PS W}
    (h : st.sounds.get? n = none) :
    _createPlayer B n st = ⟨st, Except.error (soundDoesNotExist n)⟩ := by
  unfold _createPlayer
  rw [h]

theorem createPlayer_some (B : Backend PS W) {n : String} {st : AudioManager PS W} {s : Sound}
    (h : st.sounds.get? n = some s) :
    _createPlayer B n st =
      ⟨{ st with
          playerSound := Function.update st.playerSound st.nextPtr s
          playerObj := Function.update st.playerObj st.nextPtr
            (B.playerNew st.nextPtr s st.world).1
          world := (B.playerNew st.nextPtr s st.world).2
          players := st.players ++ [st.nextPtr]
          nextPtr := st.nextPtr + 1 }, Except.ok st.nextPtr⟩ := by
  unfold _createPlayer
  rw [h]

theorem createManagedPlayer_none (B : Backend PS W) {n : String} {st : AudioManager PS W}
    (h : st.sounds.get? n = none) :
    _createManagedPlayer B n st = ⟨st, Except.error (soundDoesNotExist n)⟩ := by
  unfold _createManagedPlayer
  rw [createPlayer_none B h]

/-- What `_createManagedPlayer` leaves when the sound is registered. -/
theorem createManagedPlayer_some (B : Backend PS W) {n : String} {st : AudioManager PS W}
    {s : Sound} (h : st.sounds.get? n = some s) :
    (_createManagedPlayer B n st).value = Except.ok st.nextPtr ∧
    (_createManagedPlayer B n st).state.players = st.players ++ [st.nextPtr] ∧
    (_createManagedPlayer B n st).state.managedPlayers = st.managedPlayers ++ [st.nextPtr] ∧
    (_createManagedPlayer B n st).state.playerSound
      = Function.update st.playerSound st.nextPtr s := by
  unfold _createManagedPlayer
  rw [createPlayer_some B h]
  exact ⟨rfl, rfl, rfl, rfl⟩

theorem hasSound_eq_false_iff {n : String} {st : AudioManager PS W} :
    _hasSound n st = false ↔ st.sounds.get? n = none := by
  unfold _hasSound
  rw [HMap.hasKey_eq_isSome]
  cases st.sounds.get? n <;> simp

/-- The part of `_play` and `_playAsync` after the `suspended` test: a managed player is
created and, when that did not throw, gets its gain and is started by `start`. -/
theorem spawn_spec (B : Backend PS W) (n : String) (st : AudioManager PS W)
    (hc : Consistent st) (r : Result (AudioManager PS W) Unit)
    (start : PS → W → PS × W) (g : ℚ)
    (hr : r =
      match (_createManagedPlayer B n st).value with
      | .error e => ⟨(_createManagedPlayer B n st).state, .error e⟩
      | .ok player =>
        ⟨onPlayer start player
          (onPlayer (B.setGain g) player (_createManagedPlayer B n st).state), .ok ()⟩) :
    (r.raised = true ↔ _hasSound n st = false) ∧
    (_hasSound n st = false → r = ⟨st, Except.error (soundDoesNotExist n)⟩) ∧
    (∀ s, st.sounds.get? n = some s →
      r.state.players = st.players ++ [st.nextPtr] ∧
      r.state.managedPlayers = st.managedPlayers ++ [st.nextPtr] ∧
      r.state.playerSound st.nextPtr = s ∧
      st.nextPtr ∉ st.players ∧
      _getPlayers r.state = _getPlayers st) := by
  have hfresh : st.nextPtr ∉ st.players := fun h => lt_irrefl _ (hc.players_lt _ h)
  cases hg : st.sounds.get? n with
  | none =>
    have hr' : r = ⟨st, Except.error (soundDoesNotExist n)⟩ := by
      rw [hr, createManagedPlayer_none B hg]
    refine ⟨?_, fun _ => hr', fun s hs => Option.noConfusion hs⟩
    rw [hr']
    exact ⟨fun _ => hasSound_eq_false_iff.mpr hg, fun _ => rfl⟩
  | some s =>
    obtain ⟨hv, hp, hm, hps⟩ := createManagedPlayer_some B hg
    have hr' : r = ⟨onPlayer start st.nextPtr
        (onPlayer (B.setGain g) st.nextPtr (_createManagedPlayer B n st).state),
        Except.ok ()⟩ := by
      rw [hr, hv]
    have hns : ¬ _hasSound n st = false := by
      rw [hasSound_eq_false_iff, hg]
      exact fun h => Option.noConfusion h
    refine ⟨?_, fun h => absurd h hns, fun s' hs' => ?_⟩
    · rw [hr']
      exact ⟨fun h => Bool.noConfusion h, fun h => absurd h hns⟩
    · rw [hr']
      have hpl : (onPlayer start st.nextPtr (onPlayer (B.setGain g) st.nextPtr
          (_createManagedPlayer B n st).state)).players = st.players ++ [st.nextPtr] := hp
      have hml : (onPlayer start st.nextPtr (onPlayer (B.setGain g) st.nextPtr
          (_createManagedPlayer B n st).state)).managedPlayers
          = st.managedPlayers ++ [st.nextPtr] := hm
      have hsl : (onPlayer start st.nextPtr (onPlayer (B.setGain g) st.nextPtr
          (_createManagedPlayer B n st).state)).playerSound
          = Function.update st.playerSound st.nextPtr s := hps
      refine ⟨hpl, hml, ?_, hfresh, ?_⟩
      · show (onPlayer start st.nextPtr (onPlayer (B.setGain g) st.nextPtr
          (_createManagedPlayer B n st).state)).playerSound st.nextPtr = s'
        rw [hsl, Function.update_same]
        exact Option.some.inj hs'
      · unfold _getPlayers
        rw [hpl, hml]
        exact diff_append_fresh hc.players_nodup hfresh

end AudioManager

/-- Counterexample to C5: a suspended manager with no sound; `play("zz")` does not throw though
no sound named `zz` is registered. -/
theorem C5_play_not_found_counterexample :
    ¬ ((AudioManager._play flagBackend "zz" 0 false 1
          (AudioManager._suspendAudio flagBackend demo0)).raised = true ↔
        AudioManager._hasSound "zz" (AudioManager._suspendAudio flagBackend demo0) = false) := by
  decide

/-- C5, amended: in every state the manager reaches that is not suspended, `play(n, ...)` throws
the does-not-exist error exactly when no sound named `n` is registered, and then nothing
changes; when `n` is registered it appends one new player on that sound, at a fresh address, to
`players` and to `managedPlayers`, so `getPlayers()` is unchanged; `playAsync` does the same.
In a suspended state `play` and `playAsync` return without throwing and change nothing.
`createPlayer(n)` throws exactly when no sound named `n` is registered, suspended or not. -/
theorem C5_play_not_found_amended {PS W : Type} (B : Backend PS W) (st : AudioManager PS W)
    (n : String) (fadeTime : ℚ) (looping : Bool) (gain : ℚ)
    (hr : AudioManager.Reachable B st) :
    (st.suspended = false →
      (((AudioManager._play B n fadeTime looping gain st).raised = true ↔
          AudioManager._hasSound n st = false) ∧
        (AudioManager._hasSound n st = false →
          AudioManager._play B n fadeTime looping gain st
            = ⟨st, Except.error (soundDoesNotExist n)⟩) ∧
        (∀ s, st.sounds.get? n = some s →
          (AudioManager._play B n fadeTime looping gain st).state.players
            = st.players ++ [st.nextPtr] ∧
          (AudioManager._play B n fadeTime looping gain st).state.managedPlayers
            = st.managedPlayers ++ [st.nextPtr] ∧
          (AudioManager._play B n fadeTime looping gain st).state.playerSound st.nextPtr = s ∧
          st.nextPtr ∉ st.players ∧
          AudioManager._getPlayers (AudioManager._play B n fadeTime looping gain st).state
            = AudioManager._getPlayers st)) ∧
      (((AudioManager._playAsync B n fadeTime looping gain st).raised = true ↔
          AudioManager._hasSound n st = false) ∧
        (AudioManager._hasSound n st = false →
          AudioManager._playAsync B n fadeTime looping gain st
            = ⟨st, Except.error (soundDoesNotExist n)⟩) ∧
        (∀ s, st.sounds.get? n = some s →
          (AudioManager._playAsync B n fadeTime looping gain st).state.players
            = st.players ++ [st.nextPtr] ∧
          (AudioManager._playAsync B n fadeTime looping gain st).state.managedPlayers
            = st.managedPlayers ++ [st.nextPtr] ∧
          (AudioManager._playAsync B n fadeTime looping gain st).state.playerSound st.nextPtr
            = s ∧
          st.nextPtr ∉ st.players ∧
          AudioManager._getPlayers (AudioManager._playAsync B n fadeTime looping gain st).state
            = AudioManager._getPlayers st))) ∧
    (st.suspended = true →
      AudioManager._play B n fadeTime looping gain st = ⟨st, Except.ok ()⟩ ∧
      AudioManager._playAsync B n fadeTime looping gain st = ⟨st, Except.ok ()⟩) ∧
    ((AudioManager._createPlayer B n st).raised = true ↔
      AudioManager._hasSound n st = false) ∧
    (AudioManager._hasSound n st = false →
      AudioManager._createPlayer B n st = ⟨st, Except.error (soundDoesNotExist n)⟩) := by
  have hc := hr.consistent
  refine ⟨fun hs => ⟨?_, ?_⟩, fun hs => ⟨?_, ?_⟩, ?_, ?_⟩
  · exact AudioManager.spawn_spec B n st hc _ (B.play fadeTime looping) gain
      (by
        unfold AudioManager._play
        rw [hs]
        rfl)
  · exact AudioManager.spawn_spec B n st hc _ (B.playAsync fadeTime looping) gain
      (by
        unfold AudioManager._playAsync
        rw [hs]
        rfl)
  · unfold AudioManager._play
    rw [hs]
    rfl
  · unfold AudioManager._playAsync
    rw [hs]
    rfl
  · cases hg : st.sounds.get? n with
    | none =>
      rw [AudioManager.createPlayer_none B hg]
      exact ⟨fun _ => AudioManager.hasSound_eq_false_iff.mpr hg, fun _ => rfl⟩
    | some s =>
      have hns : ¬ AudioManager._hasSound n st = false := by
        rw [AudioManager.hasSound_eq_false_iff, hg]
        exact fun h => Option.noConfusion h
      unfold AudioManager._createPlayer
      rw [hg]
      exact ⟨fun h => Bool.noConfusion h, fun h => absurd h hns⟩
  · intro h
    exact AudioManager.createPlayer_none B (AudioManager.hasSound_eq_false_iff.mp h)

/-- Witness of C5 (amended): `demo4` is reached and is not suspended, and `play("m")` on it does
not throw. -/
theorem C5_play_not_found_amended_witness :
    AudioManager.Reachable flagBackend demo4 ∧ demo4.suspended = false ∧
      ((AudioManager._play flagBackend "m" 0 false 1 demo4).raised = true ↔
        AudioManager._hasSound "m" demo4 = false) :=
  ⟨AudioManager.reachable_demo4, by decide,
    ((C5_play_not_found_amended flagBackend demo4 "m" 0 false 1
      AudioManager.reachable_demo4).1 (by decide)).1.1⟩

/-- C6: in every state the manager reaches through its public methods and ticks, every element
of `managedPlayers` is an element of `players`. -/
theorem C6_managed_subset_players {PS W : Type} (B : Backend PS W) (st : AudioManager PS W)
    (hr : AudioManager.Reachable B st) : ∀ p ∈ st.managedPlayers, p ∈ st.players :=
  hr.consistent.managed_sub

/-- Witness of C6: the managed players 7 and 8 of `demo4` are among its players. -/
theorem C6_managed_subset_players_witness :
    AudioManager.Reachable flagBackend demo4 ∧ ∀ p ∈ demo4.managedPlayers, p ∈ demo4.players :=
  ⟨AudioManager.reachable_demo4,
    C6_managed_subset_players flagBackend demo4 AudioManager.reachable_demo4⟩

/-- C7: in every state the manager reaches, the sound of each player of `players` is registered:
`getSound` of its name returns that very sound. -/
theorem C7_player_sound_registered {PS W : Type} (B : Backend PS W) (st : AudioManager PS W)
    (hr : AudioManager.Reachable B st) :
    ∀ p ∈ st.players,
      AudioManager._getSound (st.playerSound p).name st = Except.ok (st.playerSound p) := by
  intro p hp
  have hc := hr.consistent
  exact AudioManager.getSound_some
    ((HMap.get?_eq_some_iff _ hc.keys_nodup _ _).mpr (hc.player_sound p hp))

/-- Witness of C7: the sounds of the players 6, 7 and 8 of `demo4` are registered. -/
theorem C7_player_sound_registered_witness :
    AudioManager.Reachable flagBackend demo4 ∧
      ∀ p ∈ demo4.players,
        AudioManager._getSound (demo4.playerSound p).name demo4
          = Except.ok (demo4.playerSound p) :=
  ⟨AudioManager.reachable_demo4,
    C7_player_sound_registered flagBackend demo4 AudioManager.reachable_demo4⟩

namespace AudioManager

variable {PS W : Type}

theorem foldl_count (c : Nat → Bool) :
    ∀ (l : List Nat) (k : Nat),
      l.foldl (fun result p => if c p then result + 1 else result) k = k + (l.filter c).length
  | [], k => rfl
  | p :: t, k => by
    rw [List.foldl_cons, foldl_count c t]
    by_cases h : c p = true
    · rw [if_pos h, List.filter_cons_of_pos h, List.length_cons]
      omega
    · rw [if_neg h, List.filter_cons_of_neg h]

/-- A counter is the number of managed players on the name whose flag is set. -/
theorem countManaged_eq (flag : PS → Bool) (n : String) (st : AudioManager PS W) :
    countManaged flag n st =
      (st.managedPlayers.filter
        (fun p => decide ((st.playerSound p).name = n) && flag (st.playerObj p))).length := by
  unfold countManaged
  rw [foldl_count (fun p => playsName n st p && flag (st.playerObj p)), Nat.zero_add]
  rfl

theorem countManaged_le (flag : PS → Bool) (n : String) (st : AudioManager PS W) :
    countManaged flag n st ≤
      (st.managedPlayers.filter (fun p => decide ((st.playerSound p).name = n))).length := by
  rw [countManaged_eq]
  apply List.Sublist.length_le
  apply List.monotone_filter_right
  intro p hp
  rw [Bool.and_eq_true] at hp
  exact hp.1

/-- A counter reads the managed players only. -/
theorem countManaged_congr (flag : PS → Bool) (n : String) (st st' : AudioManager PS W)
    (hm : st'.managedPlayers = st.managedPlayers)
    (hs : ∀ p ∈ st.managedPlayers, st'.playerSound p = st.playerSound p)
    (ho : ∀ p ∈ st.managedPlayers, st'.playerObj p = st.playerObj p) :
    countManaged flag n st' = countManaged flag n st := by
  rw [countManaged_eq, countManaged_eq, hm]
  congr 1
  apply List.filter_congr
  intro p hp
  rw [hs p hp, ho p hp]

theorem countManaged_manual (flag : PS → Bool) (n : String) (st : AudioManager PS W)
    (hc : Consistent st) (p : Nat) (hp : p ∈ _getPlayers st) (f : PS → W → PS × W) :
    countManaged flag n (onPlayer f p st) = countManaged flag n st := by
  refine countManaged_congr flag n st (onPlayer f p st) rfl (fun _ _ => rfl) ?_
  intro q hq
  have hne : q ≠ p := fun e => (not_mem_managed_of_manual hc hp).2 (e ▸ hq)
  show Function.update st.playerObj p _ q = st.playerObj q
  exact Function.update_noteq hne _ _

theorem countManaged_createPlayer (B : Backend PS W) (flag : PS → Bool) (n m : String)
    (st : AudioManager PS W) (hc : Consistent st) :
    countManaged flag n (_createPlayer B m st).state = countManaged flag n st := by
  cases hg : st.sounds.get? m with
  | none => rw [createPlayer_none B hg]
  | some s =>
    have hne : ∀ q ∈ st.managedPlayers, q ≠ st.nextPtr := by
      intro q hq e
      exact lt_irrefl _ (e ▸ hc.players_lt q (hc.managed_sub q hq))
    rw [createPlayer_some B hg]
    refine countManaged_congr flag n st _ rfl ?_ ?_
    · intro q hq
      show Function.update st.playerSound st.nextPtr s q = st.playerSound q
      exact Function.update_noteq (hne q hq) _ _
    · intro q hq
      show Function.update st.playerObj st.nextPtr _ q = st.playerObj q
      exact Function.update_noteq (hne q hq) _ _

end AudioManager

/-- C8: for each of `getPlayingCount`, `getFadingCount`, `getFadingInCount` and
`getFadingOutCount`, with `_isPlaying`, `_isFading`, `_isFadingIn` and `_isFadingOut` as its
flag: the count for a name `n` is the number of managed players whose sound is named `n` and
whose flag is set, so it is at most the number of managed players on `n`; a manual player does
not contribute, whatever is done to its object; and `createPlayer(m)` leaves the count as it
is. -/
theorem C8_counts_managed_only {PS W : Type} (B : Backend PS W) (st : AudioManager PS W)
    (n m : String) (hr : AudioManager.Reachable B st) :
    ∀ cf ∈ [(AudioManager._getPlayingCount B, B.isPlaying),
        (AudioManager._getFadingCount B, B.isFading),
        (AudioManager._getFadingInCount B, B.isFadingIn),
        (AudioManager._getFadingOutCount B, B.isFadingOut)],
      cf.1 n st =
        (st.managedPlayers.filter
          (fun p => decide ((st.playerSound p).name = n) && cf.2 (st.playerObj p))).length ∧
      cf.1 n st ≤
        (st.managedPlayers.filter (fun p => decide ((st.playerSound p).name = n))).length ∧
      (∀ p ∈ AudioManager._getPlayers st, ∀ f : PS → W → PS × W,
        cf.1 n (AudioManager.onPlayer f p st) = cf.1 n st) ∧
      cf.1 n (AudioManager._createPlayer B m st).state = cf.1 n st := by
  have hc := hr.consistent
  have key : ∀ flag : PS → Bool,
      AudioManager.countManaged flag n st =
        (st.managedPlayers.filter
          (fun p => decide ((st.playerSound p).name = n) && flag (st.playerObj p))).length ∧
      AudioManager.countManaged flag n st ≤
        (st.managedPlayers.filter (fun p => decide ((st.playerSound p).name = n))).length ∧
      (∀ p ∈ AudioManager._getPlayers st, ∀ f : PS → W → PS × W,
        AudioManager.countManaged flag n (AudioManager.onPlayer f p st)
          = AudioManager.countManaged flag n st) ∧
      AudioManager.countManaged flag n (AudioManager._createPlayer B m st).state
        = AudioManager.countManaged flag n st :=
    fun flag =>
      ⟨AudioManager.countManaged_eq flag n st, AudioManager.countManaged_le flag n st,
        fun p hp f => AudioManager.countManaged_manual flag n st hc p hp f,
        AudioManager.countManaged_createPlayer B flag n m st hc⟩
  intro cf hcf
  simp only [List.mem_cons, List.mem_singleton, List.not_mem_nil, or_false] at hcf
  rcases hcf with rfl | rfl | rfl | rfl
  · exact key B.isPlaying
  · exact key B.isFading
  · exact key B.isFadingIn
  · exact key B.isFadingOut

/-- Witness of C8: in `demo4` one managed player is on `m` and it is playing. -/
theorem C8_counts_managed_only_witness :
    AudioManager.Reachable flagBackend demo4 ∧
      AudioManager._getPlayingCount flagBackend "m" demo4 =
        (demo4.managedPlayers.filter
          (fun p => decide ((demo4.playerSound p).name = "m") &&
            flagBackend.isPlaying (demo4.playerObj p))).length :=
  ⟨AudioManager.reachable_demo4,
    (C8_counts_managed_only flagBackend demo4 "m" "m" AudioManager.reachable_demo4
      (AudioManager._getPlayingCount flagBackend, flagBackend.isPlaying)
      (List.mem_cons_self _ _)).1⟩

/-- C9: in every state the manager reaches that is not suspended, and for every `dt`: the
player loop of `_update(dt)` leaves `players` and `managedPlayers` as they are; after the tick,
every managed player that at the reclaim step is not playing, not fading out and has no async
play queued is gone from `managedPlayers` and from `players`, every managed player that then is
playing, fading out or async-queued is still in both, and every manual player is still a
manual player. -/
theorem C9_update_reclaims_managed {PS W : Type} (B : Backend PS W) (st : AudioManager PS W)
    (dt : ℚ) (hr : AudioManager.Reachable B st) (hs : st.suspended = false) :
    (AudioManager.updateBeforeReclaim B dt st).players = st.players ∧
    (AudioManager.updateBeforeReclaim B dt st).managedPlayers = st.managedPlayers ∧
    (∀ p ∈ st.managedPlayers,
      B.isPlaying ((AudioManager.updateBeforeReclaim B dt st).playerObj p) = false →
      B.isFadingOut ((AudioManager.updateBeforeReclaim B dt st).playerObj p) = false →
      B.isAsyncPlayQueued ((AudioManager.updateBeforeReclaim B dt st).playerObj p) = false →
      p ∉ (AudioManager._update B dt st).managedPlayers ∧
      p ∉ (AudioManager._update B dt st).players) ∧
    (∀ p ∈ st.managedPlayers,
      (B.isPlaying ((AudioManager.updateBeforeReclaim B dt st).playerObj p) = true ∨
        B.isFadingOut ((AudioManager.updateBeforeReclaim B dt st).playerObj p) = true ∨
        B.isAsyncPlayQueued ((AudioManager.updateBeforeReclaim B dt st).playerObj p) = true) →
      p ∈ (AudioManager._update B dt st).managedPlayers ∧
      p ∈ (AudioManager._update B dt st).players) ∧
    (∀ p ∈ AudioManager._getPlayers st,
      p ∈ (AudioManager._update B dt st).players ∧
      p ∉ (AudioManager._update B dt st).managedPlayers) ∧
    AudioManager._getPlayers (AudioManager._update B dt st) = AudioManager._getPlayers st := by
  have hc := hr.consistent
  have hsc := AudioManager.sameCore_updateBeforeReclaim B dt st
  have hc1 := hc.of_sameCore hsc
  have hrem := AudioManager.removed_update B dt st hs hc.managed_nodup
  have hX : ∀ p,
      p ∈ (AudioManager.updateBeforeReclaim B dt st).managedPlayers.filter
        (AudioManager.reclaimable B (AudioManager.updateBeforeReclaim B dt st)) ↔
      p ∈ st.managedPlayers ∧
        B.isAsyncPlayQueued ((AudioManager.updateBeforeReclaim B dt st).playerObj p) = false ∧
        B.isPlaying ((AudioManager.updateBeforeReclaim B dt st).playerObj p) = false ∧
        B.isFadingOut ((AudioManager.updateBeforeReclaim B dt st).playerObj p) = false := by
    intro p
    rw [List.mem_filter, hsc.managedPlayers]
    simp [AudioManager.reclaimable, and_assoc]
  have hmp : ∀ p, p ∈ (AudioManager._update B dt st).players ↔
      p ∈ st.players ∧
        p ∉ (AudioManager.updateBeforeReclaim B dt st).managedPlayers.filter
          (AudioManager.reclaimable B (AudioManager.updateBeforeReclaim B dt st)) := by
    intro p
    rw [hrem.mem_players hc1 p, hsc.players]
  have hmm : ∀ p, p ∈ (AudioManager._update B dt st).managedPlayers ↔
      p ∈ st.managedPlayers ∧
        p ∉ (AudioManager.updateBeforeReclaim B dt st).managedPlayers.filter
          (AudioManager.reclaimable B (AudioManager.updateBeforeReclaim B dt st)) := by
    intro p
    rw [hrem.mem_managed hc1 p, hsc.managedPlayers]
  refine ⟨hsc.players, hsc.managedPlayers, ?_, ?_, ?_, ?_⟩
  · intro p hp h1 h2 h3
    have hin := (hX p).mpr ⟨hp, h3, h1, h2⟩
    exact ⟨fun h => ((hmm p).mp h).2 hin, fun h => ((hmp p).mp h).2 hin⟩
  · intro p hp hflag
    have hnot : p ∉ (AudioManager.updateBeforeReclaim B dt st).managedPlayers.filter
        (AudioManager.reclaimable B (AudioManager.updateBeforeReclaim B dt st)) := by
      intro hin
      obtain ⟨_, h3, h1, h2⟩ := (hX p).mp hin
      rcases hflag with h | h | h
      · rw [h1] at h
        exact Bool.noConfusion h
      · rw [h2] at h
        exact Bool.noConfusion h
      · rw [h3] at h
        exact Bool.noConfusion h
    exact ⟨(hmm p).mpr ⟨hp, hnot⟩, (hmp p).mpr ⟨hc.managed_sub p hp, hnot⟩⟩
  · intro p hp
    have hman := AudioManager.not_mem_managed_of_manual hc hp
    have hnot : p ∉ (AudioManager.updateBeforeReclaim B dt st).managedPlayers.filter
        (AudioManager.reclaimable B (AudioManager.updateBeforeReclaim B dt st)) :=
      fun hin => hman.2 ((hX p).mp hin).1
    exact ⟨(hmp p).mpr ⟨hman.1, hnot⟩, fun h => hman.2 ((hmm p).mp h).1⟩
  · have h1 := hrem.getPlayers hc1 (fun x hx => (List.mem_filter.mp hx).1)
    rw [h1]
    unfold AudioManager._getPlayers
    rw [hsc.players, hsc.managedPlayers]

/-- Witness of C9: `demo5` is reached and not suspended; its managed player 7 is silent when
the reclaim loop starts and is gone after the tick. -/
theorem C9_update_reclaims_managed_witness :
    AudioManager.Reachable flagBackend demo5 ∧ demo5.suspended = false ∧
      7 ∈ demo5.managedPlayers ∧
      (7 ∉ (AudioManager._update flagBackend 0 demo5).managedPlayers ∧
        7 ∉ (AudioManager._update flagBackend 0 demo5).players) :=
  ⟨AudioManager.reachable_demo5, by decide, by decide,
    (C9_update_reclaims_managed flagBackend demo5 0 AudioManager.reachable_demo5
      (by decide)).2.2.1 7 (by decide) (by decide) (by decide) (by decide)⟩

/-- C10: in every state the manager reaches, when `stop(n, 0)` returns, every managed player
whose sound is named `n` is gone from `managedPlayers` and from `players`, so no managed player
on `n` is left and `getPlayingCount(n)` and `getFadingCount(n)` are 0; the managed players of
other sounds are still in both lists with their objects untouched, and every manual player,
also one on `n`, is still a manual player with its object untouched. -/
theorem C10_stop_immediate {PS W : Type} (B : Backend PS W) (st : AudioManager PS W)
    (n : String) (hr : AudioManager.Reachable B st) :
    (∀ p ∈ st.managedPlayers, (st.playerSound p).name = n →
      p ∉ (AudioManager._stop B n 0 st).managedPlayers ∧
      p ∉ (AudioManager._stop B n 0 st).players) ∧
    (∀ p ∈ (AudioManager._stop B n 0 st).managedPlayers,
      ((AudioManager._stop B n 0 st).playerSound p).name ≠ n) ∧
    AudioManager._getPlayingCount B n (AudioManager._stop B n 0 st) = 0 ∧
    AudioManager._getFadingCount B n (AudioManager._stop B n 0 st) = 0 ∧
    (∀ p ∈ st.managedPlayers, (st.playerSound p).name ≠ n →
      p ∈ (AudioManager._stop B n 0 st).managedPlayers ∧
      p ∈ (AudioManager._stop B n 0 st).players ∧
      (AudioManager._stop B n 0 st).playerObj p = st.playerObj p) ∧
    (∀ p ∈ AudioManager._getPlayers st,
      p ∈ (AudioManager._stop B n 0 st).players ∧
      p ∉ (AudioManager._stop B n 0 st).managedPlayers ∧
      (AudioManager._stop B n 0 st).playerObj p = st.playerObj p) ∧
    AudioManager._getPlayers (AudioManager._stop B n 0 st) = AudioManager._getPlayers st := by
  have hc := hr.consistent
  have heq : AudioManager._stop B n 0 st =
      AudioManager.destroyManagedWhere B (AudioManager.playsName n) st.managedPlayers st := by
    unfold AudioManager._stop
    exact if_pos rfl
  have hrem : AudioManager.Removed (st.managedPlayers.filter (AudioManager.playsName n st)) st
      (AudioManager._stop B n 0 st) := by
    rw [heq]
    exact AudioManager.removed_destroyManagedWhere B _ (AudioManager.localTest_playsName n) _ st
      hc.managed_nodup
  have hX : ∀ p, p ∈ st.managedPlayers.filter (AudioManager.playsName n st) ↔
      p ∈ st.managedPlayers ∧ (st.playerSound p).name = n := by
    intro p
    rw [List.mem_filter]
    simp [AudioManager.playsName]
  have hleft : ∀ p ∈ (AudioManager._stop B n 0 st).managedPlayers,
      ((AudioManager._stop B n 0 st).playerSound p).name ≠ n := by
    intro p hp hname
    have hm := (hrem.mem_managed hc p).mp hp
    rw [hrem.playerSound] at hname
    exact hm.2 ((hX p).mpr ⟨hm.1, hname⟩)
  have hzero : ∀ flag : PS → Bool,
      AudioManager.countManaged flag n (AudioManager._stop B n 0 st) = 0 := by
    intro flag
    rw [AudioManager.countManaged_eq, List.length_eq_zero, List.filter_eq_nil_iff]
    intro p hp
    have := hleft p hp
    simp [this]
  refine ⟨?_, hleft, hzero B.isPlaying, hzero B.isFading, ?_, ?_, ?_⟩
  · intro p hp hname
    have hin := (hX p).mpr ⟨hp, hname⟩
    exact ⟨fun h => ((hrem.mem_managed hc p).mp h).2 hin,
      fun h => ((hrem.mem_players hc p).mp h).2 hin⟩
  · intro p hp hname
    have hnot : p ∉ st.managedPlayers.filter (AudioManager.playsName n st) :=
      fun hin => hname ((hX p).mp hin).2
    exact ⟨(hrem.mem_managed hc p).mpr ⟨hp, hnot⟩,
      (hrem.mem_players hc p).mpr ⟨hc.managed_sub p hp, hnot⟩, hrem.playerObj p hnot⟩
  · intro p hp
    have hman := AudioManager.not_mem_managed_of_manual hc hp
    have hnot : p ∉ st.managedPlayers.filter (AudioManager.playsName n st) :=
      fun hin => hman.2 ((hX p).mp hin).1
    exact ⟨(hrem.mem_players hc p).mpr ⟨hman.1, hnot⟩,
      fun h => hman.2 ((hrem.mem_managed hc p).mp h).1, hrem.playerObj p hnot⟩
  · exact hrem.getPlayers hc (fun x hx => (List.mem_filter.mp hx).1)

/-- Witness of C10: in `demo4`, `stop("m", 0)` leaves no playing managed player on `m`. -/
theorem C10_stop_immediate_witness :
    AudioManager.Reachable flagBackend demo4 ∧
      AudioManager._getPlayingCount flagBackend "m"
        (AudioManager._stop flagBackend "m" 0 demo4) = 0 :=
  ⟨AudioManager.reachable_demo4,
    (C10_stop_immediate flagBackend demo4 "m" AudioManager.reachable_demo4).2.2.1⟩

/-! ## What the player loops leave alone -/

namespace AudioManager

variable {PS W : Type}

theorem Frame.same (st : AudioManager PS W) : Frame st st :=
  ⟨rfl, rfl, rfl, rfl, rfl, rfl, rfl, rfl, rfl, List.Sublist.refl _⟩

theorem Frame.andThen {a b c : AudioManager PS W} (h1 : Frame a b) (h2 : Frame b c) :
    Frame a c :=
  ⟨h2.suspended.trans h1.suspended, h2.thread.trans h1.thread,
    h2.suspendResumeFadeTime.trans h1.suspendResumeFadeTime,
    h2.globalGain.trans h1.globalGain,
    h2.globalGainFadeTarget.trans h1.globalGainFadeTarget,
    h2.globalGainFadeSpeed.trans h1.globalGainFadeSpeed,
    h2.globalGainFadeTime.trans h1.globalGainFadeTime,
    h2.categories.trans h1.categories, h2.extensions.trans h1.extensions,
    h2.suspendedPlayers.trans h1.suspendedPlayers⟩

theorem frame_onPlayer (f : PS → W → PS × W) (p : Nat) (st : AudioManager PS W) :
    Frame st (onPlayer f p st) :=
  ⟨rfl, rfl, rfl, rfl, rfl, rfl, rfl, rfl, rfl, List.Sublist.refl _⟩

theorem frame_playerStop (B : Backend PS W) (t : ℚ) (p : Nat) (st : AudioManager PS W) :
    Frame st (playerStop B t p st) :=
  ⟨rfl, rfl, rfl, rfl, rfl, rfl, rfl, rfl, rfl, List.erase_sublist _ _⟩

theorem frame_foldl (f : AudioManager PS W → Nat → AudioManager PS W)
    (hf : ∀ s p, Frame s (f s p)) :
    ∀ (l : List Nat) (st : AudioManager PS W), Frame st (l.foldl f st)
  | [], st => Frame.same st
  | p :: l, st => (hf st p).andThen (frame_foldl f hf l (f st p))

theorem frame_destroyPlayer (B : Backend PS W) (p : Nat) (st : AudioManager PS W) :
    Frame st (_destroyPlayer B p st) :=
  ⟨rfl, rfl, rfl, rfl, rfl, rfl, rfl, rfl, rfl, List.erase_sublist _ _⟩

theorem frame_destroyManagedPlayer (B : Backend PS W) (p : Nat) (st : AudioManager PS W) :
    Frame st (_destroyManagedPlayer B p st) :=
  ⟨rfl, rfl, rfl, rfl, rfl, rfl, rfl, rfl, rfl, List.erase_sublist _ _⟩

theorem frame_destroyManagedWhere (B : Backend PS W) (cond : AudioManager PS W → Nat → Bool) :
    ∀ (L : List Nat) (st : AudioManager PS W), Frame st (destroyManagedWhere B cond L st)
  | [], st => Frame.same st
  | p :: rest, st => by
    unfold destroyManagedWhere
    by_cases hc : cond st p = true
    · rw [if_pos hc]
      exact (frame_destroyManagedPlayer B p st).andThen (frame_destroyManagedWhere B cond rest _)
    · rw [if_neg hc]
      exact frame_destroyManagedWhere B cond rest st

theorem frame_stopWhere (B : Backend PS W) (cond : AudioManager PS W → Nat → Bool) (t : ℚ) :
    ∀ (L : List Nat) (st : AudioManager PS W), Frame st (stopWhere B cond t L st)
  | [], st => Frame.same st
  | p :: rest, st => by
    unfold stopWhere
    by_cases hc : cond st p = true
    · rw [if_pos hc]
      exact (frame_playerStop B t p st).andThen (frame_stopWhere B cond t rest _)
    · rw [if_neg hc]
      exact frame_stopWhere B cond t rest st

theorem frame_updatePlayer (B : Backend PS W) (gainFading : Bool) (timeDelta : ℚ)
    (st : AudioManager PS W) (p : Nat) : Frame st (updatePlayer B gainFading timeDelta st p) := by
  unfold updatePlayer
  simp only
  split_ifs <;> exact ⟨rfl, rfl, rfl, rfl, rfl, rfl, rfl, rfl, rfl, List.Sublist.refl _⟩

/-- The player loop, the reclaim loop and the buffer loop of a tick change none of the
settings of the manager they start from. -/
theorem frame_tick_loops (B : Backend PS W) (gainFading : Bool) (timeDelta : ℚ)
    (X : AudioManager PS W) :
    Frame X
      (destroyManagedWhere B (reclaimable B)
        (X.players.foldl (updatePlayer B gainFading timeDelta) X).managedPlayers
        (X.players.foldl (updatePlayer B gainFading timeDelta) X)) :=
  (frame_foldl _ (frame_updatePlayer B gainFading timeDelta) X.players X).andThen
    (frame_destroyManagedWhere B _ _ _)

/-- The tick of a manager that is not suspended. -/
theorem update_active (B : Backend PS W) (dt : ℚ) (st : AudioManager PS W)
    (hs : st.suspended = false) :
    _update B dt st =
      { destroyManagedWhere B (reclaimable B) (updateBeforeReclaim B dt st).managedPlayers
          (updateBeforeReclaim B dt st) with
        world :=
          (destroyManagedWhere B (reclaimable B) (updateBeforeReclaim B dt st).managedPlayers
            (updateBeforeReclaim B dt st)).buffers.foldl
            (fun w b => B.bufferUpdate dt b w)
            (destroyManagedWhere B (reclaimable B) (updateBeforeReclaim B dt st).managedPlayers
              (updateBeforeReclaim B dt st)).world } := by
  unfold _update
  split
  · rfl
  · next h =>
    rw [hs] at h
    exact absurd rfl h

/-- The fade step reads the four gain fields only. -/
theorem updateGlobalGainFade_world (dt : ℚ) (st : AudioManager PS W) (w : W) :
    updateGlobalGainFade dt { st with world := w }
      = { updateGlobalGainFade dt st with world := w } := by
  simp only [updateGlobalGainFade, _isGlobalGainFading]
  split_ifs <;> rfl

/-- The settings of the manager when the player loop of a tick has run: those of the fade
step when `dt` is positive, those of the manager before the tick otherwise. -/
theorem updateBeforeReclaim_fields (B : Backend PS W) (dt : ℚ) (st : AudioManager PS W) :
    (updateBeforeReclaim B dt st).suspended
      = (if dt > 0 then updateGlobalGainFade dt st else st).suspended ∧
    (updateBeforeReclaim B dt st).globalGain
      = (if dt > 0 then updateGlobalGainFade dt st else st).globalGain ∧
    (updateBeforeReclaim B dt st).globalGainFadeTarget
      = (if dt > 0 then updateGlobalGainFade dt st else st).globalGainFadeTarget ∧
    (updateBeforeReclaim B dt st).globalGainFadeSpeed
      = (if dt > 0 then updateGlobalGainFade dt st else st).globalGainFadeSpeed ∧
    (updateBeforeReclaim B dt st).globalGainFadeTime
      = (if dt > 0 then updateGlobalGainFade dt st else st).globalGainFadeTime := by
  unfold updateBeforeReclaim
  simp only
  by_cases hdt : dt > 0
  · rw [if_pos hdt, if_pos hdt]
    have hF := frame_foldl _
      (frame_updatePlayer B
        (gainFadingFlag B dt { st with world := B.bufferAsyncUpdate st.world }) dt)
      ({ updateGlobalGainFade dt { st with world := B.bufferAsyncUpdate st.world } with
          categories := updateCategories B dt st.categories } : AudioManager PS W).players
      { updateGlobalGainFade dt { st with world := B.bufferAsyncUpdate st.world } with
        categories := updateCategories B dt st.categories }
    have hw := updateGlobalGainFade_world dt st (B.bufferAsyncUpdate st.world)
    refine ⟨hF.suspended.trans ?_, hF.globalGain.trans ?_, hF.globalGainFadeTarget.trans ?_,
      hF.globalGainFadeSpeed.trans ?_, hF.globalGainFadeTime.trans ?_⟩
    · show (updateGlobalGainFade dt { st with world := B.bufferAsyncUpdate st.world }).suspended
        = (updateGlobalGainFade dt st).suspended
      rw [hw]
    · show (updateGlobalGainFade dt { st with world := B.bufferAsyncUpdate st.world }).globalGain
        = (updateGlobalGainFade dt st).globalGain
      rw [hw]
    · show (updateGlobalGainFade dt { st with world := B.bufferAsyncUpdate st.world }).globalGainFadeTarget
        = (updateGlobalGainFade dt st).globalGainFadeTarget
      rw [hw]
    · show (updateGlobalGainFade dt { st with world := B.bufferAsyncUpdate st.world }).globalGainFadeSpeed
        = (updateGlobalGainFade dt st).globalGainFadeSpeed
      rw [hw]
    · show (updateGlobalGainFade dt { st with world := B.bufferAsyncUpdate st.world }).globalGainFadeTime
        = (updateGlobalGainFade dt st).globalGainFadeTime
      rw [hw]
  · rw [if_neg hdt, if_neg hdt]
    have hF := frame_foldl _
      (frame_updatePlayer B
        (gainFadingFlag B dt { st with world := B.bufferAsyncUpdate st.world }) dt)
      st.players { st with world := B.bufferAsyncUpdate st.world }
    exact ⟨hF.suspended, hF.globalGain, hF.globalGainFadeTarget, hF.globalGainFadeSpeed,
      hF.globalGainFadeTime⟩

/-- The settings of the manager after a tick that found it not suspended. -/
theorem update_fields (B : Backend PS W) (dt : ℚ) (st : AudioManager PS W)
    (hs : st.suspended = false) :
    (_update B dt st).suspended
      = (if dt > 0 then updateGlobalGainFade dt st else st).suspended ∧
    (_update B dt st).globalGain
      = (if dt > 0 then updateGlobalGainFade dt st else st).globalGain ∧
    (_update B dt st).globalGainFadeTarget
      = (if dt > 0 then updateGlobalGainFade dt st else st).globalGainFadeTarget ∧
    (_update B dt st).globalGainFadeSpeed
      = (if dt > 0 then updateGlobalGainFade dt st else st).globalGainFadeSpeed ∧
    (_update B dt st).globalGainFadeTime
      = (if dt > 0 then updateGlobalGainFade dt st else st).globalGainFadeTime := by
  have h := updateBeforeReclaim_fields B dt st
  have hF := frame_destroyManagedWhere B (reclaimable B)
    (updateBeforeReclaim B dt st).managedPlayers (updateBeforeReclaim B dt st)
  rw [update_active B dt st hs]
  exact ⟨hF.suspended.trans h.1, hF.globalGain.trans h.2.1,
    hF.globalGainFadeTarget.trans h.2.2.1, hF.globalGainFadeSpeed.trans h.2.2.2.1,
    hF.globalGainFadeTime.trans h.2.2.2.2⟩

end AudioManager

/-! ## The global gain fade -/

namespace AudioManager

variable {PS W : Type}

theorem updateGlobalGainFade_idle (dt : ℚ) (st : AudioManager PS W)
    (h : _isGlobalGainFading st = false) : updateGlobalGainFade dt st = st := by
  unfold updateGlobalGainFade
  rw [h]
  rfl

theorem Fading.isFading {g c T τ : ℚ} {st : AudioManager PS W} (h : Fading g c T τ st)
    (hc : 0 ≤ c) (hT : 0 < T) : _isGlobalGainFading st = true := by
  unfold _isGlobalGainFading
  rw [h.globalGainFadeTarget, h.globalGainFadeSpeed]
  have h1 : (0 : ℚ) < 1 / T := one_div_pos.mpr hT
  rw [decide_eq_true (ge_iff_le.mpr hc), decide_eq_true (gt_iff_lt.mpr h1)]
  rfl

theorem Committed.not_fading {c : ℚ} {st : AudioManager PS W} (h : Committed c st) :
    _isGlobalGainFading st = false := by
  unfold _isGlobalGainFading
  rw [h.globalGainFadeTarget]
  simp

theorem Fading.gainWhileFading {g c T τ : ℚ} {st : AudioManager PS W} (h : Fading g c T τ st)
    (hc : 0 ≤ c) (hT : 0 < T) : _getGlobalGain st = g + (c - g) * τ := by
  unfold _getGlobalGain
  rw [h.isFading hc hT, if_pos rfl, h.globalGain, h.globalGainFadeTarget, h.globalGainFadeTime]

theorem Committed.gainWhenCommitted {c : ℚ} {st : AudioManager PS W} (h : Committed c st) :
    _getGlobalGain st = c := by
  unfold _getGlobalGain
  rw [h.not_fading, h.globalGain]
  rfl

/-- The call `_fadeGlobalGain(target, T)` with `T > 0` starts a fade from the stored gain to
the clamped target. -/
theorem fading_fadeGlobalGain (target T : ℚ) (st : AudioManager PS W)
    (hs : st.suspended = false) (hT : 0 < T) :
    Fading st.globalGain (max 0 (min target 1)) T 0 (_fadeGlobalGain target T st) := by
  unfold _fadeGlobalGain
  rw [if_pos hT]
  exact ⟨hs, rfl, rfl, rfl, rfl⟩

theorem tick_committed (B : Backend PS W) (dt c : ℚ) (st : AudioManager PS W)
    (h : Committed c st) : Committed c (_update B dt st) := by
  obtain ⟨h1, h2, h3, h4, h5⟩ := update_fields B dt st h.suspended
  have hid : (if dt > 0 then updateGlobalGainFade dt st else st) = st := by
    split
    · exact updateGlobalGainFade_idle dt st h.not_fading
    · rfl
  rw [hid] at h1 h2 h3 h4 h5
  exact ⟨h1.trans h.suspended, h2.trans h.globalGain, h3.trans h.globalGainFadeTarget,
    h4.trans h.globalGainFadeSpeed, h5.trans h.globalGainFadeTime⟩

/-- One tick of a fade in progress: nothing when `dt` is not positive, the fraction grows by
`dt / T` while it stays below 1, and the target is committed when it reaches 1. -/
theorem tick_fading (B : Backend PS W) (dt g c T τ : ℚ) (st : AudioManager PS W)
    (h : Fading g c T τ st) (hc : 0 ≤ c) (hT : 0 < T) :
    (dt ≤ 0 → Fading g c T τ (_update B dt st)) ∧
    (0 < dt → τ + dt / T < 1 → Fading g c T (τ + dt / T) (_update B dt st)) ∧
    (0 < dt → 1 ≤ τ + dt / T → Committed c (_update B dt st)) := by
  obtain ⟨h1, h2, h3, h4, h5⟩ := update_fields B dt st h.suspended
  have hfad := h.isFading hc hT
  have hexpr : st.globalGainFadeTime + st.globalGainFadeSpeed * dt = τ + dt / T := by
    rw [h.globalGainFadeTime, h.globalGainFadeSpeed]
    ring
  refine ⟨fun hdt => ?_, fun hdt hlt => ?_, fun hdt hge => ?_⟩
  · have hn : ¬ dt > 0 := not_lt.mpr hdt
    rw [if_neg hn] at h1 h2 h3 h4 h5
    exact ⟨h1.trans h.suspended, h2.trans h.globalGain, h3.trans h.globalGainFadeTarget,
      h4.trans h.globalGainFadeSpeed, h5.trans h.globalGainFadeTime⟩
  · have hstep : updateGlobalGainFade dt st =
        { st with globalGainFadeTime := st.globalGainFadeTime + st.globalGainFadeSpeed * dt } := by
      unfold updateGlobalGainFade
      rw [hfad, if_pos rfl, if_neg]
      rw [hexpr]
      exact not_le.mpr hlt
    rw [if_pos hdt, hstep] at h1 h2 h3 h4 h5
    exact ⟨h1.trans h.suspended, h2.trans h.globalGain, h3.trans h.globalGainFadeTarget,
      h4.trans h.globalGainFadeSpeed, h5.trans hexpr⟩
  · have hstep : updateGlobalGainFade dt st =
        { st with
          globalGain := st.globalGainFadeTarget
          globalGainFadeTarget := -1
          globalGainFadeSpeed := -1
          globalGainFadeTime := 0 } := by
      unfold updateGlobalGainFade
      rw [hfad, if_pos rfl, if_pos]
      rw [hexpr]
      exact hge
    rw [if_pos hdt, hstep] at h1 h2 h3 h4 h5
    exact ⟨h1.trans h.suspended, h2.trans h.globalGainFadeTarget, h3, h4, h5⟩

theorem ticks_committed (B : Backend PS W) (c : ℚ) :
    ∀ (deltas : List ℚ) (st : AudioManager PS W), Committed c st →
      Committed c (ticks B deltas st)
  | [], _, h => h
  | d :: ds, st, h => ticks_committed B c ds (_update B d st) (tick_committed B d c st h)

/-- A run of ticks with positive deltas on a fade in progress: the fraction grows by the sum
of the deltas over `T` while that stays below 1, and the target is committed otherwise. -/
theorem ticks_fading (B : Backend PS W) (g c T : ℚ) (hc : 0 ≤ c) (hT : 0 < T) :
    ∀ (deltas : List ℚ) (st : AudioManager PS W) (τ : ℚ), Fading g c T τ st → τ < 1 →
      (∀ d ∈ deltas, 0 < d) →
      (τ + deltas.sum / T < 1 → Fading g c T (τ + deltas.sum / T) (ticks B deltas st)) ∧
      (1 ≤ τ + deltas.sum / T → Committed c (ticks B deltas st))
  | [], st, τ, h, hτ, _ => by
    have h0 : τ + ([] : List ℚ).sum / T = τ := by simp
    rw [h0]
    exact ⟨fun _ => h, fun hge => absurd hτ (not_lt.mpr hge)⟩
  | d :: ds, st, τ, h, hτ, hpos => by
    have hd : 0 < d := hpos d (List.mem_cons_self _ _)
    have hds : ∀ x ∈ ds, 0 < x := fun x hx => hpos x (List.mem_cons_of_mem _ hx)
    have hsum : 0 ≤ ds.sum := List.sum_nonneg (fun x hx => le_of_lt (hds x hx))
    have hsplit : τ + (d :: ds).sum / T = τ + d / T + ds.sum / T := by
      rw [List.sum_cons]
      ring
    have hstep := tick_fading B d g c T τ st h hc hT
    rw [hsplit]
    show (_ → Fading g c T _ (ticks B ds (_update B d st))) ∧
      (_ → Committed c (ticks B ds (_update B d st)))
    by_cases hlt : τ + d / T < 1
    · exact ticks_fading B g c T hc hT ds (_update B d st) (τ + d / T) (hstep.2.1 hd hlt) hlt hds
    · have hge : 1 ≤ τ + d / T := not_lt.mp hlt
      have hcm := ticks_committed B c ds _ (hstep.2.2 hd hge)
      refine ⟨fun hcontra => ?_, fun _ => hcm⟩
      have : 0 ≤ ds.sum / T := div_nonneg hsum (le_of_lt hT)
      linarith

theorem clamp_nonneg (target : ℚ) : (0 : ℚ) ≤ max 0 (min target 1) := le_max_left _ _

end AudioManager

namespace AudioManager

variable {PS W : Type}

theorem setGlobalGain_fields (B : Backend PS W) (value : ℚ) (st : AudioManager PS W) :
    (_setGlobalGain B value st).globalGain = value ∧
    (_setGlobalGain B value st).globalGainFadeTarget = -1 := by
  have h := frame_foldl (fun s p => onPlayer B.systemUpdateGain p s)
    (fun s p => frame_onPlayer _ p s) st.players
    { st with
      globalGain := value
      globalGainFadeTarget := -1
      globalGainFadeSpeed := -1
      globalGainFadeTime := 0 }
  exact ⟨h.globalGain, h.globalGainFadeTarget⟩

/-- The call `_setGlobalGain(value)` stores `value` as it is, and `_getGlobalGain` then returns
it. -/
theorem getGlobalGain_setGlobalGain (B : Backend PS W) (value : ℚ) (st : AudioManager PS W) :
    (_setGlobalGain B value st).globalGain = value ∧
    _getGlobalGain (_setGlobalGain B value st) = value := by
  obtain ⟨h1, h2⟩ := setGlobalGain_fields B value st
  refine ⟨h1, ?_⟩
  have hnf : _isGlobalGainFading (_setGlobalGain B value st) = false := by
    unfold _isGlobalGainFading
    rw [h2]
    simp
  unfold _getGlobalGain
  rw [hnf, h1]
  rfl

/-- A fade segment: the fade from `g` to `c` over `T` is in progress at a fraction in
`[0, 1)`, or its target has been committed. -/
theorem segment_step (B : Backend PS W) (g c T dt : ℚ) (hc : 0 ≤ c) (hT : 0 < T)
    (a : AudioManager PS W)
    (ha : (∃ τ, 0 ≤ τ ∧ τ < 1 ∧ Fading g c T τ a) ∨ Committed c a) :
    ((∃ τ, 0 ≤ τ ∧ τ < 1 ∧ Fading g c T τ (_update B dt a)) ∨ Committed c (_update B dt a)) ∧
    (g ≤ c → _getGlobalGain a ≤ _getGlobalGain (_update B dt a)) ∧
    (c ≤ g → _getGlobalGain (_update B dt a) ≤ _getGlobalGain a) := by
  rcases ha with ⟨τ, h0, h1, hf⟩ | hcm
  · have hstep := tick_fading B dt g c T τ a hf hc hT
    have hga := hf.gainWhileFading hc hT
    by_cases hdt : 0 < dt
    · have hinc : 0 ≤ dt / T := div_nonneg (le_of_lt hdt) (le_of_lt hT)
      by_cases hlt : τ + dt / T < 1
      · have hf' := hstep.2.1 hdt hlt
        have hgb := hf'.gainWhileFading hc hT
        refine ⟨Or.inl ⟨τ + dt / T, by linarith, hlt, hf'⟩, fun hgc => ?_, fun hgc => ?_⟩
        · rw [hga, hgb]
          have : 0 ≤ (c - g) * (dt / T) := mul_nonneg (by linarith) hinc
          linarith
        · rw [hga, hgb]
          have : 0 ≤ (g - c) * (dt / T) := mul_nonneg (by linarith) hinc
          linarith
      · have hcm' := hstep.2.2 hdt (not_lt.mp hlt)
        refine ⟨Or.inr hcm', fun hgc => ?_, fun hgc => ?_⟩
        · rw [hga, hcm'.gainWhenCommitted]
          have : 0 ≤ (c - g) * (1 - τ) := mul_nonneg (by linarith) (by linarith)
          linarith
        · rw [hga, hcm'.gainWhenCommitted]
          have : 0 ≤ (g - c) * (1 - τ) := mul_nonneg (by linarith) (by linarith)
          linarith
    · have hf' := hstep.1 (not_lt.mp hdt)
      have hgb := hf'.gainWhileFading hc hT
      refine ⟨Or.inl ⟨τ, h0, h1, hf'⟩, fun _ => ?_, fun _ => ?_⟩
      · rw [hga, hgb]
      · rw [hga, hgb]
  · have hcm' := tick_committed B dt c a hcm
    refine ⟨Or.inr hcm', fun _ => ?_, fun _ => ?_⟩
    · rw [hcm.gainWhenCommitted, hcm'.gainWhenCommitted]
    · rw [hcm.gainWhenCommitted, hcm'.gainWhenCommitted]

theorem segment_ticks (B : Backend PS W) (g c T : ℚ) (hc : 0 ≤ c) (hT : 0 < T) :
    ∀ (pre : List ℚ) (a : AudioManager PS W),
      ((∃ τ, 0 ≤ τ ∧ τ < 1 ∧ Fading g c T τ a) ∨ Committed c a) →
      ((∃ τ, 0 ≤ τ ∧ τ < 1 ∧ Fading g c T τ (ticks B pre a)) ∨ Committed c (ticks B pre a))
  | [], _, h => h
  | d :: ds, a, h => segment_ticks B g c T hc hT ds (_update B d a)
      (segment_step B g c T d hc hT a h).1

end AudioManager

/-- C12 at the input where it fails: `setGlobalGain(2)` on the fresh manager `demo0` stores the
gain 2, and `getGlobalGain()` then returns 2, above 1; `fadeGlobalGain(2, 1)` on the same
manager clamps its target to 1. -/
theorem C12_setGlobalGain_not_clamped :
    AudioManager.Reachable flagBackend (AudioManager._setGlobalGain flagBackend 2 demo0) ∧
    (AudioManager._setGlobalGain flagBackend 2 demo0).globalGain = 2 ∧
    AudioManager._getGlobalGain (AudioManager._setGlobalGain flagBackend 2 demo0) = 2 ∧
    ¬ AudioManager._getGlobalGain (AudioManager._setGlobalGain flagBackend 2 demo0) ≤ 1 ∧
    (AudioManager._fadeGlobalGain 2 1 demo0).globalGainFadeTarget = 1 := by
  have h := AudioManager.getGlobalGain_setGlobalGain flagBackend 2 demo0
  refine ⟨AudioManager.Reachable.setGlobalGain 2
    (AudioManager.Reachable.create 0 false 0 "" [".wav"] (fun _ => false) ()), h.1, h.2, ?_, ?_⟩
  · rw [h.2]
    norm_num
  · unfold AudioManager._fadeGlobalGain
    rw [if_pos (by norm_num)]
    show max (0 : ℚ) (min 2 1) = 1
    norm_num

/-- C13: on a manager that is not suspended, after `fadeGlobalGain(target, T)` with `T > 0` and
any run of ticks, one more tick `_update(dt)` moves `getGlobalGain()` towards the clamped
target or leaves it: it does not decrease when the clamped target is at least the stored gain
the fade started from and does not increase otherwise; this covers the tick that commits the
target and every tick after it. -/
theorem C13_global_fade_monotone {PS W : Type} (B : Backend PS W) (st : AudioManager PS W)
    (target T : ℚ) (pre : List ℚ) (dt : ℚ) (hs : st.suspended = false) (hT : 0 < T) :
    (st.globalGain ≤ max 0 (min target 1) →
      AudioManager._getGlobalGain
          (AudioManager.ticks B pre (AudioManager._fadeGlobalGain target T st))
        ≤ AudioManager._getGlobalGain
          (AudioManager._update B dt
            (AudioManager.ticks B pre (AudioManager._fadeGlobalGain target T st)))) ∧
    (max 0 (min target 1) < st.globalGain →
      AudioManager._getGlobalGain
          (AudioManager._update B dt
            (AudioManager.ticks B pre (AudioManager._fadeGlobalGain target T st)))
        ≤ AudioManager._getGlobalGain
          (AudioManager.ticks B pre (AudioManager._fadeGlobalGain target T st))) := by
  have hc := AudioManager.clamp_nonneg target
  have h0 := AudioManager.fading_fadeGlobalGain target T st hs hT
  have hseg := AudioManager.segment_ticks B st.globalGain (max 0 (min target 1)) T hc hT pre _
    (Or.inl ⟨0, le_refl _, by norm_num, h0⟩)
  have hstep := AudioManager.segment_step B st.globalGain (max 0 (min target 1)) T dt hc hT _ hseg
  exact ⟨hstep.2.1, fun h => hstep.2.2 (le_of_lt h)⟩

/-- Witness of C13: a fade of `demo0` from 1 to 0 over 1 second, one tick done, one more. -/
theorem C13_global_fade_monotone_witness :
    demo0.suspended = false ∧ (0 : ℚ) < 1 ∧ max (0 : ℚ) (min 0 1) < demo0.globalGain ∧
      AudioManager._getGlobalGain
          (AudioManager._update flagBackend (1 / 4)
            (AudioManager.ticks flagBackend [1 / 4] (AudioManager._fadeGlobalGain 0 1 demo0)))
        ≤ AudioManager._getGlobalGain
          (AudioManager.ticks flagBackend [1 / 4] (AudioManager._fadeGlobalGain 0 1 demo0)) :=
  ⟨by decide, by norm_num, by show max (0 : ℚ) (min 0 1) < 1; norm_num,
    (C13_global_fade_monotone flagBackend demo0 0 1 [1 / 4] (1 / 4) (by decide)
      (by norm_num)).2 (by show max (0 : ℚ) (min 0 1) < 1; norm_num)⟩

/-! ## A tick while suspended -/

namespace AudioManager

variable {PS W : Type}

/-- The tick of a suspended manager. -/
theorem update_suspended (B : Backend PS W) (dt : ℚ) (st : AudioManager PS W)
    (hs : st.suspended = true) :
    _update B dt st =
      if st.suspendResumeFadeTime > 0 ∧ st.thread = true then
        st.players.foldl
          (fun s p => onPlayer (B.update dt) p (onPlayer B.systemUpdateGain p s)) st
      else st := by
  unfold _update
  split
  · next h =>
    rw [hs] at h
    exact absurd h (by decide)
  · rfl

theorem suspendedPlayers_foldl (f : AudioManager PS W → Nat → AudioManager PS W)
    (hf : ∀ s p, (f s p).suspendedPlayers = s.suspendedPlayers) :
    ∀ (l : List Nat) (st : AudioManager PS W),
      (l.foldl f st).suspendedPlayers = st.suspendedPlayers
  | [], _ => rfl
  | p :: l, st => by
    rw [List.foldl_cons, suspendedPlayers_foldl f hf l (f st p)]
    exact hf st p

theorem playerObj_foldl_of_not_mem (f : AudioManager PS W → Nat → AudioManager PS W)
    (hf : ∀ s p q, q ≠ p → (f s p).playerObj q = s.playerObj q) (q : Nat) :
    ∀ (l : List Nat) (st : AudioManager PS W), q ∉ l → (l.foldl f st).playerObj q = st.playerObj q
  | [], _, _ => rfl
  | p :: l, st, h => by
    rw [List.foldl_cons,
      playerObj_foldl_of_not_mem f hf q l (f st p) (fun hq => h (List.mem_cons_of_mem _ hq))]
    exact hf st p q (fun e => h (e ▸ List.mem_cons_self _ _))

end AudioManager

/-- C17: a tick `_update(dt)` of a suspended manager changes nothing at all unless
`suspendResumeFadeTime > 0` and the manager has its update thread; in that case it is the loop
that pushes the gain to and updates each player of `players`, in order. Either way the stored
global gain, its fade target, speed and time, the categories, `players`, `managedPlayers`,
`sounds`, `buffers`, the suspension and the object of every non-player are as before, and the
result is the same on any backend with the same `Player::_update` and `_systemUpdateGain`:
the async loader, the buffers and the category fades are not run. -/
theorem C17_suspended_tick_frame {PS W : Type} (B : Backend PS W) (st : AudioManager PS W)
    (dt : ℚ) (hs : st.suspended = true) :
    (¬ (st.suspendResumeFadeTime > 0 ∧ st.thread = true) → AudioManager._update B dt st = st) ∧
    (st.suspendResumeFadeTime > 0 ∧ st.thread = true →
      AudioManager._update B dt st =
        st.players.foldl
          (fun s p =>
            AudioManager.onPlayer (B.update dt) p
              (AudioManager.onPlayer B.systemUpdateGain p s)) st) ∧
    ((AudioManager._update B dt st).globalGain = st.globalGain ∧
      (AudioManager._update B dt st).globalGainFadeTarget = st.globalGainFadeTarget ∧
      (AudioManager._update B dt st).globalGainFadeSpeed = st.globalGainFadeSpeed ∧
      (AudioManager._update B dt st).globalGainFadeTime = st.globalGainFadeTime ∧
      (AudioManager._update B dt st).categories = st.categories ∧
      (AudioManager._update B dt st).players = st.players ∧
      (AudioManager._update B dt st).managedPlayers = st.managedPlayers ∧
      (AudioManager._update B dt st).sounds = st.sounds ∧
      (AudioManager._update B dt st).buffers = st.buffers ∧
      (AudioManager._update B dt st).suspended = true ∧
      (AudioManager._update B dt st).suspendedPlayers = st.suspendedPlayers) ∧
    (∀ q, q ∉ st.players → (AudioManager._update B dt st).playerObj q = st.playerObj q) ∧
    (∀ B' : Backend PS W, B'.update = B.update → B'.systemUpdateGain = B.systemUpdateGain →
      AudioManager._update B' dt st = AudioManager._update B dt st) := by
  have hu := AudioManager.update_suspended B dt st hs
  have hfold :
      AudioManager.SameCore st (st.players.foldl
        (fun s p =>
          AudioManager.onPlayer (B.update dt) p
            (AudioManager.onPlayer B.systemUpdateGain p s)) st) ∧
      AudioManager.Frame st (st.players.foldl
        (fun s p =>
          AudioManager.onPlayer (B.update dt) p
            (AudioManager.onPlayer B.systemUpdateGain p s)) st) ∧
      (st.players.foldl
        (fun s p =>
          AudioManager.onPlayer (B.update dt) p
            (AudioManager.onPlayer B.systemUpdateGain p s)) st).suspendedPlayers
        = st.suspendedPlayers ∧
      ∀ q, q ∉ st.players → (st.players.foldl
        (fun s p =>
          AudioManager.onPlayer (B.update dt) p
            (AudioManager.onPlayer B.systemUpdateGain p s)) st).playerObj q = st.playerObj q := by
    refine ⟨AudioManager.sameCore_foldl _
        (fun s p => (AudioManager.sameCore_onPlayer _ p s).comp
          (AudioManager.sameCore_onPlayer _ p _)) _ _,
      AudioManager.frame_foldl _
        (fun s p => (AudioManager.frame_onPlayer _ p s).andThen
          (AudioManager.frame_onPlayer _ p _)) _ _, ?_, ?_⟩
    · exact AudioManager.suspendedPlayers_foldl
        (fun s p =>
          AudioManager.onPlayer (B.update dt) p
            (AudioManager.onPlayer B.systemUpdateGain p s))
        (fun _ _ => rfl) st.players st
    · intro q hq
      refine AudioManager.playerObj_foldl_of_not_mem _ ?_ q st.players st hq
      intro s p q' hne
      show Function.update (Function.update s.playerObj p _) p _ q' = s.playerObj q'
      rw [Function.update_noteq hne, Function.update_noteq hne]
  by_cases hcond : st.suspendResumeFadeTime > 0 ∧ st.thread = true
  · rw [if_pos hcond] at hu
    obtain ⟨hsc, hfr, hsp, hobj⟩ := hfold
    refine ⟨fun h => absurd hcond h, fun _ => hu, ?_, ?_, ?_⟩
    · rw [hu]
      exact ⟨hfr.globalGain, hfr.globalGainFadeTarget, hfr.globalGainFadeSpeed,
        hfr.globalGainFadeTime, hfr.categories, hsc.players, hsc.managedPlayers, hsc.sounds,
        hsc.buffers, hfr.suspended.trans hs, hsp⟩
    · rw [hu]
      exact hobj
    · intro B' h1 h2
      have hu' := AudioManager.update_suspended B' dt st hs
      rw [if_pos hcond] at hu'
      rw [hu, hu', h1, h2]
  · rw [if_neg hcond] at hu
    refine ⟨fun _ => hu, fun h => absurd h hcond, ?_, ?_, ?_⟩
    · rw [hu]
      exact ⟨rfl, rfl, rfl, rfl, rfl, rfl, rfl, rfl, rfl, hs, rfl⟩
    · rw [hu]
      exact fun _ _ => rfl
    · intro B' _ _
      have hu' := AudioManager.update_suspended B' dt st hs
      rw [if_neg hcond] at hu'
      rw [hu, hu']

/-- Witness of C17: `demo4` after `suspendAudio()` is suspended; a tick keeps its players. -/
theorem C17_suspended_tick_frame_witness :
    (AudioManager._suspendAudio flagBackend demo4).suspended = true ∧
      (AudioManager._update flagBackend 1 (AudioManager._suspendAudio flagBackend demo4)).players
        = (AudioManager._suspendAudio flagBackend demo4).players :=
  ⟨by decide,
    (C17_suspended_tick_frame flagBackend (AudioManager._suspendAudio flagBackend demo4) 1
      (by decide)).2.2.1.2.2.2.2.2.1⟩

/-! ## The name of a sound -/

namespace hstr

theorem splitLeft_zero (d : Char) (y : List Char) : splitLeft d 0 y = [y] := by
  cases y <;> rfl

theorem splitLeft_of_not_mem (d : Char) :
    ∀ (n : Nat) (x : List Char), d ∉ x → splitLeft d n x = [x]
  | _, [], _ => by cases ‹Nat› <;> rfl
  | 0, c :: cs, _ => rfl
  | n + 1, c :: cs, h => by
    have hc : ¬ c = d := fun e => h (e ▸ List.mem_cons_self _ _)
    have ih := splitLeft_of_not_mem d (n + 1) cs (fun hm => h (List.mem_cons_of_mem _ hm))
    show (if c = d then [] :: splitLeft d n cs
      else match splitLeft d (n + 1) cs with
        | [] => [[c]]
        | h :: t => (c :: h) :: t) = [c :: cs]
    rw [if_neg hc, ih]

theorem splitLeft_append (d : Char) (n : Nat) (y : List Char) :
    ∀ x : List Char, d ∉ x → splitLeft d (n + 1) (x ++ d :: y) = x :: splitLeft d n y
  | [], _ => by
    show (if d = d then [] :: splitLeft d n y else _) = _
    rw [if_pos rfl]
  | c :: cs, h => by
    have hc : ¬ c = d := fun e => h (e ▸ List.mem_cons_self _ _)
    have ih := splitLeft_append d n y cs (fun hm => h (List.mem_cons_of_mem _ hm))
    show (if c = d then [] :: splitLeft d n (cs ++ d :: y)
      else match splitLeft d (n + 1) (cs ++ d :: y) with
        | [] => [[c]]
        | h :: t => (c :: h) :: t) = (c :: cs) :: splitLeft d n y
    rw [if_neg hc, ih]

/-- The last piece of an unlimited `rsplit` is what follows the last delimiter. -/
theorem pop_back_rsplit_append (d : Char) (x y : List Char) (hy : d ∉ y) :
    harray.pop_back (rsplit d none (x ++ d :: y)) = y := by
  unfold rsplit harray.pop_back
  have hlen : (none : Option Nat).getD (x ++ d :: y).length = (x.length + y.length) + 1 := by
    simp
    omega
  have hrev : (x ++ d :: y).reverse = y.reverse ++ d :: x.reverse := by simp
  rw [hlen, hrev, splitLeft_append d _ _ _ (by simpa using hy)]
  simp

theorem pop_back_rsplit_of_not_mem (d : Char) (y : List Char) (hy : d ∉ y) :
    harray.pop_back (rsplit d none y) = y := by
  unfold rsplit harray.pop_back
  rw [splitLeft_of_not_mem d _ _ (by simpa using hy)]
  simp

/-- The first piece of `rsplit(d, 1)` is what precedes the last delimiter. -/
theorem pop_front_rsplit_append (d : Char) (x y : List Char) (hy : d ∉ y) :
    harray.pop_front (rsplit d (some 1) (x ++ d :: y)) = x := by
  unfold rsplit harray.pop_front
  have hrev : (x ++ d :: y).reverse = y.reverse ++ d :: x.reverse := by simp
  have h1 : (some 1 : Option Nat).getD (x ++ d :: y).length = 0 + 1 := rfl
  rw [h1, hrev, splitLeft_append d _ _ _ (by simpa using hy), splitLeft_zero]
  simp

theorem pop_front_rsplit_of_not_mem (d : Char) (y : List Char) (hy : d ∉ y) :
    harray.pop_front (rsplit d (some 1) y) = y := by
  unfold rsplit harray.pop_front
  rw [splitLeft_of_not_mem d _ _ (by simpa using hy)]
  simp

theorem replace_append_sep (x y : List Char) (sep : Char)
    (hsep : sep = '/' ∨ sep = '\\') (hy : ∀ c ∈ y, c ≠ '\\') :
    replace '\\' '/' (x ++ sep :: y) = replace '\\' '/' x ++ '/' :: y := by
  unfold replace
  have hy' : y.map (fun c => if c = '\\' then '/' else c) = y := by
    conv => rhs; rw [← List.map_id y]
    apply List.map_congr_left
    intro c hc
    rw [if_neg (hy c hc)]
    rfl
  rw [List.map_append, List.map_cons, hy']
  rcases hsep with h | h
  · rw [h]
    rfl
  · rw [h]
    rfl

theorem replace_of_not_mem (y : List Char) (hy : ∀ c ∈ y, c ≠ '\\') :
    replace '\\' '/' y = y := by
  unfold replace
  conv => rhs; rw [← List.map_id y]
  apply List.map_congr_left
  intro c hc
  rw [if_neg (hy c hc)]
  rfl

end hstr

namespace AudioManager

variable {PS W : Type}

/-- The sound that the file-backed `_createSound` returns has the name its constructor gave
it. -/
theorem createSound_name (B : Backend PS W) (f categoryName pfx : String)
    (st : AudioManager PS W) (s : Sound)
    (h : (_createSound B f categoryName pfx st).value = Except.ok (some s)) :
    s.name = pfx ++ B.baseNameWithoutExtension f := by
  unfold _createSound at h
  cases hg : _getCategory categoryName st with
  | error e =>
    rw [hg] at h
    exact Except.noConfusion h
  | ok c =>
    rw [hg] at h
    simp only at h
    split at h
    · have h2 := Except.ok.inj h
      exact Option.noConfusion h2
    · have h2 := Option.some.inj (Except.ok.inj h)
      rw [← h2]

end AudioManager

/-- C19: the name `Sound2::Sound2` and `SoundBuffer::SoundBuffer` give a sound is the prefix
followed by the last component of the filename, `/` and `\` both separating components,
without its final `.extension`: for a last component `base.ext` (no separator in `base` and
`ext`, no `.` in `ext`) the name is the prefix followed by `base`, whatever directory and
separator precede it and also without a directory; a last component without `.` is kept
whole; so two filenames that differ only in directory or in final extension get the same name;
and `dir/sub\a.b.ogg` with prefix `p_` gives `p_a.b`. The name `Sound::Sound` computes is the
same name for every filename and prefix, so that all of this holds of it as well, and it is
the name of the sound that `_createSound(filename, categoryName, prefix)` returns. -/
theorem C19_sound_name {dir base ext : List Char} (pfx : String) (sep : Char)
    (hsep : sep = '/' ∨ sep = '\\')
    (hb : ∀ c ∈ base, c ≠ '/' ∧ c ≠ '\\')
    (he : ∀ c ∈ ext, c ≠ '/' ∧ c ≠ '\\' ∧ c ≠ '.') :
    Sound2.name pfx (String.mk (dir ++ sep :: (base ++ '.' :: ext))) = pfx ++ String.mk base ∧
    Sound2.name pfx (String.mk (base ++ '.' :: ext)) = pfx ++ String.mk base ∧
    Sound2.name pfx (String.mk (dir ++ sep :: ext)) = pfx ++ String.mk ext ∧
    Sound2.name pfx (String.mk ext) = pfx ++ String.mk ext ∧
    (∀ (dir' ext' : List Char) (sep' : Char), (sep' = '/' ∨ sep' = '\\') →
      (∀ c ∈ ext', c ≠ '/' ∧ c ≠ '\\' ∧ c ≠ '.') →
      Sound2.name pfx (String.mk (dir ++ sep :: (base ++ '.' :: ext)))
        = Sound2.name pfx (String.mk (dir' ++ sep' :: (base ++ '.' :: ext')))) ∧
    Sound2.name "p_" "dir/sub\\a.b.ogg" = "p_a.b" ∧
    (∀ filename : String, Sound.nameOfFile pfx filename = Sound2.name pfx filename) ∧
    Sound.nameOfFile pfx (String.mk (dir ++ sep :: (base ++ '.' :: ext))) = pfx ++ String.mk base ∧
    Sound.nameOfFile pfx (String.mk (base ++ '.' :: ext)) = pfx ++ String.mk base ∧
    Sound.nameOfFile pfx (String.mk (dir ++ sep :: ext)) = pfx ++ String.mk ext ∧
    Sound.nameOfFile pfx (String.mk ext) = pfx ++ String.mk ext ∧
    (∀ (dir' ext' : List Char) (sep' : Char), (sep' = '/' ∨ sep' = '\\') →
      (∀ c ∈ ext', c ≠ '/' ∧ c ≠ '\\' ∧ c ≠ '.') →
      Sound.nameOfFile pfx (String.mk (dir ++ sep :: (base ++ '.' :: ext)))
        = Sound.nameOfFile pfx (String.mk (dir' ++ sep' :: (base ++ '.' :: ext')))) ∧
    Sound.nameOfFile "p_" "dir/sub\\a.b.ogg" = "p_a.b" ∧
    (∀ (PS W : Type) (B : Backend PS W) (st : AudioManager PS W)
        (filename categoryName : String) (s : Sound),
      B.baseNameWithoutExtension
          = (fun f => String.mk (hresource.withoutExtension (hrdir.baseName f.toList))) →
      (AudioManager._createSound B filename categoryName pfx st).value = Except.ok (some s) →
      s.name = Sound.nameOfFile pfx filename) := by
  have key : ∀ (d e : List Char) (s : Char), (s = '/' ∨ s = '\\') →
      (∀ c ∈ e, c ≠ '/' ∧ c ≠ '\\' ∧ c ≠ '.') →
      Sound2.name pfx (String.mk (d ++ s :: (base ++ '.' :: e))) = pfx ++ String.mk base := by
    intro d e s hs hE
    have hlast : ∀ c ∈ base ++ '.' :: e, c ≠ '\\' := by
      intro c hc
      rcases List.mem_append.mp hc with h | h
      · exact (hb c h).2
      · rcases List.mem_cons.mp h with h | h
        · rw [h]
          decide
        · exact (hE c h).2.1
    have hslash : '/' ∉ base ++ '.' :: e := by
      intro hc
      rcases List.mem_append.mp hc with h | h
      · exact (hb _ h).1 rfl
      · rcases List.mem_cons.mp h with h | h
        · exact absurd h (by decide)
        · exact (hE _ h).1 rfl
    have hdot : '.' ∉ e := fun h => (hE _ h).2.2 rfl
    unfold Sound2.name
    show pfx ++ String.mk (harray.pop_front (hstr.rsplit '.' (some 1)
      (harray.pop_back (hstr.rsplit '/' none
        (hstr.replace '\\' '/' (d ++ s :: (base ++ '.' :: e))))))) = _
    rw [hstr.replace_append_sep _ _ s hs hlast, hstr.pop_back_rsplit_append _ _ _ hslash,
      hstr.pop_front_rsplit_append _ _ _ hdot]
  have hdot : '.' ∉ ext := fun h => (he _ h).2.2 rfl
  have hslashE : '/' ∉ ext := fun h => (he _ h).1 rfl
  have hbackE : ∀ c ∈ ext, c ≠ '\\' := fun c hc => (he c hc).2.1
  have hA := key dir ext sep hsep he
  have hB : Sound2.name pfx (String.mk (base ++ '.' :: ext)) = pfx ++ String.mk base := by
    have hlast : ∀ c ∈ base ++ '.' :: ext, c ≠ '\\' := by
      intro c hc
      rcases List.mem_append.mp hc with h | h
      · exact (hb c h).2
      · rcases List.mem_cons.mp h with h | h
        · rw [h]
          decide
        · exact (he c h).2.1
    have hslash : '/' ∉ base ++ '.' :: ext := by
      intro hc
      rcases List.mem_append.mp hc with h | h
      · exact (hb _ h).1 rfl
      · rcases List.mem_cons.mp h with h | h
        · exact absurd h (by decide)
        · exact (he _ h).1 rfl
    unfold Sound2.name
    show pfx ++ String.mk (harray.pop_front (hstr.rsplit '.' (some 1)
      (harray.pop_back (hstr.rsplit '/' none
        (hstr.replace '\\' '/' (base ++ '.' :: ext)))))) = _
    rw [hstr.replace_of_not_mem _ hlast, hstr.pop_back_rsplit_of_not_mem _ _ hslash,
      hstr.pop_front_rsplit_append _ _ _ hdot]
  have hC : Sound2.name pfx (String.mk (dir ++ sep :: ext)) = pfx ++ String.mk ext := by
    unfold Sound2.name
    show pfx ++ String.mk (harray.pop_front (hstr.rsplit '.' (some 1)
      (harray.pop_back (hstr.rsplit '/' none
        (hstr.replace '\\' '/' (dir ++ sep :: ext)))))) = _
    rw [hstr.replace_append_sep _ _ sep hsep hbackE, hstr.pop_back_rsplit_append _ _ _ hslashE,
      hstr.pop_front_rsplit_of_not_mem _ _ hdot]
  have hD : Sound2.name pfx (String.mk ext) = pfx ++ String.mk ext := by
    unfold Sound2.name
    show pfx ++ String.mk (harray.pop_front (hstr.rsplit '.' (some 1)
      (harray.pop_back (hstr.rsplit '/' none (hstr.replace '\\' '/' ext))))) = _
    rw [hstr.replace_of_not_mem _ hbackE, hstr.pop_back_rsplit_of_not_mem _ _ hslashE,
      hstr.pop_front_rsplit_of_not_mem _ _ hdot]
  have hE : ∀ (dir' ext' : List Char) (sep' : Char), (sep' = '/' ∨ sep' = '\\') →
      (∀ c ∈ ext', c ≠ '/' ∧ c ≠ '\\' ∧ c ≠ '.') →
      Sound2.name pfx (String.mk (dir ++ sep :: (base ++ '.' :: ext)))
        = Sound2.name pfx (String.mk (dir' ++ sep' :: (base ++ '.' :: ext'))) := by
    intro dir' ext' sep' hsep' he'
    rw [key dir ext sep hsep he, key dir' ext' sep' hsep' he']
  refine ⟨hA, hB, hC, hD, hE, by decide, fun _ => rfl, hA, hB, hC, hD, hE, by decide, ?_⟩
  intro PS W B st filename categoryName s hB hv
  rw [AudioManager.createSound_name B filename categoryName pfx st s hv, hB]
  rfl

/-- Witness of C19: directory `dir/sub`, separator `\`, base `a.b`, extension `ogg`. -/
theorem C19_sound_name_witness :
    Sound2.name "p_" (String.mk ("dir/sub".toList ++ '\\' :: ("a.b".toList ++ '.' :: "ogg".toList)))
      = "p_" ++ String.mk "a.b".toList ∧
    Sound.nameOfFile "p_"
        (String.mk ("dir/sub".toList ++ '\\' :: ("a.b".toList ++ '.' :: "ogg".toList)))
      = "p_" ++ String.mk "a.b".toList :=
  have h := @C19_sound_name "dir/sub".toList "a.b".toList "ogg".toList "p_" '\\' (Or.inr rfl)
    (by decide) (by decide)
  ⟨h.1, h.2.2.2.2.2.2.2.1⟩

/-! ## File resolution -/

namespace AudioManager

variable {PS W : Type}

/-- The extension loop finds the first `stem + e` that exists, when existence does not depend
on the separator form of a name. -/
theorem findWithExtension_spec (F : Files)
    (hsys : ∀ x, F.fileExists (F.systemize x) = F.fileExists x) (stem : String) :
    ∀ E : List String,
      findWithExtension F stem E
        = ((E.map (fun e => stem ++ e)).find? F.fileExists).map F.systemize
  | [] => rfl
  | e :: rest => by
    unfold findWithExtension
    rw [hsys, List.map_cons]
    by_cases h : F.fileExists (stem ++ e) = true
    · rw [if_pos h, List.find?_cons_of_pos _ h]
      rfl
    · rw [if_neg h, List.find?_cons_of_neg _ h]
      exact findWithExtension_spec F hsys stem rest

end AudioManager

namespace AudioManager

variable {PS W : Type}

/-- The extension loop finds the first `stem + e` whose separator-normalised form exists. -/
theorem findWithExtension_tested (F : Files) (stem : String) :
    ∀ E : List String,
      findWithExtension F stem E
        = ((E.map (fun e => (stem ++ e, F.systemize (stem ++ e)))).find?
            (fun c => F.fileExists c.2)).map (fun c => F.systemize c.1)
  | [] => rfl
  | e :: rest => by
    unfold findWithExtension
    rw [List.map_cons]
    by_cases h : F.fileExists (F.systemize (stem ++ e)) = true
    · have h2 : (fun c : String × String => F.fileExists c.2)
          (stem ++ e, F.systemize (stem ++ e)) = true := h
      rw [if_pos h,
        List.find?_cons_of_pos (p := fun c : String × String => F.fileExists c.2) _ h2]
      rfl
    · have h2 : ¬ (fun c : String × String => F.fileExists c.2)
          (stem ++ e, F.systemize (stem ++ e)) = true := h
      rw [if_neg h,
        List.find?_cons_of_neg (p := fun c : String × String => F.fileExists c.2) _ h2]
      exact findWithExtension_tested F stem rest

/-- What `findAudioFile` returns is what the search through the tests returns. -/
theorem findAudioFile_tested (F : Files) (f : String) (st : AudioManager PS W) :
    findAudioFile F f st = findAudioFileTested F f st.extensions := by
  unfold findAudioFile findAudioFileTested audioFileTests
  by_cases hf : F.fileExists f = true
  · have h2 : (fun c : String × String => F.fileExists c.2) (f, f) = true := hf
    rw [if_pos hf, List.cons_append,
      List.find?_cons_of_pos (p := fun c : String × String => F.fileExists c.2) _ h2]
  · have h2 : ¬ (fun c : String × String => F.fileExists c.2) (f, f) = true := hf
    rw [if_neg hf, List.cons_append,
      List.find?_cons_of_neg (p := fun c : String × String => F.fileExists c.2) _ h2,
      List.find?_append,
      findWithExtension_tested F f st.extensions]
    cases h1 : (st.extensions.map (fun e => (f ++ e, F.systemize (f ++ e)))).find?
        (fun c => F.fileExists c.2) with
    | some a => rfl
    | none =>
      by_cases hx : F.withoutExtension f ≠ f
      · rw [if_pos hx, if_pos hx, findWithExtension_tested F (F.withoutExtension f) st.extensions]
        cases (st.extensions.map (fun e =>
            (F.withoutExtension f ++ e, F.systemize (F.withoutExtension f ++ e)))).find?
          (fun c => F.fileExists c.2) with
        | some b => rfl
        | none => rfl
      · rw [if_neg hx, if_neg hx]
        rfl

/-- When existence does not depend on the separator form of a name, `findAudioFile` is the
file resolution as the specification words it. -/
theorem findAudioFile_spec (F : Files) (f : String) (st : AudioManager PS W)
    (hsys : ∀ x, F.fileExists (F.systemize x) = F.fileExists x) :
    findAudioFile F f st = findAudioFileSpec F f st.extensions := by
  unfold findAudioFile findAudioFileSpec audioFileCandidates
  by_cases hf : F.fileExists f = true
  · rw [if_pos hf, List.cons_append, List.find?_cons_of_pos _ hf]
  · rw [if_neg hf, List.cons_append, List.find?_cons_of_neg _ hf, List.find?_append,
      findWithExtension_spec F hsys f st.extensions]
    cases h1 : (st.extensions.map (fun e => f ++ e)).find? F.fileExists with
    | some a => rfl
    | none =>
      by_cases hx : F.withoutExtension f ≠ f
      · rw [if_pos hx, if_pos hx,
          findWithExtension_spec F hsys (F.withoutExtension f) st.extensions]
        cases (st.extensions.map (fun e => F.withoutExtension f ++ e)).find? F.fileExists with
        | some b => rfl
        | none => rfl
      · rw [if_neg hx, if_neg hx]
        rfl

end AudioManager

theorem slashed_slashed (x : String) : slashed (slashed x) = slashed x := by
  unfold slashed
  show String.mk (List.map (fun c => if c = '\\' then '/' else c)
      (List.map (fun c => if c = '\\' then '/' else c) x.toList))
    = String.mk (List.map (fun c => if c = '\\' then '/' else c) x.toList)
  rw [List.map_map]
  congr 1
  apply List.map_congr_left
  intro c _
  show (if (if c = '\\' then '/' else c) = '\\' then '/' else (if c = '\\' then '/' else c))
    = if c = '\\' then '/' else c
  by_cases h : c = '\\'
  · rw [if_pos h]
    rfl
  · rw [if_neg h, if_neg h]

/-- Counterexample to C18 as stated: on a file system that knows the name `a\b.ogg` in this
form only, with the extensions `.wav` and `.ogg`, the candidate `a\b` + `.ogg` of
`findAudioFile("a\b")` exists, so that the claim gives the non-empty result `a/b.ogg`, and
`findAudioFile` returns the empty string: it asks for the separator-normalised name
`a/b.ogg`. -/
theorem C18_findAudioFile_counterexample :
    (AudioManager.addAudioExtension ".ogg" demo0).extensions = [".wav", ".ogg"] ∧
    "a\\b" ++ ".ogg" ∈ AudioManager.audioFileCandidates backslashFiles "a\\b" [".wav", ".ogg"] ∧
    backslashFiles.fileExists ("a\\b" ++ ".ogg") = true ∧
    AudioManager.findAudioFileSpec backslashFiles "a\\b" [".wav", ".ogg"] = "a/b.ogg" ∧
    AudioManager.findAudioFile backslashFiles "a\\b"
      (AudioManager.addAudioExtension ".ogg" demo0) = "" ∧
    ¬ (AudioManager.findAudioFile backslashFiles "a\\b"
        (AudioManager.addAudioExtension ".ogg" demo0) = "" ↔
      ∀ c ∈ AudioManager.audioFileCandidates backslashFiles "a\\b"
        (AudioManager.addAudioExtension ".ogg" demo0).extensions,
        backslashFiles.fileExists c = false) := by
  refine ⟨by decide, by decide, by decide, by decide, by decide, ?_⟩
  intro h
  have h1 := h.mp (by decide) ("a\\b" ++ ".ogg") (by decide)
  exact absurd h1 (by decide)

/-- C18, amended: for every filename, extension list and file-existence predicate,
`findAudioFile(f)` goes through the candidates `f`, then `f + e` for each registered extension
`e` in order, then, only when `f` has an extension, `stripped(f) + e` for each `e`; it tests
`f` itself and, for every other candidate, its separator-normalised form, returns the
separator-normalised form of the first candidate whose test succeeds, and the empty string when
none does. When the predicate gives a name and its separator-normalised form the same answer,
this is the separator-normalised form of the first existing candidate; and when, moreover, no
existing name has an empty normalised form, the result is the empty string exactly when no
candidate exists. -/
theorem C18_findAudioFile_amended {PS W : Type} (F : AudioManager.Files) (f : String)
    (st : AudioManager PS W) :
    AudioManager.findAudioFile F f st = AudioManager.findAudioFileTested F f st.extensions ∧
    (AudioManager.audioFileTests F f st.extensions).map Prod.fst
      = AudioManager.audioFileCandidates F f st.extensions ∧
    (∀ c ∈ AudioManager.audioFileTests F f st.extensions,
      c.2 = F.systemize c.1 ∨ c = (f, f)) ∧
    (∀ c, (AudioManager.audioFileTests F f st.extensions).find?
        (fun c => F.fileExists c.2) = some c →
      AudioManager.findAudioFile F f st = F.systemize c.1) ∧
    ((AudioManager.audioFileTests F f st.extensions).find?
        (fun c => F.fileExists c.2) = none →
      AudioManager.findAudioFile F f st = "") ∧
    ((∀ x, F.fileExists (F.systemize x) = F.fileExists x) →
      AudioManager.findAudioFile F f st = AudioManager.findAudioFileSpec F f st.extensions ∧
      (∀ c, (AudioManager.audioFileCandidates F f st.extensions).find? F.fileExists = some c →
        AudioManager.findAudioFile F f st = F.systemize c) ∧
      ((∀ x, F.fileExists x = true → F.systemize x ≠ "") →
        (AudioManager.findAudioFile F f st = "" ↔
          ∀ c ∈ AudioManager.audioFileCandidates F f st.extensions,
            F.fileExists c = false))) := by
  have ht := AudioManager.findAudioFile_tested F f st
  refine ⟨ht, ?_, ?_, ?_, ?_, ?_⟩
  · unfold AudioManager.audioFileTests AudioManager.audioFileCandidates
    by_cases hx : F.withoutExtension f ≠ f
    · rw [if_pos hx, if_pos hx]
      simp [List.map_map, Function.comp_def]
    · rw [if_neg hx, if_neg hx]
      simp [List.map_map, Function.comp_def]
  · intro c hc
    unfold AudioManager.audioFileTests at hc
    rcases List.mem_cons.mp hc with h | h
    · exact Or.inr h
    · left
      rcases List.mem_append.mp h with h | h
      · obtain ⟨e, _, he⟩ := List.mem_map.mp h
        rw [← he]
      · by_cases hx : F.withoutExtension f ≠ f
        · rw [if_pos hx] at h
          obtain ⟨e, _, he⟩ := List.mem_map.mp h
          rw [← he]
        · rw [if_neg hx] at h
          exact absurd h (List.not_mem_nil _)
  · intro c hc
    rw [ht]
    unfold AudioManager.findAudioFileTested
    rw [hc]
  · intro hc
    rw [ht]
    unfold AudioManager.findAudioFileTested
    rw [hc]
  · intro hsys
    have heq := AudioManager.findAudioFile_spec F f st hsys
    refine ⟨heq, ?_, ?_⟩
    · intro c hc
      rw [heq]
      unfold AudioManager.findAudioFileSpec
      rw [hc]
    · intro hname
      rw [heq]
      unfold AudioManager.findAudioFileSpec
      cases hfind : (AudioManager.audioFileCandidates F f st.extensions).find? F.fileExists with
      | some c =>
        have hex : F.fileExists c = true := List.find?_some hfind
        have hmem := List.mem_of_find?_eq_some hfind
        constructor
        · intro h
          exact absurd h (hname c hex)
        · intro h
          rw [h c hmem] at hex
          exact Bool.noConfusion hex
      | none =>
        refine ⟨fun _ c hc => ?_, fun _ => rfl⟩
        have := List.find?_eq_none.mp hfind c hc
        simpa using this

/-- Witness of C18 (amended): with the extensions `.wav` and `.ogg` and the one file
`a/b.ogg`, known under either separator, the name `a\b.wav` resolves to `a/b.ogg`, the
normalised form of its last candidate `a\b` + `.ogg`. -/
theorem C18_findAudioFile_amended_witness :
    (∀ x, slashFiles.fileExists (slashFiles.systemize x) = slashFiles.fileExists x) ∧
    (∀ x, slashFiles.fileExists x = true → slashFiles.systemize x ≠ "") ∧
    (AudioManager.audioFileCandidates slashFiles "a\\b.wav"
        (AudioManager.addAudioExtension ".ogg" demo0).extensions).find? slashFiles.fileExists
      = some ("a\\b" ++ ".ogg") ∧
    AudioManager.findAudioFile slashFiles "a\\b.wav"
      (AudioManager.addAudioExtension ".ogg" demo0) = slashFiles.systemize ("a\\b" ++ ".ogg") ∧
    slashFiles.systemize ("a\\b" ++ ".ogg") = "a/b.ogg" :=
  have hsys : ∀ x, slashFiles.fileExists (slashFiles.systemize x) = slashFiles.fileExists x :=
    fun x => by
      show (slashed (slashed x) == "a/b.ogg") = (slashed x == "a/b.ogg")
      rw [slashed_slashed]
  ⟨hsys,
    fun x hx => by
      have hx' : slashed x = "a/b.ogg" := by
        have : (slashed x == "a/b.ogg") = true := hx
        simpa using this
      show slashed x ≠ ""
      rw [hx']
      decide,
    by decide,
    ((C18_findAudioFile_amended slashFiles "a\\b.wav"
      (AudioManager.addAudioExtension ".ogg" demo0)).2.2.2.2.2 hsys).2.1 _ (by decide),
    by decide⟩

/-! ## Destroying the sounds with a prefix -/

namespace HMap

variable {V : Type}

/-- On a map whose entries have distinct keys and distinct values (as `same` sees them),
`removeValue` removes the entries holding the value. -/
theorem removeValue_entries (m : HMap V) (ptr : V → Nat) (x : Nat)
    (hk : m.keys.Nodup)
    (hinj : ∀ e ∈ m.entries, ∀ e' ∈ m.entries, ptr e.2 = ptr e'.2 → e = e') :
    (m.removeValue (fun v => ptr v == x)).entries
      = m.entries.filter (fun e => !(ptr e.2 == x)) := by
  unfold removeValue
  cases hf : m.entries.find? (fun e => ptr e.2 == x) with
  | none =>
    show m.entries = _
    symm
    apply List.filter_eq_self.mpr
    intro e he
    have := List.find?_eq_none.mp hf e he
    simpa using this
  | some e0 =>
    have he0 : e0 ∈ m.entries := List.mem_of_find?_eq_some hf
    have hp0 : ptr e0.2 = x := by
      have := List.find?_some hf
      simpa using this
    show m.entries.filter (fun e => !(e.1 == e0.1)) = _
    apply List.filter_congr
    intro e he
    have hkey : e.1 = e0.1 ↔ ptr e.2 = x := by
      constructor
      · intro h
        have : e = e0 := by
          have hinjk := List.inj_on_of_nodup_map hk
          exact hinjk he he0 h
        rw [this, hp0]
      · intro h
        rw [hinj e he e0 he0 (h.trans hp0.symm)]
    by_cases h : e.1 = e0.1
    · simp [h, hkey.mp h]
    · have h2 : ¬ ptr e.2 = x := fun hx => h (hkey.mpr hx)
      simp [h, h2]

end HMap

namespace AudioManager

variable {PS W : Type}

theorem hasManualPlayer_congr (st : AudioManager PS W) {s t : Sound} (h : s.ptr = t.ptr) :
    hasManualPlayer st s = hasManualPlayer st t := by
  unfold hasManualPlayer playsSound
  rw [h]

theorem prefixLoop_nil (st0 : AudioManager PS W) : PrefixLoop st0 [] (st0, []) where
  managedPlayers := by simp
  players := by simp
  entries := by simp
  names := rfl
  buffers := rfl
  playerSound := rfl
  categories := rfl
  playerObj := fun _ _ => rfl

theorem prefixLoop_step (B : Backend PS W) {st0 : AudioManager PS W} (hc : Consistent st0)
    {done : List Sound} {acc : AudioManager PS W × List String}
    (h : PrefixLoop st0 done acc) (s : Sound) :
    PrefixLoop st0 (done ++ [s]) (destroyWithPrefixStep B acc s) := by
  have hps : ∀ q, playsSound s acc.1 q = playsSound s st0 q := by
    intro q
    simp only [playsSound, h.playerSound]
  have hmn : acc.1.managedPlayers.Nodup := by
    rw [h.managedPlayers]
    exact hc.managed_nodup.filter _
  have hpn : acc.1.players.Nodup := by
    rw [h.players]
    exact hc.players_nodup.filter _
  obtain ⟨X, hR, hX⟩ : ∃ X : List Nat,
      Removed X acc.1 (destroyManagedWhere B (playsSound s) acc.1.managedPlayers acc.1) ∧
      ∀ q, q ∈ X ↔
        (q ∈ st0.managedPlayers ∧ done.any (fun t => playsSound t st0 q) = false) ∧
          playsSound s st0 q = true := by
    refine ⟨_, removed_destroyManagedWhere B (playsSound s) (localTest_playsSound s)
      acc.1.managedPlayers acc.1 hmn, ?_⟩
    intro q
    rw [List.mem_filter, h.managedPlayers, List.mem_filter, hps]
    simp
  have hm1 : (destroyManagedWhere B (playsSound s) acc.1.managedPlayers acc.1).managedPlayers
      = st0.managedPlayers.filter
          (fun q => !(done ++ [s]).any (fun t => playsSound t st0 q)) := by
    rw [hR.managedPlayers, hmn.diff_eq_filter, h.managedPlayers, List.filter_filter]
    apply List.filter_congr
    intro q hq
    rw [List.any_append]
    by_cases hm : q ∈ X
    · obtain ⟨⟨_, hd⟩, hs⟩ := (hX q).mp hm
      simp [hm, hd, hs]
    · cases hd : done.any (fun t => playsSound t st0 q) with
      | true => simp [hm]
      | false =>
        cases hs : playsSound s st0 q with
        | true => exact absurd ((hX q).mpr ⟨⟨hq, hd⟩, hs⟩) hm
        | false => simp [hm, hs]
  have hp1 : (destroyManagedWhere B (playsSound s) acc.1.managedPlayers acc.1).players
      = st0.players.filter
          (fun q => !(decide (q ∈ st0.managedPlayers)
            && (done ++ [s]).any (fun t => playsSound t st0 q))) := by
    rw [hR.players, hpn.diff_eq_filter, h.players, List.filter_filter]
    apply List.filter_congr
    intro q _
    rw [List.any_append]
    by_cases hm : q ∈ X
    · obtain ⟨⟨hq, hd⟩, hs⟩ := (hX q).mp hm
      simp [hm, hq, hd, hs]
    · by_cases hq : q ∈ st0.managedPlayers
      · cases hd : done.any (fun t => playsSound t st0 q) with
        | true => simp [hm, hq]
        | false =>
          cases hs : playsSound s st0 q with
          | true => exact absurd ((hX q).mpr ⟨⟨hq, hd⟩, hs⟩) hm
          | false => simp [hm, hq, hs]
      · simp [hm, hq]
  have hso1 : (destroyManagedWhere B (playsSound s) acc.1.managedPlayers acc.1).playerSound
      = st0.playerSound := hR.playerSound.trans h.playerSound
  have hobj1 : ∀ q, ¬ (q ∈ st0.managedPlayers ∧
        (done ++ [s]).any (fun t => playsSound t st0 q) = true) →
      (destroyManagedWhere B (playsSound s) acc.1.managedPlayers acc.1).playerObj q
        = st0.playerObj q := by
    intro q hq
    rw [List.any_append] at hq
    have hq1 : ¬ (q ∈ st0.managedPlayers ∧ done.any (fun t => playsSound t st0 q) = true) :=
      fun hh => hq ⟨hh.1, by simp [hh.2]⟩
    rw [hR.playerObj q, h.playerObj q hq1]
    intro hmem
    have hx := (hX q).mp hmem
    exact hq ⟨hx.1.1, by simp [hx.2]⟩
  have hany : (destroyManagedWhere B (playsSound s) acc.1.managedPlayers acc.1).players.any
        (playsSound s (destroyManagedWhere B (playsSound s) acc.1.managedPlayers acc.1))
      = hasManualPlayer st0 s := by
    have hps1 : playsSound s (destroyManagedWhere B (playsSound s) acc.1.managedPlayers acc.1)
        = playsSound s st0 := by
      funext q
      simp only [playsSound, hso1]
    rw [hps1, hp1]
    unfold hasManualPlayer _getPlayers
    rw [hc.players_nodup.diff_eq_filter]
    rw [Bool.eq_iff_iff, List.any_eq_true, List.any_eq_true]
    constructor
    · rintro ⟨q, hq, hpl⟩
      obtain ⟨hq0, hcond⟩ := List.mem_filter.mp hq
      refine ⟨q, List.mem_filter.mpr ⟨hq0, ?_⟩, hpl⟩
      simp [List.any_append, hpl] at hcond
      simpa using hcond
    · rintro ⟨q, hq, hpl⟩
      obtain ⟨hq0, hcond⟩ := List.mem_filter.mp hq
      refine ⟨q, List.mem_filter.mpr ⟨hq0, ?_⟩, hpl⟩
      have : q ∉ st0.managedPlayers := by simpa using hcond
      simp [this]
  have hbl : ∀ e : String × Sound, (e.2.ptr == s.ptr) = true →
      hasManualPlayer st0 e.2 = hasManualPlayer st0 s := by
    intro e he
    exact hasManualPlayer_congr st0 (by simpa using he)
  unfold destroyWithPrefixStep
  simp only
  rw [hany]
  cases hb : hasManualPlayer st0 s with
  | true =>
    rw [if_pos rfl]
    refine ⟨hm1, hp1, ?_, ?_, ?_, hso1, hR.categories.trans h.categories, hobj1⟩
    · show (destroyManagedWhere B (playsSound s) acc.1.managedPlayers acc.1).sounds.entries = _
      rw [hR.sounds, h.entries]
      apply List.filter_congr
      intro e _
      by_cases he : (e.2.ptr == s.ptr) = true
      · have := hbl e he
        rw [hb] at this
        simp [List.any_append, this]
      · simp [List.any_append, he]
    · show acc.2 ++ [s.name] = _
      rw [h.names, List.filter_append, List.map_append]
      simp [hb]
    · show (destroyManagedWhere B (playsSound s) acc.1.managedPlayers acc.1).buffers = _
      rw [hR.buffers, h.buffers, List.filter_append]
      simp [hb]
  | false =>
    rw [if_neg Bool.false_ne_true]
    refine ⟨hm1, hp1, ?_, ?_, ?_, hso1, hR.categories.trans h.categories, hobj1⟩
    · show ((destroyManagedWhere B (playsSound s) acc.1.managedPlayers acc.1).sounds.removeValue
        (fun v => v.ptr == s.ptr)).entries = _
      have hsub : acc.1.sounds.entries.Sublist st0.sounds.entries := by
        rw [h.entries]
        exact List.filter_sublist _
      rw [hR.sounds, HMap.removeValue_entries acc.1.sounds Sound.ptr s.ptr
        ((hsub.map Prod.fst).nodup hc.keys_nodup)
        (fun e he e' he' => hc.ptr_inj e (hsub.subset he) e' (hsub.subset he')),
        h.entries, List.filter_filter]
      apply List.filter_congr
      intro e _
      by_cases he : (e.2.ptr == s.ptr) = true
      · have := hbl e he
        rw [hb] at this
        simp [List.any_append, this, he]
      · simp [List.any_append, he]
    · show acc.2 = _
      rw [h.names, List.filter_append, List.map_append]
      simp [hb]
    · show (destroyManagedWhere B (playsSound s) acc.1.managedPlayers acc.1).buffers.erase
        s.buffer = _
      rw [hR.buffers, h.buffers, List.filter_append, List.foldl_append]
      simp [hb]

theorem prefixLoop_foldl (B : Backend PS W) {st0 : AudioManager PS W} (hc : Consistent st0) :
    ∀ (l done : List Sound) (acc : AudioManager PS W × List String),
      PrefixLoop st0 done acc →
      PrefixLoop st0 (done ++ l) (l.foldl (destroyWithPrefixStep B) acc) := by
  intro l
  induction l with
  | nil =>
    intro done acc h
    rw [List.append_nil]
    exact h
  | cons x t ih =>
    intro done acc h
    have := ih (done ++ [x]) _ (prefixLoop_step B hc h x)
    rw [List.append_assoc] at this
    exact this

/-- Among the sounds collected for a prefix, an entry of the registry finds its own address
exactly when its key starts with the prefix. -/
theorem prefix_any_entry {st : AudioManager PS W} (hc : Consistent st) (pfx : String)
    (e : String × Sound) (he : e ∈ st.sounds.entries) :
    ((st.sounds.entries.filter (fun e => startsWith e.1 pfx)).map Prod.snd).any
        (fun t => e.2.ptr == t.ptr) = startsWith e.1 pfx := by
  rw [Bool.eq_iff_iff, List.any_eq_true]
  constructor
  · rintro ⟨t, ht, hpt⟩
    obtain ⟨e', he', rfl⟩ := List.mem_map.mp ht
    obtain ⟨hm', hsw⟩ := List.mem_filter.mp he'
    have : e = e' := hc.ptr_inj e he e' hm' (by simpa using hpt)
    rw [this]
    exact hsw
  · intro hsw
    exact ⟨e.2, List.mem_map.mpr ⟨e, List.mem_filter.mpr ⟨he, hsw⟩, rfl⟩, by simp⟩

theorem prefix_any_player {st : AudioManager PS W} (hc : Consistent st) (pfx : String)
    (q : Nat) (hq : q ∈ st.players) :
    ((st.sounds.entries.filter (fun e => startsWith e.1 pfx)).map Prod.snd).any
        (fun t => playsSound t st q) = startsWith (st.playerSound q).name pfx :=
  prefix_any_entry hc pfx ((st.playerSound q).name, st.playerSound q) (hc.player_sound q hq)

theorem destroySoundsWithPrefix_state (B : Backend PS W) (pfx : String)
    (st : AudioManager PS W) :
    (_destroySoundsWithPrefix B pfx st).state
      = (((st.sounds.entries.filter (fun e => startsWith e.1 pfx)).map Prod.snd).foldl
          (destroyWithPrefixStep B) (st, [])).1 := by
  unfold _destroySoundsWithPrefix
  simp only
  split <;> rfl

theorem destroySoundsWithPrefix_value (B : Backend PS W) (pfx : String)
    (st : AudioManager PS W) :
    (_destroySoundsWithPrefix B pfx st).value
      = if (((st.sounds.entries.filter (fun e => startsWith e.1 pfx)).map Prod.snd).foldl
          (destroyWithPrefixStep B) (st, [])).2.length > 0 then
          .error (manualPlayersMessageMany ++ ", ".intercalate
            (((st.sounds.entries.filter (fun e => startsWith e.1 pfx)).map Prod.snd).foldl
              (destroyWithPrefixStep B) (st, [])).2)
        else .ok () := by
  unfold _destroySoundsWithPrefix
  simp only
  split <;> rfl

end AudioManager

/-- C15: in every state the manager reaches and for every prefix `p`,
`destroySoundsWithPrefix(p)` removes from `managedPlayers` and `players` exactly the managed
players whose sound has a name starting with `p`; it unregisters exactly the sounds whose name
starts with `p` and that no manual player is on, and removes their buffers; it throws exactly
when some registered sound with a name starting with `p` has a manual player on it, and the
message is the text on manually created players followed by the names of these sounds, in key
order and each once, joined by ", ". The sounds of the players, the categories and the objects
of all players that are not removed are as before. -/
theorem C15_destroySoundsWithPrefix {PS W : Type} (B : Backend PS W) (st : AudioManager PS W)
    (pfx : String) (hr : AudioManager.Reachable B st) :
    (AudioManager._destroySoundsWithPrefix B pfx st).state.managedPlayers
      = st.managedPlayers.filter (fun q => !startsWith (st.playerSound q).name pfx) ∧
    (AudioManager._destroySoundsWithPrefix B pfx st).state.players
      = st.players.filter
          (fun q => !(decide (q ∈ st.managedPlayers)
            && startsWith (st.playerSound q).name pfx)) ∧
    (AudioManager._destroySoundsWithPrefix B pfx st).state.sounds.entries
      = st.sounds.entries.filter
          (fun e => !startsWith e.1 pfx || AudioManager.hasManualPlayer st e.2) ∧
    (AudioManager._destroySoundsWithPrefix B pfx st).state.buffers
      = st.buffers.diff
          ((st.sounds.entries.filter
            (fun e => startsWith e.1 pfx && !AudioManager.hasManualPlayer st e.2)).map
              (fun e => e.2.buffer)) ∧
    ((AudioManager._destroySoundsWithPrefix B pfx st).raised = true ↔
      ∃ e ∈ st.sounds.entries,
        startsWith e.1 pfx = true ∧ AudioManager.hasManualPlayer st e.2 = true) ∧
    ((AudioManager._destroySoundsWithPrefix B pfx st).raised = true →
      (AudioManager._destroySoundsWithPrefix B pfx st).value
        = Except.error (manualPlayersMessageMany ++ ", ".intercalate
            ((st.sounds.entries.filter
              (fun e => startsWith e.1 pfx && AudioManager.hasManualPlayer st e.2)).map
                Prod.fst))) ∧
    ((st.sounds.entries.filter
      (fun e => startsWith e.1 pfx && AudioManager.hasManualPlayer st e.2)).map
        Prod.fst).Nodup ∧
    (AudioManager._destroySoundsWithPrefix B pfx st).state.playerSound = st.playerSound ∧
    (AudioManager._destroySoundsWithPrefix B pfx st).state.categories = st.categories ∧
    (∀ q, ¬ (q ∈ st.managedPlayers ∧ startsWith (st.playerSound q).name pfx = true) →
      (AudioManager._destroySoundsWithPrefix B pfx st).state.playerObj q = st.playerObj q) := by
  have hc := hr.consistent
  have hL := AudioManager.prefixLoop_foldl B hc
    ((st.sounds.entries.filter (fun e => startsWith e.1 pfx)).map Prod.snd) [] (st, [])
    (AudioManager.prefixLoop_nil st)
  rw [List.nil_append] at hL
  have hnames : (((st.sounds.entries.filter (fun e => startsWith e.1 pfx)).map Prod.snd).foldl
        (AudioManager.destroyWithPrefixStep B) (st, [])).2
      = (st.sounds.entries.filter
          (fun e => startsWith e.1 pfx && AudioManager.hasManualPlayer st e.2)).map Prod.fst := by
    rw [hL.names, List.filter_map, List.filter_filter, List.map_map]
    have hfil : st.sounds.entries.filter
          (fun e => (AudioManager.hasManualPlayer st ∘ Prod.snd) e && startsWith e.1 pfx)
        = st.sounds.entries.filter
          (fun e => startsWith e.1 pfx && AudioManager.hasManualPlayer st e.2) := by
      apply List.filter_congr
      intro e _
      exact Bool.and_comm _ _
    rw [hfil]
    apply List.map_congr_left
    intro e he
    exact hc.key_name e (List.mem_filter.mp he).1
  have hraised : (AudioManager._destroySoundsWithPrefix B pfx st).raised = true ↔
      (st.sounds.entries.filter
        (fun e => startsWith e.1 pfx && AudioManager.hasManualPlayer st e.2)).map Prod.fst
          ≠ [] := by
    unfold Result.raised
    rw [AudioManager.destroySoundsWithPrefix_value, hnames]
    cases (st.sounds.entries.filter
        (fun e => startsWith e.1 pfx && AudioManager.hasManualPlayer st e.2)).map Prod.fst with
    | nil => simp
    | cons a t => simp
  rw [AudioManager.destroySoundsWithPrefix_state]
  refine ⟨?_, ?_, ?_, ?_, ?_, ?_, ?_, hL.playerSound, hL.categories, ?_⟩
  · rw [hL.managedPlayers]
    apply List.filter_congr
    intro q hq
    rw [AudioManager.prefix_any_player hc pfx q (hc.managed_sub q hq)]
  · rw [hL.players]
    apply List.filter_congr
    intro q hq
    rw [AudioManager.prefix_any_player hc pfx q hq]
  · rw [hL.entries]
    apply List.filter_congr
    intro e he
    rw [AudioManager.prefix_any_entry hc pfx e he]
    cases startsWith e.1 pfx <;> cases AudioManager.hasManualPlayer st e.2 <;> rfl
  · rw [hL.buffers, List.diff_eq_foldl, List.filter_map, List.filter_filter, List.foldl_map,
      List.foldl_map]
    have hfil : st.sounds.entries.filter
          (fun e => ((fun t => !AudioManager.hasManualPlayer st t) ∘ Prod.snd) e
            && startsWith e.1 pfx)
        = st.sounds.entries.filter
          (fun e => startsWith e.1 pfx && !AudioManager.hasManualPlayer st e.2) := by
      apply List.filter_congr
      intro e _
      exact Bool.and_comm _ _
    rw [hfil]
  · rw [hraised]
    constructor
    · intro hne
      obtain ⟨k, hk⟩ := List.exists_mem_of_ne_nil _ hne
      obtain ⟨e, he, _⟩ := List.mem_map.mp hk
      obtain ⟨hm, hcond⟩ := List.mem_filter.mp he
      exact ⟨e, hm, by simpa using hcond⟩
    · rintro ⟨e, hm, hsw, hman⟩
      have : e.1 ∈ (st.sounds.entries.filter
          (fun e => startsWith e.1 pfx && AudioManager.hasManualPlayer st e.2)).map Prod.fst :=
        List.mem_map.mpr ⟨e, List.mem_filter.mpr ⟨hm, by simp [hsw, hman]⟩, rfl⟩
      exact List.ne_nil_of_mem this
  · intro hra
    have hne := hraised.mp hra
    rw [AudioManager.destroySoundsWithPrefix_value, hnames, if_pos]
    exact List.length_pos.mpr hne
  · exact (((List.filter_sublist _).map Prod.fst).nodup hc.keys_nodup)
  · intro q hq
    apply hL.playerObj
    rintro ⟨hqm, hany⟩
    rw [AudioManager.prefix_any_player hc pfx q (hc.managed_sub q hqm)] at hany
    exact hq ⟨hqm, hany⟩

/-- Witness of C15: in `demo4` the sound `m` has the manual player 6 and the managed player 7;
`destroySoundsWithPrefix("m")` destroys player 7, keeps `m` registered and throws. -/
theorem C15_destroySoundsWithPrefix_witness :
    AudioManager.Reachable flagBackend demo4 ∧
    (AudioManager._destroySoundsWithPrefix flagBackend "m" demo4).state.managedPlayers
      = demo4.managedPlayers.filter (fun q => !startsWith (demo4.playerSound q).name "m") ∧
    ((AudioManager._destroySoundsWithPrefix flagBackend "m" demo4).raised = true ↔
      ∃ e ∈ demo4.sounds.entries,
        startsWith e.1 "m" = true ∧ AudioManager.hasManualPlayer demo4 e.2 = true) :=
  ⟨AudioManager.reachable_demo4,
    (C15_destroySoundsWithPrefix flagBackend demo4 "m" AudioManager.reachable_demo4).1,
    (C15_destroySoundsWithPrefix flagBackend demo4 "m"
      AudioManager.reachable_demo4).2.2.2.2.1⟩


/-! ## Suspending and resuming -/

namespace AudioManager

variable {PS W : Type}

theorem NoneSuspended.keep {st st' : AudioManager PS W} (h : NoneSuspended st)
    (hs : st'.suspended = st.suspended)
    (hl : st'.suspendedPlayers.Sublist st.suspendedPlayers) : NoneSuspended st' := by
  intro hs'
  rw [h (hs ▸ hs')] at hl
  exact List.sublist_nil.mp hl

theorem NoneSuspended.of_frame {st st' : AudioManager PS W} (h : NoneSuspended st)
    (hF : Frame st st') : NoneSuspended st' :=
  h.keep hF.suspended hF.suspendedPlayers

theorem frame_createSound (B : Backend PS W) (filename categoryName pfx : String)
    (st : AudioManager PS W) : Frame st (_createSound B filename categoryName pfx st).state := by
  unfold _createSound
  cases _getCategory categoryName st with
  | error e => exact Frame.same st
  | ok category =>
    simp only
    split <;> exact ⟨rfl, rfl, rfl, rfl, rfl, rfl, rfl, rfl, rfl, List.Sublist.refl _⟩

theorem frame_createSoundMemory (B : Backend PS W) (name categoryName : String) (pcm : PcmData)
    (st : AudioManager PS W) :
    Frame st (_createSoundMemory B name categoryName pcm st).state := by
  unfold _createSoundMemory
  cases _getCategory categoryName st with
  | error e => exact Frame.same st
  | ok category =>
    simp only
    split <;> exact ⟨rfl, rfl, rfl, rfl, rfl, rfl, rfl, rfl, rfl, List.Sublist.refl _⟩

theorem frame_createSoundNoAudio (B : Backend PS W) (filename categoryName pfx : String)
    (st : AudioManager PS W) :
    Frame st (NoAudio_AudioManager._createSound B filename categoryName pfx st).state := by
  unfold NoAudio_AudioManager._createSound
  cases _getCategory categoryName st with
  | error e => exact Frame.same st
  | ok category =>
    simp only
    split <;> exact ⟨rfl, rfl, rfl, rfl, rfl, rfl, rfl, rfl, rfl, List.Sublist.refl _⟩

theorem frame_createSoundMemoryNoAudio (B : Backend PS W) (name categoryName : String)
    (pcm : PcmData) (st : AudioManager PS W) :
    Frame st (NoAudio_AudioManager._createSoundMemory B name categoryName pcm st).state := by
  unfold NoAudio_AudioManager._createSoundMemory
  cases _getCategory categoryName st with
  | error e => exact Frame.same st
  | ok category =>
    simp only
    split <;> exact ⟨rfl, rfl, rfl, rfl, rfl, rfl, rfl, rfl, rfl, List.Sublist.refl _⟩

theorem frame_destroySound (B : Backend PS W) (sound : Sound) (st : AudioManager PS W) :
    Frame st (_destroySound B sound st).state := by
  have hF := frame_destroyManagedWhere B (playsSound sound) st.managedPlayers st
  rcases destroySound_cases B sound st with ⟨_, heq⟩ | ⟨_, heq⟩
  · rw [heq]
    exact hF
  · rw [heq]
    exact hF.andThen ⟨rfl, rfl, rfl, rfl, rfl, rfl, rfl, rfl, rfl, List.Sublist.refl _⟩

theorem frame_destroyWithPrefixStep (B : Backend PS W) (acc : AudioManager PS W × List String)
    (sound : Sound) : Frame acc.1 (destroyWithPrefixStep B acc sound).1 := by
  have hF := frame_destroyManagedWhere B (playsSound sound) acc.1.managedPlayers acc.1
  unfold destroyWithPrefixStep
  simp only
  split
  · exact hF
  · exact hF.andThen ⟨rfl, rfl, rfl, rfl, rfl, rfl, rfl, rfl, rfl, List.Sublist.refl _⟩

theorem frame_destroySoundsWithPrefix (B : Backend PS W) (pfx : String)
    (st : AudioManager PS W) : Frame st (_destroySoundsWithPrefix B pfx st).state := by
  have hfold : ∀ (l : List Sound) (acc : AudioManager PS W × List String),
      Frame acc.1 (l.foldl (destroyWithPrefixStep B) acc).1 := by
    intro l
    induction l with
    | nil => exact fun acc => Frame.same _
    | cons x t ih =>
      intro acc
      exact (frame_destroyWithPrefixStep B acc x).andThen (ih _)
  unfold _destroySoundsWithPrefix
  simp only
  split
  · exact hfold _ (st, [])
  · exact hfold _ (st, [])

theorem frame_createPlayer (B : Backend PS W) (name : String) (st : AudioManager PS W) :
    Frame st (_createPlayer B name st).state := by
  unfold _createPlayer
  cases st.sounds.get? name with
  | none => exact Frame.same st
  | some sound => exact ⟨rfl, rfl, rfl, rfl, rfl, rfl, rfl, rfl, rfl, List.Sublist.refl _⟩

theorem frame_createManagedPlayer (B : Backend PS W) (name : String) (st : AudioManager PS W) :
    Frame st (_createManagedPlayer B name st).state := by
  have h := frame_createPlayer B name st
  unfold _createManagedPlayer
  split
  · exact h
  · exact h.andThen ⟨rfl, rfl, rfl, rfl, rfl, rfl, rfl, rfl, rfl, List.Sublist.refl _⟩

theorem frame_play (B : Backend PS W) (soundName : String) (fadeTime : ℚ) (looping : Bool)
    (gain : ℚ) (st : AudioManager PS W) :
    Frame st (_play B soundName fadeTime looping gain st).state := by
  have h := frame_createManagedPlayer B soundName st
  unfold _play
  split
  · exact Frame.same st
  · split
    · exact h
    · exact h.andThen ((frame_onPlayer _ _ _).andThen (frame_onPlayer _ _ _))

theorem frame_playAsync (B : Backend PS W) (soundName : String) (fadeTime : ℚ) (looping : Bool)
    (gain : ℚ) (st : AudioManager PS W) :
    Frame st (_playAsync B soundName fadeTime looping gain st).state := by
  have h := frame_createManagedPlayer B soundName st
  unfold _playAsync
  split
  · exact Frame.same st
  · split
    · exact h
    · exact h.andThen ((frame_onPlayer _ _ _).andThen (frame_onPlayer _ _ _))

theorem frame_stop (B : Backend PS W) (soundName : String) (fadeTime : ℚ)
    (st : AudioManager PS W) : Frame st (_stop B soundName fadeTime st) := by
  unfold _stop
  split
  · exact frame_destroyManagedWhere B _ _ _
  · exact frame_stopWhere B _ _ _ _

theorem frame_stopFirst (B : Backend PS W) (soundName : String) (fadeTime : ℚ)
    (st : AudioManager PS W) : Frame st (_stopFirst B soundName fadeTime st) := by
  unfold _stopFirst
  split
  · exact Frame.same st
  · split
    · exact frame_destroyManagedPlayer B _ st
    · exact frame_playerStop B _ _ st

theorem frame_stopAll (B : Backend PS W) (fadeTime : ℚ) (st : AudioManager PS W) :
    Frame st (_stopAll B fadeTime st) := by
  unfold _stopAll
  simp only
  refine Frame.andThen ?_ (frame_stopWhere B _ _ _ _)
  split
  · exact frame_destroyManagedWhere B _ _ _
  · exact Frame.same st

theorem frame_stopCategory (B : Backend PS W) (categoryName : String) (fadeTime : ℚ)
    (st : AudioManager PS W) : Frame st (_stopCategory B categoryName fadeTime st).state := by
  unfold _stopCategory
  simp only
  cases _getCategory categoryName st with
  | error e => exact Frame.same st
  | ok category =>
    simp only
    refine Frame.andThen ?_ (frame_stopWhere B _ _ _ _)
    split
    · exact frame_destroyManagedWhere B _ _ _
    · exact Frame.same st

/-- A tick neither changes the suspension nor adds a player to `suspendedPlayers`. -/
theorem update_keeps (B : Backend PS W) (dt : ℚ) (st : AudioManager PS W) :
    (_update B dt st).suspended = st.suspended ∧
    (_update B dt st).suspendedPlayers.Sublist st.suspendedPlayers := by
  cases hs : st.suspended with
  | true =>
    rw [update_suspended B dt st hs]
    split
    · have hF := frame_foldl
        (fun s p => onPlayer (B.update dt) p (onPlayer B.systemUpdateGain p s))
        (fun s p => (frame_onPlayer _ p s).andThen (frame_onPlayer _ p _)) st.players st
      exact ⟨hF.suspended.trans hs, hF.suspendedPlayers⟩
    · exact ⟨hs, List.Sublist.refl _⟩
  | false =>
    have hF1 := frame_destroyManagedWhere B (reclaimable B)
      (updateBeforeReclaim B dt st).managedPlayers (updateBeforeReclaim B dt st)
    have hF2 : (updateBeforeReclaim B dt st).suspended = st.suspended ∧
        (updateBeforeReclaim B dt st).suspendedPlayers.Sublist st.suspendedPlayers := by
      unfold updateBeforeReclaim
      simp only
      by_cases hdt : dt > 0
      · rw [if_pos hdt]
        have hF := frame_foldl _
          (frame_updatePlayer B
            (gainFadingFlag B dt { st with world := B.bufferAsyncUpdate st.world }) dt)
          ({ updateGlobalGainFade dt { st with world := B.bufferAsyncUpdate st.world } with
              categories := updateCategories B dt st.categories } : AudioManager PS W).players
          { updateGlobalGainFade dt { st with world := B.bufferAsyncUpdate st.world } with
            categories := updateCategories B dt st.categories }
        have hw := updateGlobalGainFade_world dt st (B.bufferAsyncUpdate st.world)
        have hg : (updateGlobalGainFade dt st).suspended = st.suspended ∧
            (updateGlobalGainFade dt st).suspendedPlayers = st.suspendedPlayers := by
          unfold updateGlobalGainFade
          split_ifs <;> exact ⟨rfl, rfl⟩
        refine ⟨hF.suspended.trans ?_, hF.suspendedPlayers.trans ?_⟩
        · show (updateGlobalGainFade dt { st with world := B.bufferAsyncUpdate st.world }).suspended
            = st.suspended
          rw [hw]
          exact hg.1
        · show (updateGlobalGainFade dt
            { st with world := B.bufferAsyncUpdate st.world }).suspendedPlayers.Sublist
              st.suspendedPlayers
          rw [hw]
          show (updateGlobalGainFade dt st).suspendedPlayers.Sublist st.suspendedPlayers
          rw [hg.2]
      · rw [if_neg hdt]
        have hF := frame_foldl _
          (frame_updatePlayer B
            (gainFadingFlag B dt { st with world := B.bufferAsyncUpdate st.world }) dt)
          st.players { st with world := B.bufferAsyncUpdate st.world }
        exact ⟨hF.suspended, hF.suspendedPlayers⟩
    rw [update_active B dt st hs]
    exact ⟨(hF1.suspended.trans hF2.1).trans hs, hF1.suspendedPlayers.trans hF2.2⟩

theorem clear_keeps (B : Backend PS W) (st : AudioManager PS W) :
    (clear B st).suspended = st.suspended ∧
    (clear B st).suspendedPlayers.Sublist st.suspendedPlayers := by
  have h1 := update_keeps B 0 { st with threadRunning := false, thread := false }
  have h2 := frame_foldl
    (fun s p =>
      { playerStop B 0 p s with
        world := B.playerDelete ((playerStop B 0 p s).playerObj p) (playerStop B 0 p s).world })
    (fun s p => ⟨rfl, rfl, rfl, rfl, rfl, rfl, rfl, rfl, rfl, List.erase_sublist _ _⟩)
    (_update B 0 { st with threadRunning := false, thread := false }).players
    (_update B 0 { st with threadRunning := false, thread := false })
  have h3 : ∀ (l : List Sound) (s : AudioManager PS W),
      (l.foldl (fun s sound => deleteSound B sound s) s).suspended = s.suspended ∧
      (l.foldl (fun s sound => deleteSound B sound s) s).suspendedPlayers
        = s.suspendedPlayers := by
    intro l
    induction l with
    | nil => exact fun s => ⟨rfl, rfl⟩
    | cons x t ih =>
      intro s
      exact ih (deleteSound B x s)
  have h4 := h3 (clearPlayers B
      (_update B 0 { st with threadRunning := false, thread := false })).sounds.values
    (clearPlayers B (_update B 0 { st with threadRunning := false, thread := false }))
  constructor
  · show (clearSounds B _).suspended = st.suspended
    unfold clearSounds
    rw [h4.1]
    exact h2.suspended.trans h1.1
  · show (clearSounds B _).suspendedPlayers.Sublist st.suspendedPlayers
    unfold clearSounds
    rw [h4.2]
    exact h2.suspendedPlayers.trans h1.2

theorem setGlobalGain_keeps (B : Backend PS W) (value : ℚ) (st : AudioManager PS W) :
    (_setGlobalGain B value st).suspended = st.suspended ∧
    (_setGlobalGain B value st).suspendedPlayers.Sublist st.suspendedPlayers := by
  have h := frame_foldl (fun s p => onPlayer B.systemUpdateGain p s)
    (fun s p => frame_onPlayer _ p s) st.players
    { st with
      globalGain := value
      globalGainFadeTarget := -1
      globalGainFadeSpeed := -1
      globalGainFadeTime := 0 }
  exact ⟨h.suspended, h.suspendedPlayers⟩

/-- In every state the manager reaches, `suspendedPlayers` is empty unless the manager is
suspended. -/
theorem Reachable.noneSuspended {B : Backend PS W} {st : AudioManager PS W}
    (h : Reachable B st) : NoneSuspended st := by
  induction h with
  | create backendId threaded updateTime deviceName extensions objs w => exact fun _ => rfl
  | init _ ih =>
    unfold AudioManager.init
    split
    · exact ih.keep rfl (List.Sublist.refl _)
    · exact ih
  | clear _ ih => exact ih.keep (clear_keeps B _).1 (clear_keeps B _).2
  | setGlobalGain value _ ih =>
    exact ih.keep (setGlobalGain_keeps B _ _).1 (setGlobalGain_keeps B _ _).2
  | fadeGlobalGain target fadeTime _ ih =>
    unfold _fadeGlobalGain
    split
    · exact ih.keep rfl (List.Sublist.refl _)
    · exact ih
  | tick timeDelta _ ih => exact ih.keep (update_keeps B _ _).1 (update_keeps B _ _).2
  | update timeDelta _ ih =>
    unfold AudioManager.update
    split
    · exact ih.keep (update_keeps B _ _).1 (update_keeps B _ _).2
    · exact ih
  | createCategory name bufferMode sourceMode _ ih =>
    unfold _createCategory
    split
    · exact ih
    · exact ih.keep rfl (List.Sublist.refl _)
  | createSound filename categoryName pfx _ ih => exact ih.of_frame (frame_createSound B _ _ _ _)
  | createSoundMemory name categoryName pcm _ ih =>
    exact ih.of_frame (frame_createSoundMemory B _ _ _ _)
  | destroySound sound registered _ ih => exact ih.of_frame (frame_destroySound B _ _)
  | destroySoundsWithPrefix pfx _ ih =>
    exact ih.of_frame (frame_destroySoundsWithPrefix B _ _)
  | createPlayer name _ ih => exact ih.of_frame (frame_createPlayer B _ _)
  | destroyPlayer player manual _ ih => exact ih.of_frame (frame_destroyPlayer B _ _)
  | play soundName fadeTime looping gain _ ih => exact ih.of_frame (frame_play B _ _ _ _ _)
  | playAsync soundName fadeTime looping gain _ ih =>
    exact ih.of_frame (frame_playAsync B _ _ _ _ _)
  | stop soundName fadeTime _ ih => exact ih.of_frame (frame_stop B _ _ _)
  | stopFirst soundName fadeTime _ ih => exact ih.of_frame (frame_stopFirst B _ _ _)
  | stopAll fadeTime _ ih => exact ih.of_frame (frame_stopAll B _ _)
  | stopCategory categoryName fadeTime _ ih => exact ih.of_frame (frame_stopCategory B _ _ _)
  | clearMemory _ ih => exact ih.keep rfl (List.Sublist.refl _)
  | @suspendAudio st _ ih =>
    unfold _suspendAudio
    split
    · intro hs
      exact Bool.noConfusion hs
    · exact ih
  | @resumeAudio st _ ih =>
    unfold _resumeAudio
    split
    · exact fun _ => rfl
    · exact ih
  | addAudioExtension extension _ ih => exact ih.keep rfl (List.Sublist.refl _)
  | createSoundNoAudio filename categoryName pfx _ ih =>
    exact ih.of_frame (frame_createSoundNoAudio B _ _ _ _)
  | createSoundMemoryNoAudio name categoryName pcm _ ih =>
    exact ih.of_frame (frame_createSoundMemoryNoAudio B _ _ _ _)
  | playerCall player f _ ih => exact ih.of_frame (frame_onPlayer f player _)
  | playerStop player fadeTime _ ih => exact ih.of_frame (frame_playerStop B fadeTime player _)

theorem suspendPlayer_facts (B : Backend PS W) (f : ℚ) (s : AudioManager PS W) (p : Nat)
    (hp : p ∉ s.suspendedPlayers) :
    (suspendPlayer B f s p).suspendedPlayers
      = s.suspendedPlayers ++
        (if (!B.isFadingOut (s.playerObj p) && B.isPlaying (s.playerObj p)) = true then [p]
          else []) ∧
    (suspendPlayer B f s p).playerObj p = suspendAsked B f (s.playerObj p) s.world ∧
    ∀ q, q ≠ p → (suspendPlayer B f s p).playerObj q = s.playerObj q := by
  unfold suspendPlayer suspendAsked
  cases hfo : B.isFadingOut (s.playerObj p) with
  | true =>
    cases hpa : B.paused (s.playerObj p) with
    | true =>
      refine ⟨by simp [onPlayer], by simp [onPlayer], ?_⟩
      intro q hq
      simp [onPlayer, Function.update_noteq hq]
    | false =>
      refine ⟨by simp [playerStop, List.erase_of_not_mem hp], by simp [playerStop, onPlayer], ?_⟩
      intro q hq
      simp [playerStop, onPlayer, Function.update_noteq hq]
  | false =>
    cases hpl : B.isPlaying (s.playerObj p) with
    | true =>
      refine ⟨by simp, by simp [onPlayer], ?_⟩
      intro q hq
      simp [onPlayer, Function.update_noteq hq]
    | false =>
      refine ⟨by simp, by simp, ?_⟩
      intro q _
      simp

/-- The loop of `_suspendAudio` over distinct players: it records the players that are playing
and not fading out, in order, and each round only touches the object of its own player. -/
theorem suspend_loop (B : Backend PS W) (f : ℚ) :
    ∀ (l : List Nat) (s : AudioManager PS W), l.Nodup → (∀ p ∈ l, p ∉ s.suspendedPlayers) →
      (l.foldl (suspendPlayer B f) s).suspendedPlayers
        = s.suspendedPlayers ++
          l.filter (fun p => !B.isFadingOut (s.playerObj p) && B.isPlaying (s.playerObj p)) ∧
      (∀ q, q ∉ l → (l.foldl (suspendPlayer B f) s).playerObj q = s.playerObj q) ∧
      (∀ p ∈ l, ∃ w,
        (l.foldl (suspendPlayer B f) s).playerObj p = suspendAsked B f (s.playerObj p) w) := by
  intro l
  induction l with
  | nil =>
    intro s _ _
    exact ⟨by simp, fun _ _ => rfl, fun p hp => absurd hp (List.not_mem_nil p)⟩
  | cons x t ih =>
    intro s hnd hns
    obtain ⟨hxt, hnt⟩ := List.nodup_cons.mp hnd
    obtain ⟨h1, h2, h3⟩ := suspendPlayer_facts B f s x (hns x (List.mem_cons_self _ _))
    have hns' : ∀ p ∈ t, p ∉ (suspendPlayer B f s x).suspendedPlayers := by
      intro p hp hmem
      rw [h1] at hmem
      rcases List.mem_append.mp hmem with hm | hm
      · exact hns p (List.mem_cons_of_mem _ hp) hm
      · split at hm
        · rw [List.mem_singleton] at hm
          exact hxt (hm ▸ hp)
        · exact absurd hm (List.not_mem_nil p)
    obtain ⟨i1, i2, i3⟩ := ih (suspendPlayer B f s x) hnt hns'
    have hfil : t.filter (fun p => !B.isFadingOut ((suspendPlayer B f s x).playerObj p)
          && B.isPlaying ((suspendPlayer B f s x).playerObj p))
        = t.filter (fun p => !B.isFadingOut (s.playerObj p) && B.isPlaying (s.playerObj p)) := by
      apply List.filter_congr
      intro p hp
      rw [h3 p (fun e => hxt (e ▸ hp))]
    refine ⟨?_, ?_, ?_⟩
    · show (t.foldl (suspendPlayer B f) (suspendPlayer B f s x)).suspendedPlayers = _
      rw [i1, h1, hfil, List.filter_cons, List.append_assoc]
      split <;> rfl
    · intro q hq
      show (t.foldl (suspendPlayer B f) (suspendPlayer B f s x)).playerObj q = _
      rw [i2 q (fun hm => hq (List.mem_cons_of_mem _ hm)),
        h3 q (fun e => hq (e ▸ List.mem_cons_self _ _))]
    · intro p hp
      show ∃ w, (t.foldl (suspendPlayer B f) (suspendPlayer B f s x)).playerObj p = _
      rcases List.mem_cons.mp hp with rfl | hpt
      · exact ⟨s.world, by rw [i2 p hxt, h2]⟩
      · obtain ⟨w, hw⟩ := i3 p hpt
        exact ⟨w, by rw [hw, h3 p (fun e => hxt (e ▸ hpt))]⟩

/-- A loop that calls `f` on each of a list of distinct players calls it exactly once on each
of them and leaves the objects of the other players alone. -/
theorem onPlayer_loop (f : PS → W → PS × W) :
    ∀ (l : List Nat) (s : AudioManager PS W), l.Nodup →
      (∀ q, q ∉ l → (l.foldl (fun s p => onPlayer f p s) s).playerObj q = s.playerObj q) ∧
      (∀ p ∈ l, ∃ w,
        (l.foldl (fun s p => onPlayer f p s) s).playerObj p = (f (s.playerObj p) w).1) := by
  intro l
  induction l with
  | nil =>
    intro s _
    exact ⟨fun _ _ => rfl, fun p hp => absurd hp (List.not_mem_nil p)⟩
  | cons x t ih =>
    intro s hnd
    obtain ⟨hxt, hnt⟩ := List.nodup_cons.mp hnd
    obtain ⟨i2, i3⟩ := ih (onPlayer f x s) hnt
    have h3 : ∀ q, q ≠ x → (onPlayer f x s).playerObj q = s.playerObj q :=
      fun q hq => Function.update_noteq hq _ _
    have h2 : (onPlayer f x s).playerObj x = (f (s.playerObj x) s.world).1 :=
      Function.update_same _ _ _
    refine ⟨?_, ?_⟩
    · intro q hq
      show (t.foldl (fun s p => onPlayer f p s) (onPlayer f x s)).playerObj q = _
      rw [i2 q (fun hm => hq (List.mem_cons_of_mem _ hm)),
        h3 q (fun e => hq (e ▸ List.mem_cons_self _ _))]
    · intro p hp
      show ∃ w, (t.foldl (fun s p => onPlayer f p s) (onPlayer f x s)).playerObj p = _
      rcases List.mem_cons.mp hp with rfl | hpt
      · exact ⟨s.world, by rw [i2 p hxt, h2]⟩
      · obtain ⟨w, hw⟩ := i3 p hpt
        exact ⟨w, by rw [hw, h3 p (fun e => hxt (e ▸ hpt))]⟩

theorem suspendPlayer_foldl_fields (B : Backend PS W) (f : ℚ) :
    ∀ (l : List Nat) (s : AudioManager PS W),
      (l.foldl (suspendPlayer B f) s).thread = s.thread ∧
      (l.foldl (suspendPlayer B f) s).suspendResumeFadeTime = s.suspendResumeFadeTime := by
  intro l
  induction l with
  | nil => exact fun s => ⟨rfl, rfl⟩
  | cons x t ih =>
    intro s
    have hx : (suspendPlayer B f s x).thread = s.thread ∧
        (suspendPlayer B f s x).suspendResumeFadeTime = s.suspendResumeFadeTime := by
      unfold suspendPlayer
      split_ifs <;> exact ⟨rfl, rfl⟩
    exact ⟨(ih _).1.trans hx.1, (ih _).2.trans hx.2⟩

/-- What `_suspendAudio` does to a manager that is not suspended and has no recorded players. -/
theorem suspendAudio_spec (B : Backend PS W) (st : AudioManager PS W) (hc : Consistent st)
    (hs : st.suspended = false) (hn : st.suspendedPlayers = []) :
    (_suspendAudio B st).suspended = true ∧
    (_suspendAudio B st).thread = st.thread ∧
    (_suspendAudio B st).suspendResumeFadeTime = st.suspendResumeFadeTime ∧
    (_suspendAudio B st).players = st.players ∧
    (_suspendAudio B st).suspendedPlayers
      = st.players.filter (fun p => !B.isFadingOut (st.playerObj p) && B.isPlaying (st.playerObj p)) ∧
    (∀ q, q ∉ st.players → (_suspendAudio B st).playerObj q = st.playerObj q) ∧
    (∀ p ∈ st.players, ∃ w,
      (_suspendAudio B st).playerObj p = suspendAsked B (suspendFadeTime st) (st.playerObj p) w) := by
  obtain ⟨h1, h2, h3⟩ := suspend_loop B (suspendFadeTime st) st.players st hc.players_nodup
    (fun p _ hm => by rw [hn] at hm; exact absurd hm (List.not_mem_nil p))
  have hF := suspendPlayer_foldl_fields B (suspendFadeTime st) st.players st
  have hS := sameCore_foldl (suspendPlayer B (suspendFadeTime st))
    (fun s p => sameCore_suspendPlayer B _ s p) st.players st
  have heq : _suspendAudio B st
      = { st.players.foldl (suspendPlayer B (suspendFadeTime st)) st with
          world := B.suspendSystem (st.players.foldl (suspendPlayer B (suspendFadeTime st)) st).world
          suspended := true } := by
    unfold _suspendAudio
    rw [hs]
    rfl
  rw [heq]
  rw [hn, List.nil_append] at h1
  exact ⟨rfl, hF.1, hF.2, hS.players, h1, h2, h3⟩

/-- What `_resumeAudio` does to a suspended manager whose recorded players are distinct. -/
theorem resumeAudio_spec (B : Backend PS W) (s : AudioManager PS W) (hs : s.suspended = true)
    (hnd : s.suspendedPlayers.Nodup) :
    (_resumeAudio B s).suspended = false ∧
    (_resumeAudio B s).suspendedPlayers = [] ∧
    (_resumeAudio B s).players = s.players ∧
    (∀ q, q ∉ s.suspendedPlayers → (_resumeAudio B s).playerObj q = s.playerObj q) ∧
    (∀ p ∈ s.suspendedPlayers, ∃ w,
      (_resumeAudio B s).playerObj p = (B.play (suspendFadeTime s) false (s.playerObj p) w).1) := by
  obtain ⟨h2, h3⟩ := onPlayer_loop (B.play (suspendFadeTime s) false) s.suspendedPlayers
    { s with suspended := false, world := B.resumeSystem s.world } hnd
  have hF := frame_foldl (fun s1 p => onPlayer (B.play (suspendFadeTime s) false) p s1)
    (fun s1 p => frame_onPlayer _ p s1) s.suspendedPlayers
    { s with suspended := false, world := B.resumeSystem s.world }
  have hS := sameCore_foldl (fun s1 p => onPlayer (B.play (suspendFadeTime s) false) p s1)
    (fun s1 p => sameCore_onPlayer _ p s1) s.suspendedPlayers
    { s with suspended := false, world := B.resumeSystem s.world }
  have heq : _resumeAudio B s
      = { s.suspendedPlayers.foldl
            (fun s1 p => onPlayer (B.play (suspendFadeTime s) false) p s1)
            { s with suspended := false, world := B.resumeSystem s.world } with
          suspendedPlayers := [] } := by
    unfold _resumeAudio
    rw [if_pos hs]
    rfl
  rw [heq]
  exact ⟨hF.suspended, rfl, hS.players, h2, h3⟩

theorem reachable_logDemo (threaded : Bool) : Reachable logBackend (logDemo threaded) :=
  Reachable.play "m" 0 false 1
    (Reachable.createSound "m" "sfx" ""
      (Reachable.createCategory "sfx" BufferMode.Full SourceMode.Ram
        (Reachable.create 0 threaded 0 "" [".wav"] (fun _ => []) 0)))

end AudioManager

/-- Counterexample to C16 as stated: on the manager `logDemo false`, which has no update thread
and a `suspendResumeFadeTime` of 1/2, `suspendAudio()` records the playing player 4, and the
following `resumeAudio()` asks it to play with a fade-in of 0, not of `suspendResumeFadeTime`. -/
theorem C16_resume_fade_counterexample :
    (logDemo false).suspended = false ∧
    (logDemo false).suspendResumeFadeTime = 1 / 2 ∧
    (AudioManager._suspendAudio logBackend (logDemo false)).suspendedPlayers = [4] ∧
    (AudioManager._resumeAudio logBackend
        (AudioManager._suspendAudio logBackend (logDemo false))).playerObj 4
      = [PlayerCall.play 0 false, PlayerCall.pause 0, PlayerCall.play 0 false,
          PlayerCall.setGain 1] ∧
    ¬ ∃ w, (AudioManager._resumeAudio logBackend
        (AudioManager._suspendAudio logBackend (logDemo false))).playerObj 4
      = (logBackend.play (logDemo false).suspendResumeFadeTime false
          ((AudioManager._suspendAudio logBackend (logDemo false)).playerObj 4) w).1 := by
  have h4 : (AudioManager._resumeAudio logBackend
        (AudioManager._suspendAudio logBackend (logDemo false))).playerObj 4
      = [PlayerCall.play 0 false, PlayerCall.pause 0, PlayerCall.play 0 false,
          PlayerCall.setGain 1] := by decide
  refine ⟨rfl, rfl, by decide, h4, ?_⟩
  rintro ⟨w, hw⟩
  rw [h4] at hw
  have h0 : PlayerCall.play 0 false
      = PlayerCall.play (logDemo false).suspendResumeFadeTime false := (List.cons.inj hw).1
  have h1 : (0 : ℚ) = (logDemo false).suspendResumeFadeTime := (PlayerCall.play.inj h0).1
  have h2 : (logDemo false).suspendResumeFadeTime = 1 / 2 := rfl
  rw [h2] at h1
  norm_num at h1

/-- C16, amended: for every reachable manager state that is not suspended, with `f` the value
`suspendFadeTime` (`suspendResumeFadeTime` when the manager has its update thread, 0 when it
has none): `_suspendAudio` sets `suspended`, records in `suspendedPlayers` exactly the players
that were playing and not fading out, and has asked each of them to pause with fade time `f`;
the following `_resumeAudio` clears `suspended`, asks each recorded player to play with fade
time `f`, leaves the objects of all other players as they were, and leaves `suspendedPlayers`
empty. `_suspendAudio` on a suspended manager and `_resumeAudio` on a manager that is not
suspended return the state unchanged. -/
theorem C16_suspend_resume_amended {PS W : Type} (B : Backend PS W) (st : AudioManager PS W)
    (hr : AudioManager.Reachable B st) (hs : st.suspended = false) :
    (AudioManager._suspendAudio B st).suspended = true ∧
    (AudioManager._suspendAudio B st).suspendedPlayers
      = st.players.filter
          (fun p => !B.isFadingOut (st.playerObj p) && B.isPlaying (st.playerObj p)) ∧
    (∀ p ∈ (AudioManager._suspendAudio B st).suspendedPlayers, ∃ w,
      (AudioManager._suspendAudio B st).playerObj p
        = (B.pause (AudioManager.suspendFadeTime st) (st.playerObj p) w).1) ∧
    (AudioManager._resumeAudio B (AudioManager._suspendAudio B st)).suspended = false ∧
    (AudioManager._resumeAudio B (AudioManager._suspendAudio B st)).suspendedPlayers = [] ∧
    (∀ p ∈ (AudioManager._suspendAudio B st).suspendedPlayers, ∃ w,
      (AudioManager._resumeAudio B (AudioManager._suspendAudio B st)).playerObj p
        = (B.play (AudioManager.suspendFadeTime st) false
            ((AudioManager._suspendAudio B st).playerObj p) w).1) ∧
    (∀ p, p ∉ (AudioManager._suspendAudio B st).suspendedPlayers →
      (AudioManager._resumeAudio B (AudioManager._suspendAudio B st)).playerObj p
        = (AudioManager._suspendAudio B st).playerObj p) ∧
    (AudioManager.suspendFadeTime st
      = if st.thread = true then st.suspendResumeFadeTime else 0) ∧
    (∀ s : AudioManager PS W, s.suspended = true → AudioManager._suspendAudio B s = s) ∧
    (∀ s : AudioManager PS W, s.suspended = false → AudioManager._resumeAudio B s = s) := by
  obtain ⟨a1, a2, a3, _, a5, _, a7⟩ :=
    AudioManager.suspendAudio_spec B st hr.consistent hs (hr.noneSuspended hs)
  have hnd : (AudioManager._suspendAudio B st).suspendedPlayers.Nodup := by
    rw [a5]
    exact hr.consistent.players_nodup.filter _
  obtain ⟨b1, b2, _, b4, b5⟩ :=
    AudioManager.resumeAudio_spec B (AudioManager._suspendAudio B st) a1 hnd
  have hf : AudioManager.suspendFadeTime (AudioManager._suspendAudio B st)
      = AudioManager.suspendFadeTime st := by
    unfold AudioManager.suspendFadeTime
    rw [a2, a3]
  rw [hf] at b5
  refine ⟨a1, a5, ?_, b1, b2, b5, b4, rfl, ?_, ?_⟩
  · intro p hp
    rw [a5] at hp
    obtain ⟨hpl, hcond⟩ := List.mem_filter.mp hp
    obtain ⟨w, hw⟩ := a7 p hpl
    refine ⟨w, ?_⟩
    rw [hw]
    unfold AudioManager.suspendAsked
    cases hfo : B.isFadingOut (st.playerObj p) with
    | true => simp [hfo] at hcond
    | false =>
      cases hip : B.isPlaying (st.playerObj p) with
      | true => simp
      | false => simp [hfo, hip] at hcond
  · intro s h
    unfold AudioManager._suspendAudio
    rw [h]
    rfl
  · intro s h
    unfold AudioManager._resumeAudio
    rw [h]
    rfl

/-- Witness of C16 (amended): on `logDemo true`, which has its update thread, the value
`suspendFadeTime` is `suspendResumeFadeTime`, player 4 is recorded, and the manager is
suspended and resumed. -/
theorem C16_suspend_resume_amended_witness :
    (logDemo true).suspended = false ∧
    (AudioManager._suspendAudio logBackend (logDemo true)).suspended = true ∧
    (AudioManager._suspendAudio logBackend (logDemo true)).suspendedPlayers
      = (logDemo true).players.filter
          (fun p => !logBackend.isFadingOut ((logDemo true).playerObj p)
            && logBackend.isPlaying ((logDemo true).playerObj p)) ∧
    (AudioManager._resumeAudio logBackend
      (AudioManager._suspendAudio logBackend (logDemo true))).suspendedPlayers = [] :=
  ⟨rfl,
    (C16_suspend_resume_amended logBackend (logDemo true) (AudioManager.reachable_logDemo true)
      rfl).1,
    (C16_suspend_resume_amended logBackend (logDemo true) (AudioManager.reachable_logDemo true)
      rfl).2.1,
    (C16_suspend_resume_amended logBackend (logDemo true) (AudioManager.reachable_logDemo true)
      rfl).2.2.2.2.1⟩

/-! ## Fade flags of the version 2 source -/

/-- C14 at the inputs where it fails: for a source with `fadeSpeed = 1`, `isFading()` is true
but `isFadingIn()` is false, so a fade with positive speed is reported as no fade-in and
`isFading()` holds without either direction; for a source with `fadeSpeed = -1`, `isFadingIn()`
and `isFadingOut()` are both true. On every source `isFadingIn()` is `isFadingOut()`. -/
theorem C14_isFadingIn_tests_negative_speed :
    Source.isFading { Source.create with fadeSpeed := 1 } = true ∧
    Source.isFadingIn { Source.create with fadeSpeed := 1 } = false ∧
    Source.isFadingOut { Source.create with fadeSpeed := 1 } = false ∧
    Source.isFadingIn { Source.create with fadeSpeed := -1 } = true ∧
    Source.isFadingOut { Source.create with fadeSpeed := -1 } = true ∧
    (∀ s : Source, Source.isFadingIn s = Source.isFadingOut s) :=
  ⟨by decide, by decide, by decide, by decide, by decide, fun _ => rfl⟩

/-! ## The disabled backend -/

/-- C20: on the disabled backend, for every state in which the category is registered and the
derived name is not, `createSound(filename, categoryName, prefix)` returns a sound with that
name, registered under it, the other names being registered as before, whatever the format of
the file is; when the format is `Unknown` the method of `AudioManager` returns null in the
same state. The memory-backed `createSound` does the same with the name as given. -/
theorem C20_noAudio_createSound_succeeds {PS W : Type} (B : Backend PS W)
    (st : AudioManager PS W) (categoryName : String) (c : Category)
    (hcat : st.categories.get? categoryName = some c) (filename pfx name : String)
    (pcm : PcmData) :
    (AudioManager._hasSound (pfx ++ B.baseNameWithoutExtension filename) st = false →
      (∃ s : Sound,
        (NoAudio_AudioManager._createSound B filename categoryName pfx st).value
          = Except.ok (some s) ∧
        s.name = pfx ++ B.baseNameWithoutExtension filename ∧
        (NoAudio_AudioManager._createSound B filename categoryName pfx st).state.sounds.get?
          s.name = some s ∧
        (∀ k, k ≠ s.name →
          (NoAudio_AudioManager._createSound B filename categoryName pfx st).state.sounds.get? k
            = st.sounds.get? k)) ∧
      (B.fileFormat filename = Format.Unknown →
        (AudioManager._createSound B filename categoryName pfx st).value = Except.ok none)) ∧
    (AudioManager._hasSound name st = false →
      (∃ s : Sound,
        (NoAudio_AudioManager._createSoundMemory B name categoryName pcm st).value
          = Except.ok (some s) ∧
        s.name = name ∧
        (NoAudio_AudioManager._createSoundMemory B name categoryName pcm st).state.sounds.get?
          s.name = some s ∧
        (∀ k, k ≠ s.name →
          (NoAudio_AudioManager._createSoundMemory B name categoryName pcm st).state.sounds.get?
            k = st.sounds.get? k)) ∧
      (B.memoryFormat = Format.Unknown →
        (AudioManager._createSoundMemory B name categoryName pcm st).value = Except.ok none)) := by
  have hgc : AudioManager._getCategory categoryName st = Except.ok c := by
    unfold AudioManager._getCategory
    rw [hcat]
  constructor
  · intro hk
    have hk' : ¬ st.sounds.hasKey (pfx ++ B.baseNameWithoutExtension filename) = true := by
      unfold AudioManager._hasSound at hk
      rw [hk]
      exact Bool.false_ne_true
    have heq : NoAudio_AudioManager._createSound B filename categoryName pfx st =
        ⟨{ AudioManager._createBuffer B filename c { st with nextPtr := st.nextPtr + 1 } with
            sounds := (AudioManager._createBuffer B filename c
              { st with nextPtr := st.nextPtr + 1 }).sounds.set
              (pfx ++ B.baseNameWithoutExtension filename)
              ⟨st.nextPtr, pfx ++ B.baseNameWithoutExtension filename, filename, c.ptr,
                st.nextPtr + 1, B.fileFormat filename⟩ },
          Except.ok (some ⟨st.nextPtr, pfx ++ B.baseNameWithoutExtension filename, filename,
            c.ptr, st.nextPtr + 1, B.fileFormat filename⟩)⟩ := by
      unfold NoAudio_AudioManager._createSound
      rw [hgc]
      exact if_neg hk'
    refine ⟨⟨_, by rw [heq], rfl, ?_, ?_⟩, ?_⟩
    · rw [heq]
      exact HMap.get?_set_self _ _ _
    · intro k hne
      rw [heq]
      exact HMap.get?_set_ne _ _ _ _ hne
    · intro hfmt
      unfold AudioManager._createSound
      rw [hgc]
      exact congrArg Result.value (if_pos (Or.inl hfmt))
  · intro hk
    have hk' : ¬ st.sounds.hasKey name = true := by
      unfold AudioManager._hasSound at hk
      rw [hk]
      exact Bool.false_ne_true
    have heq : NoAudio_AudioManager._createSoundMemory B name categoryName pcm st =
        ⟨{ AudioManager._createBufferMemory B c pcm { st with nextPtr := st.nextPtr + 1 } with
            sounds := (AudioManager._createBufferMemory B c pcm
              { st with nextPtr := st.nextPtr + 1 }).sounds.set name
              ⟨st.nextPtr, name, "", c.ptr, st.nextPtr + 1, B.memoryFormat⟩ },
          Except.ok (some ⟨st.nextPtr, name, "", c.ptr, st.nextPtr + 1, B.memoryFormat⟩)⟩ := by
      unfold NoAudio_AudioManager._createSoundMemory
      rw [hgc]
      exact if_neg hk'
    refine ⟨⟨_, by rw [heq], rfl, ?_, ?_⟩, ?_⟩
    · rw [heq]
      exact HMap.get?_set_self _ _ _
    · intro k hne
      rw [heq]
      exact HMap.get?_set_ne _ _ _ _ hne
    · intro hfmt
      unfold AudioManager._createSoundMemory
      rw [hgc]
      exact congrArg Result.value (if_pos (Or.inl hfmt))

/-- Witness of C20: in `demo1` the category `sfx` is registered; the file with the empty name
has format `Unknown`, the disabled backend registers it all the same. -/
theorem C20_noAudio_createSound_succeeds_witness :
    demo1.categories.get? "sfx" = some categorySfx ∧
      AudioManager._hasSound ("" ++ flagBackend.baseNameWithoutExtension "") demo1 = false ∧
      flagBackend.fileFormat "" = Format.Unknown ∧
      (AudioManager._createSound flagBackend "" "sfx" "" demo1).value = Except.ok none :=
  ⟨by decide, by decide, by decide,
    ((C20_noAudio_createSound_succeeds flagBackend demo1 "sfx" categorySfx (by decide)
      "" "" "x" default).1 (by decide)).2 (by decide)⟩

/-! ## Creating, destroying and creating a sound again -/

namespace HMap

variable {V : Type}

theorem filter_insertSorted (k : String) (v : V) :
    ∀ l : List (String × V), (∀ e ∈ l, e.1 ≠ k) →
      (insertSorted k v l).filter (fun e => !(e.1 == k)) = l
  | [], _ => by simp [insertSorted]
  | a :: t, h => by
    have ha : a.1 ≠ k := h a (List.mem_cons_self _ _)
    have ht := filter_insertSorted k v t (fun e he => h e (List.mem_cons_of_mem _ he))
    have hall : (a :: t).filter (fun e => !(e.1 == k)) = a :: t :=
      List.filter_eq_self.mpr (fun e he => by simp [h e he])
    unfold insertSorted
    split
    · rw [List.filter_cons_of_neg (by simp), hall]
    · rw [List.filter_cons_of_pos (by simp [ha]), ht]

theorem not_hasKey_iff (m : HMap V) (k : String) :
    m.hasKey k = false ↔ ∀ e ∈ m.entries, e.1 ≠ k := by
  unfold hasKey
  rw [List.any_eq_false]
  constructor
  · intro h e he hk
    exact h e he (by simp [hk])
  · intro h e he hk
    exact h e he (by simpa using hk)

/-- Removing the key that `set` has just added gives the map back. -/
theorem removeKey_set_new (m : HMap V) (k : String) (v : V) (hk : m.hasKey k = false) :
    (m.set k v).removeKey k = m := by
  cases m with
  | mk l =>
    have hne := (not_hasKey_iff ⟨l⟩ k).mp hk
    have hset : (HMap.mk l).set k v = ⟨insertSorted k v l⟩ := by
      unfold set
      rw [hk]
      rfl
    rw [hset]
    show HMap.mk ((insertSorted k v l).filter (fun e => !(e.1 == k))) = _
    rw [filter_insertSorted k v l hne]

theorem map_fst_insertSorted (k : String) (v v' : V) :
    ∀ l : List (String × V),
      (insertSorted k v l).map Prod.fst = (insertSorted k v' l).map Prod.fst
  | [] => rfl
  | a :: t => by
    unfold insertSorted
    split
    · rfl
    · rw [List.map_cons, List.map_cons, map_fst_insertSorted k v v' t]

/-- The keys after `set` of a new key do not depend on the value. -/
theorem keys_set_new (m : HMap V) (k : String) (v v' : V) (hk : m.hasKey k = false) :
    (m.set k v).keys = (m.set k v').keys := by
  have hset : ∀ x : V, m.set k x = ⟨insertSorted k x m.entries⟩ := by
    intro x
    unfold set
    rw [hk]
    rfl
  rw [hset v, hset v']
  exact map_fst_insertSorted k v v' m.entries

end HMap

/-- C21: in every state the manager reaches in which category `categoryName` is registered,
when `createSound(filename, categoryName, prefix)` returns a sound `s`: no player is on `s`,
`destroySound(s)` does not throw and leaves the registry of sounds and the list of buffers as
they were before the create; `createSound(filename, categoryName, prefix)` then returns a sound
with the name, the filename and the category of `s`, and the registry has the same names as
after the first create. -/
theorem C21_create_destroy_create {PS W : Type} (B : Backend PS W) (st : AudioManager PS W)
    (filename categoryName pfx : String) (c : Category) (s : Sound)
    (hr : AudioManager.Reachable B st) (hcat : st.categories.get? categoryName = some c)
    (hv : (AudioManager._createSound B filename categoryName pfx st).value
      = Except.ok (some s)) :
    (∀ q ∈ (AudioManager._createSound B filename categoryName pfx st).state.players,
      (AudioManager._createSound B filename categoryName pfx st).state.playerSound q ≠ s) ∧
    (AudioManager._destroySound B s
      (AudioManager._createSound B filename categoryName pfx st).state).raised = false ∧
    (AudioManager._destroySound B s
      (AudioManager._createSound B filename categoryName pfx st).state).state.sounds
        = st.sounds ∧
    (AudioManager._destroySound B s
      (AudioManager._createSound B filename categoryName pfx st).state).state.buffers
        = st.buffers ∧
    ∃ s2 : Sound,
      (AudioManager._createSound B filename categoryName pfx
        (AudioManager._destroySound B s
          (AudioManager._createSound B filename categoryName pfx st).state).state).value
        = Except.ok (some s2) ∧
      s2.name = s.name ∧ s2.filename = s.filename ∧ s2.category = s.category ∧
      s.category = c.ptr ∧
      (AudioManager._createSound B filename categoryName pfx
        (AudioManager._destroySound B s
          (AudioManager._createSound B filename categoryName pfx st).state).state).state.sounds.keys
        = (AudioManager._createSound B filename categoryName pfx st).state.sounds.keys := by
  have hc := hr.consistent
  have hc1 := AudioManager.consistent_createSound B filename categoryName pfx st hc
  have hgc : AudioManager._getCategory categoryName st = Except.ok c := by
    unfold AudioManager._getCategory
    rw [hcat]
  have hcond : ¬ (B.fileFormat filename = Format.Unknown ∨
      st.sounds.hasKey (pfx ++ B.baseNameWithoutExtension filename) = true) := by
    intro h
    have hnone : (AudioManager._createSound B filename categoryName pfx st).value
        = Except.ok none := by
      unfold AudioManager._createSound
      rw [hgc]
      exact congrArg Result.value (if_pos h)
    rw [hnone] at hv
    cases hv
  have hk : st.sounds.hasKey (pfx ++ B.baseNameWithoutExtension filename) = false := by
    cases h : st.sounds.hasKey (pfx ++ B.baseNameWithoutExtension filename) with
    | true => exact absurd (Or.inr h) hcond
    | false => rfl
  have heq : AudioManager._createSound B filename categoryName pfx st =
      ⟨{ AudioManager._createBuffer B filename c { st with nextPtr := st.nextPtr + 1 } with
          sounds := st.sounds.set (pfx ++ B.baseNameWithoutExtension filename)
            ⟨st.nextPtr, pfx ++ B.baseNameWithoutExtension filename, filename, c.ptr,
              st.nextPtr + 1, B.fileFormat filename⟩ },
        Except.ok (some ⟨st.nextPtr, pfx ++ B.baseNameWithoutExtension filename, filename,
          c.ptr, st.nextPtr + 1, B.fileFormat filename⟩)⟩ := by
    unfold AudioManager._createSound
    rw [hgc]
    exact if_neg hcond
  have hs : s = ⟨st.nextPtr, pfx ++ B.baseNameWithoutExtension filename, filename, c.ptr,
      st.nextPtr + 1, B.fileFormat filename⟩ := by
    rw [heq] at hv
    injection hv with h
    injection h with h
    exact h.symm
  rw [heq] at hc1 ⊢
  subst hs
  have hreg : (st.sounds.set (pfx ++ B.baseNameWithoutExtension filename)
        ⟨st.nextPtr, pfx ++ B.baseNameWithoutExtension filename, filename, c.ptr,
              st.nextPtr + 1, B.fileFormat filename⟩).get?
        (pfx ++ B.baseNameWithoutExtension filename)
      = some ⟨st.nextPtr, pfx ++ B.baseNameWithoutExtension filename, filename, c.ptr,
              st.nextPtr + 1, B.fileFormat filename⟩ := HMap.get?_set_self _ _ _
  have hfresh : ∀ q ∈ st.players, (st.playerSound q).ptr ≠ st.nextPtr := by
    intro q hq hptr
    have := hc.sound_lt _ (hc.player_sound q hq)
    rw [hptr] at this
    exact lt_irrefl _ this
  have hrem := AudioManager.removed_destroySound_loop B
    ⟨st.nextPtr, pfx ++ B.baseNameWithoutExtension filename, filename, c.ptr,
      st.nextPtr + 1, B.fileFormat filename⟩ _ hc1
  refine ⟨?_, ?_⟩
  · intro q hq hps
    exact hfresh q hq (congrArg Sound.ptr hps)
  rcases AudioManager.destroySound_cases B
    ⟨st.nextPtr, pfx ++ B.baseNameWithoutExtension filename, filename, c.ptr,
      st.nextPtr + 1, B.fileFormat filename⟩
    { AudioManager._createBuffer B filename c { st with nextPtr := st.nextPtr + 1 } with
      sounds := st.sounds.set (pfx ++ B.baseNameWithoutExtension filename)
        ⟨st.nextPtr, pfx ++ B.baseNameWithoutExtension filename, filename, c.ptr,
          st.nextPtr + 1, B.fileFormat filename⟩ } with ⟨hany, _⟩ | ⟨_, hd⟩
  · exfalso
    obtain ⟨q, hq, hps⟩ := (AudioManager.destroySound_any_iff B _ _ hc1 hreg).mp hany
    have hq' : q ∈ st.players := (hc1.players_nodup.mem_diff_iff.mp hq).1
    exact hfresh q hq' (congrArg Sound.ptr hps)
  · have hsounds : (AudioManager._destroySound B
          ⟨st.nextPtr, pfx ++ B.baseNameWithoutExtension filename, filename, c.ptr,
            st.nextPtr + 1, B.fileFormat filename⟩
          { AudioManager._createBuffer B filename c { st with nextPtr := st.nextPtr + 1 } with
            sounds := st.sounds.set (pfx ++ B.baseNameWithoutExtension filename)
              ⟨st.nextPtr, pfx ++ B.baseNameWithoutExtension filename, filename, c.ptr,
                st.nextPtr + 1, B.fileFormat filename⟩ }).state.sounds = st.sounds := by
      rw [hd]
      show HMap.removeKey _ _ = _
      rw [hrem.sounds]
      exact HMap.removeKey_set_new _ _ _ hk
    have hcats : (AudioManager._destroySound B
          ⟨st.nextPtr, pfx ++ B.baseNameWithoutExtension filename, filename, c.ptr,
            st.nextPtr + 1, B.fileFormat filename⟩
          { AudioManager._createBuffer B filename c { st with nextPtr := st.nextPtr + 1 } with
            sounds := st.sounds.set (pfx ++ B.baseNameWithoutExtension filename)
              ⟨st.nextPtr, pfx ++ B.baseNameWithoutExtension filename, filename, c.ptr,
                st.nextPtr + 1, B.fileFormat filename⟩ }).state.categories
        = st.categories := by
      rw [hd]
      exact hrem.categories
    refine ⟨by rw [hd]; rfl, hsounds, ?_, ?_⟩
    · rw [hd]
      show List.erase _ (st.nextPtr + 1) = _
      rw [hrem.buffers]
      show (st.buffers ++ [st.nextPtr + 1]).erase (st.nextPtr + 1) = st.buffers
      apply AudioManager.erase_append_fresh
      intro hmem
      have := hc.buffers_lt _ hmem
      omega
    · have hgc2 : AudioManager._getCategory categoryName (AudioManager._destroySound B
          ⟨st.nextPtr, pfx ++ B.baseNameWithoutExtension filename, filename, c.ptr,
            st.nextPtr + 1, B.fileFormat filename⟩
          { AudioManager._createBuffer B filename c { st with nextPtr := st.nextPtr + 1 } with
            sounds := st.sounds.set (pfx ++ B.baseNameWithoutExtension filename)
              ⟨st.nextPtr, pfx ++ B.baseNameWithoutExtension filename, filename, c.ptr,
                st.nextPtr + 1, B.fileFormat filename⟩ }).state = Except.ok c := by
        unfold AudioManager._getCategory
        rw [hcats, hcat]
      generalize (AudioManager._destroySound B
          ⟨st.nextPtr, pfx ++ B.baseNameWithoutExtension filename, filename, c.ptr,
            st.nextPtr + 1, B.fileFormat filename⟩
          { AudioManager._createBuffer B filename c { st with nextPtr := st.nextPtr + 1 } with
            sounds := st.sounds.set (pfx ++ B.baseNameWithoutExtension filename)
              ⟨st.nextPtr, pfx ++ B.baseNameWithoutExtension filename, filename, c.ptr,
                st.nextPtr + 1, B.fileFormat filename⟩ }).state = st3 at hsounds hgc2 ⊢
      have hcond3 : ¬ (B.fileFormat filename = Format.Unknown ∨
          st3.sounds.hasKey (pfx ++ B.baseNameWithoutExtension filename) = true) := by
        rw [hsounds]
        exact hcond
      have heq3 : AudioManager._createSound B filename categoryName pfx st3 =
          ⟨{ AudioManager._createBuffer B filename c { st3 with nextPtr := st3.nextPtr + 1 } with
              sounds := st3.sounds.set (pfx ++ B.baseNameWithoutExtension filename)
                ⟨st3.nextPtr, pfx ++ B.baseNameWithoutExtension filename, filename, c.ptr,
                  st3.nextPtr + 1, B.fileFormat filename⟩ },
            Except.ok (some ⟨st3.nextPtr, pfx ++ B.baseNameWithoutExtension filename, filename,
              c.ptr, st3.nextPtr + 1, B.fileFormat filename⟩)⟩ := by
        unfold AudioManager._createSound
        rw [hgc2]
        exact if_neg hcond3
      refine ⟨⟨st3.nextPtr, pfx ++ B.baseNameWithoutExtension filename, filename, c.ptr,
        st3.nextPtr + 1, B.fileFormat filename⟩, by rw [heq3], rfl, rfl, rfl, rfl, ?_⟩
      rw [heq3]
      show (st3.sounds.set _ _).keys = (st.sounds.set _ _).keys
      rw [hsounds]
      exact HMap.keys_set_new _ _ _ _ hk

/-- Witness of C21: in `demo1`, with category `sfx` and no sound, `createSound("m", "sfx")`
returns the sound `m`; destroying it gives the empty registry back. -/
theorem C21_create_destroy_create_witness :
    AudioManager.Reachable flagBackend demo1 ∧ demo1.categories.get? "sfx" = some categorySfx ∧
    (AudioManager._createSound flagBackend "m" "sfx" "" demo1).value
      = Except.ok (some soundM) ∧
    (AudioManager._destroySound flagBackend soundM
      (AudioManager._createSound flagBackend "m" "sfx" "" demo1).state).state.sounds
        = demo1.sounds :=
  ⟨AudioManager.reachable_demo1, by decide, rfl,
    (C21_create_destroy_create flagBackend demo1 "m" "sfx" "" categorySfx soundM
      AudioManager.reachable_demo1 (by decide) rfl).2.2.1⟩

/-! ## One buffer for each registered sound -/

namespace AudioManager

variable {PS W : Type}

theorem BufferMatch.of_same {st st' : AudioManager PS W} (h : BufferMatch st)
    (hs : st'.sounds = st.sounds) (hb : st'.buffers = st.buffers) : BufferMatch st' where
  buffers_nodup := by rw [hb]; exact h.buffers_nodup
  mem_iff := by rw [hb, hs]; exact h.mem_iff
  buffer_inj := by rw [hs]; exact h.buffer_inj

/-- Keeping the entries that pass `q`, and the buffers of no entry that fails it, keeps the
buffers matched to the sounds. -/
theorem BufferMatch.of_filter {st st' : AudioManager PS W} (h : BufferMatch st)
    (q : String × Sound → Bool) (hs : st'.sounds.entries = st.sounds.entries.filter q)
    (hn : st'.buffers.Nodup)
    (hb : ∀ b, b ∈ st'.buffers ↔
      b ∈ st.buffers ∧ ∀ e ∈ st.sounds.entries, e.2.buffer = b → q e = true) :
    BufferMatch st' where
  buffers_nodup := hn
  mem_iff := by
    intro b
    rw [hb, hs]
    constructor
    · rintro ⟨hmem, hq⟩
      obtain ⟨e, he, heb⟩ := (h.mem_iff b).mp hmem
      exact ⟨e, List.mem_filter.mpr ⟨he, hq e he heb⟩, heb⟩
    · rintro ⟨e, he, heb⟩
      obtain ⟨he0, hqe⟩ := List.mem_filter.mp he
      refine ⟨(h.mem_iff b).mpr ⟨e, he0, heb⟩, ?_⟩
      intro e' he' heb'
      rw [← h.buffer_inj e he0 e' he' (heb.trans heb'.symm)]
      exact hqe
  buffer_inj := by
    rw [hs]
    intro e he e' he'
    exact h.buffer_inj e (List.mem_filter.mp he).1 e' (List.mem_filter.mp he').1

/-- Registering a new sound together with its new buffer keeps the buffers matched. -/
theorem BufferMatch.register {st st' : AudioManager PS W} (h : BufferMatch st) (sound : Sound)
    (hs : st'.sounds = st.sounds.set sound.name sound)
    (hk : st.sounds.hasKey sound.name = false)
    (hb : st'.buffers = st.buffers ++ [sound.buffer]) (hfresh : sound.buffer ∉ st.buffers) :
    BufferMatch st' where
  buffers_nodup := by
    rw [hb]
    exact List.Nodup.append h.buffers_nodup (List.nodup_singleton _)
      (fun a ha ha1 => hfresh ((List.mem_singleton.mp ha1) ▸ ha))
  mem_iff := by
    intro b
    rw [hb, hs, List.mem_append, List.mem_singleton]
    constructor
    · rintro (hmem | rfl)
      · obtain ⟨e, he, heb⟩ := (h.mem_iff b).mp hmem
        exact ⟨e, (HMap.mem_entries_set_new _ _ _ hk e).mpr (Or.inr he), heb⟩
      · exact ⟨(sound.name, sound), (HMap.mem_entries_set_new _ _ _ hk _).mpr (Or.inl rfl), rfl⟩
    · rintro ⟨e, he, heb⟩
      rcases (HMap.mem_entries_set_new _ _ _ hk e).mp he with rfl | he0
      · exact Or.inr heb.symm
      · exact Or.inl ((h.mem_iff b).mpr ⟨e, he0, heb⟩)
  buffer_inj := by
    rw [hs]
    intro e he e' he' heq
    rcases (HMap.mem_entries_set_new _ _ _ hk e).mp he with rfl | he0
    · rcases (HMap.mem_entries_set_new _ _ _ hk e').mp he' with rfl | he0'
      · rfl
      · exact absurd ((h.mem_iff _).mpr ⟨e', he0', heq.symm⟩) hfresh
    · rcases (HMap.mem_entries_set_new _ _ _ hk e').mp he' with rfl | he0'
      · exact absurd ((h.mem_iff _).mpr ⟨e, he0, heq⟩) hfresh
      · exact h.buffer_inj e he0 e' he0' heq

theorem bufferMatch_create (backendId : Nat) (threaded : Bool) (updateTime : ℚ)
    (deviceName : String) (extensions : List String) (objs : Nat → PS) (w : W) :
    BufferMatch (create backendId threaded updateTime deviceName extensions objs w) where
  buffers_nodup := List.nodup_nil
  mem_iff := by
    intro b
    constructor
    · intro hb
      exact absurd hb (List.not_mem_nil b)
    · rintro ⟨e, he, _⟩
      exact absurd he (List.not_mem_nil e)
  buffer_inj := fun e he => absurd he (List.not_mem_nil e)

theorem bufferMatch_createCategory (B : Backend PS W) (name : String) (bufferMode : BufferMode)
    (sourceMode : SourceMode) (st : AudioManager PS W) (h : BufferMatch st) :
    BufferMatch (_createCategory B name bufferMode sourceMode st).state := by
  unfold _createCategory
  split
  · exact h
  · exact h.of_same rfl rfl

theorem bufferMatch_createSound (B : Backend PS W) (filename categoryName pfx : String)
    (st : AudioManager PS W) (hc : Consistent st) (h : BufferMatch st) :
    BufferMatch (_createSound B filename categoryName pfx st).state := by
  have hfresh : st.nextPtr + 1 ∉ st.buffers := by
    intro hmem
    have := hc.buffers_lt _ hmem
    omega
  unfold _createSound
  cases hcat : _getCategory categoryName st with
  | error e => exact h
  | ok category =>
    simp only
    split
    · refine h.of_same rfl ?_
      show (st.buffers ++ [st.nextPtr + 1]).erase (st.nextPtr + 1) = st.buffers
      exact erase_append_fresh _ _ hfresh
    · next hcond =>
      rw [not_or] at hcond
      exact h.register
        ⟨st.nextPtr, pfx ++ B.baseNameWithoutExtension filename, filename, category.ptr,
          st.nextPtr + 1, B.fileFormat filename⟩
        rfl (by simpa using hcond.2) rfl hfresh

theorem bufferMatch_createSoundMemory (B : Backend PS W) (name categoryName : String)
    (pcm : PcmData) (st : AudioManager PS W) (hc : Consistent st) (h : BufferMatch st) :
    BufferMatch (_createSoundMemory B name categoryName pcm st).state := by
  have hfresh : st.nextPtr + 1 ∉ st.buffers := by
    intro hmem
    have := hc.buffers_lt _ hmem
    omega
  unfold _createSoundMemory
  cases hcat : _getCategory categoryName st with
  | error e => exact h
  | ok category =>
    simp only
    split
    · refine h.of_same rfl ?_
      show (st.buffers ++ [st.nextPtr + 1]).erase (st.nextPtr + 1) = st.buffers
      exact erase_append_fresh _ _ hfresh
    · next hcond =>
      rw [not_or] at hcond
      exact h.register
        ⟨st.nextPtr, name, "", category.ptr, st.nextPtr + 1, B.memoryFormat⟩
        rfl (by simpa using hcond.2) rfl hfresh

theorem bufferMatch_destroySound (B : Backend PS W) (sound : Sound) (st : AudioManager PS W)
    (hc : Consistent st) (hreg : st.sounds.get? sound.name = some sound)
    (h : BufferMatch st) : BufferMatch (_destroySound B sound st).state := by
  have hrem := removed_destroySound_loop B sound st hc
  have hmem : (sound.name, sound) ∈ st.sounds.entries :=
    (HMap.get?_eq_some_iff _ hc.keys_nodup _ _).mp hreg
  rcases destroySound_cases B sound st with ⟨_, heq⟩ | ⟨_, heq⟩
  · rw [heq]
    exact h.of_same hrem.sounds hrem.buffers
  · rw [heq]
    refine h.of_filter (fun e => !(e.1 == sound.name)) ?_ ?_ ?_
    · show (HMap.removeKey _ _).entries = _
      rw [hrem.sounds]
      rfl
    · show (List.erase _ sound.buffer).Nodup
      rw [hrem.buffers]
      exact h.buffers_nodup.erase _
    · intro b
      show b ∈ List.erase _ sound.buffer ↔ _
      rw [hrem.buffers, h.buffers_nodup.mem_erase_iff]
      constructor
      · rintro ⟨hne, hb⟩
        refine ⟨hb, ?_⟩
        intro e he heb
        have hk : e.1 ≠ sound.name := by
          intro hk
          have : e = (sound.name, sound) :=
            List.inj_on_of_nodup_map hc.keys_nodup he hmem hk
          rw [this] at heb
          exact hne heb.symm
        simp [hk]
      · rintro ⟨hb, hq⟩
        refine ⟨?_, hb⟩
        intro hbe
        have := hq (sound.name, sound) hmem hbe.symm
        simp at this

theorem bufferMatch_destroySoundsWithPrefix (B : Backend PS W) (pfx : String)
    (st : AudioManager PS W) (hc : Consistent st) (h : BufferMatch st) :
    BufferMatch (_destroySoundsWithPrefix B pfx st).state := by
  have hL := prefixLoop_foldl B hc
    ((st.sounds.entries.filter (fun e => startsWith e.1 pfx)).map Prod.snd) [] (st, [])
    (prefixLoop_nil st)
  rw [List.nil_append] at hL
  rw [destroySoundsWithPrefix_state]
  have hbuf : (((st.sounds.entries.filter (fun e => startsWith e.1 pfx)).map Prod.snd).foldl
        (destroyWithPrefixStep B) (st, [])).1.buffers
      = st.buffers.diff
          ((((st.sounds.entries.filter (fun e => startsWith e.1 pfx)).map Prod.snd).filter
            (fun t => !hasManualPlayer st t)).map Sound.buffer) := by
    rw [hL.buffers, List.diff_eq_foldl, List.foldl_map]
  have hD : ∀ t : Sound,
      t ∈ (st.sounds.entries.filter (fun e => startsWith e.1 pfx)).map Prod.snd →
        ∃ e ∈ st.sounds.entries, e.2 = t := by
    intro t ht
    obtain ⟨e, he, het⟩ := List.mem_map.mp ht
    exact ⟨e, (List.mem_filter.mp he).1, het⟩
  refine h.of_filter _ hL.entries ?_ ?_
  · rw [hbuf]
    exact h.buffers_nodup.diff
  · intro b
    rw [hbuf, h.buffers_nodup.mem_diff_iff]
    constructor
    · rintro ⟨hb, hnot⟩
      refine ⟨hb, ?_⟩
      intro e he heb
      by_contra hq
      apply hnot
      have hq' : ((st.sounds.entries.filter (fun e => startsWith e.1 pfx)).map Prod.snd).any
          (fun t => e.2.ptr == t.ptr) = true ∧ hasManualPlayer st e.2 = false := by
        revert hq
        generalize ((st.sounds.entries.filter (fun e => startsWith e.1 pfx)).map Prod.snd).any
          (fun t => e.2.ptr == t.ptr) = a
        generalize hasManualPlayer st e.2 = m
        intro hq
        cases a <;> cases m <;> simp at hq ⊢
      obtain ⟨t, ht, hpt⟩ := List.any_eq_true.mp hq'.1
      obtain ⟨e', he', rfl⟩ := hD t ht
      have hee : e = e' := hc.ptr_inj e he e' he' (by simpa using hpt)
      rw [← hee] at ht
      exact List.mem_map.mpr ⟨e.2, List.mem_filter.mpr ⟨ht, by simp [hq'.2]⟩, heb⟩
    · rintro ⟨hb, hq⟩
      refine ⟨hb, ?_⟩
      intro hmemX
      obtain ⟨t, ht, htb⟩ := List.mem_map.mp hmemX
      obtain ⟨htD, hman⟩ := List.mem_filter.mp ht
      obtain ⟨e, he, rfl⟩ := hD t htD
      have := hq e he htb
      have hany : ((st.sounds.entries.filter (fun e => startsWith e.1 pfx)).map Prod.snd).any
          (fun t => e.2.ptr == t.ptr) = true :=
        List.any_eq_true.mpr ⟨e.2, htD, by simp⟩
      rw [hany] at this
      simp at hman
      simp [hman] at this

theorem update_registry (B : Backend PS W) (dt : ℚ) (st : AudioManager PS W)
    (hn : st.managedPlayers.Nodup) :
    (_update B dt st).sounds = st.sounds ∧ (_update B dt st).buffers = st.buffers := by
  cases hs : st.suspended with
  | true =>
    rw [update_suspended B dt st hs]
    split
    · have hS := sameCore_foldl
        (fun s p => onPlayer (B.update dt) p (onPlayer B.systemUpdateGain p s))
        (fun s p => (sameCore_onPlayer _ p s).comp (sameCore_onPlayer _ p _)) st.players st
      exact ⟨hS.sounds, hS.buffers⟩
    · exact ⟨rfl, rfl⟩
  | false =>
    have hr := removed_update B dt st hs hn
    have hS := sameCore_updateBeforeReclaim B dt st
    exact ⟨hr.sounds.trans hS.sounds, hr.buffers.trans hS.buffers⟩

theorem deleteSounds_buffers (B : Backend PS W) :
    ∀ (l : List Sound) (st : AudioManager PS W),
      (l.foldl (fun s sound => deleteSound B sound s) st).buffers
        = st.buffers.diff (l.map Sound.buffer)
  | [], _ => rfl
  | x :: t, st => by
    rw [List.foldl_cons, deleteSounds_buffers B t (deleteSound B x st), List.map_cons,
      List.diff_eq_foldl, List.diff_eq_foldl, List.foldl_cons]
    rfl

theorem bufferMatch_clear (B : Backend PS W) (st : AudioManager PS W) (hc : Consistent st)
    (h : BufferMatch st) : BufferMatch (clear B st) := by
  have h1 := update_registry B 0 { st with threadRunning := false, thread := false }
    hc.managed_nodup
  have h2 := clearPlayers_fields B
    (_update B 0 { st with threadRunning := false, thread := false })
  have h3 := deleteSounds_buffers B
    (clearPlayers B (_update B 0 { st with threadRunning := false, thread := false })).sounds.values
    (clearPlayers B (_update B 0 { st with threadRunning := false, thread := false }))
  have hb : (clear B st).buffers = [] := by
    show (clearSounds B _).buffers = []
    unfold clearSounds
    rw [h3, h2.2.2.1, h2.2.2.2.2, h1.1, h1.2]
    apply List.eq_nil_iff_forall_not_mem.mpr
    intro b hb
    obtain ⟨hb0, hnot⟩ := h.buffers_nodup.mem_diff_iff.mp hb
    obtain ⟨e, he, heb⟩ := (h.mem_iff b).mp hb0
    exact hnot (List.mem_map.mpr ⟨e.2, List.mem_map.mpr ⟨e, he, rfl⟩, heb⟩)
  exact
    { buffers_nodup := by rw [hb]; exact List.nodup_nil
      mem_iff := by
        intro b
        rw [hb]
        constructor
        · intro hb'
          exact absurd hb' (List.not_mem_nil b)
        · rintro ⟨e, he, _⟩
          exact absurd he (List.not_mem_nil e)
      buffer_inj := fun e he => absurd he (List.not_mem_nil e) }

theorem SoundReachable.reachable {B : Backend PS W} {st : AudioManager PS W}
    (h : SoundReachable B st) : Reachable B st := by
  induction h with
  | create backendId threaded updateTime deviceName extensions objs w =>
    exact Reachable.create _ _ _ _ _ _ _
  | createCategory name bufferMode sourceMode _ ih => exact Reachable.createCategory _ _ _ ih
  | createSound filename categoryName pfx _ ih => exact Reachable.createSound _ _ _ ih
  | createSoundMemory name categoryName pcm _ ih => exact Reachable.createSoundMemory _ _ _ ih
  | destroySound sound registered _ ih => exact Reachable.destroySound _ registered ih
  | destroySoundsWithPrefix pfx _ ih => exact Reachable.destroySoundsWithPrefix _ ih
  | clear _ ih => exact Reachable.clear ih

theorem SoundReachable.bufferMatch {B : Backend PS W} {st : AudioManager PS W}
    (h : SoundReachable B st) : BufferMatch st := by
  induction h with
  | create backendId threaded updateTime deviceName extensions objs w =>
    exact bufferMatch_create _ _ _ _ _ _ _
  | createCategory name bufferMode sourceMode _ ih =>
    exact bufferMatch_createCategory B _ _ _ _ ih
  | createSound filename categoryName pfx hst ih =>
    exact bufferMatch_createSound B _ _ _ _ hst.reachable.consistent ih
  | createSoundMemory name categoryName pcm hst ih =>
    exact bufferMatch_createSoundMemory B _ _ _ _ hst.reachable.consistent ih
  | destroySound sound registered hst ih =>
    exact bufferMatch_destroySound B _ _ hst.reachable.consistent registered ih
  | destroySoundsWithPrefix pfx hst ih =>
    exact bufferMatch_destroySoundsWithPrefix B _ _ hst.reachable.consistent ih
  | clear hst ih => exact bufferMatch_clear B _ hst.reachable.consistent ih

theorem soundReachable_demo2 : SoundReachable flagBackend demo2 :=
  SoundReachable.createSound "n" "sfx" ""
    (SoundReachable.createSound "m" "sfx" ""
      (SoundReachable.createCategory "sfx" BufferMode.Full SourceMode.Ram
        (SoundReachable.create 0 false 0 "" [".wav"] (fun _ => false) ())))

end AudioManager

/-- C22: in every state the manager reaches through `createCategory`, both overloads of
`createSound` (returning a sound, returning null or throwing), `destroySound`,
`destroySoundsWithPrefix` and `clear`, the list of buffers is a rearrangement of the buffers
of the registered sounds: no buffer occurs twice in it, no two registered sounds have the same
buffer, every buffer of the list is the buffer of a registered sound, and there are as many
buffers as registered sounds. -/
theorem C22_one_buffer_per_sound {PS W : Type} (B : Backend PS W) (st : AudioManager PS W)
    (h : AudioManager.SoundReachable B st) :
    st.buffers.Perm (st.sounds.values.map Sound.buffer) ∧
    st.buffers.Nodup ∧
    st.sounds.values.Nodup ∧
    (∀ s ∈ st.sounds.values, ∀ t ∈ st.sounds.values, s.buffer = t.buffer → s = t) ∧
    (∀ b ∈ st.buffers, ∃ s ∈ st.sounds.values, s.buffer = b) ∧
    (∀ s ∈ st.sounds.values, s.buffer ∈ st.buffers) ∧
    st.buffers.length = st.sounds.values.length := by
  have hm := h.bufferMatch
  have hc := h.reachable.consistent
  have hen : st.sounds.entries.Nodup := List.Nodup.of_map Prod.fst hc.keys_nodup
  have hinj : ∀ s ∈ st.sounds.values, ∀ t ∈ st.sounds.values, s.buffer = t.buffer → s = t := by
    intro s hs t ht hst
    obtain ⟨e, he, rfl⟩ := List.mem_map.mp hs
    obtain ⟨e', he', rfl⟩ := List.mem_map.mp ht
    rw [hm.buffer_inj e he e' he' hst]
  have hvn : st.sounds.values.Nodup :=
    List.Nodup.map_on
      (fun e he e' he' hee => hm.buffer_inj e he e' he' (congrArg Sound.buffer hee)) hen
  have hbn : (st.sounds.values.map Sound.buffer).Nodup := List.Nodup.map_on hinj hvn
  have hmem : ∀ b, b ∈ st.buffers ↔ b ∈ st.sounds.values.map Sound.buffer := by
    intro b
    rw [hm.mem_iff]
    constructor
    · rintro ⟨e, he, heb⟩
      exact List.mem_map.mpr ⟨e.2, List.mem_map.mpr ⟨e, he, rfl⟩, heb⟩
    · intro hb
      obtain ⟨s, hs, hsb⟩ := List.mem_map.mp hb
      obtain ⟨e, he, rfl⟩ := List.mem_map.mp hs
      exact ⟨e, he, hsb⟩
  have hperm : st.buffers.Perm (st.sounds.values.map Sound.buffer) :=
    (List.perm_ext_iff_of_nodup hm.buffers_nodup hbn).mpr hmem
  refine ⟨hperm, hm.buffers_nodup, hvn, hinj, ?_, ?_, ?_⟩
  · intro b hb
    obtain ⟨s, hs, hsb⟩ := List.mem_map.mp ((hmem b).mp hb)
    exact ⟨s, hs, hsb⟩
  · intro s hs
    exact (hmem _).mpr (List.mem_map.mpr ⟨s, hs, rfl⟩)
  · rw [hperm.length_eq, List.length_map]

/-- Witness of C22: `demo2`, reached by two `createSound`, has the buffers 3 and 5 of its
sounds `m` and `n`. -/
theorem C22_one_buffer_per_sound_witness :
    AudioManager.SoundReachable flagBackend demo2 ∧ demo2.buffers = [3, 5] ∧
    demo2.buffers.length = demo2.sounds.values.length :=
  ⟨AudioManager.soundReachable_demo2, by decide,
    (C22_one_buffer_per_sound flagBackend demo2 AudioManager.soundReachable_demo2).2.2.2.2.2.2⟩

/-! ## Creating the sounds of a directory -/

namespace HMap

variable {V : Type}

theorem hasKey_set (m : HMap V) (k k' : String) (v : V) :
    (m.set k v).hasKey k' = true ↔ k' = k ∨ m.hasKey k' = true := by
  rw [hasKey_eq_isSome, hasKey_eq_isSome]
  by_cases h : k' = k
  · rw [h, get?_set_self]
    simp
  · rw [get?_set_ne _ _ _ _ h]
    simp [h]

end HMap

namespace AudioManager

variable {PS W : Type}

/-- The two ways `_createSound` ends when its category is registered. -/
theorem createSound_outcome (B : Backend PS W) (f categoryName pfx : String)
    (st : AudioManager PS W) (c : Category) (hcat : st.categories.get? categoryName = some c) :
    ((B.fileFormat f = Format.Unknown ∨
        st.sounds.hasKey (pfx ++ B.baseNameWithoutExtension f) = true) ∧
      (_createSound B f categoryName pfx st).value = Except.ok none ∧
      (_createSound B f categoryName pfx st).state.sounds = st.sounds ∧
      (_createSound B f categoryName pfx st).state.categories = st.categories) ∨
    (¬ (B.fileFormat f = Format.Unknown ∨
        st.sounds.hasKey (pfx ++ B.baseNameWithoutExtension f) = true) ∧
      ∃ s : Sound, (_createSound B f categoryName pfx st).value = Except.ok (some s) ∧
        s.name = pfx ++ B.baseNameWithoutExtension f ∧
        (_createSound B f categoryName pfx st).state.sounds
          = st.sounds.set (pfx ++ B.baseNameWithoutExtension f) s ∧
        (_createSound B f categoryName pfx st).state.categories = st.categories) := by
  have hgc : _getCategory categoryName st = Except.ok c := by
    unfold _getCategory
    rw [hcat]
  by_cases hcond : B.fileFormat f = Format.Unknown ∨
      st.sounds.hasKey (pfx ++ B.baseNameWithoutExtension f) = true
  · have heq : _createSound B f categoryName pfx st =
        ⟨deleteSound B ⟨st.nextPtr, pfx ++ B.baseNameWithoutExtension f, f, c.ptr,
            st.nextPtr + 1, B.fileFormat f⟩
          (_createBuffer B f c { st with nextPtr := st.nextPtr + 1 }), Except.ok none⟩ := by
      unfold _createSound
      rw [hgc]
      exact if_pos hcond
    rw [heq]
    exact Or.inl ⟨hcond, rfl, rfl, rfl⟩
  · have heq : _createSound B f categoryName pfx st =
        ⟨{ _createBuffer B f c { st with nextPtr := st.nextPtr + 1 } with
            sounds := st.sounds.set (pfx ++ B.baseNameWithoutExtension f)
              ⟨st.nextPtr, pfx ++ B.baseNameWithoutExtension f, f, c.ptr,
                st.nextPtr + 1, B.fileFormat f⟩ },
          Except.ok (some ⟨st.nextPtr, pfx ++ B.baseNameWithoutExtension f, f,
            c.ptr, st.nextPtr + 1, B.fileFormat f⟩)⟩ := by
      unfold _createSound
      rw [hgc]
      exact if_neg hcond
    rw [heq]
    exact Or.inr ⟨hcond, _, rfl, rfl, rfl, rfl⟩

/-- The file loop of `_createSoundsFromPath` in a manager with the category registered: it
does not throw, runs `_createSound` on each file in order, and appends the names of the sounds
it registers: each once, in listing order, the names of files with a known format that were
not registered before. -/
theorem createSoundsLoop_spec (B : Backend PS W) (categoryName pfx : String) (c : Category) :
    ∀ (files : List String) (st : AudioManager PS W) (result : List String),
      st.categories.get? categoryName = some c →
      ∃ names : List String,
        (createSoundsLoop B categoryName pfx files st result).value
          = Except.ok (result ++ names) ∧
        (createSoundsLoop B categoryName pfx files st result).state
          = files.foldl (fun s f => (_createSound B f categoryName pfx s).state) st ∧
        (createSoundsLoop B categoryName pfx files st result).state.categories
          = st.categories ∧
        names.Nodup ∧
        names.Sublist (files.map (fun f => pfx ++ B.baseNameWithoutExtension f)) ∧
        (∀ k, k ∈ names ↔
          st.sounds.hasKey k = false ∧
            ∃ f ∈ files, B.fileFormat f ≠ Format.Unknown ∧
              pfx ++ B.baseNameWithoutExtension f = k) ∧
        (∀ k, (createSoundsLoop B categoryName pfx files st result).state.sounds.hasKey k = true ↔
          st.sounds.hasKey k = true ∨ k ∈ names) ∧
        (∀ k v, st.sounds.get? k = some v →
          (createSoundsLoop B categoryName pfx files st result).state.sounds.get? k = some v) := by
  intro files
  induction files with
  | nil =>
    intro st result _
    refine ⟨[], by rw [List.append_nil]; rfl, rfl, rfl, List.nodup_nil, List.Sublist.refl _,
      ?_, ?_, fun _ _ h => h⟩
    · intro k
      constructor
      · intro h
        exact absurd h (List.not_mem_nil k)
      · rintro ⟨_, f, hf, _⟩
        exact absurd hf (List.not_mem_nil f)
    · intro k
      constructor
      · exact fun h => Or.inl h
      · rintro (h | h)
        · exact h
        · exact absurd h (List.not_mem_nil k)
  | cons f rest ih =>
    intro st result hcat
    rcases createSound_outcome B f categoryName pfx st c hcat with
      ⟨hcond, hv, hs, hcs⟩ | ⟨hcond, s, hv, hname, hs, hcs⟩
    · obtain ⟨names, h1, h2, h3, h4, h5, h6, h7, h8⟩ :=
        ih (_createSound B f categoryName pfx st).state result (by rw [hcs]; exact hcat)
      have hstep : createSoundsLoop B categoryName pfx (f :: rest) st result
          = createSoundsLoop B categoryName pfx rest
              (_createSound B f categoryName pfx st).state result := by
        rw [createSoundsLoop]
        simp only [hv]
      rw [hstep]
      rw [hs] at h6 h7 h8
      refine ⟨names, h1, h2, h3.trans hcs, h4, ?_, ?_, h7, h8⟩
      · rw [List.map_cons]
        exact List.Sublist.cons _ h5
      · intro k
        rw [h6 k]
        constructor
        · rintro ⟨hk, g, hg, hfmt, hgk⟩
          exact ⟨hk, g, List.mem_cons_of_mem _ hg, hfmt, hgk⟩
        · rintro ⟨hk, g, hg, hfmt, hgk⟩
          refine ⟨hk, g, ?_, hfmt, hgk⟩
          rcases List.mem_cons.mp hg with rfl | hg'
          · exfalso
            rcases hcond with hu | hreg
            · exact hfmt hu
            · rw [hgk, hk] at hreg
              exact Bool.noConfusion hreg
          · exact hg'
    · obtain ⟨names, h1, h2, h3, h4, h5, h6, h7, h8⟩ :=
        ih (_createSound B f categoryName pfx st).state (result ++ [s.name])
          (by rw [hcs]; exact hcat)
      have hstep : createSoundsLoop B categoryName pfx (f :: rest) st result
          = createSoundsLoop B categoryName pfx rest
              (_createSound B f categoryName pfx st).state (result ++ [s.name]) := by
        rw [createSoundsLoop]
        simp only [hv]
      rw [hstep]
      rw [hs] at h6 h7 h8
      rw [not_or] at hcond
      have hnk : st.sounds.hasKey (pfx ++ B.baseNameWithoutExtension f) = false := by
        cases h : st.sounds.hasKey (pfx ++ B.baseNameWithoutExtension f) with
        | true => exact absurd h hcond.2
        | false => rfl
      have hnot : ∀ k, (st.sounds.set (pfx ++ B.baseNameWithoutExtension f) s).hasKey k = false ↔
          k ≠ pfx ++ B.baseNameWithoutExtension f ∧ st.sounds.hasKey k = false := by
        intro k
        have := HMap.hasKey_set st.sounds (pfx ++ B.baseNameWithoutExtension f) k s
        constructor
        · intro h
          rw [h] at this
          have h' := not_or.mp (fun hh => Bool.false_ne_true (this.mpr hh))
          refine ⟨h'.1, ?_⟩
          cases hk : st.sounds.hasKey k with
          | true => exact absurd hk h'.2
          | false => rfl
        · rintro ⟨hne, hk⟩
          cases hh : (st.sounds.set (pfx ++ B.baseNameWithoutExtension f) s).hasKey k with
          | false => rfl
          | true =>
            rcases this.mp hh with h | h
            · exact absurd h hne
            · rw [hk] at h
              exact Bool.noConfusion h
      refine ⟨(pfx ++ B.baseNameWithoutExtension f) :: names, ?_, h2, h3.trans hcs, ?_, ?_, ?_,
        ?_, ?_⟩
      · rw [h1, hname, List.append_assoc]
        rfl
      · refine List.nodup_cons.mpr ⟨?_, h4⟩
        intro hmem
        exact ((hnot _).mp ((h6 _).mp hmem).1).1 rfl
      · rw [List.map_cons]
        exact List.Sublist.cons₂ _ h5
      · intro k
        rw [List.mem_cons, h6 k, hnot k]
        constructor
        · rintro (rfl | ⟨⟨_, hk⟩, g, hg, hfmt, hgk⟩)
          · exact ⟨hnk, f, List.mem_cons_self _ _, hcond.1, rfl⟩
          · exact ⟨hk, g, List.mem_cons_of_mem _ hg, hfmt, hgk⟩
        · rintro ⟨hk, g, hg, hfmt, hgk⟩
          by_cases hkn : k = pfx ++ B.baseNameWithoutExtension f
          · exact Or.inl hkn
          · refine Or.inr ⟨⟨hkn, hk⟩, g, ?_, hfmt, hgk⟩
            rcases List.mem_cons.mp hg with rfl | hg'
            · exact absurd hgk.symm hkn
            · exact hg'
      · intro k
        rw [h7 k, HMap.hasKey_set, List.mem_cons]
        tauto
      · intro k v hkv
        apply h8
        have hne : k ≠ pfx ++ B.baseNameWithoutExtension f := by
          intro hk
          rw [hk] at hkv
          rw [HMap.hasKey_eq_isSome, hkv] at hnk
          exact Bool.noConfusion hnk
        rw [HMap.get?_set_ne _ _ _ _ hne]
        exact hkv

end AudioManager

namespace AudioManager

variable {PS W : Type}

/-- After `_createCategory(n, b, s)` the category `n` is registered: the one that was there,
with the manager unchanged, or a new one with the modes `b` and `s`; the sounds are as
before. -/
theorem createCategory_registers (B : Backend PS W) (n : String) (b : BufferMode)
    (s : SourceMode) (st : AudioManager PS W) :
    ∃ c : Category,
      (_createCategory B n b s st).state.categories.get? n = some c ∧
      (_createCategory B n b s st).state.sounds = st.sounds ∧
      (∀ c0, st.categories.get? n = some c0 →
        c = c0 ∧ (_createCategory B n b s st).state = st) ∧
      (st.categories.get? n = none →
        c.name = n ∧ c.bufferMode = b ∧ c.sourceMode = s ∧
        ∀ k, k ≠ n → (_createCategory B n b s st).state.categories.get? k
          = st.categories.get? k) := by
  cases h : st.categories.get? n with
  | some c =>
    have heq : _createCategory B n b s st = ⟨st, Except.ok c⟩ := by
      unfold _createCategory
      rw [h]
    rw [heq]
    exact ⟨c, h, rfl, fun c0 hc0 => ⟨Option.some.inj hc0, rfl⟩, fun h' => Option.noConfusion h'⟩
  | none =>
    have heq : _createCategory B n b s st =
        ⟨{ st with
            categories := st.categories.set n ⟨st.nextPtr, n, b, s, B.categoryGainInit⟩
            nextPtr := st.nextPtr + 1 },
          Except.ok ⟨st.nextPtr, n, b, s, B.categoryGainInit⟩⟩ := by
      unfold _createCategory
      rw [h]
    rw [heq]
    exact ⟨⟨st.nextPtr, n, b, s, B.categoryGainInit⟩, HMap.get?_set_self _ _ _, rfl,
      fun c0 hc0 => Option.noConfusion hc0,
      fun _ => ⟨rfl, rfl, rfl, fun k hk => HMap.get?_set_ne _ _ _ _ hk⟩⟩

/-- What `_createSoundsFromPath(path, categoryName, prefix)` does, in any state. -/
theorem createSoundsFromPathIn_spec (B : Backend PS W) (D : Dirs) (path categoryName pfx : String)
    (st : AudioManager PS W) :
    ∃ names : List String,
      (_createSoundsFromPathIn B D path categoryName pfx st).value = Except.ok names ∧
      (_createSoundsFromPathIn B D path categoryName pfx st).state
        = (D.files path).foldl (fun s f => (_createSound B f categoryName pfx s).state)
            (_createCategory B categoryName BufferMode.Full SourceMode.Disk st).state ∧
      (_createSoundsFromPathIn B D path categoryName pfx st).state.categories
        = (_createCategory B categoryName BufferMode.Full SourceMode.Disk st).state.categories ∧
      names.Nodup ∧
      names.Sublist ((D.files path).map (fun f => pfx ++ B.baseNameWithoutExtension f)) ∧
      (∀ k, k ∈ names ↔
        _hasSound k st = false ∧
          ∃ f ∈ D.files path, B.fileFormat f ≠ Format.Unknown ∧
            pfx ++ B.baseNameWithoutExtension f = k) ∧
      (∀ k, _hasSound k (_createSoundsFromPathIn B D path categoryName pfx st).state = true ↔
        _hasSound k st = true ∨ k ∈ names) ∧
      (∀ k v, st.sounds.get? k = some v →
        (_createSoundsFromPathIn B D path categoryName pfx st).state.sounds.get? k = some v) := by
  obtain ⟨c, hc, hs, _, _⟩ :=
    createCategory_registers B categoryName BufferMode.Full SourceMode.Disk st
  obtain ⟨names, h1, h2, h3, h4, h5, h6, h7, h8⟩ :=
    createSoundsLoop_spec B categoryName pfx c (D.files path)
      (_createCategory B categoryName BufferMode.Full SourceMode.Disk st).state [] hc
  rw [hs] at h6 h7 h8
  rw [List.nil_append] at h1
  exact ⟨names, h1, h2, h3, h4, h5, h6, h7, h8⟩

/-- The directory loop of `_createSoundsFromPath(path, prefix)`: it does not throw and appends
the concatenation of the results of the calls for the directories; the names are those of the
sounds registered after and not before, each once. -/
theorem createSoundsDirLoop_spec (B : Backend PS W) (D : Dirs) (pfx : String) :
    ∀ (dirs : List String) (st : AudioManager PS W) (result : List String),
      (createSoundsDirLoop B D pfx dirs st result).value
        = Except.ok (result ++ createSoundsFromPathSpec B D pfx dirs st) ∧
      (createSoundsFromPathSpec B D pfx dirs st).Nodup ∧
      (∀ k, k ∈ createSoundsFromPathSpec B D pfx dirs st ↔
        _hasSound k st = false ∧
          _hasSound k (createSoundsDirLoop B D pfx dirs st result).state = true) ∧
      (∀ k, _hasSound k st = true →
        _hasSound k (createSoundsDirLoop B D pfx dirs st result).state = true) := by
  intro dirs
  induction dirs with
  | nil =>
    intro st result
    refine ⟨by rw [createSoundsFromPathSpec, List.append_nil]; rfl, List.nodup_nil, ?_,
      fun _ h => h⟩
    intro k
    constructor
    · intro h
      exact absurd h (List.not_mem_nil k)
    · rintro ⟨h1, h2⟩
      have h2' : _hasSound k st = true := h2
      rw [h1] at h2'
      exact Bool.noConfusion h2'
  | cons d rest ih =>
    intro st result
    obtain ⟨names, h1, _, _, h4, _, h6, h7, _⟩ :=
      createSoundsFromPathIn_spec B D d (D.baseName d) pfx st
    obtain ⟨i1, i2, i3, i4⟩ :=
      ih (_createSoundsFromPathIn B D d (D.baseName d) pfx st).state (result ++ names)
    have hstep : createSoundsDirLoop B D pfx (d :: rest) st result
        = createSoundsDirLoop B D pfx rest
            (_createSoundsFromPathIn B D d (D.baseName d) pfx st).state (result ++ names) := by
      rw [createSoundsDirLoop]
      simp only [h1]
    have hspec : createSoundsFromPathSpec B D pfx (d :: rest) st
        = names ++ createSoundsFromPathSpec B D pfx rest
            (_createSoundsFromPathIn B D d (D.baseName d) pfx st).state := by
      rw [createSoundsFromPathSpec]
      simp only [h1]
    rw [hstep, hspec]
    refine ⟨by rw [i1, List.append_assoc], ?_, ?_, ?_⟩
    · refine List.Nodup.append h4 i2 ?_
      intro k hk1 hk2
      have ha := (h7 k).mpr (Or.inr hk1)
      rw [((i3 k).mp hk2).1] at ha
      exact Bool.noConfusion ha
    · intro k
      rw [List.mem_append]
      constructor
      · rintro (hk | hk)
        · exact ⟨((h6 k).mp hk).1, i4 k ((h7 k).mpr (Or.inr hk))⟩
        · refine ⟨?_, ((i3 k).mp hk).2⟩
          cases hst : _hasSound k st with
          | false => rfl
          | true =>
            have ha := (h7 k).mpr (Or.inl hst)
            rw [((i3 k).mp hk).1] at ha
            exact Bool.noConfusion ha
      · rintro ⟨hk, hafter⟩
        cases hmid : _hasSound k (_createSoundsFromPathIn B D d (D.baseName d) pfx st).state with
        | true =>
          rcases (h7 k).mp hmid with h | h
          · rw [hk] at h
            exact Bool.noConfusion h
          · exact Or.inl h
        | false => exact Or.inr ((i3 k).mpr ⟨hmid, hafter⟩)
    · intro k hk
      exact i4 k ((h7 k).mpr (Or.inl hk))

end AudioManager

/-- C23: for every listing of files and directories and in every state,
`createSoundsFromPath(path, categoryName, prefix)` does not throw; the category is the one
that was registered, with the categories untouched, or a new one with the modes `Full` and
`Disk`; the state is that of `createSound` run on each listed file in order; the names
returned are distinct, in listing order, and are exactly the derived names of the listed
files of known format that were not registered before, which are the names registered after
and not before the call; sounds registered before stay. `createSoundsFromPath(path, prefix)`
does not throw and returns the concatenation, over the listed subdirectories in order, of
what the call for the subdirectory with its base name as category returns; these names are
distinct and are the names registered after and not before the call. -/
theorem C23_createSoundsFromPath {PS W : Type} (B : Backend PS W) (D : AudioManager.Dirs)
    (path categoryName pfx : String) (st : AudioManager PS W) :
    (∃ names : List String,
      (AudioManager._createSoundsFromPathIn B D path categoryName pfx st).value
        = Except.ok names ∧
      (AudioManager._createSoundsFromPathIn B D path categoryName pfx st).state
        = (D.files path).foldl
            (fun s f => (AudioManager._createSound B f categoryName pfx s).state)
            (AudioManager._createCategory B categoryName BufferMode.Full SourceMode.Disk
              st).state ∧
      (∀ c0, st.categories.get? categoryName = some c0 →
        (AudioManager._createSoundsFromPathIn B D path categoryName pfx st).state.categories
          = st.categories) ∧
      (st.categories.get? categoryName = none →
        ∃ c : Category,
          (AudioManager._createSoundsFromPathIn B D path categoryName pfx
            st).state.categories.get? categoryName = some c ∧
          c.name = categoryName ∧ c.bufferMode = BufferMode.Full ∧
          c.sourceMode = SourceMode.Disk) ∧
      names.Nodup ∧
      names.Sublist ((D.files path).map (fun f => pfx ++ B.baseNameWithoutExtension f)) ∧
      (∀ k, k ∈ names ↔
        AudioManager._hasSound k st = false ∧
          ∃ f ∈ D.files path, B.fileFormat f ≠ Format.Unknown ∧
            pfx ++ B.baseNameWithoutExtension f = k) ∧
      (∀ k, k ∈ names ↔
        AudioManager._hasSound k st = false ∧
          AudioManager._hasSound k
            (AudioManager._createSoundsFromPathIn B D path categoryName pfx st).state = true) ∧
      (∀ k v, st.sounds.get? k = some v →
        (AudioManager._createSoundsFromPathIn B D path categoryName pfx st).state.sounds.get? k
          = some v)) ∧
    ((AudioManager._createSoundsFromPath B D path pfx st).value
        = Except.ok (AudioManager.createSoundsFromPathSpec B D pfx (D.directories path) st) ∧
      (AudioManager.createSoundsFromPathSpec B D pfx (D.directories path) st).Nodup ∧
      (∀ k, k ∈ AudioManager.createSoundsFromPathSpec B D pfx (D.directories path) st ↔
        AudioManager._hasSound k st = false ∧
          AudioManager._hasSound k (AudioManager._createSoundsFromPath B D path pfx st).state
            = true)) := by
  constructor
  · obtain ⟨names, h1, h2, h3, h4, h5, h6, h7, h8⟩ :=
      AudioManager.createSoundsFromPathIn_spec B D path categoryName pfx st
    obtain ⟨c, hc, _, hold, hnew⟩ :=
      AudioManager.createCategory_registers B categoryName BufferMode.Full SourceMode.Disk st
    refine ⟨names, h1, h2, ?_, ?_, h4, h5, h6, ?_, h8⟩
    · intro c0 hc0
      rw [h3, (hold c0 hc0).2]
    · intro hnone
      obtain ⟨hn, hb, hs, _⟩ := hnew hnone
      exact ⟨c, by rw [h3]; exact hc, hn, hb, hs⟩
    · intro k
      constructor
      · intro hk
        exact ⟨((h6 k).mp hk).1, (h7 k).mpr (Or.inr hk)⟩
      · rintro ⟨hk, hafter⟩
        rcases (h7 k).mp hafter with h | h
        · rw [hk] at h
          exact Bool.noConfusion h
        · exact h
  · obtain ⟨i1, i2, i3, _⟩ :=
      AudioManager.createSoundsDirLoop_spec B D pfx (D.directories path) st []
    rw [List.nil_append] at i1
    exact ⟨i1, i2, i3⟩

/-! ## The mutex -/

namespace Paths

theorem mem_seq {A B : Paths} {p : List LockEvent} :
    p ∈ seq A B ↔ ∃ x ∈ A, ∃ y ∈ B, p = x ++ y := by
  unfold seq
  rw [List.mem_flatMap]
  constructor
  · rintro ⟨x, hx, hp⟩
    obtain ⟨y, hy, rfl⟩ := List.mem_map.mp hp
    exact ⟨x, hx, y, hy, rfl⟩
  · rintro ⟨x, hx, y, hy, rfl⟩
    exact ⟨x, hx, List.mem_map.mpr ⟨y, hy, rfl⟩⟩

theorem mem_ev {e : LockEvent} {p : List LockEvent} : p ∈ ev e ↔ p = [e] := by
  unfold ev
  exact List.mem_singleton

theorem quiet_seq {A B : Paths} (hA : Quiet A) (hB : Quiet B) : Quiet (seq A B) := by
  intro p hp
  obtain ⟨x, hx, y, hy, rfl⟩ := mem_seq.mp hp
  intro h
  rcases List.mem_append.mp h with h | h
  · exact hA x hx h
  · exact hB y hy h

theorem quiet_rounds {B : Paths} (hB : Quiet B) : ∀ n, Quiet (rounds B n)
  | 0 => by
    intro p hp
    have h : p = [] := List.mem_singleton.mp hp
    rw [h]
    exact List.not_mem_nil _
  | n + 1 => by
    intro p hp
    have hp2 : p ∈ [[]] ++ seq B (rounds B n) := hp
    rcases List.mem_append.mp hp2 with h | h
    · have h2 : p = [] := List.mem_singleton.mp h
      rw [h2]
      exact List.not_mem_nil _
    · exact quiet_seq hB (quiet_rounds hB n) p h

end Paths

namespace LockEvent

theorem unguarded_append (x y : List LockEvent) :
    ∀ held, unguarded held (x ++ y) = unguarded held x ++ unguarded (heldAfter held x) y := by
  induction x with
  | nil => intro held; rfl
  | cons e x ih =>
    intro held
    cases e with
    | acquire => exact ih true
    | release => exact ih false
    | other c => exact ih held
    | read f =>
      show (if held then [] else [read f]) ++ unguarded held (x ++ y)
        = ((if held then [] else [read f]) ++ unguarded held x) ++ _
      rw [ih held, List.append_assoc]
      rfl
    | write f =>
      show (if held then [] else [write f]) ++ unguarded held (x ++ y)
        = ((if held then [] else [write f]) ++ unguarded held x) ++ _
      rw [ih held, List.append_assoc]
      rfl
    | internal c =>
      show (if held then [] else [internal c]) ++ unguarded held (x ++ y)
        = ((if held then [] else [internal c]) ++ unguarded held x) ++ _
      rw [ih held, List.append_assoc]
      rfl

/-- A path that does not give the mutex up and starts with the mutex held makes every access
with the mutex held. -/
theorem unguarded_quiet : ∀ (p : List LockEvent), release ∉ p → unguarded true p = []
  | [], _ => rfl
  | e :: p, h => by
    have hp : release ∉ p := fun hc => h (List.mem_cons_of_mem _ hc)
    have ih := unguarded_quiet p hp
    cases e with
    | acquire => exact ih
    | release => exact absurd (List.mem_cons_self _ _) h
    | other c => exact ih
    | read f => exact ih
    | write f => exact ih
    | internal c => exact ih

theorem releasedForJoin_quiet : ∀ (p : List LockEvent), release ∉ p → releasedForJoin p = true
  | [], _ => rfl
  | e :: p, h => by
    have hp : release ∉ p := fun hc => h (List.mem_cons_of_mem _ hc)
    have ih := releasedForJoin_quiet p hp
    cases e with
    | acquire => exact ih
    | release => exact absurd (List.mem_cons_self _ _) h
    | other c => exact ih
    | read f => exact ih
    | write f => exact ih
    | internal c => exact ih

end LockEvent


namespace LockEvent

theorem heldAfter_append (x y : List LockEvent) :
    ∀ held, heldAfter held (x ++ y) = heldAfter (heldAfter held x) y := by
  induction x with
  | nil => intro held; rfl
  | cons e x ih =>
    intro held
    cases e with
    | acquire => exact ih true
    | release => exact ih false
    | other c => exact ih held
    | read f => exact ih held
    | write f => exact ih held
    | internal c => exact ih held

end LockEvent

namespace Paths

theorem quiet_ev {e : LockEvent} (h : e ≠ LockEvent.release) : Quiet (ev e) := by
  intro p hp
  rw [mem_ev.mp hp]
  intro hc
  exact h (List.mem_singleton.mp hc).symm

theorem quiet_unit : Quiet [[]] := by
  intro p hp
  rw [List.mem_singleton.mp hp]
  exact List.not_mem_nil _

end Paths

namespace Locking

open Paths LockEvent

/-- The methods that take the mutex first and have no loop and no `lock.release()`: `init`
and the methods between `clear` and `addAudioExtension`. -/
theorem locked_paths :
    ∀ m ∈ ("init", init) :: lockedMethods, ∀ p ∈ m.2,
      p.head? = some acquire ∧ unguarded false p = [] ∧ keepsLock p = true ∧
      releasedForJoin p = true := by
  decide

/-- The paths of `clear`: it takes the mutex first, and the one access it makes without the
mutex is the read of `thread` for `this->thread->join()`, between `lock.release()` and
`lock.acquire`. -/
theorem clear_paths (n : Nat) :
    ∀ p ∈ clear n,
      p.head? = some acquire ∧ (∀ e ∈ unguarded false p, e = read Field.thread) ∧
      releasedForJoin p = true := by
  intro p hp
  have hp2 : p ∈ seq (ev acquire)
      (seq (cond (ev (read Field.threadRunning))
          (block [ev (other "hlog::write"), ev (write Field.threadRunning), ev release,
            ev (read Field.thread), ev (other "hthread::join"), ev acquire]))
        (seq (cond (ev (read Field.thread))
            (block [ev (read Field.thread), ev (other "delete"), ev (write Field.thread)]))
          (seq (ev (internal "_update"))
            (seq (ev (read Field.players))
              (seq (loop n (block [ev (internal "Player::_stop"), ev (other "delete")]))
                (seq (ev (write Field.players))
                  (seq (ev (write Field.managedPlayers))
                    (seq (ev (read Field.sounds))
                      (seq (loop n (ev (other "delete")))
                        (seq (ev (write Field.sounds))
                          (seq (ev (read Field.categories))
                            (seq (loop n (ev (other "delete")))
                              (seq (ev (write Field.categories)) [[]]))))))))))))) := hp
  obtain ⟨x, hx, y, hy, rfl⟩ := mem_seq.mp hp2
  obtain ⟨a, ha, z, hz, rfl⟩ := mem_seq.mp hy
  obtain ⟨b, hb, t, ht, rfl⟩ := mem_seq.mp hz
  have hq : release ∉ t :=
    quiet_seq (quiet_ev (by decide))
      (quiet_seq (quiet_ev (by decide))
        (quiet_seq
          (quiet_rounds (quiet_seq (quiet_ev (by decide))
            (quiet_seq (quiet_ev (by decide)) quiet_unit)) n)
          (quiet_seq (quiet_ev (by decide))
            (quiet_seq (quiet_ev (by decide))
              (quiet_seq (quiet_ev (by decide))
                (quiet_seq (quiet_rounds (quiet_ev (by decide)) n)
                  (quiet_seq (quiet_ev (by decide))
                    (quiet_seq (quiet_ev (by decide))
                      (quiet_seq (quiet_rounds (quiet_ev (by decide)) n)
                        (quiet_seq (quiet_ev (by decide)) quiet_unit)))))))))) t ht
  have hx2 : x = [acquire] := mem_ev.mp hx
  have ha2 : a = [read Field.threadRunning] ∨
      a = [read Field.threadRunning, other "hlog::write", write Field.threadRunning, release,
        read Field.thread, other "hthread::join", acquire] := by
    have h : a ∈ [[read Field.threadRunning],
        [read Field.threadRunning, other "hlog::write", write Field.threadRunning, release,
          read Field.thread, other "hthread::join", acquire]] := ha
    rcases List.mem_cons.mp h with h | h
    · exact Or.inl h
    · exact Or.inr (List.mem_singleton.mp h)
  have hb2 : b = [read Field.thread] ∨
      b = [read Field.thread, read Field.thread, other "delete", write Field.thread] := by
    have h : b ∈ [[read Field.thread],
        [read Field.thread, read Field.thread, other "delete", write Field.thread]] := hb
    rcases List.mem_cons.mp h with h | h
    · exact Or.inl h
    · exact Or.inr (List.mem_singleton.mp h)
  have hu := unguarded_quiet t hq
  have hj := releasedForJoin_quiet t hq
  subst hx2
  rcases ha2 with rfl | rfl <;> rcases hb2 with rfl | rfl
  · refine ⟨rfl, ?_, hj⟩
    show ∀ e ∈ unguarded true t, _
    rw [hu]
    intro e he
    exact absurd he (List.not_mem_nil _)
  · refine ⟨rfl, ?_, hj⟩
    show ∀ e ∈ unguarded true t, _
    rw [hu]
    intro e he
    exact absurd he (List.not_mem_nil _)
  · refine ⟨rfl, ?_, hj⟩
    show ∀ e ∈ [read Field.thread] ++ unguarded true t, _
    rw [hu]
    intro e he
    exact List.mem_singleton.mp he
  · refine ⟨rfl, ?_, hj⟩
    show ∀ e ∈ [read Field.thread] ++ unguarded true t, _
    rw [hu]
    intro e he
    exact List.mem_singleton.mp he

/-- The rounds of the loop of the thread function, started with the mutex held: they end
with the mutex held, read `updateTime` without it and nothing else, and give it up for
`hthread::sleep` only. -/
theorem thread_rounds :
    ∀ (n : Nat), ∀ r ∈ rounds
        (seq (block [ev (read Field.updateTime), ev (internal "_update"), ev release,
            ev (read Field.updateTime), ev (other "hthread::sleep"), ev acquire])
          (cond (ev (read Field.thread)) (ev (read Field.threadRunning)))) n,
      (∀ e ∈ unguarded true r, e = read Field.updateTime) ∧ heldAfter true r = true ∧
      ∀ s, releasedForSleep (r ++ s) = releasedForSleep s
  | 0 => by
    intro r hr
    rw [List.mem_singleton.mp hr]
    exact ⟨fun e he => absurd he (List.not_mem_nil _), rfl, fun _ => rfl⟩
  | n + 1 => by
    intro r hr
    have hr2 : r ∈ [[]] ++ seq
        (seq (block [ev (read Field.updateTime), ev (internal "_update"), ev release,
            ev (read Field.updateTime), ev (other "hthread::sleep"), ev acquire])
          (cond (ev (read Field.thread)) (ev (read Field.threadRunning))))
        (rounds
          (seq (block [ev (read Field.updateTime), ev (internal "_update"), ev release,
              ev (read Field.updateTime), ev (other "hthread::sleep"), ev acquire])
            (cond (ev (read Field.thread)) (ev (read Field.threadRunning)))) n) := hr
    rcases List.mem_append.mp hr2 with h | h
    · rw [List.mem_singleton.mp h]
      exact ⟨fun e he => absurd he (List.not_mem_nil _), rfl, fun _ => rfl⟩
    · obtain ⟨x, hx, r1, hr1, rfl⟩ := mem_seq.mp h
      obtain ⟨i1, i2, i3⟩ := thread_rounds n r1 hr1
      have hx2 : x ∈ [[read Field.updateTime, internal "_update", release,
            read Field.updateTime, other "hthread::sleep", acquire, read Field.thread],
          [read Field.updateTime, internal "_update", release,
            read Field.updateTime, other "hthread::sleep", acquire, read Field.thread,
            read Field.threadRunning]] := hx
      have hx3 : x = [read Field.updateTime, internal "_update", release,
            read Field.updateTime, other "hthread::sleep", acquire, read Field.thread] ∨
          x = [read Field.updateTime, internal "_update", release,
            read Field.updateTime, other "hthread::sleep", acquire, read Field.thread,
            read Field.threadRunning] := by
        rcases List.mem_cons.mp hx2 with h | h
        · exact Or.inl h
        · exact Or.inr (List.mem_singleton.mp h)
      rcases hx3 with rfl | rfl
      · refine ⟨?_, i2, fun s => ?_⟩
        · show ∀ e ∈ [read Field.updateTime] ++ unguarded true r1, _
          intro e he
          rcases List.mem_append.mp he with h | h
          · exact List.mem_singleton.mp h
          · exact i1 e h
        · rw [List.append_assoc]
          exact i3 s
      · refine ⟨?_, i2, fun s => ?_⟩
        · show ∀ e ∈ [read Field.updateTime] ++ unguarded true r1, _
          intro e he
          rcases List.mem_append.mp he with h | h
          · exact List.mem_singleton.mp h
          · exact i1 e h
        · rw [List.append_assoc]
          exact i3 s

/-- The paths of the thread function `_update(hthread*)`. -/
theorem thread_paths (n : Nat) :
    ∀ p ∈ _update_thread n,
      p.head? = some acquire ∧ (∀ e ∈ unguarded false p, e = read Field.updateTime) ∧
      releasedForSleep p = true ∧ p.getLast? = some release := by
  intro p hp
  have hp2 : p ∈ seq (ev acquire)
      (seq (seq (cond (ev (read Field.thread)) (ev (read Field.threadRunning)))
          (rounds
            (seq (block [ev (read Field.updateTime), ev (internal "_update"), ev release,
                ev (read Field.updateTime), ev (other "hthread::sleep"), ev acquire])
              (cond (ev (read Field.thread)) (ev (read Field.threadRunning)))) n))
        (seq (ev release) [[]])) := hp
  obtain ⟨x, hx, y, hy, rfl⟩ := mem_seq.mp hp2
  obtain ⟨w, hw, z, hz, rfl⟩ := mem_seq.mp hy
  obtain ⟨t, ht, r, hr, rfl⟩ := mem_seq.mp hw
  obtain ⟨i1, i2, i3⟩ := thread_rounds n r hr
  have hx2 : x = [acquire] := mem_ev.mp hx
  have hz2 : z = [release] := by
    have h : z ∈ [[release]] := hz
    exact List.mem_singleton.mp h
  have ht2 : t = [read Field.thread] ∨ t = [read Field.thread, read Field.threadRunning] := by
    have h : t ∈ [[read Field.thread], [read Field.thread, read Field.threadRunning]] := ht
    rcases List.mem_cons.mp h with h | h
    · exact Or.inl h
    · exact Or.inr (List.mem_singleton.mp h)
  subst hx2 hz2
  have hlast : ∀ q : List LockEvent, (q ++ [release]).getLast? = some release := by
    intro q
    simp
  rcases ht2 with rfl | rfl
  · refine ⟨rfl, ?_, ?_, ?_⟩
    · show ∀ e ∈ unguarded true (r ++ [release]), _
      rw [unguarded_append, i2]
      intro e he
      rcases List.mem_append.mp he with h | h
      · exact i1 e h
      · exact absurd h (List.not_mem_nil _)
    · show releasedForSleep (r ++ [release]) = true
      rw [i3]
      rfl
    · rw [← List.append_assoc]
      exact hlast _
  · refine ⟨rfl, ?_, ?_, ?_⟩
    · show ∀ e ∈ unguarded true (r ++ [release]), _
      rw [unguarded_append, i2]
      intro e he
      rcases List.mem_append.mp he with h | h
      · exact i1 e h
      · exact absurd h (List.not_mem_nil _)
    · show releasedForSleep (r ++ [release]) = true
      rw [i3]
      rfl
    · rw [← List.append_assoc]
      exact hlast _

end Locking

/-- Counterexample to C24 as stated. First half: `addAudioExtension` is a public method and
writes `extensions` without taking the mutex, `findAudioFile` reads it without the mutex, and
`clear`, on the path that stops the update thread, gives the mutex up inside its body and
reads the field `thread` without it. Second half: the underscore-prefixed thread function
`_update(hthread*)` starts without the mutex, takes it itself, and reads `updateTime` for
`hthread::sleep` after it has given the mutex up. -/
theorem C24_mutex_counterexample :
    ("addAudioExtension", Locking.addAudioExtension) ∈ Locking.publicMethods 0 ∧
    [LockEvent.write Field.extensions] ∈ Locking.addAudioExtension ∧
    LockEvent.unguarded false [LockEvent.write Field.extensions]
      = [LockEvent.write Field.extensions] ∧
    ("findAudioFile", Locking.findAudioFile 0) ∈ Locking.publicMethods 0 ∧
    (∃ p ∈ Locking.findAudioFile 0,
      LockEvent.read Field.extensions ∈ LockEvent.unguarded false p) ∧
    ("clear", Locking.clear 0) ∈ Locking.publicMethods 0 ∧
    Locking.clearStoppingThread ∈ Locking.clear 0 ∧
    LockEvent.keepsLock Locking.clearStoppingThread = false ∧
    LockEvent.unguarded false Locking.clearStoppingThread = [LockEvent.read Field.thread] ∧
    ¬ (∀ n, ∀ m ∈ Locking.publicMethods n, ∀ p ∈ m.2,
        p.head? = some LockEvent.acquire ∧ LockEvent.keepsLock p = true ∧
        LockEvent.unguarded false p = []) ∧
    Locking.threadOneRound ∈ Locking._update_thread 1 ∧
    LockEvent.unguarded false Locking.threadOneRound = [LockEvent.read Field.updateTime] ∧
    LockEvent.keepsLock Locking.threadOneRound = false ∧
    ¬ (∀ n, ∀ p ∈ Locking._update_thread n, LockEvent.unguarded true p = [] ∧
        LockEvent.release ∉ p) := by
  refine ⟨by decide, by decide, by decide, by decide, ?_, by decide, by decide, by decide,
    by decide, ?_, by decide, by decide, by decide, ?_⟩
  · exact ⟨[LockEvent.other "hresource::exists", LockEvent.read Field.extensions,
      LockEvent.other "hfile::withoutExtension"], by decide, by decide⟩
  · intro h
    have := (h 0 ("addAudioExtension", Locking.addAudioExtension) (by decide)
      [LockEvent.write Field.extensions] (by decide)).1
    exact absurd this (by decide)
  · intro h
    have := (h 1 Locking.threadOneRound (by decide)).2
    exact absurd (by decide : LockEvent.release ∈ Locking.threadOneRound) this

/-- C24, amended: on every path of every public method that `AudioManager.cpp` defines, other
than `addAudioExtension` and `findAudioFile`, whatever the number of rounds its loops make,
the method starts by taking the mutex, and every write of a field of the manager and every
call of an underscore-prefixed method is made with the mutex held, as is every read of a
field but one: `clear` gives the mutex up exactly to call `this->thread->join()`, which reads
the field `thread`, and takes it again at once; every other method keeps the mutex until it
returns. The thread function `_update(hthread*)` takes the mutex first, makes its loop test
and its call of `_update(float)` with the mutex held, and gives it up only at its end and
around `hthread::sleep`, whose argument is the one read of `updateTime` without the
mutex. -/
theorem C24_mutex_amended (n : Nat) (m : String × Paths) (hm : m ∈ Locking.publicMethods n)
    (h1 : m.1 ≠ "addAudioExtension") (h2 : m.1 ≠ "findAudioFile") :
    (∀ p ∈ m.2,
      p.head? = some LockEvent.acquire ∧
      (∀ e ∈ LockEvent.unguarded false p, e = LockEvent.read Field.thread) ∧
      LockEvent.releasedForJoin p = true ∧
      (m.1 ≠ "clear" → LockEvent.unguarded false p = [] ∧ LockEvent.keepsLock p = true)) ∧
    (∀ p ∈ Locking._update_thread n,
      p.head? = some LockEvent.acquire ∧
      (∀ e ∈ LockEvent.unguarded false p, e = LockEvent.read Field.updateTime) ∧
      LockEvent.releasedForSleep p = true ∧
      p.getLast? = some LockEvent.release) := by
  refine ⟨?_, Locking.thread_paths n⟩
  have hlocked : m ∈ ("init", Locking.init) :: Locking.lockedMethods → ∀ p ∈ m.2,
      p.head? = some LockEvent.acquire ∧
      (∀ e ∈ LockEvent.unguarded false p, e = LockEvent.read Field.thread) ∧
      LockEvent.releasedForJoin p = true ∧
      (m.1 ≠ "clear" → LockEvent.unguarded false p = [] ∧ LockEvent.keepsLock p = true) := by
    intro hmem p hp
    obtain ⟨a, b, c, d⟩ := Locking.locked_paths m hmem p hp
    refine ⟨a, ?_, d, fun _ => ⟨b, c⟩⟩
    rw [b]
    intro e he
    exact absurd he (List.not_mem_nil _)
  have hm2 : m ∈ ("init", Locking.init) :: ("clear", Locking.clear n) ::
      (Locking.lockedMethods ++ [("addAudioExtension", Locking.addAudioExtension),
        ("findAudioFile", Locking.findAudioFile n)]) := hm
  rcases List.mem_cons.mp hm2 with h | h
  · exact hlocked (by rw [h]; exact List.mem_cons_self _ _)
  · rcases List.mem_cons.mp h with h | h
    · intro p hp
      rw [h] at hp
      obtain ⟨a, b, c⟩ := Locking.clear_paths n p hp
      refine ⟨a, b, c, fun hne => ?_⟩
      rw [h] at hne
      exact absurd rfl hne
    · rcases List.mem_append.mp h with h | h
      · exact hlocked (List.mem_cons_of_mem _ h)
      · rcases List.mem_cons.mp h with h | h
        · rw [h] at h1
          exact absurd rfl h1
        · rw [List.mem_singleton.mp h] at h2
          exact absurd rfl h2

/-- Witness of C24 (amended): `clear` on the path that stops the update thread, its loops
making no round. -/
theorem C24_mutex_amended_witness :
    ("clear", Locking.clear 0) ∈ Locking.publicMethods 0 ∧
    Locking.clearStoppingThread ∈ Locking.clear 0 ∧
    (∀ e ∈ LockEvent.unguarded false Locking.clearStoppingThread,
      e = LockEvent.read Field.thread) ∧
    LockEvent.releasedForJoin Locking.clearStoppingThread = true :=
  have h := (C24_mutex_amended 0 ("clear", Locking.clear 0) (by decide) (by decide)
    (by decide)).1 Locking.clearStoppingThread (by decide)
  ⟨by decide, by decide, h.2.1, h.2.2.1⟩

/-! ## Playing, stopping and updating a source of version 2 -/

namespace Source

/-- The fields `play` leaves when a source id is at hand. -/
theorem play_fields (env : SourceEnv) (fade : ℚ) (looping : Bool) (s : Source) (v : Voice)
    (hid : s.sourceId ≠ 0 ∨ env.allocated ≠ 0) :
    (play env fade looping s v).2 = true ∧
    (play env fade looping s v).1.1.sourceId ≠ 0 ∧
    (play env fade looping s v).1.1.paused = false ∧
    (play env fade looping s v).1.1.fadeTime = (if fade > 0 then s.fadeTime else 1) ∧
    (play env fade looping s v).1.1.fadeSpeed = (if fade > 0 then 1 / fade else 0) := by
  have h1 : (if s.sourceId = 0 then { s with sourceId := env.allocated } else s).sourceId ≠ 0 := by
    split
    · next h0 =>
      rcases hid with h | h
      · exact absurd h0 h
      · exact h
    · next h0 => exact h0
  have hft : (if s.sourceId = 0 then { s with sourceId := env.allocated } else s).fadeTime
      = s.fadeTime := by
    split <;> rfl
  unfold play
  simp only
  generalize (if s.sourceId = 0 then { s with sourceId := env.allocated } else s) = s1
    at h1 hft ⊢
  rw [if_neg h1]
  have h2 : (if (!s1.paused) = true then { s1 with looping := looping } else s1).sourceId
        = s1.sourceId ∧
      (if (!s1.paused) = true then { s1 with looping := looping } else s1).fadeTime
        = s1.fadeTime := by
    split <;> exact ⟨rfl, rfl⟩
  generalize (if (!s1.paused) = true then { s1 with looping := looping } else s1) = s2
    at h2 ⊢
  by_cases hf : fade > 0
  · simp only [if_pos hf]
    exact ⟨trivial, by rw [h2.1]; exact h1, trivial, by rw [h2.2, hft], trivial⟩
  · simp only [if_neg hf]
    exact ⟨trivial, by rw [h2.1]; exact h1, trivial, trivial, trivial⟩

end Source

/-- Counterexample to C25 as stated: a new source played without fade has `fadeTime = 1`;
`play(2, false)` on it, its source id being 1, sets `fadeSpeed = 1/2` and leaves
`fadeTime = 1`, not 0. -/
theorem C25_play_fadeTime_counterexample :
    (Source.play demoSourceEnv 0 false Source.create demoVoice).1.1.sourceId = 1 ∧
    (Source.play demoSourceEnv 0 false Source.create demoVoice).1.1.fadeTime = 1 ∧
    (Source.play demoSourceEnv 2 false
      (Source.play demoSourceEnv 0 false Source.create demoVoice).1.1
      (Source.play demoSourceEnv 0 false Source.create demoVoice).1.2).1.1.fadeSpeed = 1 / 2 ∧
    (Source.play demoSourceEnv 2 false
      (Source.play demoSourceEnv 0 false Source.create demoVoice).1.1
      (Source.play demoSourceEnv 0 false Source.create demoVoice).1.2).1.1.fadeTime = 1 ∧
    ¬ (Source.play demoSourceEnv 2 false
      (Source.play demoSourceEnv 0 false Source.create demoVoice).1.1
      (Source.play demoSourceEnv 0 false Source.create demoVoice).1.2).1.1.fadeTime = 0 := by
  have h1 := Source.play_fields demoSourceEnv 0 false Source.create demoVoice
    (Or.inr (by decide))
  have h2 := Source.play_fields demoSourceEnv 2 false
    (Source.play demoSourceEnv 0 false Source.create demoVoice).1.1
    (Source.play demoSourceEnv 0 false Source.create demoVoice).1.2 (Or.inl h1.2.1)
  have hft1 : (Source.play demoSourceEnv 0 false Source.create demoVoice).1.1.fadeTime = 1 := by
    rw [h1.2.2.2.1, if_neg (by norm_num)]
  have hft2 : (Source.play demoSourceEnv 2 false
      (Source.play demoSourceEnv 0 false Source.create demoVoice).1.1
      (Source.play demoSourceEnv 0 false Source.create demoVoice).1.2).1.1.fadeTime = 1 := by
    rw [h2.2.2.2.1, if_pos (by norm_num), hft1]
  refine ⟨by decide, hft1, ?_, hft2, ?_⟩
  · rw [h2.2.2.2.2, if_pos (by norm_num)]
  · rw [hft2]
    norm_num

/-- C25, amended: for every source for which a source id is at hand (its own or one that
`allocateSourceId()` returns), `play(fade, looping)` returns the source; if `fade > 0` it sets
`fadeSpeed = 1 / fade` and leaves `fadeTime` as it was, which is 0 on a source that has just
been constructed; otherwise it sets `fadeTime = 1` and `fadeSpeed = 0`; in both cases `paused`
is false afterwards. -/
theorem C25_play_fade_amended (env : SourceEnv) (fade : ℚ) (looping : Bool) (s : Source)
    (v : Voice) (hid : s.sourceId ≠ 0 ∨ env.allocated ≠ 0) :
    (Source.play env fade looping s v).2 = true ∧
    (fade > 0 →
      (Source.play env fade looping s v).1.1.fadeTime = s.fadeTime ∧
      (Source.play env fade looping s v).1.1.fadeSpeed = 1 / fade) ∧
    (fade > 0 → s = Source.create →
      (Source.play env fade looping s v).1.1.fadeTime = 0) ∧
    (¬ fade > 0 →
      (Source.play env fade looping s v).1.1.fadeTime = 1 ∧
      (Source.play env fade looping s v).1.1.fadeSpeed = 0) ∧
    (Source.play env fade looping s v).1.1.paused = false := by
  obtain ⟨h1, _, h3, h4, h5⟩ := Source.play_fields env fade looping s v hid
  refine ⟨h1, ?_, ?_, ?_, h3⟩
  · intro hf
    rw [h4, h5, if_pos hf, if_pos hf]
    exact ⟨rfl, rfl⟩
  · intro hf hs
    rw [h4, if_pos hf, hs]
    rfl
  · intro hf
    rw [h4, h5, if_neg hf, if_neg hf]
    exact ⟨rfl, rfl⟩

/-- Witness of C25 (amended): a new source, source id 1 free, played with a fade of 2. -/
theorem C25_play_fade_amended_witness :
    (Source.create.sourceId ≠ 0 ∨ demoSourceEnv.allocated ≠ 0) ∧
    (Source.play demoSourceEnv 2 false Source.create demoVoice).1.1.paused = false :=
  ⟨Or.inr (by decide),
    (C25_play_fade_amended demoSourceEnv 2 false Source.create demoVoice
      (Or.inr (by decide))).2.2.2.2⟩

namespace Source

theorem unbind_fields (env : SourceEnv) (s : Source) :
    (unbind env s).fadeTime = s.fadeTime ∧ (unbind env s).fadeSpeed = s.fadeSpeed ∧
    (unbind env s).paused = s.paused ∧ (unbind env s).sampleOffset = s.sampleOffset ∧
    (env.locked = false → (unbind env s).sourceId = 0 ∧ (unbind env s).bound = false) ∧
    (env.locked = true → unbind env s = s) := by
  unfold unbind
  cases env.locked
  · exact ⟨rfl, rfl, rfl, rfl, fun _ => ⟨rfl, rfl⟩, fun h => Bool.noConfusion h⟩
  · exact ⟨rfl, rfl, rfl, rfl, fun h => Bool.noConfusion h, fun _ => rfl⟩

/-- The call `_stop(fadeTime, pause)` with `fadeTime > 0` on a source with a source id. -/
theorem stop_fading (env : SourceEnv) (fade : ℚ) (pause : Bool) (s : Source) (v : Voice)
    (hid : s.sourceId ≠ 0) (hf : fade > 0) :
    _stop env fade pause s v = ({ s with fadeSpeed := -1 / fade, paused := pause }, v) := by
  unfold _stop
  rw [if_neg hid, if_pos hf]

/-- The call `_stop(fadeTime, false)` with `fadeTime ≤ 0` on a source with a source id. -/
theorem stop_now (env : SourceEnv) (fade : ℚ) (s : Source) (v : Voice)
    (hid : s.sourceId ≠ 0) (hf : ¬ fade > 0) :
    _stop env fade false s v =
      ({ unbind env { s with fadeTime := 0, fadeSpeed := 0 } with paused := false },
        if env.streamed then env.rewindStream { v with state := ALState.stopped }
        else { v with state := ALState.stopped }) := by
  unfold _stop
  rw [if_neg hid, if_neg hf]
  rfl

/-- The call `_stop(fadeTime, true)` with `fadeTime ≤ 0` on a source with a source id. -/
theorem pause_now (env : SourceEnv) (fade : ℚ) (s : Source) (v : Voice)
    (hid : s.sourceId ≠ 0) (hf : ¬ fade > 0) :
    _stop env fade true s v =
      ({ (if !env.locked then
            { s with fadeTime := 0, fadeSpeed := 0, sampleOffset := v.offset, sourceId := 0 }
          else { s with fadeTime := 0, fadeSpeed := 0, sampleOffset := v.offset }) with
          paused := true },
        if env.streamed then env.unqueueBuffers { v with state := ALState.paused }
        else { v with state := ALState.stopped }) := by
  unfold _stop
  rw [if_neg hid, if_neg hf]
  rfl

theorem stop_unbound (env : SourceEnv) (fade : ℚ) (pause : Bool) (s : Source) (v : Voice)
    (hid : s.sourceId = 0) : _stop env fade pause s v = (s, v) := by
  unfold _stop
  rw [if_pos hid]

/-- After `_stop(fadeTime, pause)` on a source with a source id, `paused` is `pause`. -/
theorem stop_paused (env : SourceEnv) (fade : ℚ) (pause : Bool) (s : Source) (v : Voice)
    (hid : s.sourceId ≠ 0) : (_stop env fade pause s v).1.paused = pause := by
  by_cases hf : fade > 0
  · rw [stop_fading env fade pause s v hid hf]
  · cases pause with
    | false => rw [stop_now env fade s v hid hf]
    | true => rw [pause_now env fade s v hid hf]

/-- After `_stop`, `fadeTime` is what it was or 0. -/
theorem stop_fadeTime (env : SourceEnv) (fade : ℚ) (pause : Bool) (s : Source) (v : Voice) :
    (_stop env fade pause s v).1.fadeTime = s.fadeTime ∨
    (_stop env fade pause s v).1.fadeTime = 0 := by
  by_cases hid : s.sourceId = 0
  · rw [stop_unbound env fade pause s v hid]
    exact Or.inl rfl
  · by_cases hf : fade > 0
    · rw [stop_fading env fade pause s v hid hf]
      exact Or.inl rfl
    · cases pause with
      | false =>
        rw [stop_now env fade s v hid hf]
        exact Or.inr (unbind_fields env _).1
      | true =>
        rw [pause_now env fade s v hid hf]
        right
        cases env.locked <;> rfl

end Source

namespace Source

/-- The fade step when a fade-in reaches 1. -/
theorem updateFade_in (env : SourceEnv) (k : ℚ) (s : Source) (v : Voice)
    (h : s.fadeTime + s.fadeSpeed * k ≥ 1 ∧ s.fadeSpeed > 0) :
    updateFade env k s v =
      ({ s with fadeTime := 1, fadeSpeed := 0 },
        { v with gain := s.gain * env.categoryGain * env.globalGain }) := by
  unfold updateFade
  simp only
  rw [if_pos h]

/-- The fade step when a fade-out reaches 0. -/
theorem updateFade_out (env : SourceEnv) (k : ℚ) (s : Source) (v : Voice)
    (h : s.fadeTime + s.fadeSpeed * k ≤ 0 ∧ s.fadeSpeed < 0) :
    updateFade env k s v =
      ({ (_stop env 0 s.paused { s with fadeTime := s.fadeTime + s.fadeSpeed * k } v).1 with
          fadeTime := 0, fadeSpeed := 0 },
        (_stop env 0 s.paused { s with fadeTime := s.fadeTime + s.fadeSpeed * k } v).2) := by
  have hn : ¬ (s.fadeTime + s.fadeSpeed * k ≥ 1 ∧ s.fadeSpeed > 0) :=
    fun hh => lt_asymm h.2 hh.2
  unfold updateFade
  simp only
  rw [if_neg hn, if_pos h]

/-- The fade step in the other cases. -/
theorem updateFade_run (env : SourceEnv) (k : ℚ) (s : Source) (v : Voice)
    (h1 : ¬ (s.fadeTime + s.fadeSpeed * k ≥ 1 ∧ s.fadeSpeed > 0))
    (h2 : ¬ (s.fadeTime + s.fadeSpeed * k ≤ 0 ∧ s.fadeSpeed < 0)) :
    updateFade env k s v =
      ({ s with fadeTime := s.fadeTime + s.fadeSpeed * k },
        { v with
          gain := (s.fadeTime + s.fadeSpeed * k) * s.gain * env.categoryGain
            * env.globalGain }) := by
  unfold updateFade
  simp only
  rw [if_neg h1, if_neg h2]

/-- The fade step keeps `fadeTime` in `[0, 1]`. -/
theorem updateFade_range (env : SourceEnv) (k : ℚ) (s : Source) (v : Voice) (hk : 0 ≤ k)
    (h0 : 0 ≤ s.fadeTime) (h1 : s.fadeTime ≤ 1) :
    0 ≤ (updateFade env k s v).1.fadeTime ∧ (updateFade env k s v).1.fadeTime ≤ 1 := by
  by_cases hin : s.fadeTime + s.fadeSpeed * k ≥ 1 ∧ s.fadeSpeed > 0
  · rw [updateFade_in env k s v hin]
    exact ⟨zero_le_one, le_refl _⟩
  · by_cases hout : s.fadeTime + s.fadeSpeed * k ≤ 0 ∧ s.fadeSpeed < 0
    · rw [updateFade_out env k s v hout]
      exact ⟨le_refl _, zero_le_one⟩
    · rw [updateFade_run env k s v hin hout]
      show 0 ≤ s.fadeTime + s.fadeSpeed * k ∧ s.fadeTime + s.fadeSpeed * k ≤ 1
      rcases lt_trichotomy s.fadeSpeed 0 with hs | hs | hs
      · have hpos : 0 < s.fadeTime + s.fadeSpeed * k := by
          by_contra hc
          exact hout ⟨not_lt.mp hc, hs⟩
        have hle : s.fadeSpeed * k ≤ 0 := mul_nonpos_of_nonpos_of_nonneg (le_of_lt hs) hk
        exact ⟨le_of_lt hpos, by linarith⟩
      · rw [hs, zero_mul, add_zero]
        exact ⟨h0, h1⟩
      · have hlt : s.fadeTime + s.fadeSpeed * k < 1 := by
          by_contra hc
          exact hin ⟨not_lt.mp hc, hs⟩
        have hge : 0 ≤ s.fadeSpeed * k := mul_nonneg (le_of_lt hs) hk
        exact ⟨by linarith, le_of_lt hlt⟩

/-- The call `update(k)` on a source that is playing and fading is the fade step, followed
by `unbind()` when the source then neither plays nor is paused. -/
theorem update_fading (env : SourceEnv) (k : ℚ) (s : Source) (v : Voice)
    (hp : isPlaying env s (env.soundUpdate k v) = true) (hf : s.isFading = true) :
    update env k s v = updateFade env k s (env.soundUpdate k v) ∨
    (update env k s v
        = (unbind env (updateFade env k s (env.soundUpdate k v)).1,
            (updateFade env k s (env.soundUpdate k v)).2) ∧
      (updateFade env k s (env.soundUpdate k v)).1.isPaused = false) := by
  have hid : s.sourceId ≠ 0 := by
    intro h0
    unfold isPlaying at hp
    rw [if_pos h0] at hp
    exact Bool.noConfusion hp
  unfold update
  rw [if_neg hid]
  simp only [hp, hf, Bool.and_self, if_true]
  split
  · next hc =>
    right
    refine ⟨rfl, ?_⟩
    simp only [Bool.and_eq_true, Bool.not_eq_true'] at hc
    exact hc.2
  · left
    rfl

/-- The call `update(k)` keeps `fadeTime` in `[0, 1]` when `k ≥ 0`. -/
theorem update_range (env : SourceEnv) (k : ℚ) (s : Source) (v : Voice) (hk : 0 ≤ k)
    (h0 : 0 ≤ s.fadeTime) (h1 : s.fadeTime ≤ 1) :
    0 ≤ (update env k s v).1.fadeTime ∧ (update env k s v).1.fadeTime ≤ 1 := by
  unfold update
  split
  · exact ⟨h0, h1⟩
  · simp only
    have hr : 0 ≤ (if (isPlaying env s (env.soundUpdate k v) && s.isFading) = true then
          updateFade env k s (env.soundUpdate k v) else (s, env.soundUpdate k v)).1.fadeTime ∧
        (if (isPlaying env s (env.soundUpdate k v) && s.isFading) = true then
          updateFade env k s (env.soundUpdate k v) else (s, env.soundUpdate k v)).1.fadeTime
          ≤ 1 := by
      split
      · exact updateFade_range env k s _ hk h0 h1
      · exact ⟨h0, h1⟩
    generalize (if (isPlaying env s (env.soundUpdate k v) && s.isFading) = true then
      updateFade env k s (env.soundUpdate k v) else (s, env.soundUpdate k v)) = r at hr ⊢
    split
    · show 0 ≤ (unbind env r.1).fadeTime ∧ (unbind env r.1).fadeTime ≤ 1
      rw [(unbind_fields env r.1).1]
      exact hr
    · exact hr

/-- After `play`, `fadeTime` is what it was or 1. -/
theorem play_fadeTime (env : SourceEnv) (fade : ℚ) (looping : Bool) (s : Source) (v : Voice) :
    (play env fade looping s v).1.1.fadeTime = s.fadeTime ∨
    (play env fade looping s v).1.1.fadeTime = 1 := by
  by_cases hid : s.sourceId ≠ 0 ∨ env.allocated ≠ 0
  · rw [(play_fields env fade looping s v hid).2.2.2.1]
    split
    · exact Or.inl rfl
    · exact Or.inr rfl
  · rw [not_or, not_not, not_not] at hid
    left
    have hz : ({ s with sourceId := env.allocated } : Source).sourceId = 0 := hid.2
    unfold play
    simp only
    rw [if_pos hid.1, if_pos hz]

/-- Every call of `play`, `stop`, `pause` or `update(k)` with `k ≥ 0` keeps `fadeTime` in
`[0, 1]`. -/
theorem call_range (env : SourceEnv) (sv : Source × Voice) (c : SourceCall)
    (hk : ∀ k, c = SourceCall.update k → 0 ≤ k)
    (h0 : 0 ≤ sv.1.fadeTime) (h1 : sv.1.fadeTime ≤ 1) :
    0 ≤ (call env sv c).1.fadeTime ∧ (call env sv c).1.fadeTime ≤ 1 := by
  cases c with
  | play fade looping =>
    have hcall : call env sv (SourceCall.play fade looping)
        = (play env fade looping sv.1 sv.2).1 := rfl
    rw [hcall]
    rcases play_fadeTime env fade looping sv.1 sv.2 with h | h
    · rw [h]
      exact ⟨h0, h1⟩
    · rw [h]
      exact ⟨zero_le_one, le_refl _⟩
  | stop fade =>
    have hcall : call env sv (SourceCall.stop fade) = _stop env fade false sv.1 sv.2 := rfl
    rw [hcall]
    rcases stop_fadeTime env fade false sv.1 sv.2 with h | h
    · rw [h]
      exact ⟨h0, h1⟩
    · rw [h]
      exact ⟨le_refl _, zero_le_one⟩
  | pause fade =>
    have hcall : call env sv (SourceCall.pause fade) = _stop env fade true sv.1 sv.2 := rfl
    rw [hcall]
    rcases stop_fadeTime env fade true sv.1 sv.2 with h | h
    · rw [h]
      exact ⟨h0, h1⟩
    · rw [h]
      exact ⟨le_refl _, zero_le_one⟩
  | update k => exact update_range env k sv.1 sv.2 (hk k rfl) h0 h1

theorem calls_range (env : SourceEnv) :
    ∀ (cs : List SourceCall) (sv : Source × Voice),
      (∀ k, SourceCall.update k ∈ cs → 0 ≤ k) →
      0 ≤ sv.1.fadeTime → sv.1.fadeTime ≤ 1 →
      0 ≤ (calls env cs sv).1.fadeTime ∧ (calls env cs sv).1.fadeTime ≤ 1
  | [], _, _, h0, h1 => ⟨h0, h1⟩
  | c :: cs, sv, hk, h0, h1 => by
    have hc := call_range env sv c (fun k hck => hk k (hck ▸ List.mem_cons_self _ _)) h0 h1
    exact calls_range env cs (call env sv c)
      (fun k hmem => hk k (List.mem_cons_of_mem _ hmem)) hc.1 hc.2

end Source

namespace Source

/-- What `update(k)` leaves of the fade step on a source that is playing and fading. -/
theorem update_fading_fields (env : SourceEnv) (k : ℚ) (s : Source) (v : Voice)
    (hp : isPlaying env s (env.soundUpdate k v) = true) (hf : s.isFading = true) :
    (update env k s v).1.fadeTime = (updateFade env k s (env.soundUpdate k v)).1.fadeTime ∧
    (update env k s v).1.fadeSpeed = (updateFade env k s (env.soundUpdate k v)).1.fadeSpeed ∧
    (update env k s v).1.paused = (updateFade env k s (env.soundUpdate k v)).1.paused ∧
    (update env k s v).1.sampleOffset
      = (updateFade env k s (env.soundUpdate k v)).1.sampleOffset ∧
    (update env k s v).2 = (updateFade env k s (env.soundUpdate k v)).2 ∧
    ((updateFade env k s (env.soundUpdate k v)).1.sourceId = 0 ∧
        (updateFade env k s (env.soundUpdate k v)).1.bound = false →
      (update env k s v).1.sourceId = 0 ∧ (update env k s v).1.bound = false) := by
  rcases update_fading env k s v hp hf with heq | ⟨heq, _⟩
  · rw [heq]
    exact ⟨rfl, rfl, rfl, rfl, rfl, fun h => h⟩
  · rw [heq]
    obtain ⟨u1, u2, u3, u4, u5, u6⟩ :=
      unbind_fields env (updateFade env k s (env.soundUpdate k v)).1
    refine ⟨u1, u2, u3, u4, rfl, ?_⟩
    intro h
    show (unbind env _).sourceId = 0 ∧ (unbind env _).bound = false
    cases hl : env.locked with
    | false => exact u5 hl
    | true =>
      rw [u6 hl]
      exact h

/-- When `update(k)` ends a fade-out of a source whose `paused` flag is set, `isPaused()`
holds afterwards. -/
theorem update_out_isPaused (env : SourceEnv) (k : ℚ) (s : Source) (v : Voice)
    (hp : isPlaying env s (env.soundUpdate k v) = true) (hs : s.fadeSpeed < 0)
    (hle : s.fadeTime + s.fadeSpeed * k ≤ 0) (hpa : s.paused = true) :
    isPaused (update env k s v).1 = true := by
  have hid : s.sourceId ≠ 0 := by
    intro hz
    unfold isPlaying at hp
    rw [if_pos hz] at hp
    exact Bool.noConfusion hp
  have hf : s.isFading = true := by
    unfold isFading
    exact decide_eq_true (ne_of_lt hs)
  obtain ⟨_, f2, f3, _, _, _⟩ := update_fading_fields env k s v hp hf
  have hX := updateFade_out env k s (env.soundUpdate k v) ⟨hle, hs⟩
  have hid1 : ({ s with fadeTime := s.fadeTime + s.fadeSpeed * k } : Source).sourceId ≠ 0 :=
    hid
  have hpd := stop_paused env 0 s.paused { s with fadeTime := s.fadeTime + s.fadeSpeed * k }
    (env.soundUpdate k v) hid1
  unfold isPaused isFading
  rw [f3, f2, hX]
  show ((_stop env 0 s.paused _ _).1.paused && !decide ((0 : ℚ) ≠ 0)) = true
  rw [hpd, hpa]
  simp

end Source

/-- C27: for every source with a source id: `stop(fade)` with `fade > 0` only sets
`fadeSpeed = -1 / fade` and `paused = false`, the OpenAL source being left alone; `stop(fade)`
with `fade ≤ 0` sets `fadeTime = 0`, `fadeSpeed = 0` and `paused = false`, stops the OpenAL
source (and rewinds a streamed sound), and, unless the source is locked, sets the source id
to 0 and `bound` to false. `pause(fade)` with `fade > 0` only sets `fadeSpeed = -1 / fade` and
`paused = true`, so `isPaused()` is false; with `fade ≤ 0` it sets `fadeTime = 0`,
`fadeSpeed = 0` and `paused = true`, stores the offset of the OpenAL source, stops that
source (pauses it for a streamed sound), leaves `bound`, and, unless the source is locked,
sets the source id to 0; `isPaused()` is then true, as it is once an `update(k)` has ended
the fade-out that `pause(fade)` with `fade > 0` started. On a source whose source id is 0,
`stop` and `pause` change nothing. -/
theorem C27_stop_pause (env : SourceEnv) (fade : ℚ) (s : Source) (v : Voice)
    (hid : s.sourceId ≠ 0) :
    (fade > 0 →
      Source.stop env fade s v = ({ s with fadeSpeed := -1 / fade, paused := false }, v) ∧
      Source.pause env fade s v = ({ s with fadeSpeed := -1 / fade, paused := true }, v) ∧
      Source.isPaused (Source.pause env fade s v).1 = false ∧
      ∀ k : ℚ,
        Source.isPlaying env (Source.pause env fade s v).1
          (env.soundUpdate k (Source.pause env fade s v).2) = true →
        (Source.pause env fade s v).1.fadeTime + (Source.pause env fade s v).1.fadeSpeed * k
          ≤ 0 →
        Source.isPaused (Source.update env k (Source.pause env fade s v).1
          (Source.pause env fade s v).2).1 = true) ∧
    (¬ fade > 0 →
      ((Source.stop env fade s v).1.fadeTime = 0 ∧
        (Source.stop env fade s v).1.fadeSpeed = 0 ∧
        (Source.stop env fade s v).1.paused = false ∧
        (Source.stop env fade s v).2
          = (if env.streamed then env.rewindStream { v with state := ALState.stopped }
              else { v with state := ALState.stopped }) ∧
        (env.locked = false →
          (Source.stop env fade s v).1.sourceId = 0 ∧
          (Source.stop env fade s v).1.bound = false) ∧
        (env.locked = true →
          (Source.stop env fade s v).1.sourceId = s.sourceId ∧
          (Source.stop env fade s v).1.bound = s.bound)) ∧
      ((Source.pause env fade s v).1.fadeTime = 0 ∧
        (Source.pause env fade s v).1.fadeSpeed = 0 ∧
        (Source.pause env fade s v).1.paused = true ∧
        (Source.pause env fade s v).1.sampleOffset = v.offset ∧
        (Source.pause env fade s v).1.bound = s.bound ∧
        (Source.pause env fade s v).2
          = (if env.streamed then env.unqueueBuffers { v with state := ALState.paused }
              else { v with state := ALState.stopped }) ∧
        (env.locked = false → (Source.pause env fade s v).1.sourceId = 0) ∧
        (env.locked = true → (Source.pause env fade s v).1.sourceId = s.sourceId) ∧
        Source.isPaused (Source.pause env fade s v).1 = true)) ∧
    (∀ (s0 : Source) (v0 : Voice) (f : ℚ), s0.sourceId = 0 →
      Source.stop env f s0 v0 = (s0, v0) ∧ Source.pause env f s0 v0 = (s0, v0)) := by
  refine ⟨?_, ?_, ?_⟩
  · intro hf
    have hp := Source.stop_fading env fade true s v hid hf
    have hneg : (-1 : ℚ) / fade < 0 := div_neg_of_neg_of_pos (by norm_num) hf
    refine ⟨Source.stop_fading env fade false s v hid hf, hp, ?_, ?_⟩
    · unfold Source.pause
      rw [hp]
      simp [Source.isPaused, Source.isFading, ne_of_lt hneg]
    · intro k hpl hle
      refine Source.update_out_isPaused env k _ _ hpl ?_ hle ?_
      · unfold Source.pause
        rw [hp]
        exact hneg
      · unfold Source.pause
        rw [hp]
  · intro hf
    constructor
    · unfold Source.stop
      rw [Source.stop_now env fade s v hid hf]
      obtain ⟨u1, u2, _, _, u5, u6⟩ :=
        Source.unbind_fields env { s with fadeTime := 0, fadeSpeed := 0 }
      refine ⟨u1, u2, rfl, rfl, u5, ?_⟩
      intro hl
      show (Source.unbind env _).sourceId = _ ∧ (Source.unbind env _).bound = _
      rw [u6 hl]
      exact ⟨rfl, rfl⟩
    · unfold Source.pause
      rw [Source.pause_now env fade s v hid hf]
      cases hl : env.locked
      · exact ⟨rfl, rfl, rfl, rfl, rfl, rfl, fun _ => rfl, fun h => Bool.noConfusion h,
          by simp [Source.isPaused, Source.isFading]⟩
      · exact ⟨rfl, rfl, rfl, rfl, rfl, rfl, fun h => Bool.noConfusion h, fun _ => rfl,
          by simp [Source.isPaused, Source.isFading]⟩
  · intro s0 v0 f h0
    exact ⟨Source.stop_unbound env f false s0 v0 h0, Source.stop_unbound env f true s0 v0 h0⟩

/-- Witness of C27: the source that `play(0, false)` has started, with source id 1. -/
theorem C27_stop_pause_witness :
    (Source.play demoSourceEnv 0 false Source.create demoVoice).1.1.sourceId ≠ 0 ∧
    ∀ (s0 : Source) (v0 : Voice) (f : ℚ), s0.sourceId = 0 →
      Source.stop demoSourceEnv f s0 v0 = (s0, v0) ∧
      Source.pause demoSourceEnv f s0 v0 = (s0, v0) :=
  ⟨by decide,
    (C27_stop_pause demoSourceEnv 0
      (Source.play demoSourceEnv 0 false Source.create demoVoice).1.1
      (Source.play demoSourceEnv 0 false Source.create demoVoice).1.2 (by decide)).2.2⟩

/-! ## The buffer queue of the OpenSLES player -/

namespace OpenSLES

variable {Q BS : Type}

theorem enqueueBuffer_fields (E : Env Q BS) (p : Player Q BS) :
    (_enqueueBuffer E p).buffer = p.buffer ∧ (_enqueueBuffer E p).stillPlaying = p.stillPlaying ∧
    p.buffersEnqueued ≤ (_enqueueBuffer E p).buffersEnqueued ∧
    (_enqueueBuffer E p).buffersEnqueued ≤ p.buffersEnqueued + 1 := by
  unfold _enqueueBuffer
  split
  · exact ⟨rfl, rfl, by show p.buffersEnqueued ≤ p.buffersEnqueued + 1; omega, le_refl _⟩
  · exact ⟨rfl, rfl, le_refl _, by omega⟩

/-- The enqueue loop adds to `buffersEnqueued` the number of buffers accepted, at most one
for each round. -/
theorem enqueueTimes_bounds (E : Env Q BS) :
    ∀ (n : Nat) (p : Player Q BS),
      (enqueueTimes E n p).buffer = p.buffer ∧
      p.buffersEnqueued ≤ (enqueueTimes E n p).buffersEnqueued ∧
      (enqueueTimes E n p).buffersEnqueued ≤ p.buffersEnqueued + n
  | 0, p => ⟨rfl, le_refl _, by show p.buffersEnqueued ≤ p.buffersEnqueued + ((0 : Nat) : Int); omega⟩
  | n + 1, p => by
    obtain ⟨h1, _, h3, h4⟩ := enqueueBuffer_fields E p
    obtain ⟨i1, i2, i3⟩ := enqueueTimes_bounds E n (_enqueueBuffer E p)
    refine ⟨i1.trans h1, le_trans h3 i2, ?_⟩
    show (enqueueTimes E n (_enqueueBuffer E p)).buffersEnqueued
      ≤ p.buffersEnqueued + ((n + 1 : Nat) : Int)
    push_cast
    omega

/-- When `Enqueue` accepts the stream `n` times, the enqueue loop leaves the queue with these
`n` buffers added and `buffersEnqueued` raised by `n`. -/
theorem enqueueTimes_accepted (E : Env Q BS) :
    ∀ (n : Nat) (p : Player Q BS) (q1 : Q),
      enqueueList E (List.replicate n (SLBuffer.pcm (E.streamSize p.buffer))) p.queue = some q1 →
      enqueueTimes E n p = { p with queue := q1, buffersEnqueued := p.buffersEnqueued + n }
  | 0, p, q1, h => by
    have hq : p.queue = q1 := Option.some.inj h
    show p = { p with queue := q1, buffersEnqueued := p.buffersEnqueued + ((0 : Nat) : Int) }
    rw [← hq]
    simp
  | n + 1, p, q1, h => by
    rw [List.replicate_succ, enqueueList] at h
    cases he : E.enqueue p.queue (SLBuffer.pcm (E.streamSize p.buffer)) with
    | none =>
      rw [he] at h
      exact Option.noConfusion h
    | some q0 =>
      rw [he] at h
      have hstep : _enqueueBuffer E p
          = { p with queue := q0, buffersEnqueued := p.buffersEnqueued + 1 } := by
        unfold _enqueueBuffer
        rw [he]
      have ih := enqueueTimes_accepted E n
        { p with queue := q0, buffersEnqueued := p.buffersEnqueued + 1 } q1 h
      show enqueueTimes E n (_enqueueBuffer E p) = _
      rw [hstep, ih]
      have hsum : p.buffersEnqueued + 1 + (n : Int)
          = p.buffersEnqueued + ((n + 1 : Nat) : Int) := by
        push_cast
        omega
      exact congrArg (fun k : Int => ({ p with queue := q1, buffersEnqueued := k } : Player Q BS))
        hsum

end OpenSLES

/-- C28: `_systemUpdateNormal` of a player that is not looping changes nothing. On a looping
player it comes to its test `buffersEnqueued == 0` with `stillPlaying` set and with
`buffersEnqueued` not above its value before; when no buffer has been processed the queue and
`buffersEnqueued` are as before; when `processed > 0` buffers have been processed and
`Enqueue` accepts the stream of the buffer `processed` times, the queue holds these buffers
in addition and `buffersEnqueued` is as before the call, so 2 stays 2; and `_stop()` is called
exactly when `buffersEnqueued` is 0 at that test. -/
theorem C28_systemUpdateNormal {Q BS : Type} (E : OpenSLES.Env Q BS)
    (p : OpenSLES.Player Q BS) :
    (p.looping = false → OpenSLES._systemUpdateNormal E p = p) ∧
    (p.looping = true →
      (OpenSLES.updateNormalRequeue E p).stillPlaying = true ∧
      (OpenSLES.updateNormalRequeue E p).buffersEnqueued ≤ p.buffersEnqueued ∧
      (OpenSLES._getProcessedBuffersCount E p ≤ 0 →
        (OpenSLES.updateNormalRequeue E p).queue = p.queue ∧
        (OpenSLES.updateNormalRequeue E p).buffersEnqueued = p.buffersEnqueued) ∧
      (∀ q1 : Q, 0 < OpenSLES._getProcessedBuffersCount E p →
        OpenSLES.enqueueList E
            (List.replicate (OpenSLES._getProcessedBuffersCount E p).toNat
              (OpenSLES.SLBuffer.pcm (E.streamSize p.buffer))) p.queue = some q1 →
        (OpenSLES.updateNormalRequeue E p).queue = q1 ∧
        (OpenSLES.updateNormalRequeue E p).buffersEnqueued = p.buffersEnqueued ∧
        (p.buffersEnqueued = OpenSLES.NORMAL_BUFFER_COUNT →
          (OpenSLES.updateNormalRequeue E p).buffersEnqueued = 2)) ∧
      ((OpenSLES.updateNormalRequeue E p).buffersEnqueued = 0 →
        OpenSLES._systemUpdateNormal E p = E.stop (OpenSLES.updateNormalRequeue E p)) ∧
      ((OpenSLES.updateNormalRequeue E p).buffersEnqueued ≠ 0 →
        OpenSLES._systemUpdateNormal E p = OpenSLES.updateNormalRequeue E p)) := by
  constructor
  · intro hl
    unfold OpenSLES._systemUpdateNormal
    rw [hl]
    rfl
  · intro hl
    have hbound : (OpenSLES.updateNormalRequeue E p).buffersEnqueued ≤ p.buffersEnqueued := by
      unfold OpenSLES.updateNormalRequeue
      simp only
      split
      · next hpos =>
        have hb := (OpenSLES.enqueueTimes_bounds E
          (OpenSLES._getProcessedBuffersCount E p).toNat
          { p with buffersEnqueued :=
              p.buffersEnqueued - OpenSLES._getProcessedBuffersCount E p }).2.2
        have hcast : (((OpenSLES._getProcessedBuffersCount E p).toNat : Nat) : Int)
            = OpenSLES._getProcessedBuffersCount E p := Int.toNat_of_nonneg (le_of_lt hpos)
        rw [hcast] at hb
        show (OpenSLES.enqueueTimes E _ _).buffersEnqueued ≤ p.buffersEnqueued
        have : p.buffersEnqueued - OpenSLES._getProcessedBuffersCount E p
            + OpenSLES._getProcessedBuffersCount E p = p.buffersEnqueued := by omega
        exact le_trans hb (le_of_eq this)
      · exact le_refl _
    refine ⟨rfl, hbound, ?_, ?_, ?_, ?_⟩
    · intro hno
      unfold OpenSLES.updateNormalRequeue
      simp only
      rw [if_neg (not_lt.mpr hno)]
      exact ⟨rfl, rfl⟩
    · intro q1 hpos hacc
      have hcast : (((OpenSLES._getProcessedBuffersCount E p).toNat : Nat) : Int)
          = OpenSLES._getProcessedBuffersCount E p := Int.toNat_of_nonneg (le_of_lt hpos)
      have heq := OpenSLES.enqueueTimes_accepted E
        (OpenSLES._getProcessedBuffersCount E p).toNat
        { p with buffersEnqueued :=
            p.buffersEnqueued - OpenSLES._getProcessedBuffersCount E p } q1 hacc
      have hbe : (OpenSLES.updateNormalRequeue E p).buffersEnqueued = p.buffersEnqueued := by
        unfold OpenSLES.updateNormalRequeue
        simp only
        rw [if_pos hpos, heq]
        show p.buffersEnqueued - OpenSLES._getProcessedBuffersCount E p
          + (((OpenSLES._getProcessedBuffersCount E p).toNat : Nat) : Int) = p.buffersEnqueued
        rw [hcast]
        omega
      refine ⟨?_, hbe, ?_⟩
      · unfold OpenSLES.updateNormalRequeue
        simp only
        rw [if_pos hpos, heq]
      · intro h2
        rw [hbe, h2]
        rfl
    · intro h0
      unfold OpenSLES._systemUpdateNormal
      rw [if_pos hl, if_pos h0]
    · intro h0
      unfold OpenSLES._systemUpdateNormal
      rw [if_pos hl, if_neg h0]

/-- C28 on the queue of two buffers of which the backend has finished one: the looping
player enqueues one buffer, holds two again and is not stopped. -/
theorem C28_systemUpdateNormal_witness :
    (OpenSLES.updateNormalRequeue (OpenSLES.demoEnv 2)
        { OpenSLES.demoPlayer false true with buffersEnqueued := 2, queue := 1 }).queue = 2 ∧
    (OpenSLES.updateNormalRequeue (OpenSLES.demoEnv 2)
        { OpenSLES.demoPlayer false true with buffersEnqueued := 2, queue := 1 }).buffersEnqueued
      = 2 ∧
    OpenSLES._systemUpdateNormal (OpenSLES.demoEnv 2)
        { OpenSLES.demoPlayer false true with buffersEnqueued := 2, queue := 1 }
      = OpenSLES.updateNormalRequeue (OpenSLES.demoEnv 2)
        { OpenSLES.demoPlayer false true with buffersEnqueued := 2, queue := 1 } :=
  have h := (C28_systemUpdateNormal (OpenSLES.demoEnv 2)
    { OpenSLES.demoPlayer false true with buffersEnqueued := 2, queue := 1 }).2 rfl
  have hq := h.2.2.2.1 2 (by decide) rfl
  ⟨hq.1, hq.2.2 rfl, h.2.2.2.2.2 (by rw [hq.2.2 rfl]; decide)⟩

/-! ## The ring of stream buffers of the OpenSLES player -/

namespace OpenSLES

variable {Q BS : Type}

/-- The loop of `_fillStreamBuffers` with at most four rounds: it advances `bufferIndex` by
the number of rounds modulo 4, writes slice `i + m` of the stream, padded with zeros, to the
slot `m` places after `bufferIndex`, and leaves the other slots, the queue and the counter
as they are. -/
theorem fillLoop_spec (stream : Nat → Nat) :
    ∀ (n i : Nat) (size : Int) (p : Player Q BS), n ≤ 4 → p.bufferIndex < 4 →
      (fillLoop stream n i size p).bufferIndex = (p.bufferIndex + n) % 4 ∧
      (fillLoop stream n i size p).queue = p.queue ∧
      (fillLoop stream n i size p).buffersEnqueued = p.buffersEnqueued ∧
      (fillLoop stream n i size p).buffer = p.buffer ∧
      (∀ k : Nat, (∀ m : Nat, m < n → k ≠ (p.bufferIndex + m) % 4) →
        (fillLoop stream n i size p).streamBuffers k = p.streamBuffers k) ∧
      (∀ m j : Nat, m < n → j < 32768 →
        (fillLoop stream n i size p).streamBuffers ((p.bufferIndex + m) % 4) j
          = if (j : Int) < size - (m : Int) * 32768 then stream ((i + m) * 32768 + j) else 0)
  | 0, i, size, p, _, hb =>
    ⟨by show p.bufferIndex = _; omega, rfl, rfl, rfl, fun _ _ => rfl,
      fun m _ hm _ => absurd hm (Nat.not_lt_zero m)⟩
  | n + 1, i, size, p, hn, hb => by
    have h1b : (fillSlot stream i size p).bufferIndex = (p.bufferIndex + 1) % 4 := rfl
    have h1s : (fillSlot stream i size p).streamBuffers
        = Function.update p.streamBuffers p.bufferIndex
          (fun j =>
            if (j : Int) < min size 32768 then stream (i * 32768 + j)
            else if min size 32768 < 32768 ∧ (j : Int) < 32768 then 0
            else p.streamBuffers p.bufferIndex j) := rfl
    obtain ⟨a1, a2, a3, a4, a5, a6⟩ := fillLoop_spec stream n (i + 1) (size - STREAM_BUFFER_SIZE)
      (fillSlot stream i size p) (by omega) (by rw [h1b]; omega)
    have hS : ((STREAM_BUFFER_SIZE : Nat) : Int) = 32768 := rfl
    have e : fillLoop stream (n + 1) i size p
        = fillLoop stream n (i + 1) (size - STREAM_BUFFER_SIZE) (fillSlot stream i size p) := rfl
    rw [e]
    refine ⟨?_, a2, a3, a4, ?_, ?_⟩
    · rw [a1, h1b]
      omega
    · intro k hk
      rw [a5 k (fun m hm => by have := hk (m + 1) (by omega); rw [h1b]; omega), h1s]
      have h0 := hk 0 (by omega)
      exact Function.update_noteq (by omega) _ _
    · intro m j hm hj
      cases m with
      | zero =>
        have hb0 : (p.bufferIndex + 0) % 4 = p.bufferIndex := by omega
        rw [hb0, a5 p.bufferIndex (fun m hm => by rw [h1b]; omega), h1s,
          Function.update_same]
        by_cases hlt : (j : Int) < size
        · rw [if_pos (by omega), if_pos (by omega)]
          rfl
        · rw [if_neg (by omega), if_pos (by omega), if_neg (by omega)]
      | succ m =>
        have hidx : ((fillSlot stream i size p).bufferIndex + m) % 4
            = (p.bufferIndex + (m + 1)) % 4 := by
          rw [h1b]
          omega
        have h6 := a6 m j (by omega) hj
        rw [hidx] at h6
        rw [h6]
        have hi : (i + 1 + m) * 32768 + j = (i + (m + 1)) * 32768 + j := by ring
        rw [hi]
        by_cases hlt : (j : Int) < size - STREAM_BUFFER_SIZE - (m : Int) * 32768
        · rw [if_pos hlt, if_pos (by push_cast; omega)]
        · rw [if_neg hlt, if_neg (by push_cast; omega)]

theorem ringSlots_succ (b n : Nat) :
    ringSlots b (n + 1)
      = SLBuffer.slot ((b % 4 : Nat) : Int) STREAM_BUFFER_SIZE :: ringSlots ((b + 1) % 4) n := by
  unfold ringSlots
  rw [List.range_succ_eq_map, List.map_cons, List.map_map]
  refine congrArg₂ List.cons rfl (List.map_congr_left ?_)
  intro i _
  have hi : (b + Nat.succ i) % 4 = ((b + 1) % 4 + i) % 4 := by omega
  show SLBuffer.slot (((b + Nat.succ i) % 4 : Nat) : Int) STREAM_BUFFER_SIZE
    = SLBuffer.slot ((((b + 1) % 4 + i) % 4 : Nat) : Int) STREAM_BUFFER_SIZE
  rw [hi]

theorem ring_next (b : Nat) (hb : b < 4) :
    ((b : Int) + 1).tmod STREAM_BUFFER_COUNT = (((b + 1) % 4 : Nat) : Int) := by
  have h4 : ((STREAM_BUFFER_COUNT : Nat) : Int) = 4 := rfl
  rw [h4, Int.tmod_eq_emod (by omega) (by omega)]
  omega

/-- When `Enqueue` accepts the `m` slots from slot `b` on, the loop of `_enqueueStreamBuffers`
enqueues them in this order and counts `m`. -/
theorem enqueueStreamLoop_accepted (E : Env Q BS) :
    ∀ (m b : Nat) (queued : Int) (q q1 : Q), b < 4 →
      enqueueList E (ringSlots b m) q = some q1 →
      enqueueStreamLoop E m (b : Int) queued q = (queued + m, q1)
  | 0, b, queued, q, q1, _, h => by
    have hq : q = q1 := Option.some.inj h
    show (queued, q) = (queued + ((0 : Nat) : Int), q1)
    rw [hq]
    simp
  | m + 1, b, queued, q, q1, hb, h => by
    rw [ringSlots_succ, Nat.mod_eq_of_lt hb, enqueueList] at h
    unfold enqueueStreamLoop
    cases he : E.enqueue q (SLBuffer.slot (b : Int) STREAM_BUFFER_SIZE) with
    | none =>
      rw [he] at h
      exact Option.noConfusion h
    | some q0 =>
      rw [he] at h
      simp only
      rw [ring_next b hb,
        enqueueStreamLoop_accepted E m ((b + 1) % 4) (queued + 1) q0 q1 (by omega) h]
      have hsum : queued + 1 + (m : Int) = queued + ((m + 1 : Nat) : Int) := by
        push_cast
        omega
      rw [hsum]

/-- The loop of `_enqueueStreamBuffers` enqueues the first `k` of the `m` slots from slot `b`
on, in this order, and counts `k`. -/
theorem enqueueStreamLoop_initial (E : Env Q BS) :
    ∀ (m b : Nat) (queued : Int) (q : Q), b < 4 →
      ∃ k : Nat, k ≤ m ∧
        enqueueList E (ringSlots b k) q = some (enqueueStreamLoop E m (b : Int) queued q).2 ∧
        (enqueueStreamLoop E m (b : Int) queued q).1 = queued + k
  | 0, b, queued, q, _ => ⟨0, le_refl _, rfl, by
      show queued = queued + ((0 : Nat) : Int)
      simp⟩
  | m + 1, b, queued, q, hb => by
    unfold enqueueStreamLoop
    cases he : E.enqueue q (SLBuffer.slot (b : Int) STREAM_BUFFER_SIZE) with
    | none =>
      exact ⟨0, Nat.zero_le _, rfl, by
        show queued = queued + ((0 : Nat) : Int)
        simp⟩
    | some q0 =>
      simp only
      rw [ring_next b hb]
      obtain ⟨k, hk, h1, h2⟩ :=
        enqueueStreamLoop_initial E m ((b + 1) % 4) (queued + 1) q0 (by omega)
      refine ⟨k + 1, by omega, ?_, ?_⟩
      · rw [ringSlots_succ, Nat.mod_eq_of_lt hb, enqueueList, he]
        exact h1
      · rw [h2]
        push_cast
        omega

theorem ringSlots_index (b n : Nat) (x : SLBuffer) (hx : x ∈ ringSlots b n) :
    ∃ idx : Nat, idx < STREAM_BUFFER_COUNT ∧ x = SLBuffer.slot idx STREAM_BUFFER_SIZE := by
  unfold ringSlots at hx
  obtain ⟨i, _, hi⟩ := List.mem_map.mp hx
  exact ⟨(b + i) % STREAM_BUFFER_COUNT, Nat.mod_lt _ (by decide), hi.symm⟩

end OpenSLES

/-- C29: for `bufferIndex` in [0, 4) and `count` in [1, 4], when `load` returns a size in
[0, count · STREAM_BUFFER_SIZE]: `_fillStreamBuffers(count)` returns
`n = ⌈size / STREAM_BUFFER_SIZE⌉`, which is between 0 and `count`; for each `i < n` the ring slot
`(bufferIndex + i) mod 4` holds slice `i` of the stream, with zeros from the end of the loaded
bytes to the end of the slot, and every slice but the last is made of loaded bytes only; the
other slots, the queue and `buffersEnqueued` are as before; `bufferIndex` is advanced by `n`
modulo 4 and is below 4. The following `_enqueueStreamBuffers(n)` enqueues the first `k` of
these `n` slots in the order they were filled, each with length `STREAM_BUFFER_SIZE`, and adds
`k` to `buffersEnqueued`; when `Enqueue` accepts all `n` of them, it enqueues all `n`. Every
slot index is below 4. -/
theorem C29_stream_ring {Q BS : Type} (E : OpenSLES.Env Q BS) (p : OpenSLES.Player Q BS)
    (count : Int) (hb : p.bufferIndex < OpenSLES.STREAM_BUFFER_COUNT)
    (h1 : 1 ≤ count) (h4 : count ≤ OpenSLES.STREAM_BUFFER_COUNT)
    (h0 : 0 ≤ (E.load p.looping (count * OpenSLES.STREAM_BUFFER_SIZE) p.buffer).1)
    (hs : (E.load p.looping (count * OpenSLES.STREAM_BUFFER_SIZE) p.buffer).1
      ≤ count * OpenSLES.STREAM_BUFFER_SIZE) :
    (OpenSLES._fillStreamBuffers E count p).1
      = ⌈(((E.load p.looping (count * OpenSLES.STREAM_BUFFER_SIZE) p.buffer).1 : Int) : ℚ)
          / ((OpenSLES.STREAM_BUFFER_SIZE : Nat) : ℚ)⌉ ∧
    0 ≤ (OpenSLES._fillStreamBuffers E count p).1 ∧
    (OpenSLES._fillStreamBuffers E count p).1 ≤ count ∧
    (∀ i j : Nat, (i : Int) < (OpenSLES._fillStreamBuffers E count p).1 →
      j < OpenSLES.STREAM_BUFFER_SIZE →
      (OpenSLES._fillStreamBuffers E count p).2.streamBuffers
          ((p.bufferIndex + i) % OpenSLES.STREAM_BUFFER_COUNT) j
        = if ((i * OpenSLES.STREAM_BUFFER_SIZE + j : Nat) : Int)
              < (E.load p.looping (count * OpenSLES.STREAM_BUFFER_SIZE) p.buffer).1
          then E.streamByte (E.load p.looping (count * OpenSLES.STREAM_BUFFER_SIZE) p.buffer).2
            (i * OpenSLES.STREAM_BUFFER_SIZE + j)
          else 0) ∧
    (∀ i j : Nat, (i : Int) + 1 < (OpenSLES._fillStreamBuffers E count p).1 →
      j < OpenSLES.STREAM_BUFFER_SIZE →
      ((i * OpenSLES.STREAM_BUFFER_SIZE + j : Nat) : Int)
        < (E.load p.looping (count * OpenSLES.STREAM_BUFFER_SIZE) p.buffer).1) ∧
    (∀ k : Nat,
      (∀ i : Nat, (i : Int) < (OpenSLES._fillStreamBuffers E count p).1 →
        k ≠ (p.bufferIndex + i) % OpenSLES.STREAM_BUFFER_COUNT) →
      (OpenSLES._fillStreamBuffers E count p).2.streamBuffers k = p.streamBuffers k) ∧
    (OpenSLES._fillStreamBuffers E count p).2.bufferIndex
      = (p.bufferIndex + (OpenSLES._fillStreamBuffers E count p).1.toNat)
          % OpenSLES.STREAM_BUFFER_COUNT ∧
    (OpenSLES._fillStreamBuffers E count p).2.bufferIndex < OpenSLES.STREAM_BUFFER_COUNT ∧
    (OpenSLES._fillStreamBuffers E count p).2.queue = p.queue ∧
    (OpenSLES._fillStreamBuffers E count p).2.buffersEnqueued = p.buffersEnqueued ∧
    (∃ k : Nat, k ≤ (OpenSLES._fillStreamBuffers E count p).1.toNat ∧
      OpenSLES.enqueueList E (OpenSLES.ringSlots p.bufferIndex k)
          (OpenSLES._fillStreamBuffers E count p).2.queue
        = some (OpenSLES._enqueueStreamBuffers E (OpenSLES._fillStreamBuffers E count p).1
            (OpenSLES._fillStreamBuffers E count p).2).queue ∧
      (OpenSLES._enqueueStreamBuffers E (OpenSLES._fillStreamBuffers E count p).1
          (OpenSLES._fillStreamBuffers E count p).2).buffersEnqueued
        = (OpenSLES._fillStreamBuffers E count p).2.buffersEnqueued + k) ∧
    (∀ q1 : Q,
      OpenSLES.enqueueList E
          (OpenSLES.ringSlots p.bufferIndex (OpenSLES._fillStreamBuffers E count p).1.toNat)
          (OpenSLES._fillStreamBuffers E count p).2.queue = some q1 →
      (OpenSLES._enqueueStreamBuffers E (OpenSLES._fillStreamBuffers E count p).1
          (OpenSLES._fillStreamBuffers E count p).2).queue = q1 ∧
      (OpenSLES._enqueueStreamBuffers E (OpenSLES._fillStreamBuffers E count p).1
          (OpenSLES._fillStreamBuffers E count p).2).buffersEnqueued
        = (OpenSLES._fillStreamBuffers E count p).2.buffersEnqueued
          + (OpenSLES._fillStreamBuffers E count p).1) ∧
    (∀ x ∈ OpenSLES.ringSlots p.bufferIndex (OpenSLES._fillStreamBuffers E count p).1.toNat,
      ∃ idx : Nat, idx < OpenSLES.STREAM_BUFFER_COUNT ∧
        x = OpenSLES.SLBuffer.slot idx OpenSLES.STREAM_BUFFER_SIZE) := by
  have hS : ((OpenSLES.STREAM_BUFFER_SIZE : Nat) : Int) = 32768 := rfl
  have hSn : OpenSLES.STREAM_BUFFER_SIZE = 32768 := rfl
  have hC : ((OpenSLES.STREAM_BUFFER_COUNT : Nat) : Int) = 4 := rfl
  have hCn : OpenSLES.STREAM_BUFFER_COUNT = 4 := rfl
  generalize hr : E.load p.looping (count * OpenSLES.STREAM_BUFFER_SIZE) p.buffer = r at h0 hs ⊢
  have hfill : OpenSLES._fillStreamBuffers E count p
      = ((r.1 + OpenSLES.STREAM_BUFFER_SIZE - 1).tdiv OpenSLES.STREAM_BUFFER_SIZE,
          OpenSLES.fillLoop (E.streamByte r.2)
            ((r.1 + OpenSLES.STREAM_BUFFER_SIZE - 1).tdiv OpenSLES.STREAM_BUFFER_SIZE).toNat 0 r.1
            { p with buffer := r.2 }) := by
    rw [← hr]
    rfl
  rw [hfill]
  simp only
  have hn : (r.1 + OpenSLES.STREAM_BUFFER_SIZE - 1).tdiv OpenSLES.STREAM_BUFFER_SIZE
      = (r.1 + 32768 - 1) / 32768 := by
    rw [hS, Int.tdiv_eq_ediv (by omega) (by omega)]
  generalize (r.1 + OpenSLES.STREAM_BUFFER_SIZE - 1).tdiv OpenSLES.STREAM_BUFFER_SIZE = n at hn ⊢
  rw [hS] at hs
  rw [hC] at h4
  rw [hCn] at hb
  have hn0 : 0 ≤ n := by omega
  have hnc : n ≤ count := by omega
  have hlo : (n - 1) * 32768 < r.1 ∨ (n = 0 ∧ r.1 = 0) := by omega
  have hhi : r.1 ≤ n * 32768 := by omega
  have hcast : ((n.toNat : Nat) : Int) = n := Int.toNat_of_nonneg hn0
  have hN4 : n.toNat ≤ 4 := by omega
  obtain ⟨s1, s2, s3, _, s5, s6⟩ :=
    OpenSLES.fillLoop_spec (E.streamByte r.2) n.toNat 0 r.1 { p with buffer := r.2 } hN4 hb
  generalize OpenSLES.fillLoop (E.streamByte r.2) n.toNat 0 r.1 { p with buffer := r.2 } = pf
    at s1 s2 s3 s5 s6 ⊢
  have s1 : pf.bufferIndex = (p.bufferIndex + n.toNat) % 4 := s1
  have s2 : pf.queue = p.queue := s2
  have s3 : pf.buffersEnqueued = p.buffersEnqueued := s3
  have hidx : ((pf.bufferIndex : Int) + OpenSLES.STREAM_BUFFER_COUNT - n).tmod
      OpenSLES.STREAM_BUFFER_COUNT = (p.bufferIndex : Int) := by
    rw [hC, Int.tmod_eq_emod (by omega) (by omega), s1]
    omega
  have henq : OpenSLES._enqueueStreamBuffers E n pf
      = { pf with
          queue := (OpenSLES.enqueueStreamLoop E n.toNat (p.bufferIndex : Int) 0 pf.queue).2
          buffersEnqueued := pf.buffersEnqueued
            + (OpenSLES.enqueueStreamLoop E n.toNat (p.bufferIndex : Int) 0 pf.queue).1 } := by
    unfold OpenSLES._enqueueStreamBuffers
    simp only
    rw [hidx]
  refine ⟨?_, hn0, hnc, ?_, ?_, ?_, ?_, ?_, s2, s3, ?_, ?_, ?_⟩
  · symm
    rw [Int.ceil_eq_iff]
    have hpos : (0 : ℚ) < ((OpenSLES.STREAM_BUFFER_SIZE : Nat) : ℚ) := by
      rw [hSn]
      norm_num
    constructor
    · rw [lt_div_iff₀ hpos, hSn]
      rcases hlo with h | ⟨h, h2⟩
      · have : (((n - 1) * 32768 : Int) : ℚ) < ((r.1 : Int) : ℚ) := by exact_mod_cast h
        push_cast at this
        push_cast
        exact this
      · rw [h, h2]
        norm_num
    · rw [div_le_iff₀ hpos, hSn]
      have : ((r.1 : Int) : ℚ) ≤ ((n * 32768 : Int) : ℚ) := by exact_mod_cast hhi
      push_cast at this
      push_cast
      exact this
  · intro i j hi hj
    rw [hSn] at hj
    rw [hCn, hSn]
    have h6 := s6 i j (by omega) hj
    have h6 : pf.streamBuffers ((p.bufferIndex + i) % 4) j
        = if (j : Int) < r.1 - (i : Int) * 32768 then E.streamByte r.2 ((0 + i) * 32768 + j)
          else 0 := h6
    rw [h6, Nat.zero_add]
    by_cases hlt : (j : Int) < r.1 - (i : Int) * 32768
    · rw [if_pos hlt, if_pos (by push_cast; omega)]
    · rw [if_neg hlt, if_neg (by push_cast; omega)]
  · intro i j hi hj
    rw [hSn] at hj
    rw [hSn]
    push_cast
    omega
  · intro k hk
    rw [hCn] at hk
    exact s5 k (fun m hm => hk m (by omega))
  · rw [hCn]
    exact s1
  · rw [hCn, s1]
    omega
  · obtain ⟨k, hk, e1, e2⟩ :=
      OpenSLES.enqueueStreamLoop_initial E n.toNat p.bufferIndex 0 pf.queue hb
    refine ⟨k, hk, ?_, ?_⟩
    · rw [henq]
      exact e1
    · rw [henq]
      show pf.buffersEnqueued + _ = _
      rw [e2]
      omega
  · intro q1 hq
    have e := OpenSLES.enqueueStreamLoop_accepted E n.toNat p.bufferIndex 0 pf.queue q1 hb hq
    rw [henq, e]
    refine ⟨rfl, ?_⟩
    show pf.buffersEnqueued + (0 + ((n.toNat : Nat) : Int)) = _
    rw [hcast]
    omega
  · intro x hx
    exact OpenSLES.ringSlots_index p.bufferIndex n.toNat x hx

/-- C29 on a player whose next slot is slot 3, asked for two buffers when 40000 bytes are
loaded: slot 3 and slot 0 are filled, the second with zeros after its loaded bytes, the index
moves on to slot 1 and the queue takes both slots. -/
theorem C29_stream_ring_witness :
    OpenSLES.demoStream.bufferIndex < OpenSLES.STREAM_BUFFER_COUNT ∧
    (0 : Int) ≤ ((OpenSLES.demoEnv 4).load OpenSLES.demoStream.looping
      (2 * OpenSLES.STREAM_BUFFER_SIZE) OpenSLES.demoStream.buffer).1 ∧
    ((OpenSLES.demoEnv 4).load OpenSLES.demoStream.looping
      (2 * OpenSLES.STREAM_BUFFER_SIZE) OpenSLES.demoStream.buffer).1
        ≤ 2 * OpenSLES.STREAM_BUFFER_SIZE ∧
    (OpenSLES._fillStreamBuffers (OpenSLES.demoEnv 4) 2 OpenSLES.demoStream).1 = 2 ∧
    (OpenSLES._fillStreamBuffers (OpenSLES.demoEnv 4) 2 OpenSLES.demoStream).2.bufferIndex
      = (OpenSLES.demoStream.bufferIndex
          + (OpenSLES._fillStreamBuffers (OpenSLES.demoEnv 4) 2 OpenSLES.demoStream).1.toNat)
        % OpenSLES.STREAM_BUFFER_COUNT ∧
    (OpenSLES._enqueueStreamBuffers (OpenSLES.demoEnv 4)
        (OpenSLES._fillStreamBuffers (OpenSLES.demoEnv 4) 2 OpenSLES.demoStream).1
        (OpenSLES._fillStreamBuffers (OpenSLES.demoEnv 4) 2 OpenSLES.demoStream).2).queue = 2 :=
  have h := C29_stream_ring (OpenSLES.demoEnv 4) OpenSLES.demoStream 2 (by decide) (by decide)
    (by decide) (by decide) (by decide)
  ⟨by decide, by decide, by decide, by decide, h.2.2.2.2.2.2.1,
    (h.2.2.2.2.2.2.2.2.2.2.2.1 2 rfl).1⟩

/-! ## The counter `buffersEnqueued` of the OpenSLES player -/

namespace OpenSLES

variable {Q BS : Type}

theorem enqueueBuffer_flags (E : Env Q BS) (p : Player Q BS) :
    (_enqueueBuffer E p).streamed = p.streamed ∧ (_enqueueBuffer E p).looping = p.looping ∧
    (_enqueueBuffer E p).paused = p.paused := by
  unfold _enqueueBuffer
  split <;> exact ⟨rfl, rfl, rfl⟩

theorem enqueueTimes_flags (E : Env Q BS) :
    ∀ (n : Nat) (p : Player Q BS),
      (enqueueTimes E n p).streamed = p.streamed ∧ (enqueueTimes E n p).looping = p.looping ∧
      (enqueueTimes E n p).paused = p.paused
  | 0, _ => ⟨rfl, rfl, rfl⟩
  | n + 1, p => by
    obtain ⟨h1, h2, h3⟩ := enqueueBuffer_flags E p
    obtain ⟨i1, i2, i3⟩ := enqueueTimes_flags E n (_enqueueBuffer E p)
    exact ⟨i1.trans h1, i2.trans h2, i3.trans h3⟩

/-- The branch of `_systemPrepareBuffer` for a sound that is not streamed, not looping and
not paused is one `_enqueueBuffer`. -/
theorem prepare_non_looping (E : Env Q BS) (p : Player Q BS) (hs : p.streamed = false)
    (hl : p.looping = false) (hp : p.paused = false) :
    _systemPrepareBuffer E p = _enqueueBuffer E p := by
  unfold _systemPrepareBuffer
  rw [hs, hl, hp]
  rfl

/-- The branch of `_systemPrepareBuffer` for a looping sound that is not streamed and not
paused sets the counter to 0 and enqueues `NORMAL_BUFFER_COUNT` times. -/
theorem prepare_looping (E : Env Q BS) (p : Player Q BS) (hs : p.streamed = false)
    (hl : p.looping = true) (hp : p.paused = false) :
    _systemPrepareBuffer E p
      = enqueueTimes E NORMAL_BUFFER_COUNT { p with buffersEnqueued := 0 } := by
  unfold _systemPrepareBuffer
  rw [hs, hl, hp]
  rfl

theorem demoRounds_non_looping :
    ∀ n : Nat, (demoRounds false n).streamed = false ∧ (demoRounds false n).looping = false ∧
      (demoRounds false n).paused = false ∧ (demoRounds false n).buffersEnqueued = n ∧
      (demoRounds false n).queue ≤ 1
  | 0 => ⟨rfl, rfl, rfl, rfl, by decide⟩
  | n + 1 => by
    obtain ⟨h1, h2, h3, h4, _⟩ := demoRounds_non_looping n
    have e : demoRounds false (n + 1)
        = _systemPrepareBuffer (demoEnv NORMAL_BUFFER_COUNT) (demoPlayed (demoRounds false n)) :=
      rfl
    have e2 : _enqueueBuffer (demoEnv NORMAL_BUFFER_COUNT) (demoPlayed (demoRounds false n))
        = { demoPlayed (demoRounds false n) with
            queue := 1
            buffersEnqueued := (demoRounds false n).buffersEnqueued + 1 } := rfl
    rw [e, prepare_non_looping _ (demoPlayed (demoRounds false n)) h1 h2 h3, e2]
    refine ⟨h1, h2, h3, ?_, le_refl _⟩
    show (demoRounds false n).buffersEnqueued + 1 = ((n + 1 : Nat) : Int)
    rw [h4]
    push_cast
    rfl

theorem demoRounds_looping :
    ∀ n : Nat, (demoRounds true n).streamed = false ∧ (demoRounds true n).looping = true ∧
      (demoRounds true n).paused = false ∧ 0 ≤ (demoRounds true n).buffersEnqueued ∧
      (demoRounds true n).buffersEnqueued ≤ NORMAL_BUFFER_COUNT
  | 0 => ⟨rfl, rfl, rfl, by decide, by decide⟩
  | n + 1 => by
    obtain ⟨h1, h2, h3, _, _⟩ := demoRounds_looping n
    have e : demoRounds true (n + 1)
        = _systemPrepareBuffer (demoEnv NORMAL_BUFFER_COUNT) (demoPlayed (demoRounds true n)) :=
      rfl
    rw [e, prepare_looping _ (demoPlayed (demoRounds true n)) h1 h2 h3]
    obtain ⟨f1, f2, f3⟩ := enqueueTimes_flags (demoEnv NORMAL_BUFFER_COUNT) NORMAL_BUFFER_COUNT
      { demoPlayed (demoRounds true n) with buffersEnqueued := 0 }
    obtain ⟨_, b1, b2⟩ := enqueueTimes_bounds (demoEnv NORMAL_BUFFER_COUNT) NORMAL_BUFFER_COUNT
      { demoPlayed (demoRounds true n) with buffersEnqueued := 0 }
    exact ⟨f1.trans h1, f2.trans h2, f3.trans h3, b1, by
      have b3 : (0 : Int) + ((NORMAL_BUFFER_COUNT : Nat) : Int) = NORMAL_BUFFER_COUNT := by omega
      exact le_trans b2 (le_of_eq b3)⟩

end OpenSLES

/-- C30, the run that breaks the bound: on a player that is not streamed, not looping and not
paused, with a queue of `NORMAL_BUFFER_COUNT` buffers that always reports a count between 0 and
`buffersEnqueued`, `n` calls of `_systemPrepareBuffer`, before each of which the backend has
played the queued buffer, leave `buffersEnqueued = n`; after three calls it is 3, above
`NORMAL_BUFFER_COUNT`. The same run on a looping player, whose branch sets the counter to 0
first, stays between 0 and `NORMAL_BUFFER_COUNT`. -/
theorem C30_prepare_non_looping_unbounded :
    (∀ n : Nat,
      (OpenSLES.demoRounds false n).streamed = false ∧
      (OpenSLES.demoRounds false n).buffersEnqueued = n ∧
      (∃ c : Int, (OpenSLES.demoEnv OpenSLES.NORMAL_BUFFER_COUNT).getState
          (OpenSLES.demoRounds false n).queue = some c ∧
        0 ≤ c ∧ c ≤ (OpenSLES.demoRounds false n).buffersEnqueued) ∧
      (∃ c : Int, (OpenSLES.demoEnv OpenSLES.NORMAL_BUFFER_COUNT).getState
          (OpenSLES.demoPlayed (OpenSLES.demoRounds false n)).queue = some c ∧
        0 ≤ c ∧ c ≤ (OpenSLES.demoPlayed (OpenSLES.demoRounds false n)).buffersEnqueued)) ∧
    (OpenSLES.demoRounds false 3).buffersEnqueued = 3 ∧
    ¬ (OpenSLES.demoRounds false 3).buffersEnqueued ≤ OpenSLES.NORMAL_BUFFER_COUNT ∧
    (∀ n : Nat, 0 ≤ (OpenSLES.demoRounds true n).buffersEnqueued ∧
      (OpenSLES.demoRounds true n).buffersEnqueued ≤ OpenSLES.NORMAL_BUFFER_COUNT) := by
  refine ⟨?_, ?_, ?_, ?_⟩
  · intro n
    obtain ⟨h1, _, _, h4, h5⟩ := OpenSLES.demoRounds_non_looping n
    refine ⟨h1, h4, ⟨((OpenSLES.demoRounds false n).queue : Int), rfl, by omega, ?_⟩,
      ⟨0, rfl, le_refl _, ?_⟩⟩
    · rw [h4]
      cases n with
      | zero => exact le_of_eq rfl
      | succ n =>
        push_cast
        omega
    · show (0 : Int) ≤ (OpenSLES.demoRounds false n).buffersEnqueued
      rw [h4]
      omega
  · exact (OpenSLES.demoRounds_non_looping 3).2.2.2.1
  · rw [(OpenSLES.demoRounds_non_looping 3).2.2.2.1]
    decide
  · intro n
    exact ⟨(OpenSLES.demoRounds_looping n).2.2.2.1, (OpenSLES.demoRounds_looping n).2.2.2.2⟩

/-! ## Lemmas on `float` arithmetic -/

namespace F32
theorem pow2_eq_zpow (e : Int) : pow2 e = (2 : ℚ) ^ e := by
  unfold pow2
  split
  · next h =>
    obtain ⟨n, rfl⟩ := Int.eq_ofNat_of_zero_le h
    simp
  · next h =>
    have hn : 0 ≤ -e := by omega
    obtain ⟨n, hn2⟩ := Int.eq_ofNat_of_zero_le hn
    have he : e = -(n : Int) := by omega
    rw [hn2, he, Rat.mkRat_eq_div]
    simp

theorem pow2_pos (e : Int) : 0 < pow2 e := by
  rw [pow2_eq_zpow]
  positivity

theorem pow2_le_pow2 {a b : Int} (h : a ≤ b) : pow2 a ≤ pow2 b := by
  rw [pow2_eq_zpow, pow2_eq_zpow]
  exact zpow_le_zpow_right₀ (by norm_num) h

theorem pow2_add (a b : Int) : pow2 (a + b) = pow2 a * pow2 b := by
  rw [pow2_eq_zpow, pow2_eq_zpow, pow2_eq_zpow]
  exact zpow_add₀ (by norm_num) a b

theorem pow2_natCast (n : Nat) : pow2 (n : Int) = ((2 ^ n : Nat) : ℚ) := by
  rw [pow2_eq_zpow]
  simp

theorem natLog2Loop_eq : ∀ (fuel n : Nat), n ≤ fuel → natLog2Loop fuel n = Nat.log 2 n
  | 0, n, h => by
    have hn : n = 0 := by omega
    rw [hn]
    exact (Nat.log_of_lt (by norm_num)).symm
  | fuel + 1, n, h => by
    unfold natLog2Loop
    split
    · next h2 => exact (Nat.log_of_lt h2).symm
    · next h2 =>
      have h3 : 2 ≤ n := by omega
      rw [natLog2Loop_eq fuel (n / 2) (by omega), Nat.log_of_one_lt_of_le (by norm_num) h3]

theorem natLog2_eq (n : Nat) : natLog2 n = Nat.log 2 n := natLog2Loop_eq n n (le_refl n)

theorem natLog2_mono {m n : Nat} (h : m ≤ n) : natLog2 m ≤ natLog2 n := by
  rw [natLog2_eq, natLog2_eq]
  exact Nat.log_mono_right h

theorem pow_natLog2_le {n : Nat} (h : n ≠ 0) : 2 ^ natLog2 n ≤ n := by
  rw [natLog2_eq]
  exact Nat.pow_log_le_self 2 h

theorem lt_pow_natLog2 (n : Nat) : n < 2 ^ (natLog2 n + 1) := by
  rw [natLog2_eq]
  exact Nat.lt_pow_succ_log_self (by norm_num) n


theorem ilog2_le_zero {q : ℚ} (h0 : 0 < q) (h1 : q ≤ 1) : ilog2 q ≤ 0 := by
  have hnum : 0 < q.num := Rat.num_pos.mpr h0
  have hle : q.num ≤ (q.den : Int) := by
    have hden : (0 : ℚ) < q.den := by exact_mod_cast q.den_pos
    have h2 : (q.num : ℚ) / (q.den : ℚ) ≤ 1 := by
      rw [Rat.num_div_den]
      exact h1
    have h3 : (q.num : ℚ) ≤ (q.den : ℚ) := (div_le_one hden).mp h2
    exact_mod_cast h3
  have hnat : q.num.natAbs ≤ q.den := by omega
  have hm := natLog2_mono hnat
  unfold ilog2
  split <;> omega

theorem pow2_ilog2_le {q : ℚ} (h0 : 0 < q) : pow2 (ilog2 q) ≤ q := by
  have habs : |q| = q := abs_of_pos h0
  unfold ilog2
  rw [habs]
  split
  · have hnum : 0 < q.num := Rat.num_pos.mpr h0
    have hna : q.num.natAbs ≠ 0 := by omega
    have h1 := pow_natLog2_le hna
    have h2 := lt_pow_natLog2 q.den
    have hq : q = (q.num.natAbs : ℚ) / (q.den : ℚ) := by
      have hcast : ((q.num.natAbs : Nat) : Int) = q.num := by omega
      have : ((q.num.natAbs : Nat) : ℚ) = (q.num : ℚ) :=
        calc ((q.num.natAbs : Nat) : ℚ) = (((q.num.natAbs : Nat) : Int) : ℚ) :=
              (Int.cast_natCast _).symm
          _ = (q.num : ℚ) := congrArg (fun z : Int => (z : ℚ)) hcast
      rw [this]
      exact (Rat.num_div_den q).symm
    have hden : (0 : ℚ) < q.den := by exact_mod_cast q.den_pos
    have e1 : (natLog2 q.num.natAbs : Int) - (natLog2 q.den : Int) - 1
        = (natLog2 q.num.natAbs : Int) + (-((natLog2 q.den + 1 : Nat) : Int)) := by
      push_cast
      ring
    rw [e1, pow2_add, pow2_natCast, pow2_eq_zpow, zpow_neg, zpow_natCast]
    have h1q : ((2 ^ natLog2 q.num.natAbs : Nat) : ℚ) ≤ (q.num.natAbs : ℚ) := by
      exact_mod_cast h1
    have h2q : (q.den : ℚ) ≤ (2 : ℚ) ^ (natLog2 q.den + 1) := by
      exact_mod_cast le_of_lt h2
    have hpos2 : (0 : ℚ) < (2 : ℚ) ^ (natLog2 q.den + 1) := by positivity
    calc ((2 ^ natLog2 q.num.natAbs : Nat) : ℚ) * ((2 : ℚ) ^ (natLog2 q.den + 1))⁻¹
        ≤ (q.num.natAbs : ℚ) * ((2 : ℚ) ^ (natLog2 q.den + 1))⁻¹ := by
          apply mul_le_mul_of_nonneg_right h1q
          positivity
      _ ≤ (q.num.natAbs : ℚ) * ((q.den : ℚ))⁻¹ := by
          apply mul_le_mul_of_nonneg_left _ (by positivity)
          exact inv_anti₀ hden h2q
      _ = q := by
          rw [← div_eq_mul_inv]
          exact hq.symm
  · next h => exact not_lt.mp h

theorem rne_zero : rne 0 = 0 := by
  unfold rne
  simp

theorem rne_le_of_le {q : ℚ} {n : Int} (h : q ≤ n) : rne q ≤ n := by
  unfold rne
  rcases eq_or_lt_of_le h with h1 | h1
  · rw [h1]
    simp
  · have hf : ⌊q⌋ < n := Int.floor_lt.mpr h1
    split
    · omega
    · split
      · omega
      · split <;> omega

theorem le_rne_of_le {q : ℚ} {n : Int} (h : (n : ℚ) ≤ q) : n ≤ rne q := by
  have hf : n ≤ ⌊q⌋ := Int.le_floor.mpr h
  unfold rne
  split
  · omega
  · split
    · omega
    · split <;> omega

theorem roundQ_nonneg {q : ℚ} (h : 0 ≤ q) : 0 ≤ roundQ q := by
  unfold roundQ
  have hp := pow2_pos (ulpExp q)
  have h1 : ((0 : Int) : ℚ) ≤ q / pow2 (ulpExp q) := by
    simpa using div_nonneg h (le_of_lt hp)
  have h2 : (0 : ℚ) ≤ (rne (q / pow2 (ulpExp q)) : ℚ) := by exact_mod_cast le_rne_of_le h1
  exact mul_nonneg h2 (le_of_lt hp)

theorem roundQ_nonpos {q : ℚ} (h : q ≤ 0) : roundQ q ≤ 0 := by
  unfold roundQ
  have hp := pow2_pos (ulpExp q)
  have h1 : q / pow2 (ulpExp q) ≤ ((0 : Int) : ℚ) := by
    simpa using div_nonpos_of_nonpos_of_nonneg h (le_of_lt hp)
  have h2 : (rne (q / pow2 (ulpExp q)) : ℚ) ≤ 0 := by exact_mod_cast rne_le_of_le h1
  exact mul_nonpos_of_nonpos_of_nonneg h2 (le_of_lt hp)

theorem roundQ_zero : roundQ 0 = 0 := by
  unfold roundQ
  rw [zero_div, rne_zero]
  simp

theorem roundQ_le_one {q : ℚ} (h : q ≤ 1) : roundQ q ≤ 1 := by
  rcases le_or_lt q 0 with h0 | h0
  · exact le_trans (roundQ_nonpos h0) zero_le_one
  · have hl := ilog2_le_zero h0 h
    have he : ulpExp q ≤ 0 := by
      unfold ulpExp
      omega
    obtain ⟨n, hn⟩ := Int.eq_ofNat_of_zero_le (by omega : 0 ≤ -ulpExp q)
    have hE : ulpExp q = -(n : Int) := by omega
    unfold roundQ
    rw [hE]
    have hp : pow2 (-(n : Int)) = ((2 : ℚ) ^ n)⁻¹ := by
      rw [pow2_eq_zpow, zpow_neg, zpow_natCast]
    rw [hp]
    have hpos : (0 : ℚ) < (2 : ℚ) ^ n := by positivity
    have h1 : q / ((2 : ℚ) ^ n)⁻¹ ≤ (((2 ^ n : Nat) : Int) : ℚ) := by
      rw [div_inv_eq_mul]
      push_cast
      calc q * 2 ^ n ≤ 1 * 2 ^ n := mul_le_mul_of_nonneg_right h (le_of_lt hpos)
        _ = 2 ^ n := one_mul _
    have h2 : (rne (q / ((2 : ℚ) ^ n)⁻¹) : ℚ) ≤ (2 : ℚ) ^ n := by
      have := rne_le_of_le h1
      have h3 : ((rne (q / ((2 : ℚ) ^ n)⁻¹) : Int) : ℚ) ≤ ((((2 ^ n : Nat) : Int)) : ℚ) := by
        exact_mod_cast this
      simpa using h3
    calc (rne (q / ((2 : ℚ) ^ n)⁻¹) : ℚ) * ((2 : ℚ) ^ n)⁻¹
        ≤ (2 : ℚ) ^ n * ((2 : ℚ) ^ n)⁻¹ :=
          mul_le_mul_of_nonneg_right h2 (le_of_lt (inv_pos.mpr hpos))
      _ = 1 := mul_inv_cancel₀ (ne_of_gt hpos)

theorem roundQ_pos {q : ℚ} (h : pow2 (-149) ≤ q) : 0 < roundQ q := by
  have h0 : 0 < q := lt_of_lt_of_le (pow2_pos _) h
  have hp := pow2_pos (ulpExp q)
  have hge : pow2 (ulpExp q) ≤ q := by
    unfold ulpExp
    rcases le_total (ilog2 q) (-126) with hl | hl
    · rw [max_eq_right hl]
      exact h
    · rw [max_eq_left hl]
      exact le_trans (pow2_le_pow2 (by omega)) (pow2_ilog2_le h0)
  have h1 : ((1 : Int) : ℚ) ≤ q / pow2 (ulpExp q) := by
    rw [le_div_iff₀ hp]
    simpa using hge
  have h2 : (1 : ℚ) ≤ (rne (q / pow2 (ulpExp q)) : ℚ) := by exact_mod_cast le_rne_of_le h1
  unfold roundQ
  exact mul_pos (lt_of_lt_of_le zero_lt_one h2) hp

/-- A result that is not negative is rounded to `+inf` or to a finite number that is not
negative. -/
theorem ofRat_nonneg {q : ℚ} (h : 0 ≤ q) :
    ofRat q = inf false ∨ ∃ r : ℚ, 0 ≤ r ∧ ofRat q = fin r := by
  unfold ofRat
  split
  · left
    rw [decide_eq_false (not_lt.mpr h)]
  · exact Or.inr ⟨_, roundQ_nonneg h, rfl⟩

/-- A result that is not positive is rounded to `-inf` or to a finite number that is not
positive. -/
theorem ofRat_nonpos {q : ℚ} (h : q ≤ 0) :
    ofRat q = inf true ∨ ∃ r : ℚ, r ≤ 0 ∧ ofRat q = fin r := by
  unfold ofRat
  split
  · next hov =>
    left
    have hq : q < 0 := by
      rcases eq_or_lt_of_le h with h1 | h1
      · rw [h1, roundQ_zero, abs_zero] at hov
        exact absurd hov (not_le.mpr (pow2_pos 128))
      · exact h1
    rw [decide_eq_true hq]
  · exact Or.inr ⟨_, roundQ_nonpos h, rfl⟩

/-- A result that is at most 1 is rounded to `-inf` or to a finite number that is at most 1. -/
theorem ofRat_le_one {q : ℚ} (h : q ≤ 1) :
    ofRat q = inf true ∨ ∃ r : ℚ, r ≤ 1 ∧ ofRat q = fin r := by
  rcases le_or_lt q 0 with h0 | h0
  · rcases ofRat_nonpos h0 with h1 | ⟨r, hr, h1⟩
    · exact Or.inl h1
    · exact Or.inr ⟨r, le_trans hr zero_le_one, h1⟩
  · right
    have hr1 := roundQ_le_one h
    have hr0 := roundQ_nonneg (le_of_lt h0)
    refine ⟨roundQ q, hr1, ?_⟩
    unfold ofRat
    rw [if_neg]
    rw [abs_of_nonneg hr0, not_le]
    refine lt_of_le_of_lt hr1 ?_
    rw [pow2_eq_zpow]
    norm_num

/-- A result of at least `2 ^ (-149)` is rounded to `+inf` or to a finite number above 0. -/
theorem ofRat_pos {q : ℚ} (h : pow2 (-149) ≤ q) :
    ofRat q = inf false ∨ ∃ r : ℚ, 0 < r ∧ ofRat q = fin r := by
  have h0 : 0 < q := lt_of_lt_of_le (pow2_pos _) h
  unfold ofRat
  split
  · left
    rw [decide_eq_false (not_lt.mpr (le_of_lt h0))]
  · exact Or.inr ⟨_, roundQ_pos h, rfl⟩


end F32


namespace F32

theorem inUnit_iff (x : F32) :
    inUnit x = true ↔ ∃ r : ℚ, x = fin r ∧ 0 ≤ r ∧ r ≤ 1 := by
  cases x with
  | nan => exact ⟨fun h => Bool.noConfusion h, fun ⟨_, h, _⟩ => F32.noConfusion h⟩
  | inf b =>
    constructor
    · intro h
      cases b <;> exact Bool.noConfusion h
    · exact fun ⟨_, h, _⟩ => F32.noConfusion h
  | fin q =>
    unfold inUnit le
    simp only [Bool.and_eq_true, decide_eq_true_eq]
    exact ⟨fun h => ⟨q, rfl, h.1, h.2⟩, fun ⟨r, hr, h0, h1⟩ => by
      have : q = r := F32.fin.inj hr
      rw [this]
      exact ⟨h0, h1⟩⟩

theorem gt_zero_cases {s : F32} (h : gt s (fin 0) = true) :
    (∃ q : ℚ, 0 < q ∧ s = fin q) ∨ s = inf false := by
  cases s with
  | nan => exact Bool.noConfusion h
  | inf b =>
    cases b
    · exact Or.inr rfl
    · exact Bool.noConfusion h
  | fin q => exact Or.inl ⟨q, of_decide_eq_true h, rfl⟩

theorem lt_zero_cases {s : F32} (h : lt s (fin 0) = true) :
    (∃ q : ℚ, q < 0 ∧ s = fin q) ∨ s = inf true := by
  cases s with
  | nan => exact Bool.noConfusion h
  | inf b =>
    cases b
    · exact Bool.noConfusion h
    · exact Or.inr rfl
  | fin q => exact Or.inl ⟨q, of_decide_eq_true h, rfl⟩

theorem zero_le_cases {k : F32} (h : le (fin 0) k = true) :
    (∃ q : ℚ, 0 ≤ q ∧ k = fin q) ∨ k = inf false := by
  cases k with
  | nan => exact Bool.noConfusion h
  | inf b =>
    cases b
    · exact Or.inr rfl
    · exact Bool.noConfusion h
  | fin q => exact Or.inl ⟨q, of_decide_eq_true h, rfl⟩

theorem zero_lt_cases {k : F32} (h : lt (fin 0) k = true) :
    (∃ q : ℚ, 0 < q ∧ k = fin q) ∨ k = inf false := by
  cases k with
  | nan => exact Bool.noConfusion h
  | inf b =>
    cases b
    · exact Or.inr rfl
    · exact Bool.noConfusion h
  | fin q => exact Or.inl ⟨q, of_decide_eq_true h, rfl⟩

theorem ne_zero_cases {s : F32} (h : ne s (fin 0) = true) :
    s = nan ∨ gt s (fin 0) = true ∨ lt s (fin 0) = true := by
  cases s with
  | nan => exact Or.inl rfl
  | inf b =>
    cases b
    · exact Or.inr (Or.inl rfl)
    · exact Or.inr (Or.inr rfl)
  | fin q =>
    have hq : q ≠ 0 := of_decide_eq_true h
    rcases lt_or_gt_of_ne hq with h1 | h1
    · exact Or.inr (Or.inr (decide_eq_true h1))
    · exact Or.inr (Or.inl (decide_eq_true h1))

theorem ofRat_ne_nan (q : ℚ) : ofRat q ≠ nan := by
  unfold ofRat
  split <;> exact fun h => F32.noConfusion h

theorem mul_nan_left (k : F32) : mul nan k = nan := by
  cases k <;> rfl

/-- The product of a speed above 0 and a `k >= 0` is `+inf` or a finite number that is not
negative, when it is a number. -/
theorem mul_pos_nonneg {s k : F32} (hs : gt s (fin 0) = true) (hk : le (fin 0) k = true)
    (hn : mul s k ≠ nan) :
    mul s k = inf false ∨ ∃ p : ℚ, 0 ≤ p ∧ mul s k = fin p := by
  rcases gt_zero_cases hs with ⟨sq, hsq, rfl⟩ | rfl
  · rcases zero_le_cases hk with ⟨kq, hkq, rfl⟩ | rfl
    · exact ofRat_nonneg (mul_nonneg (le_of_lt hsq) hkq)
    · left
      show (if sq = 0 then nan else inf (false != decide (sq < 0))) = inf false
      rw [if_neg (ne_of_gt hsq), decide_eq_false (not_lt.mpr (le_of_lt hsq))]
      rfl
  · rcases zero_le_cases hk with ⟨kq, hkq, rfl⟩ | rfl
    · left
      by_cases h0 : kq = 0
      · exfalso
        apply hn
        show (if kq = 0 then nan else inf (false != decide (kq < 0))) = nan
        rw [if_pos h0]
      · show (if kq = 0 then nan else inf (false != decide (kq < 0))) = inf false
        rw [if_neg h0, decide_eq_false (not_lt.mpr hkq)]
        rfl
    · exact Or.inl rfl

/-- The product of a speed below 0 and a `k >= 0` is `-inf` or a finite number that is not
positive, when it is a number. -/
theorem mul_neg_nonneg {s k : F32} (hs : lt s (fin 0) = true) (hk : le (fin 0) k = true)
    (hn : mul s k ≠ nan) :
    mul s k = inf true ∨ ∃ p : ℚ, p ≤ 0 ∧ mul s k = fin p := by
  rcases lt_zero_cases hs with ⟨sq, hsq, rfl⟩ | rfl
  · rcases zero_le_cases hk with ⟨kq, hkq, rfl⟩ | rfl
    · exact ofRat_nonpos (mul_nonpos_of_nonpos_of_nonneg (le_of_lt hsq) hkq)
    · left
      show (if sq = 0 then nan else inf (false != decide (sq < 0))) = inf true
      rw [if_neg (ne_of_lt hsq), decide_eq_true hsq]
      rfl
  · rcases zero_le_cases hk with ⟨kq, hkq, rfl⟩ | rfl
    · left
      by_cases h0 : kq = 0
      · exfalso
        apply hn
        show (if kq = 0 then nan else inf (true != decide (kq < 0))) = nan
        rw [if_pos h0]
      · show (if kq = 0 then nan else inf (true != decide (kq < 0))) = inf true
        rw [if_neg h0, decide_eq_false (not_lt.mpr hkq)]
        rfl
    · exact Or.inl rfl

theorem add_nonneg_cases {f : ℚ} {p : F32} (hf : 0 ≤ f)
    (hp : p = inf false ∨ ∃ q : ℚ, 0 ≤ q ∧ p = fin q) :
    add (fin f) p = inf false ∨ ∃ r : ℚ, 0 ≤ r ∧ add (fin f) p = fin r := by
  rcases hp with rfl | ⟨q, hq, rfl⟩
  · exact Or.inl rfl
  · exact ofRat_nonneg (add_nonneg hf hq)

theorem add_le_one_cases {f : ℚ} {p : F32} (hf : f ≤ 1)
    (hp : p = inf true ∨ ∃ q : ℚ, q ≤ 0 ∧ p = fin q) :
    add (fin f) p = inf true ∨ ∃ r : ℚ, r ≤ 1 ∧ add (fin f) p = fin r := by
  rcases hp with rfl | ⟨q, hq, rfl⟩
  · exact Or.inl rfl
  · exact ofRat_le_one (by linarith)

/-- The `float` sum `fadeTime + fadeSpeed * k` of a fade with `fadeTime` in `[0, 1]`,
`k >= 0` and a product that is a number: when it is not `>= 1` on a fade-in, and not `<= 0`
on a fade-out, it is in `[0, 1]`. -/
theorem fade_sum_inUnit {f : ℚ} {s k : F32} (h0 : 0 ≤ f) (h1 : f ≤ 1)
    (hs : ne s (fin 0) = true) (hk : le (fin 0) k = true) (hn : mul s k ≠ nan)
    (hin : ¬ (ge (add (fin f) (mul s k)) (fin 1) = true ∧ gt s (fin 0) = true))
    (hout : ¬ (le (add (fin f) (mul s k)) (fin 0) = true ∧ lt s (fin 0) = true)) :
    inUnit (add (fin f) (mul s k)) = true := by
  rw [inUnit_iff]
  rcases ne_zero_cases hs with rfl | hpos | hneg
  · exact absurd (mul_nan_left k) hn
  · rcases add_nonneg_cases h0 (mul_pos_nonneg hpos hk hn) with ha | ⟨r, hr, ha⟩
    · exfalso
      apply hin
      rw [ha]
      exact ⟨rfl, hpos⟩
    · rw [ha] at hin ⊢
      refine ⟨r, rfl, hr, ?_⟩
      by_contra hc
      apply hin
      refine ⟨?_, hpos⟩
      show decide ((1 : ℚ) ≤ r) = true
      exact decide_eq_true (le_of_lt (not_le.mp hc))
  · rcases add_le_one_cases h1 (mul_neg_nonneg hneg hk hn) with ha | ⟨r, hr, ha⟩
    · exfalso
      apply hout
      rw [ha]
      exact ⟨rfl, hneg⟩
    · rw [ha] at hout ⊢
      refine ⟨r, rfl, ?_, hr⟩
      by_contra hc
      apply hout
      refine ⟨?_, hneg⟩
      show decide (r ≤ (0 : ℚ)) = true
      exact decide_eq_true (le_of_lt (not_le.mp hc))

theorem inUnit_zero : inUnit (fin 0) = true := by decide

theorem inUnit_one : inUnit (fin 1) = true := by decide

/-- A quotient `x / y` by a `y > 0` is a number when `x` is a finite number. -/
theorem div_fin_ne_nan (x : ℚ) {y : F32} (hy : gt y (fin 0) = true) :
    div (fin x) y ≠ nan := by
  rcases gt_zero_cases hy with ⟨q, hq, rfl⟩ | rfl
  · show (if q = 0 then (if x = 0 then nan else inf (decide (x < 0))) else ofRat (x / q)) ≠ nan
    rw [if_neg (ne_of_gt hq)]
    exact ofRat_ne_nan _
  · exact fun h => F32.noConfusion h

/-- The product of a speed that is a number and a `k > 0` is a number, unless the speed
is 0. -/
theorem mul_pos_ne_nan {s k : F32} (hs : s ≠ nan) (hf : ne s (fin 0) = true)
    (hk : lt (fin 0) k = true) : mul s k ≠ nan := by
  rcases zero_lt_cases hk with ⟨kq, hkq, rfl⟩ | rfl
  · cases s with
    | nan => exact absurd rfl hs
    | inf b =>
      show (if kq = 0 then nan else inf (b != decide (kq < 0))) ≠ nan
      rw [if_neg (ne_of_gt hkq)]
      exact fun h => F32.noConfusion h
    | fin sq => exact ofRat_ne_nan _
  · cases s with
    | nan => exact absurd rfl hs
    | inf b => exact fun h => F32.noConfusion h
    | fin sq =>
      have hq : sq ≠ 0 := of_decide_eq_true hf
      show (if sq = 0 then nan else inf (false != decide (sq < 0))) ≠ nan
      rw [if_neg hq]
      exact fun h => F32.noConfusion h

theorem lt_le {x y : F32} (h : lt x y = true) : le x y = true := by
  cases x with
  | nan => exact Bool.noConfusion h
  | inf a =>
    cases y with
    | nan => exact Bool.noConfusion h
    | inf b =>
      cases a <;> cases b <;> first | rfl | exact Bool.noConfusion h
    | fin q => exact h
  | fin p =>
    cases y with
    | nan => exact Bool.noConfusion h
    | inf b => exact h
    | fin q => exact decide_eq_true (le_of_lt (of_decide_eq_true h))

end F32

namespace Float32

namespace Source

theorem unbind_fields32 (env : SourceEnv) (s : Source) :
    (unbind env s).fadeTime = s.fadeTime ∧ (unbind env s).fadeSpeed = s.fadeSpeed ∧
    (unbind env s).paused = s.paused ∧ (unbind env s).sampleOffset = s.sampleOffset ∧
    (env.locked = false → (unbind env s).sourceId = 0 ∧ (unbind env s).bound = false) ∧
    (env.locked = true → unbind env s = s) := by
  unfold unbind
  cases env.locked
  · exact ⟨rfl, rfl, rfl, rfl, fun _ => ⟨rfl, rfl⟩, fun h => Bool.noConfusion h⟩
  · exact ⟨rfl, rfl, rfl, rfl, fun h => Bool.noConfusion h, fun _ => rfl⟩

/-- The call `_stop(fadeTime, pause)` with `fadeTime > 0` on a source with a source id. -/
theorem stop_fading32 (env : SourceEnv) (fade : F32) (pause : Bool) (s : Source) (v : Voice)
    (hid : s.sourceId ≠ 0) (hf : F32.gt fade (F32.fin 0) = true) :
    _stop env fade pause s v
      = ({ s with fadeSpeed := F32.div (F32.fin (-1)) fade, paused := pause }, v) := by
  unfold _stop
  rw [if_neg hid, if_pos hf]

/-- The call `_stop(fadeTime, false)` with a `fadeTime` that is not above 0 on a source with a
source id. -/
theorem stop_now32 (env : SourceEnv) (fade : F32) (s : Source) (v : Voice)
    (hid : s.sourceId ≠ 0) (hf : ¬ F32.gt fade (F32.fin 0) = true) :
    _stop env fade false s v =
      ({ unbind env { s with fadeTime := F32.fin 0, fadeSpeed := F32.fin 0 } with
          paused := false },
        if env.streamed then env.rewindStream { v with state := ALState.stopped }
        else { v with state := ALState.stopped }) := by
  unfold _stop
  rw [if_neg hid, if_neg hf]
  rfl

/-- The call `_stop(fadeTime, true)` with a `fadeTime` that is not above 0 on a source with a
source id. -/
theorem pause_now32 (env : SourceEnv) (fade : F32) (s : Source) (v : Voice)
    (hid : s.sourceId ≠ 0) (hf : ¬ F32.gt fade (F32.fin 0) = true) :
    _stop env fade true s v =
      ({ (if !env.locked then
            { s with fadeTime := F32.fin 0, fadeSpeed := F32.fin 0, sampleOffset := v.offset,
                     sourceId := 0 }
          else { s with fadeTime := F32.fin 0, fadeSpeed := F32.fin 0,
                        sampleOffset := v.offset }) with
          paused := true },
        if env.streamed then env.unqueueBuffers { v with state := ALState.paused }
        else { v with state := ALState.stopped }) := by
  unfold _stop
  rw [if_neg hid, if_neg hf]
  rfl

theorem stop_unbound32 (env : SourceEnv) (fade : F32) (pause : Bool) (s : Source) (v : Voice)
    (hid : s.sourceId = 0) : _stop env fade pause s v = (s, v) := by
  unfold _stop
  rw [if_pos hid]

/-- After `_stop(fadeTime, pause)` on a source with a source id, `paused` is `pause`. -/
theorem stop_paused32 (env : SourceEnv) (fade : F32) (pause : Bool) (s : Source) (v : Voice)
    (hid : s.sourceId ≠ 0) : (_stop env fade pause s v).1.paused = pause := by
  by_cases hf : F32.gt fade (F32.fin 0) = true
  · rw [stop_fading32 env fade pause s v hid hf]
  · cases pause with
    | false => rw [stop_now32 env fade s v hid hf]
    | true => rw [pause_now32 env fade s v hid hf]

/-- After `_stop`, `fadeTime` is what it was or 0, and `fadeSpeed` is what it was, 0 or the
quotient `-1.0f / fadeTime` by a `fadeTime > 0`. -/
theorem stop_fade32 (env : SourceEnv) (fade : F32) (pause : Bool) (s : Source) (v : Voice) :
    ((_stop env fade pause s v).1.fadeTime = s.fadeTime ∨
      (_stop env fade pause s v).1.fadeTime = F32.fin 0) ∧
    ((_stop env fade pause s v).1.fadeSpeed = s.fadeSpeed ∨
      (_stop env fade pause s v).1.fadeSpeed = F32.fin 0 ∨
      (F32.gt fade (F32.fin 0) = true ∧
        (_stop env fade pause s v).1.fadeSpeed = F32.div (F32.fin (-1)) fade)) := by
  by_cases hid : s.sourceId = 0
  · rw [stop_unbound32 env fade pause s v hid]
    exact ⟨Or.inl rfl, Or.inl rfl⟩
  · by_cases hf : F32.gt fade (F32.fin 0) = true
    · rw [stop_fading32 env fade pause s v hid hf]
      exact ⟨Or.inl rfl, Or.inr (Or.inr ⟨hf, rfl⟩)⟩
    · cases pause with
      | false =>
        rw [stop_now32 env fade s v hid hf]
        exact ⟨Or.inr (unbind_fields32 env _).1, Or.inr (Or.inl (unbind_fields32 env _).2.1)⟩
      | true =>
        rw [pause_now32 env fade s v hid hf]
        constructor
        · right
          cases env.locked <;> rfl
        · right
          left
          cases env.locked <;> rfl

/-- The fade step when a fade-in reaches 1. -/
theorem updateFade_in32 (env : SourceEnv) (k : F32) (s : Source) (v : Voice)
    (h : F32.ge (F32.add s.fadeTime (F32.mul s.fadeSpeed k)) (F32.fin 1) = true ∧
      F32.gt s.fadeSpeed (F32.fin 0) = true) :
    updateFade env k s v =
      ({ s with fadeTime := F32.fin 1, fadeSpeed := F32.fin 0 },
        { v with gain := F32.mul (F32.mul s.gain env.categoryGain) env.globalGain }) := by
  unfold updateFade
  simp only
  rw [h.1, h.2]
  rfl

theorem gt_lt_zero {s : F32} (h1 : F32.gt s (F32.fin 0) = true)
    (h2 : F32.lt s (F32.fin 0) = true) : False := by
  rcases F32.gt_zero_cases h1 with ⟨q, hq, rfl⟩ | rfl
  · have : q < 0 := of_decide_eq_true h2
    exact lt_asymm hq this
  · exact Bool.noConfusion h2

/-- The fade step when a fade-out reaches 0. -/
theorem updateFade_out32 (env : SourceEnv) (k : F32) (s : Source) (v : Voice)
    (h : F32.le (F32.add s.fadeTime (F32.mul s.fadeSpeed k)) (F32.fin 0) = true ∧
      F32.lt s.fadeSpeed (F32.fin 0) = true) :
    updateFade env k s v =
      ({ (_stop env (F32.fin 0) s.paused
            { s with fadeTime := F32.add s.fadeTime (F32.mul s.fadeSpeed k) } v).1 with
          fadeTime := F32.fin 0, fadeSpeed := F32.fin 0 },
        (_stop env (F32.fin 0) s.paused
          { s with fadeTime := F32.add s.fadeTime (F32.mul s.fadeSpeed k) } v).2) := by
  have hn : F32.gt s.fadeSpeed (F32.fin 0) = false := by
    cases hg : F32.gt s.fadeSpeed (F32.fin 0) with
    | false => rfl
    | true => exact (gt_lt_zero hg h.2).elim
  unfold updateFade
  simp only
  rw [hn, h.1, h.2, Bool.and_false]
  rfl

/-- The fade step in the other cases. -/
theorem updateFade_run32 (env : SourceEnv) (k : F32) (s : Source) (v : Voice)
    (h1 : ¬ (F32.ge (F32.add s.fadeTime (F32.mul s.fadeSpeed k)) (F32.fin 1) = true ∧
      F32.gt s.fadeSpeed (F32.fin 0) = true))
    (h2 : ¬ (F32.le (F32.add s.fadeTime (F32.mul s.fadeSpeed k)) (F32.fin 0) = true ∧
      F32.lt s.fadeSpeed (F32.fin 0) = true)) :
    updateFade env k s v =
      ({ s with fadeTime := F32.add s.fadeTime (F32.mul s.fadeSpeed k) },
        { v with
          gain := F32.mul (F32.mul (F32.mul (F32.add s.fadeTime (F32.mul s.fadeSpeed k))
            s.gain) env.categoryGain) env.globalGain }) := by
  have e1 : (F32.ge (F32.add s.fadeTime (F32.mul s.fadeSpeed k)) (F32.fin 1) &&
      F32.gt s.fadeSpeed (F32.fin 0)) = false := by
    cases ha : F32.ge (F32.add s.fadeTime (F32.mul s.fadeSpeed k)) (F32.fin 1) with
    | false => rfl
    | true =>
      cases hb : F32.gt s.fadeSpeed (F32.fin 0) with
      | false => rfl
      | true => exact (h1 ⟨ha, hb⟩).elim
  have e2 : (F32.le (F32.add s.fadeTime (F32.mul s.fadeSpeed k)) (F32.fin 0) &&
      F32.lt s.fadeSpeed (F32.fin 0)) = false := by
    cases ha : F32.le (F32.add s.fadeTime (F32.mul s.fadeSpeed k)) (F32.fin 0) with
    | false => rfl
    | true =>
      cases hb : F32.lt s.fadeSpeed (F32.fin 0) with
      | false => rfl
      | true => exact (h2 ⟨ha, hb⟩).elim
  unfold updateFade
  simp only
  rw [e1, e2]
  rfl

/-- The fade step keeps `fadeTime` in `[0, 1]` when the source is fading, `k >= 0` and the
product `fadeSpeed * k` is a number. -/
theorem updateFade_range32 (env : SourceEnv) (k : F32) (s : Source) (v : Voice)
    (hf : s.isFading = true) (hk : F32.le (F32.fin 0) k = true)
    (hn : F32.mul s.fadeSpeed k ≠ F32.nan) (hu : F32.inUnit s.fadeTime = true) :
    F32.inUnit (updateFade env k s v).1.fadeTime = true := by
  obtain ⟨f, hft, h0, h1⟩ := (F32.inUnit_iff _).mp hu
  by_cases hin : F32.ge (F32.add s.fadeTime (F32.mul s.fadeSpeed k)) (F32.fin 1) = true ∧
      F32.gt s.fadeSpeed (F32.fin 0) = true
  · rw [updateFade_in32 env k s v hin]
    exact F32.inUnit_one
  · by_cases hout : F32.le (F32.add s.fadeTime (F32.mul s.fadeSpeed k)) (F32.fin 0) = true ∧
        F32.lt s.fadeSpeed (F32.fin 0) = true
    · rw [updateFade_out32 env k s v hout]
      exact F32.inUnit_zero
    · rw [updateFade_run32 env k s v hin hout]
      show F32.inUnit (F32.add s.fadeTime (F32.mul s.fadeSpeed k)) = true
      rw [hft] at hin hout ⊢
      exact F32.fade_sum_inUnit h0 h1 hf hk hn hin hout

/-- The call `update(k)` on a source that is playing and fading is the fade step, followed
by `unbind()` when the source then neither plays nor is paused. -/
theorem update_fading32 (env : SourceEnv) (k : F32) (s : Source) (v : Voice)
    (hp : isPlaying env s (env.soundUpdate k v) = true) (hf : s.isFading = true) :
    update env k s v = updateFade env k s (env.soundUpdate k v) ∨
    (update env k s v
        = (unbind env (updateFade env k s (env.soundUpdate k v)).1,
            (updateFade env k s (env.soundUpdate k v)).2) ∧
      (updateFade env k s (env.soundUpdate k v)).1.isPaused = false) := by
  have hid : s.sourceId ≠ 0 := by
    intro h0
    unfold isPlaying at hp
    rw [if_pos h0] at hp
    exact Bool.noConfusion hp
  unfold update
  rw [if_neg hid]
  simp only [hp, hf, Bool.and_self, if_true]
  split
  · next hc =>
    right
    refine ⟨rfl, ?_⟩
    simp only [Bool.and_eq_true, Bool.not_eq_true'] at hc
    exact hc.2
  · left
    rfl

/-- The call `update(k)` keeps `fadeTime` in `[0, 1]` when `k >= 0` and, on a fading source,
the product `fadeSpeed * k` is a number. -/
theorem update_range32 (env : SourceEnv) (k : F32) (s : Source) (v : Voice)
    (hk : F32.le (F32.fin 0) k = true)
    (hn : s.isFading = true → F32.mul s.fadeSpeed k ≠ F32.nan)
    (hu : F32.inUnit s.fadeTime = true) :
    F32.inUnit (update env k s v).1.fadeTime = true := by
  unfold update
  split
  · exact hu
  · simp only
    have hr : F32.inUnit (if (isPlaying env s (env.soundUpdate k v) && s.isFading) = true then
          updateFade env k s (env.soundUpdate k v) else (s, env.soundUpdate k v)).1.fadeTime
          = true := by
      split
      · next hc =>
        have hf : s.isFading = true := (Bool.and_eq_true _ _ ▸ hc).2
        exact updateFade_range32 env k s _ hf hk (hn hf) hu
      · exact hu
    generalize (if (isPlaying env s (env.soundUpdate k v) && s.isFading) = true then
      updateFade env k s (env.soundUpdate k v) else (s, env.soundUpdate k v)) = r at hr ⊢
    split
    · show F32.inUnit (unbind env r.1).fadeTime = true
      rw [(unbind_fields32 env r.1).1]
      exact hr
    · exact hr

/-- What `play` does to the fade fields. -/
theorem play_fade32 (env : SourceEnv) (fade : F32) (looping : Bool) (s : Source) (v : Voice) :
    ((play env fade looping s v).1.1.fadeTime = s.fadeTime ∧
      (play env fade looping s v).1.1.fadeSpeed = s.fadeSpeed) ∨
    (F32.gt fade (F32.fin 0) = true ∧
      (play env fade looping s v).1.1.fadeTime = s.fadeTime ∧
      (play env fade looping s v).1.1.fadeSpeed = F32.div (F32.fin 1) fade) ∨
    ((play env fade looping s v).1.1.fadeTime = F32.fin 1 ∧
      (play env fade looping s v).1.1.fadeSpeed = F32.fin 0) := by
  unfold play
  simp only
  have e1 : (if s.sourceId = 0 then { s with sourceId := env.allocated } else s).fadeTime
      = s.fadeTime := by split <;> rfl
  have e2 : (if s.sourceId = 0 then { s with sourceId := env.allocated } else s).fadeSpeed
      = s.fadeSpeed := by split <;> rfl
  generalize (if s.sourceId = 0 then { s with sourceId := env.allocated } else s) = s1
    at e1 e2 ⊢
  split
  · exact Or.inl ⟨e1, e2⟩
  · have e3 : (if (!s1.paused) = true then { s1 with looping := looping } else s1).fadeTime
        = s.fadeTime := by split <;> exact e1
    have e4 : (if (!s1.paused) = true then { s1 with looping := looping } else s1).fadeSpeed
        = s.fadeSpeed := by split <;> exact e2
    generalize (if (!s1.paused) = true then { s1 with looping := looping } else s1) = s2
      at e3 e4 ⊢
    by_cases hf : F32.gt fade (F32.fin 0) = true
    · right
      left
      refine ⟨hf, ?_, ?_⟩
      · rw [if_pos hf]
        exact e3
      · rw [if_pos hf]
    · right
      right
      rw [if_neg hf]
      exact ⟨rfl, rfl⟩


theorem updateFade_speed32 (env : SourceEnv) (k : F32) (s : Source) (v : Voice) :
    (updateFade env k s v).1.fadeSpeed = s.fadeSpeed ∨
    (updateFade env k s v).1.fadeSpeed = F32.fin 0 := by
  by_cases hin : F32.ge (F32.add s.fadeTime (F32.mul s.fadeSpeed k)) (F32.fin 1) = true ∧
      F32.gt s.fadeSpeed (F32.fin 0) = true
  · rw [updateFade_in32 env k s v hin]
    exact Or.inr rfl
  · by_cases hout : F32.le (F32.add s.fadeTime (F32.mul s.fadeSpeed k)) (F32.fin 0) = true ∧
        F32.lt s.fadeSpeed (F32.fin 0) = true
    · rw [updateFade_out32 env k s v hout]
      exact Or.inr rfl
    · rw [updateFade_run32 env k s v hin hout]
      exact Or.inl rfl

/-- After `update(k)`, `fadeSpeed` is what it was or 0. -/
theorem update_speed32 (env : SourceEnv) (k : F32) (s : Source) (v : Voice) :
    (update env k s v).1.fadeSpeed = s.fadeSpeed ∨
    (update env k s v).1.fadeSpeed = F32.fin 0 := by
  unfold update
  split
  · exact Or.inl rfl
  · simp only
    have hr : (if (isPlaying env s (env.soundUpdate k v) && s.isFading) = true then
          updateFade env k s (env.soundUpdate k v) else (s, env.soundUpdate k v)).1.fadeSpeed
          = s.fadeSpeed ∨
        (if (isPlaying env s (env.soundUpdate k v) && s.isFading) = true then
          updateFade env k s (env.soundUpdate k v) else (s, env.soundUpdate k v)).1.fadeSpeed
          = F32.fin 0 := by
      split
      · exact updateFade_speed32 env k s _
      · exact Or.inl rfl
    generalize (if (isPlaying env s (env.soundUpdate k v) && s.isFading) = true then
      updateFade env k s (env.soundUpdate k v) else (s, env.soundUpdate k v)) = r at hr ⊢
    split
    · show (unbind env r.1).fadeSpeed = s.fadeSpeed ∨ (unbind env r.1).fadeSpeed = F32.fin 0
      rw [(unbind_fields32 env r.1).2.1]
      exact hr
    · exact hr

/-- An admissible call keeps `fadeTime` in `[0, 1]`. -/
theorem call_range32 (env : SourceEnv) (sv : Source × Voice) (c : SourceCall)
    (ha : admissible sv c = true) (hu : F32.inUnit sv.1.fadeTime = true) :
    F32.inUnit (call env sv c).1.fadeTime = true := by
  cases c with
  | play fade looping =>
    have hcall : call env sv (SourceCall.play fade looping)
        = (play env fade looping sv.1 sv.2).1 := rfl
    rw [hcall]
    rcases play_fade32 env fade looping sv.1 sv.2 with h | h | h
    · rw [h.1]
      exact hu
    · rw [h.2.1]
      exact hu
    · rw [h.1]
      exact F32.inUnit_one
  | stop fade =>
    have hcall : call env sv (SourceCall.stop fade) = _stop env fade false sv.1 sv.2 := rfl
    rw [hcall]
    rcases (stop_fade32 env fade false sv.1 sv.2).1 with h | h
    · rw [h]
      exact hu
    · rw [h]
      exact F32.inUnit_zero
  | pause fade =>
    have hcall : call env sv (SourceCall.pause fade) = _stop env fade true sv.1 sv.2 := rfl
    rw [hcall]
    rcases (stop_fade32 env fade true sv.1 sv.2).1 with h | h
    · rw [h]
      exact hu
    · rw [h]
      exact F32.inUnit_zero
  | update k =>
    have ha2 : (F32.le (F32.fin 0) k &&
        (!sv.1.isFading || !(F32.mul sv.1.fadeSpeed k).isNaN)) = true := ha
    rw [Bool.and_eq_true] at ha2
    refine update_range32 env k sv.1 sv.2 ha2.1 ?_ hu
    intro hf hnan
    have h2 := ha2.2
    rw [hf, hnan] at h2
    exact Bool.noConfusion h2

/-- Every sequence of admissible calls keeps `fadeTime` in `[0, 1]`. -/
theorem calls_range32 (env : SourceEnv) :
    ∀ (cs : List SourceCall) (sv : Source × Voice),
      F32.inUnit sv.1.fadeTime = true → admissibleRun env cs sv = true →
      F32.inUnit (calls env cs sv).1.fadeTime = true
  | [], _, hu, _ => hu
  | c :: cs, sv, hu, ha => by
    have ha2 : (admissible sv c && admissibleRun env cs (call env sv c)) = true := ha
    rw [Bool.and_eq_true] at ha2
    exact calls_range32 env cs (call env sv c) (call_range32 env sv c ha2.1 hu) ha2.2

/-- A call leaves a `fadeSpeed` that is a number one. -/
theorem call_speed32 (env : SourceEnv) (sv : Source × Voice) (c : SourceCall)
    (hs : sv.1.fadeSpeed ≠ F32.nan) : (call env sv c).1.fadeSpeed ≠ F32.nan := by
  have h0 : F32.fin 0 ≠ F32.nan := fun h => F32.noConfusion h
  cases c with
  | play fade looping =>
    have hcall : call env sv (SourceCall.play fade looping)
        = (play env fade looping sv.1 sv.2).1 := rfl
    rw [hcall]
    rcases play_fade32 env fade looping sv.1 sv.2 with h | h | h
    · rw [h.2]
      exact hs
    · rw [h.2.2]
      exact F32.div_fin_ne_nan 1 h.1
    · rw [h.2]
      exact h0
  | stop fade =>
    have hcall : call env sv (SourceCall.stop fade) = _stop env fade false sv.1 sv.2 := rfl
    rw [hcall]
    rcases (stop_fade32 env fade false sv.1 sv.2).2 with h | h | h
    · rw [h]
      exact hs
    · rw [h]
      exact h0
    · rw [h.2]
      exact F32.div_fin_ne_nan (-1) h.1
  | pause fade =>
    have hcall : call env sv (SourceCall.pause fade) = _stop env fade true sv.1 sv.2 := rfl
    rw [hcall]
    rcases (stop_fade32 env fade true sv.1 sv.2).2 with h | h | h
    · rw [h]
      exact hs
    · rw [h]
      exact h0
    · rw [h.2]
      exact F32.div_fin_ne_nan (-1) h.1
  | update k =>
    have hcall : call env sv (SourceCall.update k) = update env k sv.1 sv.2 := rfl
    rw [hcall]
    rcases update_speed32 env k sv.1 sv.2 with h | h
    · rw [h]
      exact hs
    · rw [h]
      exact h0

/-- When `fadeSpeed` is a number, a call whose `update(k)` has `k > 0` is admissible. -/
theorem admissible_of_positive (sv : Source × Voice) (c : SourceCall)
    (hs : sv.1.fadeSpeed ≠ F32.nan) (hc : positiveStep c = true) : admissible sv c = true := by
  cases c with
  | play fade looping => rfl
  | stop fade => rfl
  | pause fade => rfl
  | update k =>
    have hk : F32.lt (F32.fin 0) k = true := hc
    show (F32.le (F32.fin 0) k && (!sv.1.isFading || !(F32.mul sv.1.fadeSpeed k).isNaN)) = true
    rw [F32.lt_le hk, Bool.true_and]
    cases hf : sv.1.isFading with
    | false => rfl
    | true =>
      have hne := F32.mul_pos_ne_nan hs hf hk
      cases hm : F32.mul sv.1.fadeSpeed k with
      | nan => exact absurd hm hne
      | inf b => rfl
      | fin q => rfl

theorem admissibleRun_of_positive (env : SourceEnv) :
    ∀ (cs : List SourceCall) (sv : Source × Voice),
      sv.1.fadeSpeed ≠ F32.nan → (∀ c ∈ cs, positiveStep c = true) →
      admissibleRun env cs sv = true
  | [], _, _, _ => rfl
  | c :: cs, sv, hs, hc => by
    show (admissible sv c && admissibleRun env cs (call env sv c)) = true
    rw [admissible_of_positive sv c hs (hc c (List.mem_cons_self _ _)),
      admissibleRun_of_positive env cs (call env sv c) (call_speed32 env sv c hs)
        (fun d hd => hc d (List.mem_cons_of_mem _ hd))]
    rfl

/-- What `update(k)` leaves of the fade step on a source that is playing and fading. -/
theorem update_fading_fields32 (env : SourceEnv) (k : F32) (s : Source) (v : Voice)
    (hp : isPlaying env s (env.soundUpdate k v) = true) (hf : s.isFading = true) :
    (update env k s v).1.fadeTime = (updateFade env k s (env.soundUpdate k v)).1.fadeTime ∧
    (update env k s v).1.fadeSpeed = (updateFade env k s (env.soundUpdate k v)).1.fadeSpeed ∧
    (update env k s v).1.paused = (updateFade env k s (env.soundUpdate k v)).1.paused ∧
    (update env k s v).1.sampleOffset
      = (updateFade env k s (env.soundUpdate k v)).1.sampleOffset ∧
    (update env k s v).2 = (updateFade env k s (env.soundUpdate k v)).2 ∧
    ((updateFade env k s (env.soundUpdate k v)).1.sourceId = 0 ∧
        (updateFade env k s (env.soundUpdate k v)).1.bound = false →
      (update env k s v).1.sourceId = 0 ∧ (update env k s v).1.bound = false) := by
  rcases update_fading32 env k s v hp hf with heq | ⟨heq, _⟩
  · rw [heq]
    exact ⟨rfl, rfl, rfl, rfl, rfl, fun h => h⟩
  · rw [heq]
    obtain ⟨u1, u2, u3, u4, u5, u6⟩ :=
      unbind_fields32 env (updateFade env k s (env.soundUpdate k v)).1
    refine ⟨u1, u2, u3, u4, rfl, ?_⟩
    intro h
    show (unbind env _).sourceId = 0 ∧ (unbind env _).bound = false
    cases hl : env.locked with
    | false => exact u5 hl
    | true =>
      rw [u6 hl]
      exact h

end Source

end Float32

/-- Counterexample to C26 as stated, in the `float` arithmetic of the code. First, a new
source after `play(1.0f)` and two `update(1.0f / 12)` is playing and fading in with
`fadeTime = 2 * (1.0f / 12)`, and a third `update(1.0f / 12)` leaves `fadeTime = 0.25` and not
`fadeTime + fadeSpeed * k`, which is `0.25 + 2 ^ (-27)`; after twelve such calls `fadeTime` is
`1 - 2 ^ (-23)` and the source still fades, the twelve `k` summing to more than 1. Second, a
new source after `play(1e-40f)` is playing and fading with `fadeTime = 0` and an infinite
`fadeSpeed`, and `update(0.0f)` leaves `fadeTime` not a number, so not in `[0, 1]`, where it
stays. -/
theorem C26_update_fade_counterexample :
    Float32.Source.isPlaying Float32.demoSourceEnv Float32.fadingIn.1
      (Float32.demoSourceEnv.soundUpdate Float32.twelfth Float32.fadingIn.2) = true ∧
    Float32.fadingIn.1.isFading = true ∧
    Float32.fadingIn.1.fadeTime = F32.fin (11184811 / 67108864) ∧
    Float32.fadingIn.1.fadeSpeed = F32.fin 1 ∧
    Float32.twelfth = F32.fin (11184811 / 134217728) ∧
    (Float32.Source.update Float32.demoSourceEnv Float32.twelfth Float32.fadingIn.1
      Float32.fadingIn.2).1.fadeTime = F32.fin (1 / 4) ∧
    (11184811 / 67108864 : ℚ) + 1 * (11184811 / 134217728) = 1 / 4 + 1 / 134217728 ∧
    (Float32.Source.calls Float32.demoSourceEnv
      (Float32.SourceCall.play (F32.fin 1) false ::
        List.replicate 12 (Float32.SourceCall.update Float32.twelfth))
      (Float32.Source.create, Float32.demoVoice)).1.fadeTime = F32.fin (8388607 / 8388608) ∧
    (Float32.Source.calls Float32.demoSourceEnv
      (Float32.SourceCall.play (F32.fin 1) false ::
        List.replicate 12 (Float32.SourceCall.update Float32.twelfth))
      (Float32.Source.create, Float32.demoVoice)).1.isFading = true ∧
    (1 : ℚ) ≤ 12 * (11184811 / 134217728) ∧
    Float32.Source.isPlaying Float32.demoSourceEnv Float32.playedTiny.1
      (Float32.demoSourceEnv.soundUpdate (F32.fin 0) Float32.playedTiny.2) = true ∧
    Float32.playedTiny.1.isFading = true ∧
    Float32.playedTiny.1.fadeTime = F32.fin 0 ∧
    Float32.playedTiny.1.fadeSpeed = F32.inf false ∧
    F32.le (F32.fin 0) (F32.fin 0) = true ∧
    (Float32.Source.update Float32.demoSourceEnv (F32.fin 0) Float32.playedTiny.1
      Float32.playedTiny.2).1.fadeTime = F32.nan ∧
    F32.inUnit (Float32.Source.update Float32.demoSourceEnv (F32.fin 0) Float32.playedTiny.1
      Float32.playedTiny.2).1.fadeTime = false ∧
    (Float32.Source.calls Float32.demoSourceEnv
      [Float32.SourceCall.update (F32.fin 0), Float32.SourceCall.update (F32.fin 1),
        Float32.SourceCall.update (F32.fin 1)] Float32.playedTiny).1.fadeTime = F32.nan := by
  refine ⟨by decide!, by decide!, by decide!, by decide!, rfl, by decide!, by norm_num,
    by decide!, by decide!, by norm_num, by decide!, by decide!, by decide!, by decide!,
    by decide!, by decide!, by decide!, by decide!⟩


/-- C26, amended: in the `float` arithmetic of the code, for every source that is playing
and fading when `update(k)` tests it, with `fadeTime` in `[0, 1]`, `k >= 0` and a product
`fadeSpeed * k` that is a number: `update(k)` forms the rounded sum
`a = fadeTime + fadeSpeed * k` (the exact sum when neither operation rounds) and leaves
`fadeTime` in `[0, 1]`; if the fade goes in and `a >= 1`, then `fadeTime = 1` and
`fadeSpeed = 0`; if it goes out and `a <= 0`, then `fadeTime = 0`, `fadeSpeed = 0`, the source
has been paused when `paused` was set (`isPaused()` holds, the offset is stored) and stopped
otherwise (released unless locked), the OpenAL source being that of `_stop(0, paused)`; in
every other case `fadeTime = a` and `fadeSpeed` is unchanged. And `fadeTime` stays in `[0, 1]`
over every sequence of `play`, `stop`, `pause` and `update(k)` in which each `update(k)` has
`k >= 0` and, on a fading source, a product `fadeSpeed * k` that is a number; such is every
sequence whose `update(k)` all have `k > 0`, started with a `fadeSpeed` that is a number. -/
theorem C26_update_fade_amended (env : Float32.SourceEnv) (k : F32) (s : Float32.Source)
    (v : Float32.Voice)
    (hp : Float32.Source.isPlaying env s (env.soundUpdate k v) = true)
    (hf : s.isFading = true) (hu : F32.inUnit s.fadeTime = true)
    (hk : F32.le (F32.fin 0) k = true) (hn : F32.mul s.fadeSpeed k ≠ F32.nan) :
    F32.inUnit (Float32.Source.update env k s v).1.fadeTime = true ∧
    (F32.gt s.fadeSpeed (F32.fin 0) = true →
      F32.ge (F32.add s.fadeTime (F32.mul s.fadeSpeed k)) (F32.fin 1) = true →
      (Float32.Source.update env k s v).1.fadeTime = F32.fin 1 ∧
      (Float32.Source.update env k s v).1.fadeSpeed = F32.fin 0) ∧
    (F32.lt s.fadeSpeed (F32.fin 0) = true →
      F32.le (F32.add s.fadeTime (F32.mul s.fadeSpeed k)) (F32.fin 0) = true →
      (Float32.Source.update env k s v).1.fadeTime = F32.fin 0 ∧
      (Float32.Source.update env k s v).1.fadeSpeed = F32.fin 0 ∧
      (Float32.Source.update env k s v).1.paused = s.paused ∧
      (Float32.Source.update env k s v).2
        = (Float32.Source._stop env (F32.fin 0) s.paused
            { s with fadeTime := F32.add s.fadeTime (F32.mul s.fadeSpeed k) }
            (env.soundUpdate k v)).2 ∧
      (s.paused = true →
        Float32.Source.isPaused (Float32.Source.update env k s v).1 = true ∧
        (Float32.Source.update env k s v).1.sampleOffset = (env.soundUpdate k v).offset) ∧
      (s.paused = false → env.locked = false →
        (Float32.Source.update env k s v).1.sourceId = 0 ∧
        (Float32.Source.update env k s v).1.bound = false)) ∧
    (¬ (F32.gt s.fadeSpeed (F32.fin 0) = true ∧
        F32.ge (F32.add s.fadeTime (F32.mul s.fadeSpeed k)) (F32.fin 1) = true) →
      ¬ (F32.lt s.fadeSpeed (F32.fin 0) = true ∧
        F32.le (F32.add s.fadeTime (F32.mul s.fadeSpeed k)) (F32.fin 0) = true) →
      (Float32.Source.update env k s v).1.fadeTime
        = F32.add s.fadeTime (F32.mul s.fadeSpeed k) ∧
      (Float32.Source.update env k s v).1.fadeSpeed = s.fadeSpeed) ∧
    (∀ f sq kq : ℚ, s.fadeTime = F32.fin f → s.fadeSpeed = F32.fin sq → k = F32.fin kq →
      F32.ofRat (sq * kq) = F32.fin (sq * kq) →
      F32.ofRat (f + sq * kq) = F32.fin (f + sq * kq) →
      F32.add s.fadeTime (F32.mul s.fadeSpeed k) = F32.fin (f + sq * kq)) ∧
    (∀ (cs : List Float32.SourceCall) (sv : Float32.Source × Float32.Voice),
      F32.inUnit sv.1.fadeTime = true → Float32.Source.admissibleRun env cs sv = true →
      F32.inUnit (Float32.Source.calls env cs sv).1.fadeTime = true) ∧
    (∀ (cs : List Float32.SourceCall) (sv : Float32.Source × Float32.Voice),
      F32.inUnit sv.1.fadeTime = true → sv.1.fadeSpeed ≠ F32.nan →
      (∀ c ∈ cs, Float32.Source.positiveStep c = true) →
      Float32.Source.admissibleRun env cs sv = true ∧
      F32.inUnit (Float32.Source.calls env cs sv).1.fadeTime = true) := by
  have hid : s.sourceId ≠ 0 := by
    intro hz
    unfold Float32.Source.isPlaying at hp
    rw [if_pos hz] at hp
    exact Bool.noConfusion hp
  obtain ⟨f1, f2, f3, f4, f5, f6⟩ := Float32.Source.update_fading_fields32 env k s v hp hf
  refine ⟨Float32.Source.update_range32 env k s v hk (fun _ => hn) hu, ?_, ?_, ?_, ?_,
    Float32.Source.calls_range32 env, ?_⟩
  · intro hs hge
    rw [f1, f2, Float32.Source.updateFade_in32 env k s _ ⟨hge, hs⟩]
    exact ⟨rfl, rfl⟩
  · intro hs hle
    have hX := Float32.Source.updateFade_out32 env k s (env.soundUpdate k v) ⟨hle, hs⟩
    have hid1 : ({ s with fadeTime := F32.add s.fadeTime (F32.mul s.fadeSpeed k) }
        : Float32.Source).sourceId ≠ 0 := hid
    have hng : ¬ F32.gt (F32.fin 0) (F32.fin 0) = true := by decide
    rw [f1, f2, f3, f4, f5]
    refine ⟨by rw [hX], by rw [hX], ?_, by rw [hX], ?_, ?_⟩
    · rw [hX]
      exact Float32.Source.stop_paused32 env (F32.fin 0) s.paused _ _ hid1
    · intro hpa
      have hpn := Float32.Source.pause_now32 env (F32.fin 0)
        { s with fadeTime := F32.add s.fadeTime (F32.mul s.fadeSpeed k) }
        (env.soundUpdate k v) hid1 hng
      have e : Float32.Source._stop env (F32.fin 0) s.paused
            { s with fadeTime := F32.add s.fadeTime (F32.mul s.fadeSpeed k) }
            (env.soundUpdate k v)
          = Float32.Source._stop env (F32.fin 0) true
            { s with fadeTime := F32.add s.fadeTime (F32.mul s.fadeSpeed k) }
            (env.soundUpdate k v) :=
        congrArg (fun b => Float32.Source._stop env (F32.fin 0) b
          { s with fadeTime := F32.add s.fadeTime (F32.mul s.fadeSpeed k) }
          (env.soundUpdate k v)) hpa
      rw [e, hpn] at hX
      have hoff : (Float32.Source.updateFade env k s (env.soundUpdate k v)).1.sampleOffset
          = (env.soundUpdate k v).offset := by
        rw [hX]
        cases env.locked <;> rfl
      refine ⟨?_, hoff⟩
      unfold Float32.Source.isPaused Float32.Source.isFading
      rw [f3, f2, hX]
      rfl
    · intro hpa hl
      apply f6
      have hsn := Float32.Source.stop_now32 env (F32.fin 0)
        { s with fadeTime := F32.add s.fadeTime (F32.mul s.fadeSpeed k) }
        (env.soundUpdate k v) hid1 hng
      have e : Float32.Source._stop env (F32.fin 0) s.paused
            { s with fadeTime := F32.add s.fadeTime (F32.mul s.fadeSpeed k) }
            (env.soundUpdate k v)
          = Float32.Source._stop env (F32.fin 0) false
            { s with fadeTime := F32.add s.fadeTime (F32.mul s.fadeSpeed k) }
            (env.soundUpdate k v) :=
        congrArg (fun b => Float32.Source._stop env (F32.fin 0) b
          { s with fadeTime := F32.add s.fadeTime (F32.mul s.fadeSpeed k) }
          (env.soundUpdate k v)) hpa
      rw [e, hsn] at hX
      rw [hX]
      exact (Float32.Source.unbind_fields32 env _).2.2.2.2.1 hl
  · intro hn1 hn2
    rw [f1, f2, Float32.Source.updateFade_run32 env k s _ (fun h => hn1 ⟨h.2, h.1⟩)
      (fun h => hn2 ⟨h.2, h.1⟩)]
    exact ⟨rfl, rfl⟩
  · intro f sq kq h1 h2 h3 e1 e2
    rw [h1, h2, h3]
    show F32.add (F32.fin f) (F32.ofRat (sq * kq)) = _
    rw [e1]
    exact e2
  · intro cs sv hu2 hs hc
    have ha := Float32.Source.admissibleRun_of_positive env cs sv hs hc
    exact ⟨ha, Float32.Source.calls_range32 env cs sv hu2 ha⟩

/-- Witness of C26 (amended): a new source after `play(1.0f)` and two `update(1.0f / 12)` is
playing and fading in with `fadeTime` in `[0, 1]`; the third `update(1.0f / 12)` leaves
`fadeTime = 0.25`, the rounded sum, in `[0, 1]`. -/
theorem C26_update_fade_amended_witness :
    Float32.Source.isPlaying Float32.demoSourceEnv Float32.fadingIn.1
      (Float32.demoSourceEnv.soundUpdate Float32.twelfth Float32.fadingIn.2) = true ∧
    Float32.fadingIn.1.isFading = true ∧
    F32.inUnit Float32.fadingIn.1.fadeTime = true ∧
    F32.le (F32.fin 0) Float32.twelfth = true ∧
    F32.mul Float32.fadingIn.1.fadeSpeed Float32.twelfth ≠ F32.nan ∧
    F32.inUnit (Float32.Source.update Float32.demoSourceEnv Float32.twelfth
      Float32.fadingIn.1 Float32.fadingIn.2).1.fadeTime = true ∧
    (Float32.Source.update Float32.demoSourceEnv Float32.twelfth
      Float32.fadingIn.1 Float32.fadingIn.2).1.fadeTime
      = F32.add Float32.fadingIn.1.fadeTime
        (F32.mul Float32.fadingIn.1.fadeSpeed Float32.twelfth) ∧
    F32.add Float32.fadingIn.1.fadeTime
      (F32.mul Float32.fadingIn.1.fadeSpeed Float32.twelfth) = F32.fin (1 / 4) :=
  have h := C26_update_fade_amended Float32.demoSourceEnv Float32.twelfth Float32.fadingIn.1
    Float32.fadingIn.2 (by decide!) (by decide!) (by decide!) (by decide!) (by decide!)
  ⟨by decide!, by decide!, by decide!, by decide!, by decide!, h.1,
    (h.2.2.2.1 (by decide!) (by decide!)).1, by decide!⟩



/-! ## The global gain fade in `float` arithmetic: lemmas -/

namespace Float32

theorem hclamp_fin (x : ℚ) :
    hclamp (F32.fin x) (F32.fin 0) (F32.fin 1) = F32.fin (max 0 (min x 1)) := by
  unfold hclamp
  show (if decide (x < 0) = true then F32.fin 0
    else if decide ((1 : ℚ) < x) = true then F32.fin 1 else F32.fin x) = _
  by_cases h0 : x < 0
  · rw [if_pos (decide_eq_true h0), min_eq_left (by linarith), max_eq_left (le_of_lt h0)]
  · rw [if_neg (by simpa using h0)]
    by_cases h1 : 1 < x
    · rw [if_pos (decide_eq_true h1), min_eq_right (le_of_lt h1), max_eq_right zero_le_one]
    · rw [if_neg (by simpa using h1), min_eq_left (not_lt.mp h1), max_eq_right (not_lt.mp h0)]

namespace AudioManager

/-- A committed fade does not fade, and ticks leave it as it is. -/
theorem commit_not_fading (st : AudioManager) : _isGlobalGainFading (commit st) = false := rfl

theorem update_not_fading (d : F32) (st : AudioManager)
    (h : _isGlobalGainFading st = false) : _update d st = st := by
  unfold _update
  rw [h]
  split
  · split <;> rfl
  · rfl

theorem ticks_not_fading :
    ∀ (ds : List F32) (st : AudioManager), _isGlobalGainFading st = false → ticks ds st = st
  | [], _, _ => rfl
  | d :: ds, st, h => by
    show ticks ds (_update d st) = st
    rw [update_not_fading d st h]
    exact ticks_not_fading ds st h

/-- A tick of a fading manager that is not suspended, with `timeDelta > 0`. -/
theorem update_fading_step (d : F32) (st : AudioManager) (hs : st.suspended = false)
    (hd : F32.gt d (F32.fin 0) = true) (hf : _isGlobalGainFading st = true) :
    _update d st =
      if F32.ge (F32.add st.globalGainFadeTime (F32.mul st.globalGainFadeSpeed d))
          (F32.fin 1) then commit st
      else { st with
        globalGainFadeTime :=
          F32.add st.globalGainFadeTime (F32.mul st.globalGainFadeSpeed d) } := by
  unfold _update
  rw [hs, hd, hf]
  rfl

/-- While no tick takes the fade fraction to 1, the ticks only add it up. -/
theorem ticks_running :
    ∀ (ds : List F32) (st : AudioManager), st.suspended = false →
      _isGlobalGainFading st = true → (∀ d ∈ ds, F32.gt d (F32.fin 0) = true) →
      staysBelowOne st.globalGainFadeSpeed st.globalGainFadeTime ds = true →
      ticks ds st = { st with
        globalGainFadeTime := fadeFraction st.globalGainFadeSpeed st.globalGainFadeTime ds }
  | [], _, _, _, _, _ => rfl
  | d :: ds, st, hs, hf, hd, hb => by
    have hb2 : (!F32.ge (F32.add st.globalGainFadeTime (F32.mul st.globalGainFadeSpeed d))
          (F32.fin 1) &&
        staysBelowOne st.globalGainFadeSpeed
          (F32.add st.globalGainFadeTime (F32.mul st.globalGainFadeSpeed d)) ds) = true := hb
    rw [Bool.and_eq_true] at hb2
    have hge : F32.ge (F32.add st.globalGainFadeTime (F32.mul st.globalGainFadeSpeed d))
        (F32.fin 1) = false := by simpa using hb2.1
    have hstep := update_fading_step d st hs (hd d (List.mem_cons_self _ _)) hf
    rw [hge] at hstep
    have hstep2 : _update d st = { st with
        globalGainFadeTime :=
          F32.add st.globalGainFadeTime (F32.mul st.globalGainFadeSpeed d) } := hstep
    show ticks ds (_update d st) = _
    rw [hstep2]
    exact ticks_running ds _ hs hf (fun x hx => hd x (List.mem_cons_of_mem _ hx)) hb2.2

/-- The tick that takes the fade fraction to 1 commits the target, and the ticks after it
change nothing. -/
theorem ticks_commit (pre : List F32) (d : F32) (post : List F32) (st : AudioManager)
    (hs : st.suspended = false) (hf : _isGlobalGainFading st = true)
    (hd : ∀ x ∈ pre ++ d :: post, F32.gt x (F32.fin 0) = true)
    (hb : staysBelowOne st.globalGainFadeSpeed st.globalGainFadeTime pre = true)
    (hge : F32.ge (F32.add (fadeFraction st.globalGainFadeSpeed st.globalGainFadeTime pre)
      (F32.mul st.globalGainFadeSpeed d)) (F32.fin 1) = true) :
    ticks (pre ++ d :: post) st = commit st := by
  have hpre := ticks_running pre st hs hf
    (fun x hx => hd x (List.mem_append_left _ hx)) hb
  have hsplit : ticks (pre ++ d :: post) st = ticks post (_update d (ticks pre st)) := by
    unfold ticks
    rw [List.foldl_append]
    rfl
  rw [hsplit, hpre]
  have hstep := update_fading_step d
    { st with
      globalGainFadeTime := fadeFraction st.globalGainFadeSpeed st.globalGainFadeTime pre }
    hs (hd d (List.mem_append_right _ (List.mem_cons_self _ _))) hf
  rw [hstep]
  show ticks post (if F32.ge (F32.add
      (fadeFraction st.globalGainFadeSpeed st.globalGainFadeTime pre)
      (F32.mul st.globalGainFadeSpeed d)) (F32.fin 1) = true then _ else _) = _
  rw [if_pos hge]
  exact ticks_not_fading post _ rfl

/-- Ticks whose operations are exact add the fade fraction up exactly: below 1 the fade
runs on with the exact fraction, and from 1 on it has committed. -/
theorem ticks_exact (T : ℚ) (hT : 0 < T) :
    ∀ (ds : List ℚ) (a : ℚ) (st : AudioManager), st.suspended = false →
      _isGlobalGainFading st = true → st.globalGainFadeSpeed = F32.fin (1 / T) →
      st.globalGainFadeTime = F32.fin a → (∀ d ∈ ds, 0 < d) → exactRun T a ds = true →
      (a + ds.sum / T < 1 →
        ticks (ds.map F32.fin) st
          = { st with globalGainFadeTime := F32.fin (a + ds.sum / T) }) ∧
      (a < 1 → 1 ≤ a + ds.sum / T → ticks (ds.map F32.fin) st = commit st)
  | [], a, st, _, _, _, ha, _, _ => by
    constructor
    · intro _
      show st = _
      rw [List.sum_nil, zero_div, add_zero, ← ha]
    · intro h1 h2
      rw [List.sum_nil, zero_div, add_zero] at h2
      exact absurd h1 (not_lt.mpr h2)
  | d :: ds, a, st, hs, hf, hsp, ha, hd, he => by
    have he2 : (decide (F32.ofRat (1 / T * d) = F32.fin (1 / T * d)) &&
        decide (F32.ofRat (a + 1 / T * d) = F32.fin (a + 1 / T * d)) &&
        exactRun T (a + 1 / T * d) ds) = true := he
    rw [Bool.and_eq_true, Bool.and_eq_true] at he2
    have e1 : F32.ofRat (1 / T * d) = F32.fin (1 / T * d) := of_decide_eq_true he2.1.1
    have e2 : F32.ofRat (a + 1 / T * d) = F32.fin (a + 1 / T * d) := of_decide_eq_true he2.1.2
    have hsum : F32.add st.globalGainFadeTime (F32.mul st.globalGainFadeSpeed (F32.fin d))
        = F32.fin (a + 1 / T * d) := by
      rw [ha, hsp]
      show F32.add (F32.fin a) (F32.ofRat (1 / T * d)) = _
      rw [e1]
      exact e2
    have hdpos : 0 < d := hd d (List.mem_cons_self _ _)
    have hgd : F32.gt (F32.fin d) (F32.fin 0) = true := decide_eq_true hdpos
    have hstep := update_fading_step (F32.fin d) st hs hgd hf
    rw [hsum] at hstep
    have hrest : 0 ≤ ds.sum / T :=
      div_nonneg (List.sum_nonneg (fun x hx => le_of_lt (hd x (List.mem_cons_of_mem _ hx))))
        (le_of_lt hT)
    have halg : a + (d :: ds).sum / T = (a + 1 / T * d) + ds.sum / T := by
      rw [List.sum_cons]
      field_simp
      ring
    have hmap : ticks ((d :: ds).map F32.fin) st
        = ticks (ds.map F32.fin) (_update (F32.fin d) st) := rfl
    rw [hmap, halg]
    by_cases hc : 1 ≤ a + 1 / T * d
    · have hge : F32.ge (F32.fin (a + 1 / T * d)) (F32.fin 1) = true := decide_eq_true hc
      rw [hge] at hstep
      have hstep2 : _update (F32.fin d) st = commit st := hstep
      rw [hstep2]
      constructor
      · intro hlt
        exact absurd (lt_of_le_of_lt (le_add_of_nonneg_right hrest) hlt) (not_lt.mpr hc)
      · intro _ _
        exact ticks_not_fading _ _ rfl
    · have hge : F32.ge (F32.fin (a + 1 / T * d)) (F32.fin 1) = false :=
        decide_eq_false hc
      rw [hge] at hstep
      have hstep2 : _update (F32.fin d) st
          = { st with globalGainFadeTime := F32.fin (a + 1 / T * d) } := hstep
      rw [hstep2]
      have ih := ticks_exact T hT ds (a + 1 / T * d)
        { st with globalGainFadeTime := F32.fin (a + 1 / T * d) } hs hf hsp rfl
        (fun x hx => hd x (List.mem_cons_of_mem _ hx)) he2.2
      constructor
      · intro hlt
        exact ih.1 hlt
      · intro _ h2
        exact ih.2 (not_le.mp hc) h2

end AudioManager

end Float32


namespace Float32

namespace AudioManager

/-- The state after `_fadeGlobalGain(target, T)` with a finite `T > 0` fades, with the clamped
target, the fraction 0 and the rounded speed `1.0f / T`. -/
theorem fadeGlobalGain_fading (st : AudioManager) (target T : ℚ) (hT : 0 < T)
    (hT2 : T < 2 ^ 128) :
    _fadeGlobalGain (F32.fin target) (F32.fin T) st
      = { st with
          globalGainFadeTarget := F32.fin (max 0 (min target 1))
          globalGainFadeTime := F32.fin 0
          globalGainFadeSpeed := F32.ofRat (1 / T) } ∧
    _isGlobalGainFading (_fadeGlobalGain (F32.fin target) (F32.fin T) st) = true := by
  have hgt : F32.gt (F32.fin T) (F32.fin 0) = true := decide_eq_true hT
  have hdiv : F32.div (F32.fin 1) (F32.fin T) = F32.ofRat (1 / T) := by
    show (if T = 0 then (if (1 : ℚ) = 0 then F32.nan else F32.inf (decide ((1 : ℚ) < 0)))
      else F32.ofRat (1 / T)) = _
    rw [if_neg (ne_of_gt hT)]
  have heq : _fadeGlobalGain (F32.fin target) (F32.fin T) st
      = { st with
          globalGainFadeTarget := F32.fin (max 0 (min target 1))
          globalGainFadeTime := F32.fin 0
          globalGainFadeSpeed := F32.ofRat (1 / T) } := by
    unfold _fadeGlobalGain
    rw [if_pos hgt, hclamp_fin, hdiv]
  refine ⟨heq, ?_⟩
  rw [heq]
  have hc : (0 : ℚ) ≤ max 0 (min target 1) := le_max_left _ _
  have hlow : F32.pow2 (-149) ≤ 1 / T := by
    rw [F32.pow2_eq_zpow, le_div_iff₀ hT]
    have h1 : (2 : ℚ) ^ (-149 : Int) * T ≤ (2 : ℚ) ^ (-149 : Int) * 2 ^ 128 :=
      mul_le_mul_of_nonneg_left (le_of_lt hT2) (by positivity)
    refine le_trans h1 ?_
    norm_num
  have hsp : F32.gt (F32.ofRat (1 / T)) (F32.fin 0) = true := by
    rcases F32.ofRat_pos hlow with h | ⟨r, hr, h⟩
    · rw [h]
      rfl
    · rw [h]
      exact decide_eq_true hr
  show (F32.ge (F32.fin (max 0 (min target 1))) (F32.fin 0) &&
    F32.gt (F32.ofRat (1 / T)) (F32.fin 0)) = true
  rw [hsp, Bool.and_true]
  exact decide_eq_true hc

theorem gt_fin_of_pos (ds : List ℚ) (h : ∀ d ∈ ds, 0 < d) :
    ∀ x ∈ ds.map F32.fin, F32.gt x (F32.fin 0) = true := by
  intro x hx
  obtain ⟨d, hd, rfl⟩ := List.mem_map.mp hx
  exact decide_eq_true (h d hd)

end AudioManager

end Float32

/-- Counterexample to C11 as stated, in the `float` arithmetic of the code: on the manager as
constructed (stored gain 1, no fade), after `fadeGlobalGain(0, 1)` and twelve ticks of
`1.0f / 12`, positive deltas whose sum `t` has `t / T >= 1`, the stored gain is still 1 and
not the target 0, `isGlobalGainFading()` is true and `getGlobalGain()` is `2 ^ (-23)`: the
twelve rounded additions take the fade fraction to `1 - 2 ^ (-23)` only. -/
theorem C11_global_fade_counterexample :
    Float32.demoGain.suspended = false ∧
    Float32.demoGain.globalGain = F32.fin 1 ∧
    Float32.AudioManager._isGlobalGainFading Float32.demoGain = false ∧
    Float32.hclamp (F32.fin 0) (F32.fin 0) (F32.fin 1) = F32.fin 0 ∧
    Float32.twelfth = F32.fin (11184811 / 134217728) ∧
    F32.gt Float32.twelfth (F32.fin 0) = true ∧
    (1 : ℚ) ≤ 12 * (11184811 / 134217728) / 1 ∧
    (Float32.AudioManager.ticks (List.replicate 12 Float32.twelfth)
      (Float32.AudioManager._fadeGlobalGain (F32.fin 0) (F32.fin 1) Float32.demoGain)).globalGain
      = F32.fin 1 ∧
    Float32.AudioManager._isGlobalGainFading
      (Float32.AudioManager.ticks (List.replicate 12 Float32.twelfth)
        (Float32.AudioManager._fadeGlobalGain (F32.fin 0) (F32.fin 1) Float32.demoGain))
      = true ∧
    (Float32.AudioManager.ticks (List.replicate 12 Float32.twelfth)
      (Float32.AudioManager._fadeGlobalGain (F32.fin 0) (F32.fin 1)
        Float32.demoGain)).globalGainFadeTime = F32.fin (8388607 / 8388608) ∧
    Float32.AudioManager._getGlobalGain
      (Float32.AudioManager.ticks (List.replicate 12 Float32.twelfth)
        (Float32.AudioManager._fadeGlobalGain (F32.fin 0) (F32.fin 1) Float32.demoGain))
      = F32.fin (1 / 8388608) := by
  refine ⟨rfl, rfl, by decide!, by decide!, rfl, by decide!, by norm_num, by decide!,
    by decide!, by decide!, by decide!⟩

/-- C11, amended: in the `float` arithmetic of the code, on a manager that is not suspended,
after `fadeGlobalGain(target, T)` with a finite `T > 0` the fade runs with the target
`c = clamp(target, 0, 1)`, the fraction 0 and the speed `1.0f / T`, each tick with a positive
delta `d` adding the rounded product `speed * d` to the fraction with a rounded addition.
While no tick has taken the fraction to a value `>= 1`, the stored gain is as before and
`getGlobalGain()` is the rounded `g + (c - g) * fraction`; the first tick that takes the
fraction to a value `>= 1` stores the gain `c`, after which `isGlobalGainFading()` is false,
`getGlobalGain()` is `c` and further ticks change nothing. When no operation rounds, the
fraction is `t / T` for the sum `t` of the deltas: `getGlobalGain()` is
`g + (c - g) * (t / T)` while `t / T < 1`, and the target is committed once `t / T ≥ 1`. With
`g = 1`, `target = 0`, `T = 1` and ticks that sum to `0.5` without rounding the global gain is
`0.5`, and its product with a category gain `0.5` and a player gain `0.5` is `0.125`. -/
theorem C11_global_fade_amended (st : Float32.AudioManager) (target T : ℚ) (deltas : List ℚ)
    (hs : st.suspended = false) (hT : 0 < T) (hT2 : T < 2 ^ 128)
    (hpos : ∀ d ∈ deltas, 0 < d) :
    Float32.AudioManager._fadeGlobalGain (F32.fin target) (F32.fin T) st
      = { st with
          globalGainFadeTarget := F32.fin (max 0 (min target 1))
          globalGainFadeTime := F32.fin 0
          globalGainFadeSpeed := F32.ofRat (1 / T) } ∧
    Float32.AudioManager._isGlobalGainFading
      (Float32.AudioManager._fadeGlobalGain (F32.fin target) (F32.fin T) st) = true ∧
    (Float32.AudioManager.staysBelowOne (F32.ofRat (1 / T)) (F32.fin 0)
        (deltas.map F32.fin) = true →
      (Float32.AudioManager.ticks (deltas.map F32.fin)
        (Float32.AudioManager._fadeGlobalGain (F32.fin target) (F32.fin T) st)).globalGain
        = st.globalGain ∧
      Float32.AudioManager._isGlobalGainFading
        (Float32.AudioManager.ticks (deltas.map F32.fin)
          (Float32.AudioManager._fadeGlobalGain (F32.fin target) (F32.fin T) st)) = true ∧
      Float32.AudioManager._getGlobalGain
        (Float32.AudioManager.ticks (deltas.map F32.fin)
          (Float32.AudioManager._fadeGlobalGain (F32.fin target) (F32.fin T) st))
        = F32.add st.globalGain
          (F32.mul (F32.sub (F32.fin (max 0 (min target 1))) st.globalGain)
            (Float32.AudioManager.fadeFraction (F32.ofRat (1 / T)) (F32.fin 0)
              (deltas.map F32.fin)))) ∧
    (∀ (pre : List ℚ) (d : ℚ) (post : List ℚ), deltas = pre ++ d :: post →
      Float32.AudioManager.staysBelowOne (F32.ofRat (1 / T)) (F32.fin 0)
        (pre.map F32.fin) = true →
      F32.ge (F32.add
        (Float32.AudioManager.fadeFraction (F32.ofRat (1 / T)) (F32.fin 0) (pre.map F32.fin))
        (F32.mul (F32.ofRat (1 / T)) (F32.fin d))) (F32.fin 1) = true →
      (Float32.AudioManager.ticks (deltas.map F32.fin)
        (Float32.AudioManager._fadeGlobalGain (F32.fin target) (F32.fin T) st)).globalGain
        = F32.fin (max 0 (min target 1)) ∧
      Float32.AudioManager._isGlobalGainFading
        (Float32.AudioManager.ticks (deltas.map F32.fin)
          (Float32.AudioManager._fadeGlobalGain (F32.fin target) (F32.fin T) st)) = false ∧
      Float32.AudioManager._getGlobalGain
        (Float32.AudioManager.ticks (deltas.map F32.fin)
          (Float32.AudioManager._fadeGlobalGain (F32.fin target) (F32.fin T) st))
        = F32.fin (max 0 (min target 1)) ∧
      ∀ more : List F32,
        Float32.AudioManager.ticks more
          (Float32.AudioManager.ticks (deltas.map F32.fin)
            (Float32.AudioManager._fadeGlobalGain (F32.fin target) (F32.fin T) st))
          = Float32.AudioManager.ticks (deltas.map F32.fin)
            (Float32.AudioManager._fadeGlobalGain (F32.fin target) (F32.fin T) st)) ∧
    (F32.ofRat (1 / T) = F32.fin (1 / T) →
      Float32.AudioManager.exactRun T 0 deltas = true →
      (deltas.sum / T < 1 →
        ∀ g : ℚ, st.globalGain = F32.fin g →
          F32.ofRat (max 0 (min target 1) - g) = F32.fin (max 0 (min target 1) - g) →
          F32.ofRat ((max 0 (min target 1) - g) * (deltas.sum / T))
            = F32.fin ((max 0 (min target 1) - g) * (deltas.sum / T)) →
          F32.ofRat (g + (max 0 (min target 1) - g) * (deltas.sum / T))
            = F32.fin (g + (max 0 (min target 1) - g) * (deltas.sum / T)) →
          Float32.AudioManager._getGlobalGain
            (Float32.AudioManager.ticks (deltas.map F32.fin)
              (Float32.AudioManager._fadeGlobalGain (F32.fin target) (F32.fin T) st))
            = F32.fin (g + (max 0 (min target 1) - g) * (deltas.sum / T))) ∧
      (1 ≤ deltas.sum / T →
        (Float32.AudioManager.ticks (deltas.map F32.fin)
          (Float32.AudioManager._fadeGlobalGain (F32.fin target) (F32.fin T) st)).globalGain
          = F32.fin (max 0 (min target 1)) ∧
        Float32.AudioManager._isGlobalGainFading
          (Float32.AudioManager.ticks (deltas.map F32.fin)
            (Float32.AudioManager._fadeGlobalGain (F32.fin target) (F32.fin T) st)) = false ∧
        Float32.AudioManager._getGlobalGain
          (Float32.AudioManager.ticks (deltas.map F32.fin)
            (Float32.AudioManager._fadeGlobalGain (F32.fin target) (F32.fin T) st))
          = F32.fin (max 0 (min target 1)))) ∧
    (st.globalGain = F32.fin 1 → target = 0 → T = 1 →
      Float32.AudioManager.exactRun 1 0 deltas = true → deltas.sum = 1 / 2 →
      Float32.AudioManager._getGlobalGain
        (Float32.AudioManager.ticks (deltas.map F32.fin)
          (Float32.AudioManager._fadeGlobalGain (F32.fin target) (F32.fin T) st))
        = F32.fin (1 / 2) ∧
      Float32.calcGain
        (Float32.AudioManager._getGlobalGain
          (Float32.AudioManager.ticks (deltas.map F32.fin)
            (Float32.AudioManager._fadeGlobalGain (F32.fin target) (F32.fin T) st)))
        (F32.fin (1 / 2)) (F32.fin (1 / 2)) (F32.fin 1) = F32.fin (1 / 8)) := by
  obtain ⟨heq, hfad⟩ := Float32.AudioManager.fadeGlobalGain_fading st target T hT hT2
  have hgt := Float32.AudioManager.gt_fin_of_pos deltas hpos
  rw [heq] at hfad ⊢
  have hexact : F32.ofRat (1 / T) = F32.fin (1 / T) →
      Float32.AudioManager.exactRun T 0 deltas = true →
      (deltas.sum / T < 1 →
        Float32.AudioManager.ticks (deltas.map F32.fin)
            { st with
              globalGainFadeTarget := F32.fin (max 0 (min target 1))
              globalGainFadeTime := F32.fin 0
              globalGainFadeSpeed := F32.ofRat (1 / T) }
          = { st with
              globalGainFadeTarget := F32.fin (max 0 (min target 1))
              globalGainFadeTime := F32.fin (deltas.sum / T)
              globalGainFadeSpeed := F32.ofRat (1 / T) }) ∧
      (1 ≤ deltas.sum / T →
        Float32.AudioManager.ticks (deltas.map F32.fin)
            { st with
              globalGainFadeTarget := F32.fin (max 0 (min target 1))
              globalGainFadeTime := F32.fin 0
              globalGainFadeSpeed := F32.ofRat (1 / T) }
          = Float32.AudioManager.commit
            { st with
              globalGainFadeTarget := F32.fin (max 0 (min target 1))
              globalGainFadeTime := F32.fin 0
              globalGainFadeSpeed := F32.ofRat (1 / T) }) := by
    intro h1 h2
    have hx := Float32.AudioManager.ticks_exact T hT deltas 0
      { st with
        globalGainFadeTarget := F32.fin (max 0 (min target 1))
        globalGainFadeTime := F32.fin 0
        globalGainFadeSpeed := F32.ofRat (1 / T) } hs hfad h1 rfl hpos h2
    rw [zero_add] at hx
    exact ⟨hx.1, hx.2 zero_lt_one⟩
  have hcommitted : ∀ x : Float32.AudioManager,
      x = Float32.AudioManager.commit
        { st with
          globalGainFadeTarget := F32.fin (max 0 (min target 1))
          globalGainFadeTime := F32.fin 0
          globalGainFadeSpeed := F32.ofRat (1 / T) } →
      x.globalGain = F32.fin (max 0 (min target 1)) ∧
      Float32.AudioManager._isGlobalGainFading x = false ∧
      Float32.AudioManager._getGlobalGain x = F32.fin (max 0 (min target 1)) := by
    intro x hx
    rw [hx]
    exact ⟨rfl, rfl, rfl⟩
  have hrunning : ∀ a : F32,
      (({ st with
          globalGainFadeTarget := F32.fin (max 0 (min target 1))
          globalGainFadeTime := a
          globalGainFadeSpeed := F32.ofRat (1 / T) } : Float32.AudioManager)).globalGain
        = st.globalGain ∧
      Float32.AudioManager._isGlobalGainFading
        { st with
          globalGainFadeTarget := F32.fin (max 0 (min target 1))
          globalGainFadeTime := a
          globalGainFadeSpeed := F32.ofRat (1 / T) } = true ∧
      Float32.AudioManager._getGlobalGain
        { st with
          globalGainFadeTarget := F32.fin (max 0 (min target 1))
          globalGainFadeTime := a
          globalGainFadeSpeed := F32.ofRat (1 / T) }
        = F32.add st.globalGain
          (F32.mul (F32.sub (F32.fin (max 0 (min target 1))) st.globalGain) a) := by
    intro a
    have hf2 : Float32.AudioManager._isGlobalGainFading
        { st with
          globalGainFadeTarget := F32.fin (max 0 (min target 1))
          globalGainFadeTime := a
          globalGainFadeSpeed := F32.ofRat (1 / T) } = true := hfad
    refine ⟨rfl, hf2, ?_⟩
    unfold Float32.AudioManager._getGlobalGain
    rw [hf2]
    rfl
  refine ⟨rfl, hfad, ?_, ?_, ?_, ?_⟩
  · intro hb
    rw [Float32.AudioManager.ticks_running (deltas.map F32.fin)
      ({ st with
        globalGainFadeTarget := F32.fin (max 0 (min target 1))
        globalGainFadeTime := F32.fin 0
        globalGainFadeSpeed := F32.ofRat (1 / T) } : Float32.AudioManager) hs hfad hgt hb]
    exact hrunning _
  · intro pre d post hsplit hb hge
    have hmap : deltas.map F32.fin = pre.map F32.fin ++ F32.fin d :: post.map F32.fin := by
      rw [hsplit, List.map_append, List.map_cons]
    have hc := Float32.AudioManager.ticks_commit (pre.map F32.fin) (F32.fin d)
      (post.map F32.fin)
      ({ st with
        globalGainFadeTarget := F32.fin (max 0 (min target 1))
        globalGainFadeTime := F32.fin 0
        globalGainFadeSpeed := F32.ofRat (1 / T) } : Float32.AudioManager) hs hfad (by rw [← hmap]; exact hgt) hb hge
    rw [hmap, hc]
    refine ⟨rfl, rfl, rfl, fun more => ?_⟩
    exact Float32.AudioManager.ticks_not_fading more _ rfl
  · intro h1 h2
    obtain ⟨hlt, hge⟩ := hexact h1 h2
    constructor
    · intro hsum g hg e1 e2 e3
      rw [hlt hsum, (hrunning _).2.2, hg]
      show F32.add (F32.fin g) (F32.mul (F32.ofRat (max 0 (min target 1) + -g))
        (F32.fin (deltas.sum / T))) = _
      rw [← sub_eq_add_neg, e1]
      show F32.add (F32.fin g) (F32.ofRat ((max 0 (min target 1) - g) * (deltas.sum / T))) = _
      rw [e2]
      exact e3
    · intro hsum
      exact hcommitted _ (hge hsum)
  · intro hg ht hT1 h2 hsum
    subst ht hT1
    have h1 : F32.ofRat (1 / 1) = F32.fin (1 / 1) := by decide!
    obtain ⟨hlt, _⟩ := hexact h1 h2
    have hval : Float32.AudioManager._getGlobalGain
        (Float32.AudioManager.ticks (deltas.map F32.fin)
          { st with
            globalGainFadeTarget := F32.fin (max 0 (min 0 1))
            globalGainFadeTime := F32.fin 0
            globalGainFadeSpeed := F32.ofRat (1 / 1) }) = F32.fin (1 / 2) := by
      rw [hlt (by rw [hsum]; norm_num), (hrunning _).2.2, hg, hsum]
      decide!
    rw [hval]
    exact ⟨rfl, by decide!⟩

/-- Witness of C11 (amended): the manager as constructed has stored gain 1; a fade to 0 over
1 second followed by two ticks of a quarter of a second, which round nowhere. -/
theorem C11_global_fade_amended_witness :
    Float32.demoGain.suspended = false ∧ (0 : ℚ) < 1 ∧ (1 : ℚ) < 2 ^ 128 ∧
    (∀ d ∈ [(1 / 4 : ℚ), 1 / 4], 0 < d) ∧
    Float32.AudioManager.staysBelowOne (F32.ofRat (1 / 1)) (F32.fin 0)
      ([(1 / 4 : ℚ), 1 / 4].map F32.fin) = true ∧
    Float32.AudioManager._getGlobalGain
      (Float32.AudioManager.ticks ([(1 / 4 : ℚ), 1 / 4].map F32.fin)
        (Float32.AudioManager._fadeGlobalGain (F32.fin 0) (F32.fin 1) Float32.demoGain))
      = F32.add Float32.demoGain.globalGain
        (F32.mul (F32.sub (F32.fin (max 0 (min 0 1))) Float32.demoGain.globalGain)
          (Float32.AudioManager.fadeFraction (F32.ofRat (1 / 1)) (F32.fin 0)
            ([(1 / 4 : ℚ), 1 / 4].map F32.fin))) ∧
    (Float32.AudioManager._getGlobalGain
        (Float32.AudioManager.ticks ([(1 / 4 : ℚ), 1 / 4].map F32.fin)
          (Float32.AudioManager._fadeGlobalGain (F32.fin 0) (F32.fin 1) Float32.demoGain))
        = F32.fin (1 / 2) ∧
      Float32.calcGain
        (Float32.AudioManager._getGlobalGain
          (Float32.AudioManager.ticks ([(1 / 4 : ℚ), 1 / 4].map F32.fin)
            (Float32.AudioManager._fadeGlobalGain (F32.fin 0) (F32.fin 1) Float32.demoGain)))
        (F32.fin (1 / 2)) (F32.fin (1 / 2)) (F32.fin 1) = F32.fin (1 / 8)) :=
  have hpos : ∀ d ∈ [(1 / 4 : ℚ), 1 / 4], 0 < d := by
    intro d hd
    simp at hd
    rw [hd]
    norm_num
  have h := C11_global_fade_amended Float32.demoGain 0 1 [1 / 4, 1 / 4] rfl (by norm_num)
    (by norm_num) hpos
  ⟨rfl, by norm_num, by norm_num, hpos, by decide!, (h.2.2.1 (by decide!)).2.2,
    h.2.2.2.2.2 rfl rfl rfl (by decide!) (by norm_num)⟩


/-! ## Running the manager -/

theorem demo2_sounds :
    demo2.sounds.get? "m" = some soundM ∧ demo2.sounds.get? "n" = some soundN := by decide

theorem demo4_lists :
    demo4.players = [6, 7, 8] ∧ demo4.managedPlayers = [7, 8] ∧
      AudioManager._getPlayers demo4 = [6] := by decide

theorem demo4_destroySound_raises :
    (AudioManager._destroySound flagBackend soundM demo4).raised = true ∧
      (AudioManager._destroySound flagBackend soundM demo4).state.players = [6, 8] := by decide

theorem demo4_tick_keeps_playing :
    (AudioManager._update flagBackend 0 demo4).players = [6, 7, 8] := by decide

theorem demo5_tick_reclaims :
    (AudioManager._update flagBackend 0 demo5).players = [6, 8] ∧
      (AudioManager._update flagBackend 0 demo5).managedPlayers = [8] := by decide

theorem demo4_stop_m : (AudioManager._stop flagBackend "m" 0 demo4).players = [6, 8] := by decide

end xal
